import Mathlib

/-! A shallow embedding of the `expr` interpreter.

The development follows the three packages of the repository:

* `lexer`     (`lexer/token.go`, `lexer/lexer.go`),
* `parser`    (`parser/ast.go`, `parser/errors.go`, `parser/parser.go`),
* `evaluator` (`evaluator/Object.go`, `evaluator/environment.go`,
  `evaluator/errors.go`, `evaluator/evaluator.go`).

Conventions of the embedding.

* A Go `string` and the input of the lexer are lists of bytes, a byte being a
  natural number (`GoString`).
* `int64` values are integers; every arithmetic result is wrapped into the
  signed 64-bit range by `wrapInt64`.
* `float64` values are kept abstract: `F64` is a 64-bit pattern and the
  arithmetic of the Go runtime on it is the parameter `FloatOps`.
* Pointers are indices into the heaps of `State`; a binding cell (`*Object`)
  is a `Cell`, which is either the address of the package variable `NilObj`
  or a heap allocated variable.
* A Go function that may loop or recurse without bound takes a `fuel`
  argument; running out of fuel is the outcome `timeout` (for the evaluator)
  or `none` (for the lexer and the parser).  A run diverges when it runs out
  of every finite amount of fuel.
-/

namespace Expr

/-- A Go `string`: a sequence of bytes. -/
abbrev GoString := List Nat

/-- The bytes of an ASCII text, to write programs and names. -/
def str (s : String) : GoString := s.data.map Char.toNat

/-! ## lexer/token.go -/

/-- The token kinds, `TokenType` of `lexer/token.go`. -/
inductive TokenType where
  | T_NONE | T_ILLEGAL | T_EOF
  | T_IDENT | T_INT | T_FLOAT | T_STRING | T_TABLE
  | T_COMMA | T_SEMICOLON | T_DOT | T_COLON
  | T_ASSIGN | T_PLUS | T_MINUS | T_ASTERISK | T_SLASH | T_BANG
  | T_LT | T_LE | T_GT | T_GE | T_EQ | T_NEQ
  | T_LPAREN | T_RPAREN | T_LBRACKET | T_RBRACKET | T_LBRACE | T_RBRACE
  | T_DECLARATION
  | T_FUNCTION | T_TRUE | T_FALSE | T_NIL | T_IF | T_ELSE | T_FOR
  | T_BREAK | T_CONTINUE | T_RETURN | T_AND | T_OR
  deriving DecidableEq, Repr

/-- The record `Token` of `lexer/token.go`; `Typ` is its field `Type`. -/
structure Token where
  Typ : TokenType
  Line : Nat
  Message : GoString
  deriving DecidableEq, Repr

/-! ## float64 -/

/-- A `float64` datum, named by its 64-bit pattern. -/
structure F64 where
  bits : Nat
  deriving DecidableEq, Repr

/-- The `float64` operations of the Go runtime that the interpreter uses:
conversion from `int64`, negation, the four arithmetic operators, the six
comparisons and `strconv.ParseFloat(s, 64)` (`none` when it reports an
error). -/
structure FloatOps where
  ofInt : Int → F64
  neg : F64 → F64
  add : F64 → F64 → F64
  sub : F64 → F64 → F64
  mul : F64 → F64 → F64
  div : F64 → F64 → F64
  lt : F64 → F64 → Bool
  le : F64 → F64 → Bool
  gt : F64 → F64 → Bool
  ge : F64 → F64 → Bool
  eq : F64 → F64 → Bool
  ne : F64 → F64 → Bool
  parse : GoString → Option F64

/-! ## int64 -/

/-- Two's-complement wrapping of an integer into the range of `int64`. -/
def wrapInt64 (x : Int) : Int := (x + 2 ^ 63) % 2 ^ 64 - 2 ^ 63

/-! ## parser/ast.go -/

/-- The expression tree of `parser/ast.go`.  The constructors are the structs
of that file without their `Token` field, which only serves diagnostics.  A
`*BlockExpr` field is the list of the block's expressions; the optional
`Alternative` of an `IfExpr` is `none` for a nil pointer. -/
inductive Expression where
  | IntegerExpr (Value : Int)
  | FloatExpr (Value : F64)
  | BooleanExpr (Value : Bool)
  | StringExpr (Value : GoString)
  | TableExpr (InitValue : List (Expression × Expression))
  | NilExpr
  | PackExpr (Exprs : List Expression)
  | Identifier (Ident : GoString)
  | ArithPrefixExpr (Op : TokenType) (Right : Expression)
  | ArithInfixExpr (Op : TokenType) (Left Right : Expression)
  | DeclarationExpr (Left Value : Expression)
  | AssignExpr (Left Value : Expression)
  | IfExpr (Condition : Expression) (Consequence : List Expression)
      (Alternative : Option (List Expression))
  | FuncExpr (Parameters : List GoString) (Capture : List Expression)
      (Body : List Expression)
  | CallExpr (Function : Expression) (Parameters : List Expression)
  | IndexExpr (Table Index : Expression)
  | ReturnExpr (ReturnValue : Expression)
  | BlockExpr (Exprs : List Expression)
  | ForExpr (InitExpr EdgeExpr StepExpr : Expression) (Body : List Expression)
  | BreakExpr (BreakValue : Expression)
  deriving Repr

mutual
/-- The body of the loop of `PackExpr.IsAssignable` for one element: a pack
must be assignable, an identifier is accepted, anything else is refused. -/
def PackExpr.elementAssignable : Expression → Bool
  | .PackExpr es => PackExpr.IsAssignable es
  | .Identifier _ => true
  | _ => false
/-- The method `PackExpr.IsAssignable`, on the elements of the pack. -/
def PackExpr.IsAssignable : List Expression → Bool
  | [] => true
  | expr :: rest => PackExpr.elementAssignable expr && PackExpr.IsAssignable rest
end

/-- The method `IsAssignable` of `Identifier`, `IndexExpr` and `PackExpr`;
`none` for an expression that does not implement `AssignableExpr`. -/
def Expression.IsAssignable : Expression → Option Bool
  | .Identifier _ => some true
  | .IndexExpr _ _ => some true
  | .PackExpr es => some (PackExpr.IsAssignable es)
  | _ => none

/-! ## evaluator/Object.go -/

/-- The constants `ObjType`. -/
inductive ObjType where
  | TIdentObj | TIntegerObj | TFloatObj | TBooleanObj | TStringObj
  | TTableObj | TPackObj | TFuncObj | TNilObj | TReturnObj | TBreakObj
  deriving DecidableEq, Repr

/-- The runtime values.  `TableObj`, `PackObj` and `FuncObj` hold a pointer,
here the index of the storage in the heaps of `State`. -/
inductive Object where
  | IdentObj (Ident : GoString)
  | IntegerObj (Value : Int)
  | FloatObj (Value : F64)
  | BooleanObj (Value : Bool)
  | StringObj (Value : GoString)
  | TableObj (Table : Nat)
  | PackObj (Pack : Nat)
  | FuncObj (Func : Nat)
  | NilValue
  | ReturnObj (Value : Object)
  | BreakObj (Value : Object)
  deriving DecidableEq, Repr

/-- The method `Type` of every object. -/
def Object.Typ : Object → ObjType
  | .IdentObj _ => .TIdentObj
  | .IntegerObj _ => .TIntegerObj
  | .FloatObj _ => .TFloatObj
  | .BooleanObj _ => .TBooleanObj
  | .StringObj _ => .TStringObj
  | .TableObj _ => .TTableObj
  | .PackObj _ => .TPackObj
  | .FuncObj _ => .TFuncObj
  | .NilValue => .TNilObj
  | .ReturnObj _ => .TReturnObj
  | .BreakObj _ => .TBreakObj

/-- The method `ObjType.String`; `none` where it panics (the switch has no
case for `TFuncObj`). -/
def ObjType.String : ObjType → Option String
  | .TIdentObj => some "TIdentObj"
  | .TIntegerObj => some "TIntegerObj"
  | .TFloatObj => some "TFloatObj"
  | .TBooleanObj => some "TBooleanObj"
  | .TStringObj => some "TStringObj"
  | .TTableObj => some "TTableObj"
  | .TPackObj => some "TPackObj"
  | .TNilObj => some "TNilObj"
  | .TReturnObj => some "TReturnObj"
  | .TBreakObj => some "TBreakObj"
  | .TFuncObj => none

/-- A binding cell, the target of a `*Object`: the package variable `NilObj`
(`&NilObj`) or the variable number `i` of the heap. -/
inductive Cell where
  | NilObjVar
  | alloc (i : Nat)
  deriving DecidableEq, Repr

/-! ## evaluator/environment.go -/

/-- The struct `Environment`: the map `LocalVars` as an association list with
one entry per name, and the pointer `Outer`. -/
structure Environment where
  LocalVars : List (GoString × Cell)
  Outer : Option Nat
  deriving DecidableEq, Repr

/-- The struct `FuncValue`. -/
structure FuncValue where
  FuncEnv : Nat
  Parameters : List GoString
  Body : List Expression
  deriving Repr

/-- The memory of a run: the package variable `NilObj`, the heap of binding
cells, of environments, of table storages (`TableValue.Store`, a map from
objects to objects as an association list), of pack storages
(`PackValue.Objs`) and of function values. -/
structure State where
  NilObj : Object
  cells : List Object
  envs : List Environment
  tables : List (List (Object × Object))
  packs : List (List Object)
  funcs : List FuncValue
  deriving Repr

/-- The memory at program start: `var NilObj Object = NilValue{}` and empty
heaps. -/
def State.init : State :=
  { NilObj := .NilValue, cells := [], envs := [], tables := [], packs := [], funcs := [] }

/-- Reading through a `*Object`. -/
def State.load (st : State) : Cell → Option Object
  | .NilObjVar => some st.NilObj
  | .alloc i => st.cells[i]?

/-- Writing through a `*Object` (`*o = v`). -/
def State.store (st : State) : Cell → Object → State
  | .NilObjVar, v => { st with NilObj := v }
  | .alloc i, v => { st with cells := st.cells.set i v }

/-- Taking the address of a fresh variable holding `v` (`&value`). -/
def State.newCell (st : State) (v : Object) : Cell × State :=
  (.alloc st.cells.length, { st with cells := st.cells ++ [v] })

/-- The function `NewEnv`. -/
def NewEnv (st : State) : Nat × State :=
  (st.envs.length, { st with envs := st.envs ++ [{ LocalVars := [], Outer := none }] })

/-- The function `NewInnerEnv`. -/
def NewInnerEnv (outer : Nat) (st : State) : Nat × State :=
  (st.envs.length, { st with envs := st.envs ++ [{ LocalVars := [], Outer := some outer }] })

/-- Reading `m[k]` of a `map[string]*Object`. -/
def mapGet (k : GoString) : List (GoString × Cell) → Option Cell
  | [] => none
  | (k', c) :: rest => if k' = k then some c else mapGet k rest

/-- The assignment `m[k] = c` of a `map[string]*Object`. -/
def mapSet (k : GoString) (c : Cell) : List (GoString × Cell) → List (GoString × Cell)
  | [] => [(k, c)]
  | (k', c') :: rest => if k' = k then (k, c) :: rest else (k', c') :: mapSet k c rest

/-- The loop of `Environment.Get` over the chain of `Outer` pointers; `n`
bounds the length of the chain walked. -/
def Environment.GetLoop (envs : List Environment) (varName : GoString) :
    Nat → Option Nat → Option Cell
  | 0, _ => none
  | _ + 1, none => none
  | n + 1, some e =>
    match envs[e]? with
    | none => none
    | some env =>
      match mapGet varName env.LocalVars with
      | some c => some c
      | none => Environment.GetLoop envs varName n env.Outer

/-- The method `Environment.Get`: the cell bound to `varName` in the innermost
scope of the chain that binds it, `none` for the nil pointer.  A chain has at
most as many scopes as the heap has environments. -/
def Environment.Get (st : State) (e : Nat) (varName : GoString) : Option Cell :=
  Environment.GetLoop st.envs varName st.envs.length (some e)

/-- The method `Environment.Set`: `e.LocalVars[varName] = object`. -/
def Environment.Set (st : State) (e : Nat) (varName : GoString) (object : Cell) : State :=
  match st.envs[e]? with
  | none => st
  | some env =>
    { st with envs := st.envs.set e { env with LocalVars := mapSet varName object env.LocalVars } }

/-- The method `Environment.SetNewObj`. -/
def Environment.SetNewObj (st : State) (e : Nat) (varName : GoString) (object : Object) : State :=
  let (c, st1) := st.newCell object
  Environment.Set st1 e varName c

/-- The method `Environment.Close`: `e.Outer = nil`. -/
def Environment.Close (st : State) (e : Nat) : State :=
  match st.envs[e]? with
  | none => st
  | some env => { st with envs := st.envs.set e { env with Outer := none } }

/-! ## lexer/lexer.go -/

/-- The function `keywordOrIdent` of `lexer/token.go`. -/
def keywordOrIdent (word : GoString) : TokenType :=
  if word = str "func" then .T_FUNCTION
  else if word = str "true" then .T_TRUE
  else if word = str "false" then .T_FALSE
  else if word = str "if" then .T_IF
  else if word = str "else" then .T_ELSE
  else if word = str "for" then .T_FOR
  else if word = str "return" then .T_RETURN
  else if word = str "break" then .T_BREAK
  else if word = str "continue" then .T_CONTINUE
  else if word = str "nil" then .T_NIL
  else if word = str "and" then .T_AND
  else if word = str "or" then .T_OR
  else if word = str "table" then .T_TABLE
  else .T_IDENT

/-- The struct `Lexer`: the bytes of the reader that are not read yet, and
the line counter. -/
structure Lexer where
  input : List Nat
  line : Nat
  deriving DecidableEq, Repr

/-- The function `New` of the lexer. -/
def Lexer.New (input : List Nat) : Lexer := { input := input, line := 1 }

/-- The method `newToken`. -/
def Lexer.newToken (l : Lexer) (t : TokenType) (message : GoString) : Token :=
  { Typ := t, Line := l.line, Message := message }

/-- The method `peekChar`: the next byte, 0 at the end of the input. -/
def Lexer.peekChar (l : Lexer) : Nat :=
  match l.input with
  | [] => 0
  | b :: _ => b

/-- The method `readChar`: consumes and returns the next byte, 0 at the end
of the input. -/
def Lexer.readChar (l : Lexer) : Nat × Lexer :=
  match l.input with
  | [] => (0, l)
  | b :: rest => (b, { l with input := rest })

/-- The function `isNumber`. -/
def isNumber (c : Nat) : Bool := decide (48 ≤ c ∧ c ≤ 57)

/-- The function `isLetter`. -/
def isLetter (c : Nat) : Bool :=
  decide ((97 ≤ c ∧ c ≤ 122) ∨ (65 ≤ c ∧ c ≤ 90) ∨ c = 95)

/-- The loop of `skipBlank`: bytes between 1 and 32 are consumed, a line feed
(10) increments the line counter. -/
def skipBlankLoop : List Nat → Nat → Lexer
  | [], line => { input := [], line := line }
  | c :: rest, line =>
    if c ≠ 0 ∧ c ≤ 32 then skipBlankLoop rest (if c = 10 then line + 1 else line)
    else { input := c :: rest, line := line }

/-- The method `skipBlank`. -/
def Lexer.skipBlank (l : Lexer) : Lexer := skipBlankLoop l.input l.line

/-- The end of `readFloat`, once `decimal := l.readNumber()` is read. -/
def floatToken (line : Nat) (intPart : GoString) (decimal : Token) : Token :=
  if decimal.Typ = .T_INT then
    { Typ := .T_FLOAT, Line := line, Message := intPart ++ [46] ++ decimal.Message }
  else
    { Typ := .T_ILLEGAL, Line := line, Message := intPart ++ [46] ++ decimal.Message }

/-- The loop of `readNumber` with the buffer `buf`; at a dot (46) the dot is
consumed and the result is that of `readFloat(buf.String())`, which reads the
decimals by `readNumber` again. -/
def readNumberLoop (line : Nat) : GoString → List Nat → Token × Lexer
  | buf, [] =>
    ({ Typ := .T_INT, Line := line, Message := if buf = [] then [48] else buf },
      { input := [], line := line })
  | buf, c :: rest =>
    if c = 46 then
      let (decimal, l) := readNumberLoop line [] rest
      (floatToken line buf decimal, l)
    else if isNumber c then readNumberLoop line (buf ++ [c]) rest
    else
      ({ Typ := .T_INT, Line := line, Message := if buf = [] then [48] else buf },
        { input := c :: rest, line := line })

/-- The method `readNumber`. -/
def Lexer.readNumber (l : Lexer) : Token × Lexer := readNumberLoop l.line [] l.input

/-- The method `readFloat`. -/
def Lexer.readFloat (l : Lexer) (intPart : GoString) : Token × Lexer :=
  let (decimal, l1) := l.readNumber
  (floatToken l.line intPart decimal, l1)

/-- The loop of `readWord`. -/
def readWordLoop : GoString → List Nat → GoString × List Nat
  | buf, [] => (buf, [])
  | buf, c :: rest =>
    if isLetter c || isNumber c then readWordLoop (buf ++ [c]) rest else (buf, c :: rest)

/-- The method `readWord`. -/
def Lexer.readWord (l : Lexer) : Token × Lexer :=
  let (s, rest) := readWordLoop [] l.input
  let t := keywordOrIdent s
  let l1 : Lexer := { l with input := rest }
  (l1.newToken t (if t = .T_IDENT then s else []), l1)

/-- The loop of `readString`, `for l.peekChar() != '"'`, one unit of fuel per
iteration: the byte read is appended to the buffer. -/
def readStringLoop : Nat → GoString → Lexer → Option (GoString × Lexer)
  | 0, _, _ => none
  | fuel + 1, buf, l =>
    if l.peekChar ≠ 34 then
      let (c, l1) := l.readChar
      readStringLoop fuel (buf ++ [c]) l1
    else some (buf, l)

/-- The method `readString`; `none` when the loop runs out of fuel. -/
def Lexer.readString (fuel : Nat) (l : Lexer) : Option (Token × Lexer) :=
  let (_, l1) := l.readChar
  match readStringLoop fuel [] l1 with
  | none => none
  | some (buf, l2) =>
    let (_, l3) := l2.readChar
    some (l3.newToken .T_STRING buf, l3)

/-- A token of one byte: `l.readChar(); return l.newToken(t, message)`. -/
def Lexer.single (l : Lexer) (t : TokenType) (message : GoString) : Option (Token × Lexer) :=
  let (_, l1) := l.readChar
  some (l1.newToken t message, l1)

/-- A token of one or two bytes: after the first byte, a following `=` (61)
is consumed and gives `two`, anything else gives `one`. -/
def Lexer.oneOrTwo (l : Lexer) (two one : TokenType) : Option (Token × Lexer) :=
  let (_, l1) := l.readChar
  if l1.peekChar = 61 then
    let (_, l2) := l1.readChar
    some (l2.newToken two [], l2)
  else some (l1.newToken one [], l1)

/-- The method `NextToken`; `none` when the string loop runs out of fuel. -/
def Lexer.NextToken (fuel : Nat) (l0 : Lexer) : Option (Token × Lexer) :=
  let l := l0.skipBlank
  let c := l.peekChar
  if c = 0 then l.single .T_EOF (str "EOF")
  else if c = 44 then l.single .T_COMMA []
  else if c = 59 then l.single .T_SEMICOLON []
  else if c = 43 then l.single .T_PLUS []
  else if c = 45 then l.single .T_MINUS []
  else if c = 42 then l.single .T_ASTERISK []
  else if c = 47 then l.single .T_SLASH []
  else if c = 40 then l.single .T_LPAREN []
  else if c = 41 then l.single .T_RPAREN []
  else if c = 91 then l.single .T_LBRACKET []
  else if c = 93 then l.single .T_RBRACKET []
  else if c = 123 then l.single .T_LBRACE []
  else if c = 125 then l.single .T_RBRACE []
  else if c = 34 then l.readString fuel
  else if c = 46 then
    let (_, l1) := l.readChar
    if isNumber l1.peekChar then some (l1.readFloat [48]) else some (l1.newToken .T_DOT [], l1)
  else if c = 58 then l.oneOrTwo .T_DECLARATION .T_COLON
  else if c = 33 then l.oneOrTwo .T_NEQ .T_BANG
  else if c = 60 then l.oneOrTwo .T_LE .T_LT
  else if c = 62 then l.oneOrTwo .T_GE .T_GT
  else if c = 61 then l.oneOrTwo .T_EQ .T_ASSIGN
  else if isNumber c then some l.readNumber
  else if isLetter c then some l.readWord
  else l.single .T_ILLEGAL []

/-- The tokens of repeated calls of `NextToken`, up to and including the
first `T_EOF`, for at most `n` calls; `none` when a call runs out of fuel or
no `T_EOF` comes within `n` calls. -/
def Lexer.tokens (fuel : Nat) : Nat → Lexer → Option (List Token)
  | 0, _ => none
  | n + 1, l =>
    match l.NextToken fuel with
    | none => none
    | some (t, l1) =>
      if t.Typ = .T_EOF then some [t]
      else (Lexer.tokens fuel n l1).map (t :: ·)

/-! ## parser/errors.go -/

/-- The struct `ParseError`; `GotToken` is `none` for a nil pointer. -/
structure ParseError where
  GotToken : Option Token
  ExpectTokenType : TokenType
  Message : String
  deriving DecidableEq, Repr

/-- An element of `Parser.Errors`: a `*TokenError` or a `*ParseError`. -/
inductive ParserError where
  | TokenError (Token : Token)
  | ParseError (e : ParseError)
  deriving DecidableEq, Repr

/-! ## parser/parser.go -/

/-- The struct `Parser`.  The two maps of parse functions are the functions
`prefixParseFns` and `infixParseFns` below. -/
structure Parser where
  lexer : Lexer
  peekToken : Token
  Errors : List ParserError
  deriving DecidableEq, Repr

/-- The function `New` of the parser. -/
def Parser.New (l : Lexer) : Parser :=
  { lexer := l,
    peekToken := { Typ := .T_LBRACE, Line := 0, Message := str "begin of file" },
    Errors := [] }

/-- The outcome of a parse function: a result or a `*ParseError`, each with
the parser after the call, or fuel exhaustion. -/
inductive PRes (α : Type) where
  | ok (v : α) (p : Parser)
  | err (e : ParseError) (p : Parser)
  | timeout
  deriving Repr

/-- Sequencing of parse functions (`if err != nil { return nil, err }`). -/
def PRes.bind {α β : Type} (r : PRes α) (f : α → Parser → PRes β) : PRes β :=
  match r with
  | .ok v p => f v p
  | .err e p => .err e p
  | .timeout => .timeout

/-- The method `nextToken`.  An illegal token is skipped by the recursive
call, whose result is recorded as a `TokenError` once the call has returned. -/
def Parser.nextToken : Nat → Parser → Option (Token × Parser)
  | 0, _ => none
  | fuel + 1, p =>
    match p.lexer.NextToken fuel with
    | none => none
    | some (t, l) =>
      let p1 : Parser := { p with lexer := l, peekToken := t }
      if t.Typ = .T_ILLEGAL then
        match Parser.nextToken fuel p1 with
        | none => none
        | some (illegal, p2) =>
          some (p.peekToken, { p2 with Errors := p2.Errors ++ [.TokenError illegal] })
      else some (p.peekToken, p1)

/-- A call of `nextToken` followed by the rest of a parse function. -/
def Parser.next {α : Type} (fuel : Nat) (p : Parser) (k : Token → Parser → PRes α) : PRes α :=
  match p.nextToken fuel with
  | none => .timeout
  | some (token, p1) => k token p1

/-- The method `checkPeekToken`: the error to return, if any. -/
def Parser.checkPeekToken (p : Parser) (tt : TokenType) : Option ParseError :=
  if p.peekToken.Typ ≠ tt then
    some { GotToken := some p.peekToken, ExpectTokenType := tt, Message := "" }
  else none

/-- The statement `if err := p.checkPeekToken(tt); err != nil { return nil, err }`
followed by the rest of a parse function. -/
def Parser.expect {α : Type} (p : Parser) (tt : TokenType) (k : PRes α) : PRes α :=
  match p.checkPeekToken tt with
  | some e => .err e p
  | none => k

/-- The constants `Precedence`. -/
abbrev Precedence := Nat

/-- The lowest precedence. -/
def LOWEST : Precedence := 0
/-- The precedence of `=` and `:=`. -/
def ASSIGN : Precedence := 1
/-- The precedence of `or`. -/
def OR : Precedence := 2
/-- The precedence of `and`. -/
def AND : Precedence := 3
/-- The precedence of `==`, `!=`, `>=` and `<=`. -/
def EQUALS : Precedence := 4
/-- The precedence of `>` and `<`. -/
def COMPARE : Precedence := 5
/-- The precedence of `+` and `-`. -/
def SUM : Precedence := 6
/-- The precedence of `*` and `/`. -/
def PRODUCT : Precedence := 7
/-- The precedence of the operators before their operand. -/
def PREFIX : Precedence := 8
/-- The precedence of a call. -/
def CALL : Precedence := 9

/-- The map `tokenPrecedences`; a token without an entry reads as 0. -/
def tokenPrecedences : TokenType → Precedence
  | .T_SEMICOLON => LOWEST
  | .T_RPAREN => LOWEST
  | .T_DECLARATION => ASSIGN
  | .T_ASSIGN => ASSIGN
  | .T_OR => OR
  | .T_AND => AND
  | .T_EQ => EQUALS
  | .T_NEQ => EQUALS
  | .T_GE => EQUALS
  | .T_LE => EQUALS
  | .T_GT => COMPARE
  | .T_LT => COMPARE
  | .T_PLUS => SUM
  | .T_MINUS => SUM
  | .T_ASTERISK => PRODUCT
  | .T_SLASH => PRODUCT
  | .T_LPAREN => CALL
  | .T_DOT => CALL
  | .T_LBRACKET => CALL
  | .T_COLON => CALL
  | _ => 0

/-- The methods registered in `prefixParseFns`. -/
inductive PrefixParseFn where
  | parseInteger | parseFloat | parseBoolean | parseString | parseTableExpr
  | parsePackExpr | parseNil | parserIdentifier | parserReturnExpr | parserBreakExpr
  | parseGroupedExpr | parseBlockExpr | parseIfExpr | parseFuncExpr | parseForExpr
  | parseArithPrefixExpr
  deriving DecidableEq, Repr

/-- The methods registered in `infixParseFns`. -/
inductive InfixParseFn where
  | parserDeclarationExpr | parserAssignExpr | parseCallExpr | parseDotExpr
  | parseArithInfixExpr
  deriving DecidableEq, Repr

/-- The map `prefixParseFns` as filled by `registerParseFn`. -/
def prefixParseFns : TokenType → Option PrefixParseFn
  | .T_INT => some .parseInteger
  | .T_FLOAT => some .parseFloat
  | .T_TRUE => some .parseBoolean
  | .T_FALSE => some .parseBoolean
  | .T_STRING => some .parseString
  | .T_TABLE => some .parseTableExpr
  | .T_LBRACKET => some .parsePackExpr
  | .T_NIL => some .parseNil
  | .T_IDENT => some .parserIdentifier
  | .T_RETURN => some .parserReturnExpr
  | .T_BREAK => some .parserBreakExpr
  | .T_LPAREN => some .parseGroupedExpr
  | .T_LBRACE => some .parseBlockExpr
  | .T_IF => some .parseIfExpr
  | .T_FUNCTION => some .parseFuncExpr
  | .T_FOR => some .parseForExpr
  | .T_MINUS => some .parseArithPrefixExpr
  | .T_BANG => some .parseArithPrefixExpr
  | _ => none

/-- The map `infixParseFns` as filled by `registerParseFn`. -/
def infixParseFns : TokenType → Option InfixParseFn
  | .T_DECLARATION => some .parserDeclarationExpr
  | .T_ASSIGN => some .parserAssignExpr
  | .T_LPAREN => some .parseCallExpr
  | .T_DOT => some .parseDotExpr
  | .T_PLUS | .T_MINUS | .T_ASTERISK | .T_SLASH
  | .T_EQ | .T_NEQ | .T_LE | .T_GE | .T_LT | .T_GT
  | .T_AND | .T_OR => some .parseArithInfixExpr
  | _ => none

/-- The value of a run of digits in the given base; `none` when a byte is not
a digit of that base. -/
def digitsValue (base : Nat) : Nat → List Nat → Option Nat
  | acc, [] => some acc
  | acc, c :: rest =>
    if 48 ≤ c ∧ c < 48 + base then digitsValue base (acc * base + (c - 48)) rest else none

/-- The call `strconv.ParseInt(s, 0, 64)` on a text made of digits, the only
texts an integer token carries: base 8 after a leading `0` followed by more
digits, base 10 otherwise; `none` for the syntax and the range errors. -/
def ParseInt (s : GoString) : Option Int :=
  let value :=
    match s with
    | [] => none
    | 48 :: d :: rest => digitsValue 8 0 (d :: rest)
    | _ => digitsValue 10 0 s
  match value with
  | none => none
  | some n => if n < 2 ^ 63 then some (n : Int) else none

/-- The type of `parseExpr` with its fuel fixed. -/
abbrev ExprParser := Precedence → Parser → PRes Expression

/-- The loop `for p.peekToken.Type == lexer.T_SEMICOLON { p.nextToken() }`. -/
def skipSemicolons : Nat → Parser → Option Parser
  | 0, _ => none
  | fuel + 1, p =>
    if p.peekToken.Typ = .T_SEMICOLON then
      match p.nextToken fuel with
      | none => none
      | some (_, p1) => skipSemicolons fuel p1
    else some p

/-- The loop shared by `ParseProgram` and `parseBlockExpr`: expressions are
parsed until the peek token is `stop`; an error is appended to `p.Errors`,
an expression to `block.Exprs`; the semicolons that follow are skipped. -/
def blockLoop (pe : ExprParser) (stop : TokenType) :
    Nat → List Expression → Parser → Option (List Expression × Parser)
  | 0, _, _ => none
  | fuel + 1, exprs, p =>
    if p.peekToken.Typ ≠ stop then
      match pe LOWEST p with
      | .timeout => none
      | .err e p1 =>
        match skipSemicolons fuel { p1 with Errors := p1.Errors ++ [.ParseError e] } with
        | none => none
        | some p2 => blockLoop pe stop fuel exprs p2
      | .ok expr p1 =>
        match skipSemicolons fuel p1 with
        | none => none
        | some p2 => blockLoop pe stop fuel (exprs ++ [expr]) p2
    else some (exprs, p)

/-- The method `parseBlockExpr`, returning the expressions of the block. -/
def parseBlockExprs (pe : ExprParser) (fuel : Nat) (p : Parser) : PRes (List Expression) :=
  p.next fuel fun _ p1 =>
    match blockLoop pe .T_RBRACE fuel [] p1 with
    | none => .timeout
    | some (exprs, p2) =>
      p2.next fuel fun token p3 =>
        if token.Typ = .T_EOF then
          .err { GotToken := some token, ExpectTokenType := .T_RBRACE,
                 Message := "{}block brace mismatch" } p3
        else .ok exprs p3

/-- The method `parseBlockExpr`. -/
def parseBlockExpr (pe : ExprParser) (fuel : Nat) (p : Parser) : PRes Expression :=
  (parseBlockExprs pe fuel p).bind fun exprs p1 => .ok (.BlockExpr exprs) p1

/-- The method `parseInteger`. -/
def parseInteger (fuel : Nat) (p : Parser) : PRes Expression :=
  p.next fuel fun token p1 =>
    match ParseInt token.Message with
    | none =>
      .err { GotToken := some token, ExpectTokenType := .T_INT, Message := "parseInt error" } p1
    | some val => .ok (.IntegerExpr val) p1

/-- The method `parseFloat`. -/
def parseFloat (fl : FloatOps) (fuel : Nat) (p : Parser) : PRes Expression :=
  p.next fuel fun token p1 =>
    match fl.parse token.Message with
    | none =>
      .err { GotToken := some token, ExpectTokenType := .T_FLOAT, Message := "parseFloat error" }
        p1
    | some val => .ok (.FloatExpr val) p1

/-- The method `parseBoolean`. -/
def parseBoolean (fuel : Nat) (p : Parser) : PRes Expression :=
  p.next fuel fun token p1 =>
    if token.Typ = .T_TRUE then .ok (.BooleanExpr true) p1
    else if token.Typ = .T_FALSE then .ok (.BooleanExpr false) p1
    else
      .err { GotToken := some token, ExpectTokenType := .T_TRUE,
             Message := "parseBoolean token error," } p1

/-- The method `parseString`. -/
def parseString (fuel : Nat) (p : Parser) : PRes Expression :=
  p.next fuel fun token p1 =>
    if token.Typ = .T_STRING then .ok (.StringExpr token.Message) p1
    else
      .err { GotToken := some token, ExpectTokenType := .T_TRUE,
             Message := "parseString token error," } p1

/-- The method `parseNil`. -/
def parseNil (fuel : Nat) (p : Parser) : PRes Expression :=
  p.next fuel fun token p1 =>
    if token.Typ = .T_NIL then .ok .NilExpr p1
    else
      .err { GotToken := some token, ExpectTokenType := .T_TRUE,
             Message := "parseNil token error," } p1

/-- The method `parserIdentifier`. -/
def parserIdentifier (fuel : Nat) (p : Parser) : PRes Expression :=
  p.next fuel fun token p1 => .ok (.Identifier token.Message) p1

/-- The method `parserReturnExpr`. -/
def parserReturnExpr (pe : ExprParser) (fuel : Nat) (p : Parser) : PRes Expression :=
  p.next fuel fun _ p1 => (pe LOWEST p1).bind fun val p2 => .ok (.ReturnExpr val) p2

/-- The method `parserBreakExpr`. -/
def parserBreakExpr (pe : ExprParser) (fuel : Nat) (p : Parser) : PRes Expression :=
  p.next fuel fun _ p1 => (pe LOWEST p1).bind fun val p2 => .ok (.BreakExpr val) p2

/-- The test `!ok || !left.IsAssignable()` of the two assignment parsers. -/
def notAssignable (leftExpr : Expression) : Bool :=
  match leftExpr.IsAssignable with
  | none => true
  | some b => !b

/-- The method `parserDeclarationExpr`. -/
def parserDeclarationExpr (pe : ExprParser) (fuel : Nat) (leftExpr : Expression) (p : Parser) :
    PRes Expression :=
  p.next fuel fun token p1 =>
    if notAssignable leftExpr then
      .err { GotToken := some token, ExpectTokenType := .T_NONE,
             Message := "Declaration’s left expression can't assign" } p1
    else (pe (ASSIGN - 1) p1).bind fun right p2 => .ok (.DeclarationExpr leftExpr right) p2

/-- The method `parserAssignExpr`. -/
def parserAssignExpr (pe : ExprParser) (fuel : Nat) (leftExpr : Expression) (p : Parser) :
    PRes Expression :=
  p.next fuel fun token p1 =>
    if notAssignable leftExpr then
      .err { GotToken := some token, ExpectTokenType := .T_NONE,
             Message := "Assign’s left expression can't assign" } p1
    else (pe (ASSIGN - 1) p1).bind fun right p2 => .ok (.AssignExpr leftExpr right) p2

/-- The operators accepted by the switch of `parseArithInfixExpr`. -/
def isInfixOperator : TokenType → Bool
  | .T_PLUS | .T_MINUS | .T_ASTERISK | .T_SLASH
  | .T_EQ | .T_NEQ | .T_LE | .T_GE | .T_LT | .T_GT
  | .T_AND | .T_OR => true
  | _ => false

/-- The method `parseArithInfixExpr`. -/
def parseArithInfixExpr (pe : ExprParser) (fuel : Nat) (leftExpr : Expression) (p : Parser) :
    PRes Expression :=
  p.next fuel fun token p1 =>
    if isInfixOperator token.Typ then
      (pe (tokenPrecedences token.Typ) p1).bind fun right p2 =>
        .ok (.ArithInfixExpr token.Typ leftExpr right) p2
    else
      .err { GotToken := some token, ExpectTokenType := .T_NONE,
             Message := "unknown infix arith operator" } p1

/-- The method `parseArithPrefixExpr`. -/
def parseArithPrefixExpr (pe : ExprParser) (fuel : Nat) (p : Parser) : PRes Expression :=
  p.next fuel fun token p1 =>
    if token.Typ = .T_MINUS ∨ token.Typ = .T_BANG then
      (pe PREFIX p1).bind fun right p2 => .ok (.ArithPrefixExpr token.Typ right) p2
    else
      .err { GotToken := some token, ExpectTokenType := .T_NONE,
             Message := "unknown prefix arith operator" } p1

/-- The method `parseGroupedExpr`. -/
def parseGroupedExpr (pe : ExprParser) (fuel : Nat) (p : Parser) : PRes Expression :=
  p.next fuel fun _ p1 =>
    (pe LOWEST p1).bind fun expr p2 =>
      match p2.checkPeekToken .T_RPAREN with
      | some e => .err { e with Message := "()Parentheses mismatch" } p2
      | none => p2.next fuel fun _ p3 => .ok expr p3

/-- The loop of `parseCommaExprs`. -/
def commaLoop (pe : ExprParser) (endToken : TokenType) :
    Nat → List Expression → Parser → PRes (List Expression)
  | 0, _, _ => .timeout
  | fuel + 1, exprs, p =>
    if p.peekToken.Typ ≠ endToken then
      (pe LOWEST p).bind fun expr p1 =>
        if p1.peekToken.Typ = .T_COMMA then
          p1.next fuel fun _ p2 => commaLoop pe endToken fuel (exprs ++ [expr]) p2
        else .ok (exprs ++ [expr]) p1
    else .ok exprs p

/-- The method `parseCommaExprs`. -/
def parseCommaExprs (pe : ExprParser) (fuel : Nat) (begin endToken : TokenType) (p : Parser) :
    PRes (List Expression) :=
  p.expect begin <|
    p.next fuel fun _ p1 =>
      (commaLoop pe endToken fuel [] p1).bind fun exprs p2 =>
        p2.expect endToken <| p2.next fuel fun _ p3 => .ok exprs p3

/-- The method `parseImplicitBlockExpr`; the result is the list of the
expressions of the block (the type assertion on the result of
`parseBlockExpr` always holds). -/
def parseImplicitBlockExpr (pe : ExprParser) (fuel : Nat) (p : Parser) :
    PRes (List Expression) :=
  if p.peekToken.Typ = .T_LBRACE then parseBlockExprs pe fuel p
  else
    (pe LOWEST p).bind fun expr p1 =>
      if p1.peekToken.Typ = .T_SEMICOLON then p1.next fuel fun _ p2 => .ok [expr] p2
      else .ok [expr] p1

/-- The method `parseIfExpr`. -/
def parseIfExpr (pe : ExprParser) (fuel : Nat) (p : Parser) : PRes Expression :=
  p.next fuel fun _ p1 =>
    (pe LOWEST p1).bind fun condition p2 =>
      (parseImplicitBlockExpr pe fuel p2).bind fun consequence p3 =>
        if p3.peekToken.Typ = .T_ELSE then
          p3.next fuel fun _ p4 =>
            (parseImplicitBlockExpr pe fuel p4).bind fun alternative p5 =>
              .ok (.IfExpr condition consequence (some alternative)) p5
        else .ok (.IfExpr condition consequence none) p3

/-- The loop of `parseFuncExpr` over the parsed parameters: each must be an
identifier. -/
def funcParameters : List Expression → Option (List GoString)
  | [] => some []
  | .Identifier ident :: rest => (funcParameters rest).map (ident :: ·)
  | _ :: _ => none

/-- The loop of `parseFuncExpr` over the parsed captures: each must implement
`FuncCaptureExpr`, that is be an identifier or a declaration. -/
def funcCaptures : List Expression → Bool
  | [] => true
  | .Identifier _ :: rest => funcCaptures rest
  | .DeclarationExpr _ _ :: rest => funcCaptures rest
  | _ :: _ => false

/-- The method `parseFuncExpr`. -/
def parseFuncExpr (pe : ExprParser) (fuel : Nat) (p : Parser) : PRes Expression :=
  p.next fuel fun _ p1 =>
    (parseCommaExprs pe fuel .T_LPAREN .T_RPAREN p1).bind fun parameters p2 =>
      match funcParameters parameters with
      | none =>
        .err { GotToken := none, ExpectTokenType := .T_NONE,
               Message := "function parameter type error, could only be identifier" } p2
      | some params =>
        let readBody := fun (captures : List Expression) (p3 : Parser) =>
          (parseImplicitBlockExpr pe fuel p3).bind fun body p4 =>
            .ok (.FuncExpr params captures body) p4
        if p2.peekToken.Typ = .T_LBRACKET then
          (parseCommaExprs pe fuel .T_LBRACKET .T_RBRACKET p2).bind fun captures p3 =>
            if funcCaptures captures then readBody captures p3
            else
              .err { GotToken := none, ExpectTokenType := .T_NONE,
                     Message :=
                      "function capture type error, could only be identifier or declaration" }
                p3
        else readBody [] p2

/-- The method `parseIndexExpr`. -/
def parseIndexExpr (pe : ExprParser) (fuel : Nat) (p : Parser) : PRes Expression :=
  if p.peekToken.Typ = .T_IDENT then
    p.next fuel fun stringIndexToken p1 => .ok (.StringExpr stringIndexToken.Message) p1
  else
    p.expect .T_LBRACKET <|
      p.next fuel fun _ p1 =>
        (pe LOWEST p1).bind fun index p2 =>
          p2.expect .T_RBRACKET <| p2.next fuel fun _ p3 => .ok index p3

/-- The loop of `parseTableExpr`. -/
def tableLoop (pe : ExprParser) :
    Nat → List (Expression × Expression) → Parser → PRes (List (Expression × Expression))
  | 0, _, _ => .timeout
  | fuel + 1, pairs, p =>
    if p.peekToken.Typ ≠ .T_RBRACE then
      (parseIndexExpr pe fuel p).bind fun key p1 =>
        p1.expect .T_ASSIGN <|
          p1.next fuel fun _ p2 =>
            (pe LOWEST p2).bind fun value p3 =>
              if p3.peekToken.Typ = .T_COMMA then
                p3.next fuel fun _ p4 => tableLoop pe fuel (pairs ++ [(key, value)]) p4
              else .ok (pairs ++ [(key, value)]) p3
    else .ok pairs p

/-- The method `parseTableExpr`. -/
def parseTableExpr (pe : ExprParser) (fuel : Nat) (p : Parser) : PRes Expression :=
  p.next fuel fun _ p1 =>
    p1.expect .T_LBRACE <|
      p1.next fuel fun _ p2 =>
        (tableLoop pe fuel [] p2).bind fun pairs p3 =>
          p3.expect .T_RBRACE <| p3.next fuel fun _ p4 => .ok (.TableExpr pairs) p4

/-- The method `parseDotExpr`. -/
def parseDotExpr (pe : ExprParser) (fuel : Nat) (leftExpr : Expression) (p : Parser) :
    PRes Expression :=
  p.next fuel fun _ p1 =>
    (parseIndexExpr pe fuel p1).bind fun index p2 => .ok (.IndexExpr leftExpr index) p2

/-- The method `parseCallExpr`. -/
def parseCallExpr (pe : ExprParser) (fuel : Nat) (leftExpr : Expression) (p : Parser) :
    PRes Expression :=
  (parseCommaExprs pe fuel .T_LPAREN .T_RPAREN p).bind fun parameters p1 =>
    .ok (.CallExpr leftExpr parameters) p1

/-- The method `parseForExpr`. -/
def parseForExpr (pe : ExprParser) (fuel : Nat) (p : Parser) : PRes Expression :=
  p.next fuel fun _ p1 =>
    (pe LOWEST p1).bind fun initExpr p2 =>
      p2.expect .T_SEMICOLON <|
        p2.next fuel fun _ p3 =>
          (pe LOWEST p3).bind fun edgeExpr p4 =>
            p4.expect .T_SEMICOLON <|
              p4.next fuel fun _ p5 =>
                (pe LOWEST p5).bind fun stepExpr p6 =>
                  let readBody := fun (p7 : Parser) =>
                    (parseImplicitBlockExpr pe fuel p7).bind fun body p8 =>
                      .ok (.ForExpr initExpr edgeExpr stepExpr body) p8
                  if p6.peekToken.Typ = .T_SEMICOLON then p6.next fuel fun _ p7 => readBody p7
                  else readBody p6

/-- The method `parsePackExpr`. -/
def parsePackExpr (pe : ExprParser) (fuel : Nat) (p : Parser) : PRes Expression :=
  (parseCommaExprs pe fuel .T_LBRACKET .T_RBRACKET p).bind fun exprs p1 =>
    .ok (.PackExpr exprs) p1

/-- The call `prefixFn()` of a registered method. -/
def PrefixParseFn.call (fl : FloatOps) (pe : ExprParser) (fuel : Nat) :
    PrefixParseFn → Parser → PRes Expression
  | .parseInteger => Expr.parseInteger fuel
  | .parseFloat => Expr.parseFloat fl fuel
  | .parseBoolean => Expr.parseBoolean fuel
  | .parseString => Expr.parseString fuel
  | .parseTableExpr => Expr.parseTableExpr pe fuel
  | .parsePackExpr => Expr.parsePackExpr pe fuel
  | .parseNil => Expr.parseNil fuel
  | .parserIdentifier => Expr.parserIdentifier fuel
  | .parserReturnExpr => Expr.parserReturnExpr pe fuel
  | .parserBreakExpr => Expr.parserBreakExpr pe fuel
  | .parseGroupedExpr => Expr.parseGroupedExpr pe fuel
  | .parseBlockExpr => Expr.parseBlockExpr pe fuel
  | .parseIfExpr => Expr.parseIfExpr pe fuel
  | .parseFuncExpr => Expr.parseFuncExpr pe fuel
  | .parseForExpr => Expr.parseForExpr pe fuel
  | .parseArithPrefixExpr => Expr.parseArithPrefixExpr pe fuel

/-- The call `infixFn(leftExpr)` of a registered method. -/
def InfixParseFn.call (pe : ExprParser) (fuel : Nat) :
    InfixParseFn → Expression → Parser → PRes Expression
  | .parserDeclarationExpr => Expr.parserDeclarationExpr pe fuel
  | .parserAssignExpr => Expr.parserAssignExpr pe fuel
  | .parseCallExpr => Expr.parseCallExpr pe fuel
  | .parseDotExpr => Expr.parseDotExpr pe fuel
  | .parseArithInfixExpr => Expr.parseArithInfixExpr pe fuel

/-- The loop of `parseExpr`,
`for precedence < tokenPrecedences[p.peekToken.Type]`. -/
def infixLoop (pe : ExprParser) (callFuel : Nat) (precedence : Precedence) :
    Nat → Expression → Parser → PRes Expression
  | 0, _, _ => .timeout
  | fuel + 1, leftExpr, p =>
    if precedence < tokenPrecedences p.peekToken.Typ then
      match infixParseFns p.peekToken.Typ with
      | none => .ok leftExpr p
      | some infixFn =>
        (infixFn.call pe callFuel leftExpr p).bind fun leftExpr1 p1 =>
          infixLoop pe callFuel precedence fuel leftExpr1 p1
    else .ok leftExpr p

/-- The method `parseExpr`.  The fuel bounds the depth of the recursion and
the number of iterations of every loop. -/
def parseExpr (fl : FloatOps) : Nat → Precedence → Parser → PRes Expression
  | 0, _, _ => .timeout
  | fuel + 1, precedence, p =>
    match prefixParseFns p.peekToken.Typ with
    | none =>
      p.next fuel fun token p1 =>
        .err { GotToken := some token, ExpectTokenType := .T_NONE,
               Message := "no prefix parse function" } p1
    | some prefixFn =>
      (prefixFn.call fl (parseExpr fl fuel) fuel p).bind fun leftExpr p1 =>
        infixLoop (parseExpr fl fuel) fuel precedence fuel leftExpr p1

/-- The method `parseEntireExpr`. -/
def parseEntireExpr (fl : FloatOps) (fuel : Nat) (p : Parser) : PRes Expression :=
  parseExpr fl fuel LOWEST p

/-- The method `ParseProgram`: the expressions of the returned block and the
parser after the call; `none` when the fuel runs out. -/
def ParseProgram (fl : FloatOps) (fuel : Nat) (p : Parser) : Option (List Expression × Parser) :=
  match p.nextToken fuel with
  | none => none
  | some (_, p1) =>
    match blockLoop (parseExpr fl fuel) .T_EOF fuel [] p1 with
    | none => none
    | some (exprs, p2) =>
      match p2.nextToken fuel with
      | none => none
      | some (_, p3) => some (exprs, p3)

/-- The pipeline of the tests: lexer, parser, then `evalFuncBlockExpr` on the
parsed block in a new environment. -/
def parseSource (fl : FloatOps) (fuel : Nat) (input : List Nat) :
    Option (List Expression × Parser) :=
  ParseProgram fl fuel (Parser.New (Lexer.New input))

/-! ## evaluator/errors.go -/

/-- The values of `EvalError` that the evaluator builds, one constructor per
message text. -/
inductive EvalError where
  /-- The message "minus prefix operator with wrong value type %s". -/
  | minusWrongType (typeName : String)
  /-- The message "unknown Arith Prefix operator". -/
  | unknownArithPrefixOperator
  /-- The message "Arith Infix Expr operator and operand: %s". -/
  | arithInfixOperatorOperand (Op : TokenType) (Left Right : Expression)
  /-- The message "eval an index of non table". -/
  | evalIndexNonTable
  /-- The message "FuncExpr capture a wrong identifier". -/
  | captureWrongIdentifier
  /-- The message "call to a non function object %s". -/
  | callNonFunction (t : ObjType)
  /-- The message "Assign value haven't declare %s". -/
  | assignNotDeclared (ident : GoString)
  /-- The message "assign to an index of non table". -/
  | assignIndexNonTable
  /-- The message "evalIdentifierExpr: identifier haven't declare %s". -/
  | identifierNotDeclared (ident : GoString)
  deriving Repr

/-- The outcome of a call of the evaluator: a result and the memory after it
(`ok`), an `*EvalError` and the memory after it (`err`), a Go run-time panic,
or fuel exhaustion. -/
inductive Res (α : Type) where
  | ok (v : α) (st : State)
  | err (e : EvalError) (st : State)
  | panic
  | timeout
  deriving Repr

/-- Sequencing: continue with the result unless the first call did not
return normally (`if err != nil { return nil, err }`). -/
def Res.bind {α β : Type} (r : Res α) (f : α → State → Res β) : Res β :=
  match r with
  | .ok v st => f v st
  | .err e st => .err e st
  | .panic => .panic
  | .timeout => .timeout

/-- The returned object of a normal return. -/
def Res.value? {α : Type} : Res α → Option α
  | .ok v _ => some v
  | _ => none

/-- The memory after a normal or an error return. -/
def Res.state? {α : Type} : Res α → Option State
  | .ok _ st => some st
  | .err _ st => some st
  | _ => none

/-! ## evaluator/evaluator.go -/

/-- The type of `Eval` with its fuel fixed: expression, environment, memory. -/
abbrev Evaluator := Expression → Nat → State → Res Object

/-- Equality of two map keys of type `Object` (the `==` of Go on interface
values): same variant and equal fields, floats by the float comparison. -/
def keyEq (fl : FloatOps) : Object → Object → Bool
  | .FloatObj a, .FloatObj b => fl.eq a b
  | .ReturnObj a, .ReturnObj b => keyEq fl a b
  | .BreakObj a, .BreakObj b => keyEq fl a b
  | a, b => decide (a = b)

/-- Reading `m[k]` of a `map[Object]Object`. -/
def storeGet (fl : FloatOps) (k : Object) : List (Object × Object) → Option Object
  | [] => none
  | (k', v) :: rest => if keyEq fl k' k then some v else storeGet fl k rest

/-- The assignment `m[k] = v` of a `map[Object]Object`. -/
def storeSet (fl : FloatOps) (k v : Object) : List (Object × Object) → List (Object × Object)
  | [] => [(k, v)]
  | (k', v') :: rest =>
    if keyEq fl k' k then (k', v) :: rest else (k', v') :: storeSet fl k v rest

/-- The statement `table.Store[key] = value` through the pointer `table`. -/
def State.tableStore (fl : FloatOps) (st : State) (table : Nat) (key value : Object) : State :=
  match st.tables[table]? with
  | none => st
  | some store => { st with tables := st.tables.set table (storeSet fl key value store) }

/-- The function `toBooleanObj`, as the `Value` of the returned `BooleanObj`. -/
def toBooleanObj : Object → Bool
  | .BooleanObj b => b
  | .NilValue => false
  | _ => true

/-- The function `toFloatObj`, as the `Value` of the returned `FloatObj`;
`none` where it panics. -/
def toFloatObj (fl : FloatOps) : Object → Option F64
  | .FloatObj v => some v
  | .IntegerObj v => some (fl.ofInt v)
  | _ => none

/-- The loop of `evalTableExpr` over `expr.InitValue`. -/
def evalTableLoop (fl : FloatOps) (ev : Evaluator) (table env : Nat) :
    List (Expression × Expression) → State → Res Unit
  | [], st => .ok () st
  | (k, v) :: rest, st =>
    (ev k env st).bind fun key st1 =>
    (ev v env st1).bind fun value st2 =>
    evalTableLoop fl ev table env rest (st2.tableStore fl table key value)

/-- The function `evalTableExpr`. -/
def evalTableExpr (fl : FloatOps) (ev : Evaluator) (InitValue : List (Expression × Expression))
    (env : Nat) (st : State) : Res Object :=
  let table := st.tables.length
  let st0 := { st with tables := st.tables ++ [[]] }
  (evalTableLoop fl ev table env InitValue st0).bind fun _ st1 => .ok (.TableObj table) st1

/-- The statement `pack.Objs = append(pack.Objs, obj)` through the pointer
`pack`. -/
def State.packAppend (st : State) (pack : Nat) (obj : Object) : State :=
  match st.packs[pack]? with
  | none => st
  | some objs => { st with packs := st.packs.set pack (objs ++ [obj]) }

/-- The loop of `evalPackExpr` over `expr.Exprs`. -/
def evalPackLoop (ev : Evaluator) (pack env : Nat) : List Expression → State → Res Unit
  | [], st => .ok () st
  | e :: rest, st =>
    (ev e env st).bind fun obj st1 => evalPackLoop ev pack env rest (st1.packAppend pack obj)

/-- The function `evalPackExpr`. -/
def evalPackExpr (ev : Evaluator) (Exprs : List Expression) (env : Nat) (st : State) :
    Res Object :=
  let pack := st.packs.length
  let st0 := { st with packs := st.packs ++ [[]] }
  (evalPackLoop ev pack env Exprs st0).bind fun _ st1 => .ok (.PackObj pack) st1

/-- The function `evalArithPrefixExpr`. -/
def evalArithPrefixExpr (fl : FloatOps) (ev : Evaluator) (Op : TokenType) (Right : Expression)
    (env : Nat) (st : State) : Res Object :=
  (ev Right env st).bind fun right st1 =>
    if Op = .T_BANG then
      .ok (.BooleanObj (!toBooleanObj right)) st1
    else if Op = .T_MINUS then
      match right with
      | .IntegerObj v => .ok (.IntegerObj (wrapInt64 (-v))) st1
      | .FloatObj v => .ok (.FloatObj (fl.neg v)) st1
      | _ =>
        match right.Typ.String with
        | some s => .err (.minusWrongType s) st1
        | none => .panic
    else
      .err .unknownArithPrefixOperator st1

/-- The result of an operator on two values: an object, no applicable case
(the switch falls through to the final error), or a run-time panic. -/
inductive Arith where
  | val (o : Object)
  | noCase
  | panic
  deriving DecidableEq, Repr

/-- The branch `left.Type() == right.Type()` of `evalArithInfixExpr`. -/
def sameTypeInfix (fl : FloatOps) (Op : TokenType) (left right : Object) : Arith :=
  match Op with
  | .T_PLUS =>
    match left, right with
    | .IntegerObj a, .IntegerObj b => .val (.IntegerObj (wrapInt64 (a + b)))
    | .FloatObj a, .FloatObj b => .val (.FloatObj (fl.add a b))
    | _, _ => .noCase
  | .T_MINUS =>
    match left, right with
    | .IntegerObj a, .IntegerObj b => .val (.IntegerObj (wrapInt64 (a - b)))
    | .FloatObj a, .FloatObj b => .val (.FloatObj (fl.sub a b))
    | _, _ => .noCase
  | .T_ASTERISK =>
    match left, right with
    | .IntegerObj a, .IntegerObj b => .val (.IntegerObj (wrapInt64 (a * b)))
    | .FloatObj a, .FloatObj b => .val (.FloatObj (fl.mul a b))
    | _, _ => .noCase
  | .T_SLASH =>
    match left, right with
    | .IntegerObj a, .IntegerObj b =>
      if b = 0 then .panic else .val (.IntegerObj (wrapInt64 (Int.tdiv a b)))
    | .FloatObj a, .FloatObj b => .val (.FloatObj (fl.div a b))
    | _, _ => .noCase
  | .T_LT =>
    match left, right with
    | .IntegerObj a, .IntegerObj b => .val (.BooleanObj (decide (a < b)))
    | .FloatObj a, .FloatObj b => .val (.BooleanObj (fl.lt a b))
    | _, _ => .noCase
  | .T_LE =>
    match left, right with
    | .IntegerObj a, .IntegerObj b => .val (.BooleanObj (decide (a ≤ b)))
    | .FloatObj a, .FloatObj b => .val (.BooleanObj (fl.le a b))
    | _, _ => .noCase
  | .T_GT =>
    match left, right with
    | .IntegerObj a, .IntegerObj b => .val (.BooleanObj (decide (a > b)))
    | .FloatObj a, .FloatObj b => .val (.BooleanObj (fl.gt a b))
    | _, _ => .noCase
  | .T_GE =>
    match left, right with
    | .IntegerObj a, .IntegerObj b => .val (.BooleanObj (decide (a ≥ b)))
    | .FloatObj a, .FloatObj b => .val (.BooleanObj (fl.ge a b))
    | _, _ => .noCase
  | .T_EQ =>
    match left, right with
    | .IntegerObj a, .IntegerObj b => .val (.BooleanObj (decide (a = b)))
    | .FloatObj a, .FloatObj b => .val (.BooleanObj (fl.eq a b))
    | .BooleanObj a, .BooleanObj b => .val (.BooleanObj (decide (a = b)))
    | .StringObj a, .StringObj b => .val (.BooleanObj (decide (a = b)))
    | .TableObj a, .TableObj b => .val (.BooleanObj (decide (a = b)))
    | .PackObj a, .PackObj b => .val (.BooleanObj (decide (a = b)))
    | .NilValue, .NilValue => .val (.BooleanObj true)
    | _, _ => .noCase
  | .T_NEQ =>
    match left, right with
    | .IntegerObj a, .IntegerObj b => .val (.BooleanObj (decide (a ≠ b)))
    | .FloatObj a, .FloatObj b => .val (.BooleanObj (fl.ne a b))
    | .BooleanObj a, .BooleanObj b => .val (.BooleanObj (decide (a ≠ b)))
    | .StringObj a, .StringObj b => .val (.BooleanObj (decide (a ≠ b)))
    | .TableObj a, .TableObj b => .val (.BooleanObj (decide (a ≠ b)))
    | .PackObj a, .PackObj b => .val (.BooleanObj (decide (a ≠ b)))
    | .NilValue, .NilValue => .val (.BooleanObj false)
    | _, _ => .noCase
  | _ => .noCase

/-- The branch of `evalArithInfixExpr` for one Integer and one Float operand,
on the operands converted by `toFloatObj`. -/
def mixedInfix (fl : FloatOps) (Op : TokenType) (l r : F64) : Arith :=
  match Op with
  | .T_PLUS => .val (.FloatObj (fl.add l r))
  | .T_MINUS => .val (.FloatObj (fl.sub l r))
  | .T_ASTERISK => .val (.FloatObj (fl.mul l r))
  | .T_SLASH => .val (.FloatObj (fl.div l r))
  | .T_LT => .val (.BooleanObj (fl.lt l r))
  | .T_GT => .val (.BooleanObj (fl.gt l r))
  | .T_LE => .val (.BooleanObj (fl.le l r))
  | .T_GE => .val (.BooleanObj (fl.ge l r))
  | .T_EQ => .val (.BooleanObj (fl.eq l r))
  | .T_NEQ => .val (.BooleanObj (fl.ne l r))
  | _ => .noCase

/-- The operators of the third case of the switch of `evalArithInfixExpr`. -/
def isArithOrCompare : TokenType → Bool
  | .T_PLUS | .T_MINUS | .T_ASTERISK | .T_SLASH
  | .T_LT | .T_LE | .T_GT | .T_GE | .T_EQ | .T_NEQ => true
  | _ => false

/-- The switch of `evalArithInfixExpr` on the operator, once both operands are
evaluated. -/
def infixValues (fl : FloatOps) (Op : TokenType) (left right : Object) : Arith :=
  match Op with
  | .T_AND => if toBooleanObj left then .val right else .val left
  | .T_OR => if toBooleanObj left then .val left else .val right
  | _ =>
    if isArithOrCompare Op then
      if left.Typ = right.Typ then
        sameTypeInfix fl Op left right
      else if (left.Typ = .TIntegerObj ∨ left.Typ = .TFloatObj) ∧
          (right.Typ = .TIntegerObj ∨ right.Typ = .TFloatObj) then
        match toFloatObj fl left, toFloatObj fl right with
        | some l, some r => mixedInfix fl Op l r
        | _, _ => .panic
      else .noCase
    else .noCase

/-- The function `evalArithInfixExpr`. -/
def evalArithInfixExpr (fl : FloatOps) (ev : Evaluator) (Op : TokenType)
    (Left Right : Expression) (env : Nat) (st : State) : Res Object :=
  (ev Left env st).bind fun left st1 =>
  (ev Right env st1).bind fun right st2 =>
    match infixValues fl Op left right with
    | .val o => .ok o st2
    | .noCase => .err (.arithInfixOperatorOperand Op Left Right) st2
    | .panic => .panic

/-- The function `evalBlockExpr`. -/
def evalBlockExpr (ev : Evaluator) : List Expression → Nat → State → Res Object
  | [], _, st => .ok st.NilObj st
  | expr :: rest, env, st =>
    (ev expr env st).bind fun obj st1 =>
      match obj with
      | .ReturnObj v => .ok (.ReturnObj v) st1
      | .BreakObj v => .ok v st1
      | _ => evalBlockExpr ev rest env st1

/-- The function `evalFuncBlockExpr`. -/
def evalFuncBlockExpr (ev : Evaluator) (block : List Expression) (env : Nat) (st : State) :
    Res Object :=
  (evalBlockExpr ev block env st).bind fun obj st1 =>
    match obj with
    | .ReturnObj v => .ok v st1
    | o => .ok o st1

/-- The function `evalIndexExpr`. -/
def evalIndexExpr (fl : FloatOps) (ev : Evaluator) (Table Index : Expression) (env : Nat)
    (st : State) : Res Object :=
  (ev Table env st).bind fun table st1 =>
    match table with
    | .TableObj t =>
      (ev Index env st1).bind fun index st2 =>
        match st2.tables[t]? with
        | none => .panic
        | some store =>
          match storeGet fl index store with
          | some res => .ok res st2
          | none => .ok st2.NilObj st2
    | _ => .err .evalIndexNonTable st1

/-- The function `evalIfExpr`. -/
def evalIfExpr (ev : Evaluator) (Condition : Expression) (Consequence : List Expression)
    (Alternative : Option (List Expression)) (env : Nat) (st : State) : Res Object :=
  let (ifEnv, st0) := NewInnerEnv env st
  (ev Condition ifEnv st0).bind fun condition st1 =>
    if toBooleanObj condition then
      ev (.BlockExpr Consequence) ifEnv st1
    else
      match Alternative with
      | some alt => ev (.BlockExpr alt) ifEnv st1
      | none => .ok st1.NilObj st1

/-- The function `evalIdentifierExpr`. -/
def evalIdentifierExpr (Ident : GoString) (env : Nat) (st : State) : Res Object :=
  match Environment.Get st env Ident with
  | none => .err (.identifierNotDeclared Ident) st
  | some o =>
    match st.load o with
    | some v => .ok v st
    | none => .panic

/-- The two closures that `evalDeclarationExpr` and `evalAssignExpr` pass to
`declareAssignHelper` as `fn`. -/
inductive AssignFn where
  | declare
  | assign
  deriving DecidableEq, Repr

/-- The call `fn(ident, &value)` of `declareAssignHelper`: for `declare`,
`env.Set(ident, value)` with the address of a fresh variable; for `assign`,
`*o = *value` through `o := env.Get(ident)`, or the error when `o` is nil. -/
def AssignFn.call (fn : AssignFn) (env : Nat) (ident : GoString) (value : Object)
    (st : State) : Res Unit :=
  match fn with
  | .declare =>
    let (c, st1) := st.newCell value
    .ok () (Environment.Set st1 env ident c)
  | .assign =>
    match Environment.Get st env ident with
    | none => .err (.assignNotDeclared ident) st
    | some o => .ok () (st.store o value)

mutual
/-- The function `declareAssignHelper`. -/
def declareAssignHelper (fl : FloatOps) (ev : Evaluator) (fn : AssignFn) :
    Expression → Object → Nat → State → Res Unit
  | .Identifier ident, value, env, st => fn.call env ident value st
  | .IndexExpr Table Index, value, env, st =>
    (ev Table env st).bind fun table st1 =>
      match table with
      | .TableObj t =>
        (ev Index env st1).bind fun index st2 => .ok () (st2.tableStore fl t index value)
      | _ => .err .assignIndexNonTable st1
  | .PackExpr Exprs, value, env, st =>
    match value with
    | .PackObj p =>
      match st.packs[p]? with
      | none => .panic
      | some objs => declareAssignPack fl ev fn Exprs objs env st
    | _ =>
      match Exprs with
      | [] => .ok () st
      | left :: _ => declareAssignHelper fl ev fn left value env st
  | _, _, _, _ => .panic
/-- The loop of `declareAssignHelper` over the targets of a pack, for a pack
value: `objs` are the elements of the value from the current index on. -/
def declareAssignPack (fl : FloatOps) (ev : Evaluator) (fn : AssignFn) :
    List Expression → List Object → Nat → State → Res Unit
  | [], _, _, st => .ok () st
  | left :: rest, obj :: objs, env, st =>
    (declareAssignHelper fl ev fn left obj env st).bind fun _ st1 =>
      declareAssignPack fl ev fn rest objs env st1
  | left :: rest, [], env, st =>
    (declareAssignHelper fl ev fn left st.NilObj env st).bind fun _ st1 =>
      declareAssignPack fl ev fn rest [] env st1
end

/-- The function `evalDeclarationExpr`. -/
def evalDeclarationExpr (fl : FloatOps) (ev : Evaluator) (Left Value : Expression) (env : Nat)
    (st : State) : Res Object :=
  (ev Value env st).bind fun value st1 =>
  (declareAssignHelper fl ev .declare Left value env st1).bind fun _ st2 => .ok value st2

/-- The function `evalAssignExpr`. -/
def evalAssignExpr (fl : FloatOps) (ev : Evaluator) (Left Value : Expression) (env : Nat)
    (st : State) : Res Object :=
  (ev Value env st).bind fun value st1 =>
  (declareAssignHelper fl ev .assign Left value env st1).bind fun _ st2 => .ok value st2

/-- The loop of `evalFuncExpr` over `expr.Capture`. -/
def captureLoop (fl : FloatOps) (ev : Evaluator) (env funcCaptureEnv : Nat) :
    List Expression → State → Res Unit
  | [], st => .ok () st
  | .DeclarationExpr Left Value :: rest, st =>
    (evalDeclarationExpr fl ev Left Value funcCaptureEnv st).bind fun _ st1 =>
      captureLoop fl ev env funcCaptureEnv rest st1
  | .Identifier Ident :: rest, st =>
    match Environment.Get st env Ident with
    | none => .err .captureWrongIdentifier st
    | some outerObj =>
      captureLoop fl ev env funcCaptureEnv rest (Environment.Set st funcCaptureEnv Ident outerObj)
  | _ :: _, _ => .panic

/-- The function `evalFuncExpr`. -/
def evalFuncExpr (fl : FloatOps) (ev : Evaluator) (Parameters : List GoString)
    (Capture Body : List Expression) (env : Nat) (st : State) : Res Object :=
  let (funcCaptureEnv, st0) := NewInnerEnv env st
  (captureLoop fl ev env funcCaptureEnv Capture st0).bind fun _ st1 =>
    let st2 := Environment.Close st1 funcCaptureEnv
    .ok (.FuncObj st2.funcs.length)
      { st2 with funcs := st2.funcs ++
          [{ FuncEnv := funcCaptureEnv, Parameters := Parameters, Body := Body }] }

/-- The part of the loop of `evalCallExpr` with `i >= giveNParam`: the
parameters without an argument are bound to `&NilObj`. -/
def bindMissing (funcCallEnv : Nat) : List GoString → State → State
  | [], st => st
  | p :: rest, st => bindMissing funcCallEnv rest (Environment.Set st funcCallEnv p .NilObjVar)

/-- The part of the loop of `evalCallExpr` with `i >= needNParam`: the extra
arguments are evaluated and dropped. -/
def evalExtra (ev : Evaluator) (env : Nat) : List Expression → State → Res Unit
  | [], st => .ok () st
  | a :: rest, st => (ev a env st).bind fun _ st1 => evalExtra ev env rest st1

/-- The loop of `evalCallExpr` over the index `i`.  When the evaluation of an
argument fails the loop returns the error; the binding of the parameter to a
variable holding the nil interface, made just before in a call scope that is
dropped, is left out. -/
def callLoop (ev : Evaluator) (env funcCallEnv : Nat) :
    List GoString → List Expression → State → Res Unit
  | p :: ps, a :: as, st =>
    (ev a env st).bind fun obj st1 =>
      let (c, st2) := st1.newCell obj
      callLoop ev env funcCallEnv ps as (Environment.Set st2 funcCallEnv p c)
  | [], as, st => evalExtra ev env as st
  | ps, [], st => .ok () (bindMissing funcCallEnv ps st)

/-- The function `evalCallExpr`. -/
def evalCallExpr (ev : Evaluator) (Function : Expression) (Parameters : List Expression)
    (env : Nat) (st : State) : Res Object :=
  (ev Function env st).bind fun fn st1 =>
    match fn with
    | .FuncObj f =>
      match st1.funcs[f]? with
      | none => .panic
      | some fnObj =>
        let (funcCallEnv, st2) := NewInnerEnv fnObj.FuncEnv st1
        (callLoop ev env funcCallEnv fnObj.Parameters Parameters st2).bind fun _ st3 =>
          evalFuncBlockExpr ev fnObj.Body funcCallEnv st3
    | _ => .err (.callNonFunction fn.Typ) st1

/-- The function `Eval`.  The fuel bounds the depth of the recursion; a
`ForExpr` has no case in the switch and reaches the final `panic`. -/
def Eval (fl : FloatOps) : Nat → Expression → Nat → State → Res Object
  | 0, _, _, _ => .timeout
  | fuel + 1, e, env, st =>
    match e with
    | .IntegerExpr v => .ok (.IntegerObj v) st
    | .FloatExpr v => .ok (.FloatObj v) st
    | .BooleanExpr v => .ok (.BooleanObj v) st
    | .StringExpr v => .ok (.StringObj v) st
    | .NilExpr => .ok st.NilObj st
    | .TableExpr InitValue => evalTableExpr fl (Eval fl fuel) InitValue env st
    | .PackExpr Exprs => evalPackExpr (Eval fl fuel) Exprs env st
    | .ArithPrefixExpr Op Right => evalArithPrefixExpr fl (Eval fl fuel) Op Right env st
    | .ArithInfixExpr Op Left Right => evalArithInfixExpr fl (Eval fl fuel) Op Left Right env st
    | .BlockExpr Exprs =>
      let (inner, st1) := NewInnerEnv env st
      evalBlockExpr (Eval fl fuel) Exprs inner st1
    | .IndexExpr Table Index => evalIndexExpr fl (Eval fl fuel) Table Index env st
    | .IfExpr Condition Consequence Alternative =>
      evalIfExpr (Eval fl fuel) Condition Consequence Alternative env st
    | .FuncExpr Parameters Capture Body =>
      evalFuncExpr fl (Eval fl fuel) Parameters Capture Body env st
    | .CallExpr Function Parameters => evalCallExpr (Eval fl fuel) Function Parameters env st
    | .DeclarationExpr Left Value => evalDeclarationExpr fl (Eval fl fuel) Left Value env st
    | .AssignExpr Left Value => evalAssignExpr fl (Eval fl fuel) Left Value env st
    | .Identifier Ident => evalIdentifierExpr Ident env st
    | .ReturnExpr ReturnValue =>
      (Eval fl fuel ReturnValue env st).bind fun obj st1 => .ok (.ReturnObj obj) st1
    | .BreakExpr BreakValue =>
      (Eval fl fuel BreakValue env st).bind fun obj st1 => .ok (.BreakObj obj) st1
    | .ForExpr _ _ _ _ => .panic

/-- The driver of the tests (`testProgram`): the program block is evaluated
by `evalFuncBlockExpr` in a new environment of the initial memory. -/
def runProgram (fl : FloatOps) (fuel : Nat) (block : List Expression) : Res Object :=
  let (env, st) := NewEnv State.init
  evalFuncBlockExpr (Eval fl fuel) block env st

/-! ## Running programs -/

/-- An instance of `FloatOps` to run closed examples.  It computes on the bit
patterns read as natural numbers and is not the IEEE-754 arithmetic; every
theorem below is stated for an arbitrary instance. -/
def bitsOps : FloatOps :=
  { ofInt := fun i => ⟨i.toNat⟩
    neg := fun a => a
    add := fun a b => ⟨a.bits + b.bits⟩
    sub := fun a b => ⟨a.bits - b.bits⟩
    mul := fun a b => ⟨a.bits * b.bits⟩
    div := fun a b => ⟨a.bits / b.bits⟩
    lt := fun a b => decide (a.bits < b.bits)
    le := fun a b => decide (a.bits ≤ b.bits)
    gt := fun a b => decide (a.bits > b.bits)
    ge := fun a b => decide (a.bits ≥ b.bits)
    eq := fun a b => decide (a.bits = b.bits)
    ne := fun a b => decide (a.bits ≠ b.bits)
    parse := fun _ => none }

/-- The error of an error return. -/
def Res.error? {α : Type} : Res α → Option EvalError
  | .err e _ => some e
  | _ => none

/-- The pipeline of the tests on a source text: `none` when lexing and
parsing run out of fuel, else the outcome of the evaluation of the parsed
block and the number of errors the parser recorded. -/
def runSource (fl : FloatOps) (fuel : Nat) (src : String) : Option (Res Object × Nat) :=
  match parseSource fl fuel (str src) with
  | none => none
  | some (block, p) => some (runProgram fl fuel block, p.Errors.length)

/-- A memory with one environment in which `t` is bound to an empty table,
as `t := table{}` leaves it. -/
def tableMemory : State :=
  Environment.SetNewObj { (NewEnv State.init).2 with tables := [[]] } 0 (str "t") (.TableObj 0)

/-- The cell bound to `x` in the map `LocalVars` of the environment `e`
itself, without a walk to the outer environments. -/
def State.localVar (st : State) (e : Nat) (x : GoString) : Option Cell :=
  match st.envs[e]? with
  | none => none
  | some env => mapGet x env.LocalVars

/-- Declaring the names of `bindings` in order in `env`, each in a fresh
cell (`Environment.SetNewObj`). -/
def declareAll (env : Nat) : List (GoString × Object) → State → State
  | [], st => st
  | (x, v) :: rest, st => declareAll env rest (Environment.SetNewObj st env x v)

/-- A memory with one environment in which `x` is bound to the Integer 0, as
`x := 0` leaves it. -/
def counterMemory : State :=
  Environment.SetNewObj (NewEnv State.init).2 0 (str "x") (.IntegerObj 0)

/-- The counter scenario of the tests (`TestFuncCall`). -/
def counterSource : String :=
  "f1 := func(){ x := 0; return [ func()[x]{ x = x + 1 }, func()[x]{ return x }, func() [ x := x ] return x + 10 ] }" ++
  " [f2, f3, f4] := f1() f2() f2() f2() return f3() + f4()"

/-- The parser has reached the end of the input: the peek token is `T_EOF`
and the lexer has no byte left. -/
def Parser.AtEOF (p : Parser) : Prop :=
  p.peekToken.Typ = .T_EOF ∧ p.lexer.input = []

/-! ## Return paths -/

/-- A cell is valid for a heap of `n` variables: it is `&NilObj` or the
address of an allocated variable. -/
def Cell.Valid (n : Nat) : Cell → Prop
  | .NilObjVar => True
  | .alloc j => j < n

instance Cell.decidableValid (n : Nat) : (c : Cell) → Decidable (c.Valid n)
  | .NilObjVar => isTrue trivial
  | .alloc j => inferInstanceAs (Decidable (j < n))

/-- The environment number `i` is well formed: its `Outer` pointer goes to an
older environment and its names are bound to valid cells. -/
def Environment.WF (ncells i : Nat) (env : Environment) : Prop :=
  (∀ o ∈ env.Outer, o < i) ∧ ∀ b ∈ env.LocalVars, b.2.Valid ncells

instance Environment.decidableWF (ncells i : Nat) (env : Environment) :
    Decidable (env.WF ncells i) :=
  inferInstanceAs (Decidable ((∀ o ∈ env.Outer, o < i) ∧ ∀ b ∈ env.LocalVars, b.2.Valid ncells))

/-- A well-formed memory, as every run builds it: every environment is well
formed and every function value points to an allocated environment. -/
def State.WF (st : State) : Prop :=
  (∀ p ∈ st.envs.enum, p.2.WF st.cells.length p.1) ∧
    ∀ fv ∈ st.funcs, fv.FuncEnv < st.envs.length

instance State.decidableWF (st : State) : Decidable st.WF :=
  inferInstanceAs (Decidable ((∀ p ∈ st.envs.enum, p.2.WF st.cells.length p.1) ∧
    ∀ fv ∈ st.funcs, fv.FuncEnv < st.envs.length))

/-- The heaps of `st'` are at least as long as those of `st`: nothing is
ever freed. -/
def State.le (st st' : State) : Prop :=
  st.cells.length ≤ st'.cells.length ∧ st.envs.length ≤ st'.envs.length ∧
    st.tables.length ≤ st'.tables.length ∧ st.packs.length ≤ st'.packs.length ∧
    st.funcs.length ≤ st'.funcs.length

/-- The memory after a return of the evaluator, started in `st`, is well
formed and extends `st`. -/
def Res.Post {α : Type} (st : State) : Res α → Prop
  | .ok _ st' => st'.WF ∧ st.le st'
  | .err _ st' => st'.WF ∧ st.le st'
  | .panic => True
  | .timeout => True

/-- The object that the name `x` denotes in the environment `env`: the
content of the cell found by `Environment.Get`. -/
def State.lookup (st : State) (env : Nat) (x : GoString) : Option Object :=
  match Environment.Get st env x with
  | none => none
  | some c => st.load c

/-- An evaluator keeps memories well formed: from a well-formed memory and an
allocated environment, a return leaves a well-formed memory that extends the
first. -/
def Evaluator.Sound (ev : Evaluator) : Prop :=
  ∀ e env st, st.WF → env < st.envs.length → (ev e env st).Post st

/-! ## Further definitions -/

/-- The call ended in a Go run-time panic. -/
def Res.panicked {α : Type} : Res α → Bool
  | .panic => true
  | _ => false

/-- The value is an Integer or a Float. -/
def Object.isNumeric (o : Object) : Bool :=
  decide (o.Typ = .TIntegerObj ∨ o.Typ = .TFloatObj)

/-- The bit pattern is a NaN of IEEE-754 binary64: the eleven exponent bits
are all ones and the fraction is not zero. -/
def F64.isNaN (a : F64) : Bool :=
  decide ((a.bits / 2 ^ 52) % 2 ^ 11 = 2047 ∧ a.bits % 2 ^ 52 ≠ 0)

/-- The `==` of Go on two `float64` values given by their bit patterns: a NaN
is equal to nothing, the two zeros are equal, and other values are equal when
their patterns are. -/
def F64.ieeeEq (a b : F64) : Bool :=
  !a.isNaN && !b.isNaN &&
    (decide (a.bits % 2 ^ 64 = b.bits % 2 ^ 64) ||
      decide (a.bits % 2 ^ 63 = 0 ∧ b.bits % 2 ^ 63 = 0))

/-- An instance of `FloatOps` whose `==` and `!=` are those of IEEE-754 on the
bit patterns; its other operations are those of `bitsOps`. -/
def ieeeEqOps : FloatOps :=
  { bitsOps with
    eq := F64.ieeeEq
    ne := fun a b => !F64.ieeeEq a b }

/-- The `==` of the float operations is Euclidean: two values equal to a
third are equal to each other.  It holds of the `==` of IEEE-754, which is
symmetric and transitive. -/
def FloatOps.EqEuclidean (fl : FloatOps) : Prop :=
  ∀ a b c : F64, fl.eq a b = true → fl.eq a c = true → fl.eq b c = true

/-- The memory `tableMemory` in which moreover `k` is bound to a Float NaN,
as `k := 0.0 / 0.0` leaves it. -/
def nanMemory : State :=
  Environment.SetNewObj tableMemory 0 (str "k") (.FloatObj ⟨0x7FF8000000000000⟩)

/-! ## The frame of an evaluation -/

/-- The memory `st'` comes from `st` by steps that add environments and
change, among the environments below `base`, none but `env`. -/
def State.Frame (env base : Nat) (st st' : State) : Prop :=
  st.envs.length ≤ st'.envs.length ∧ ∀ i, i < base → i ≠ env → st'.envs[i]? = st.envs[i]?

/-- The memory after a return of the evaluator, started in `st` for the
environment `env`, is in the frame of `st`. -/
def Res.FramePost {α : Type} (env base : Nat) (st : State) : Res α → Prop
  | .ok _ st' => st.Frame env base st'
  | .err _ st' => st.Frame env base st'
  | .panic => True
  | .timeout => True

/-- An evaluator respects the frame: an evaluation in `env` changes, among
the environments that exist when it starts, none but `env`. -/
def Evaluator.Framed (ev : Evaluator) : Prop :=
  ∀ e env base st, base ≤ st.envs.length → (ev e env st).FramePost env base st

/-! ## The arguments of a call, after the specification -/

/-- The walk over the arguments of a call as the specification has it, for a
call with at least as many arguments as parameters: the arguments are
evaluated by `ev` one after the other in index order, each once, in the
caller's environment `env`; the value of an argument that has a parameter is
installed in a fresh cell under the parameter's name in the call scope `ce`,
the value of an extra argument is dropped. -/
def specArgumentsInOrder (ev : Evaluator) (env ce : Nat) :
    List GoString → List Expression → State → Res Unit
  | _, [], st => .ok () st
  | p :: ps, a :: as, st =>
    (ev a env st).bind fun v st1 =>
      specArgumentsInOrder ev env ce ps as (Environment.SetNewObj st1 ce p v)
  | [], a :: as, st =>
    (ev a env st).bind fun _ st1 => specArgumentsInOrder ev env ce [] as st1

/-- A memory with one environment in which `x` is bound to the Integer 0 and
`f` to the function `func(a){ return a }`, as `x := 0; f := func(a){ return a }`
leaves it. -/
def callMemory : State :=
  { NilObj := .NilValue
    cells := [.IntegerObj 0, .FuncObj 0]
    envs := [{ LocalVars := [(str "x", .alloc 0), (str "f", .alloc 1)], Outer := none },
      { LocalVars := [], Outer := none }]
    tables := []
    packs := []
    funcs := [⟨1, [str "a"], [.ReturnExpr (.Identifier (str "a"))]⟩] }

/-! ## Statement positions -/

/-- The places where an expression can stand, by what may be made of a
wrapper it yields: `value` where the object is used as a value (an operand, a
right-hand side, an element, an argument, a condition), `breaks` for an
element of a block that stands at a value place, `returns` for an element of
a function body or of a block or if-arm that is itself such an element. -/
inductive Level where
  | value
  | breaks
  | returns
  deriving DecidableEq, Repr

/-- The level of the elements of a block that stands at the level `l`. -/
def Level.inBlock : Level → Level
  | .returns => .returns
  | _ => .breaks

mutual
/-- The expression `e` fits the level `l`: every `return` in it stands as an
element of a function body, or of a block or if-arm that stands so; every
`break` stands as an element of a block or if-arm; and the operand of every
`return` and `break` fits a value place. -/
def Expression.fits : Level → Expression → Bool
  | _, .IntegerExpr _ => true
  | _, .FloatExpr _ => true
  | _, .BooleanExpr _ => true
  | _, .StringExpr _ => true
  | _, .NilExpr => true
  | _, .Identifier _ => true
  | _, .TableExpr InitValue => Expression.fitsPairs InitValue
  | _, .PackExpr Exprs => Expression.fitsList .value Exprs
  | _, .ArithPrefixExpr _ Right => Expression.fits .value Right
  | _, .ArithInfixExpr _ Left Right => Expression.fits .value Left && Expression.fits .value Right
  | _, .DeclarationExpr Left Value => Expression.fits .value Left && Expression.fits .value Value
  | _, .AssignExpr Left Value => Expression.fits .value Left && Expression.fits .value Value
  | l, .IfExpr Condition Consequence Alternative =>
    Expression.fits .value Condition && Expression.fitsList l.inBlock Consequence &&
      Expression.fitsOpt l.inBlock Alternative
  | _, .FuncExpr _ Capture Body =>
    Expression.fitsList .value Capture && Expression.fitsList .returns Body
  | _, .CallExpr Function Parameters =>
    Expression.fits .value Function && Expression.fitsList .value Parameters
  | _, .IndexExpr Table Index => Expression.fits .value Table && Expression.fits .value Index
  | l, .BlockExpr Exprs => Expression.fitsList l.inBlock Exprs
  | _, .ForExpr _ _ _ _ => true
  | .returns, .ReturnExpr ReturnValue => Expression.fits .value ReturnValue
  | _, .ReturnExpr _ => false
  | .value, .BreakExpr _ => false
  | _, .BreakExpr BreakValue => Expression.fits .value BreakValue
/-- Every expression of the list fits the level. -/
def Expression.fitsList : Level → List Expression → Bool
  | _, [] => true
  | l, e :: rest => Expression.fits l e && Expression.fitsList l rest
/-- Every key and every value of the entries fits a value place. -/
def Expression.fitsPairs : List (Expression × Expression) → Bool
  | [] => true
  | (k, v) :: rest =>
    Expression.fits .value k && Expression.fits .value v && Expression.fitsPairs rest
/-- Every expression of the optional list fits the level. -/
def Expression.fitsOpt : Level → Option (List Expression) → Bool
  | _, none => true
  | l, some es => Expression.fitsList l es
end

/-- The object is not a Return- or Break-wrapper. -/
def Object.Plain (o : Object) : Prop :=
  o.Typ ≠ .TReturnObj ∧ o.Typ ≠ .TBreakObj

instance Object.decidablePlain (o : Object) : Decidable o.Plain :=
  inferInstanceAs (Decidable (o.Typ ≠ .TReturnObj ∧ o.Typ ≠ .TBreakObj))

/-- What an expression that fits the level `l` may yield: at `value` an
object that is not a wrapper; at `breaks` such an object or the Break-wrapper
of one; at `returns` moreover the Return-wrapper of one. -/
def Object.Within (l : Level) (o : Object) : Prop :=
  match o with
  | .ReturnObj v => l = .returns ∧ v.Plain
  | .BreakObj v => l ≠ .value ∧ v.Plain
  | _ => True

/-- No wrapper is stored in the memory: the package variable `NilObj`, the
binding cells, the packs and the keys and values of the tables hold objects
that are not wrappers; and the body of every function value fits the level
`returns`. -/
def State.Clean (st : State) : Prop :=
  st.NilObj.Plain ∧ (∀ o ∈ st.cells, o.Plain) ∧ (∀ p ∈ st.packs, ∀ o ∈ p, o.Plain) ∧
    (∀ t ∈ st.tables, ∀ kv ∈ t, kv.1.Plain ∧ kv.2.Plain) ∧
    ∀ fv ∈ st.funcs, Expression.fitsList .returns fv.Body = true

/-- A return of the evaluator yields an object in `P` and leaves a memory
without wrappers. -/
def Res.CleanPost {α : Type} (P : α → Prop) : Res α → Prop
  | .ok v st' => P v ∧ st'.Clean
  | .err _ st' => st'.Clean
  | .panic => True
  | .timeout => True

/-- An evaluator contains the wrappers: on an expression that fits the level
`l`, from a memory without wrappers, it yields an object within `l` and
leaves a memory without wrappers. -/
def Evaluator.Contained (ev : Evaluator) : Prop :=
  ∀ l e env st, Expression.fits l e = true → st.Clean → (ev e env st).CleanPost (Object.Within l)

/-- The program
`f := func(x, y){ return if x > y break x else break y }; return f(1, 2)`. -/
def maxProgram : List Expression :=
  [.DeclarationExpr (.Identifier (str "f"))
    (.FuncExpr [str "x", str "y"] []
      [.ReturnExpr (.IfExpr (.ArithInfixExpr .T_GT (.Identifier (str "x")) (.Identifier (str "y")))
        [.BreakExpr (.Identifier (str "x"))] (some [.BreakExpr (.Identifier (str "y"))]))]),
   .ReturnExpr (.CallExpr (.Identifier (str "f")) [.IntegerExpr 1, .IntegerExpr 2])]

/-- The expressions `es`, evaluated by `ev` one after the other in `env` from
the memory `st`, each yield an object that is neither a Return- nor a
Break-wrapper, and leave the memory `st'`. -/
inductive ValueSteps (ev : Evaluator) (env : Nat) : List Expression → State → State → Prop where
  | nil (st : State) : ValueSteps ev env [] st st
  | cons (e : Expression) (rest : List Expression) (st st1 st' : State) (o : Object) :
      ev e env st = .ok o st1 → o.Typ ≠ .TReturnObj → o.Typ ≠ .TBreakObj →
      ValueSteps ev env rest st1 st' → ValueSteps ev env (e :: rest) st st'

/-- A memory with one environment in which `x` is bound to the Integer 1 and
`f` to the function `func(){ return x }`, as `x := 1; f := func(){ return x }`
leaves it; the second environment is the closed capture scope of `f`. -/
def scopeMemory : State :=
  { NilObj := .NilValue
    cells := [.IntegerObj 1, .FuncObj 0]
    envs := [{ LocalVars := [(str "x", .alloc 0), (str "f", .alloc 1)], Outer := none },
      { LocalVars := [], Outer := none }]
    tables := []
    packs := []
    funcs := [⟨1, [], [.ReturnExpr (.Identifier (str "x"))]⟩] }

/-! ## Numbers in the input -/

/-- The input `rest` ends a number: it is empty or begins with a byte that is
neither a digit nor a dot. -/
def endsNumber : List Nat → Bool
  | [] => true
  | c :: _ => !(isNumber c) && decide (c ≠ 46)

/-- The text that `readNumber` returns for the digits read: the run itself, or
`0` when it is empty. -/
def orZero (digits : GoString) : GoString := if digits = [] then [48] else digits

/-- The decimal value of a run of digits, as the specification reads an
integer literal. -/
def specDecimalValue (digits : List Nat) : Nat :=
  digits.foldl (fun acc c => acc * 10 + (c - 48)) 0

/-! ## Positions of the parser -/

/-- The expression that the prefix handler registered for the token `t`
builds from `t` alone: the handlers `parseInteger`, `parseFloat`,
`parseBoolean`, `parseString`, `parseNil` and `parserIdentifier` read one
token; `none` for the tokens of the other handlers and for a number text that
does not convert. -/
def atomExpr (fl : FloatOps) (t : Token) : Option Expression :=
  match t.Typ with
  | .T_INT => (ParseInt t.Message).map .IntegerExpr
  | .T_FLOAT => (fl.parse t.Message).map .FloatExpr
  | .T_TRUE => some (.BooleanExpr true)
  | .T_FALSE => some (.BooleanExpr false)
  | .T_STRING => some (.StringExpr t.Message)
  | .T_NIL => some .NilExpr
  | .T_IDENT => some (.Identifier t.Message)
  | _ => none

/-- The loop of `parseExpr` at the minimum precedence `precedence` ends at
the parser `p`: the precedence of the peek token does not exceed the minimum,
or no infix handler is registered for it. -/
def Parser.StopsAt (precedence : Precedence) (p : Parser) : Prop :=
  tokenPrecedences p.peekToken.Typ ≤ precedence ∨ infixParseFns p.peekToken.Typ = none

/-- The node that the handler of `:=` (`parserDeclarationExpr`) or of `=`
(`parserAssignExpr`) builds. -/
def assignNode (op : TokenType) (left right : Expression) : Expression :=
  if op = .T_DECLARATION then .DeclarationExpr left right else .AssignExpr left right

/-- The parser on the source text `src` after `k` calls of `nextToken`. -/
def parserAfter (src : String) : Nat → Parser
  | 0 => Parser.New (Lexer.New (str src))
  | k + 1 =>
    match (parserAfter src k).nextToken (src.length + 2) with
    | none => parserAfter src k
    | some (_, p) => p

/-! ## The chains of environments -/

/-- The memory `st'` comes from `st` by steps that add environments and keep
the `Outer` pointer of every environment below `base`. -/
def State.Chain (base : Nat) (st st' : State) : Prop :=
  st.envs.length ≤ st'.envs.length ∧
    ∀ i, i < base → st'.envs[i]?.map (·.Outer) = st.envs[i]?.map (·.Outer)

/-- The memory after a return of the evaluator, started in `st`, keeps the
chains of `st`. -/
def Res.ChainPost {α : Type} (base : Nat) (st : State) : Res α → Prop
  | .ok _ st' => st.Chain base st'
  | .err _ st' => st.Chain base st'
  | .panic => True
  | .timeout => True

/-- An evaluator keeps the chains: an evaluation changes the `Outer` pointer
of no environment that exists when it starts. -/
def Evaluator.Chained (ev : Evaluator) : Prop :=
  ∀ e env base st, base ≤ st.envs.length → (ev e env st).ChainPost base st

/-! ## Chains of scopes -/

/-- The scopes `chain` are those of the environment `e` and of its outer
environments in the heap `envs`, innermost first, up to the one whose `Outer`
pointer is nil. -/
inductive ScopeChain (envs : List Environment) : Nat → List Environment → Prop where
  | last (e : Nat) (env : Environment) :
      envs[e]? = some env → env.Outer = none → ScopeChain envs e [env]
  | cons (e o : Nat) (env : Environment) (rest : List Environment) :
      envs[e]? = some env → env.Outer = some o → ScopeChain envs o rest →
      ScopeChain envs e (env :: rest)

/-- The lookup of a name in a chain of scopes as the specification has it:
the cell bound under the name in the innermost scope that binds it, nil when
no scope of the chain binds it. -/
def specLookup (varName : GoString) : List Environment → Option Cell
  | [] => none
  | env :: rest =>
    match mapGet varName env.LocalVars with
    | some c => some c
    | none => specLookup varName rest

/-- The environment `outer` is reached from the environment `inner` by one or
more `Outer` pointers: `inner` is an inner scope of `outer`. -/
inductive Encloses (envs : List Environment) : Nat → Nat → Prop where
  | direct (outer inner : Nat) (env : Environment) :
      envs[inner]? = some env → env.Outer = some outer → Encloses envs outer inner
  | step (outer mid inner : Nat) (env : Environment) :
      envs[inner]? = some env → env.Outer = some mid → Encloses envs outer mid →
      Encloses envs outer inner

/-- The memory of the test `TestEnv`: `env1`, its inner environment `env2`
and the inner environment `env3` of `env2`, with `hello` bound to `world` in
`env1` and to `shijie` in `env2`, and `k2` bound to `v2` in `env2`. -/
def testEnvMemory : State :=
  Environment.SetNewObj
    (Environment.SetNewObj
      (Environment.SetNewObj (NewInnerEnv 1 (NewInnerEnv 0 (NewEnv State.init).2).2).2
        0 (str "hello") (.StringObj (str "world")))
      1 (str "hello") (.StringObj (str "shijie")))
    1 (str "k2") (.StringObj (str "v2"))

/-! ## Relations between parsers -/

/-- A relation between parsers that the parse functions respect: related
parsers have the same peek token, `nextToken` with the same fuel takes
related parsers to related parsers, and so does the recording of the same
parse error on both sides. -/
structure ParserSim (S : Parser → Parser → Prop) : Prop where
  peek : ∀ p q, S p q → p.peekToken = q.peekToken
  next : ∀ p q n t p1, S p q → p.nextToken n = some (t, p1) →
    ∃ q1, q.nextToken n = some (t, q1) ∧ S p1 q1
  error : ∀ p q e, S p q →
    S { p with Errors := p.Errors ++ [.ParseError e] }
      { q with Errors := q.Errors ++ [.ParseError e] }

/-- Two outcomes of a parse function agree up to the relation `S`: when the
first is a result or an error, the second is the same result or error and the
parsers left are related; nothing is said when the first ran out of fuel. -/
def PRes.Sim {α : Type} (S : Parser → Parser → Prop) : PRes α → PRes α → Prop
  | .ok v p, .ok w q => v = w ∧ S p q
  | .err e p, .err f q => e = f ∧ S p q
  | .timeout, _ => True
  | _, _ => False

/-- The same for the loops that return an option. -/
def optSim {α : Type} (S : Parser → Parser → Prop) : Option (α × Parser) → Option (α × Parser) → Prop
  | some (v, p), some (w, q) => v = w ∧ S p q
  | none, _ => True
  | _, _ => False

/-! ## Illegal tokens -/

/-- Holds when repeated calls of `NextToken` take the lexer `l` to the lexer
`l2` and return the tokens `ts`, in this order. -/
inductive Lexer.Reaches : Lexer → List Token → Lexer → Prop where
  | refl (l : Lexer) : Lexer.Reaches l [] l
  | step (n : Nat) (l l1 l2 : Lexer) (t : Token) (ts : List Token) :
      l.NextToken n = some (t, l1) → Lexer.Reaches l1 ts l2 → Lexer.Reaches l (t :: ts) l2

/-- The relation `R` relates each lexer to one that returns the same tokens
without the illegal ones: a token of the first lexer that is not illegal is
the next token of the second, an illegal token of the first is matched by
nothing. -/
def SkipsIllegal (R : Lexer → Lexer → Prop) : Prop :=
  ∀ l l', R l l' → ∀ n t l1, l.NextToken n = some (t, l1) →
    if t.Typ = .T_ILLEGAL then R l1 l'
    else ∃ l1', l'.NextToken n = some (t, l1') ∧ R l1 l1'

/-- Tells the `*TokenError` elements of `Parser.Errors` from the others. -/
def ParserError.isTokenError : ParserError → Bool
  | .TokenError _ => true
  | .ParseError _ => false

/-- The parser `q` reads the tokens of `p` without the illegal ones, is at
the same token, and has the errors of `p` that are not token errors. -/
def skipSim (R : Lexer → Lexer → Prop) (p q : Parser) : Prop :=
  p.peekToken = q.peekToken ∧ R p.lexer q.lexer ∧
    q.Errors = p.Errors.filter fun e => !e.isTokenError

/-- The parser `p` has read tokens `ts` from the lexer `l0`, its peek token
is one of them and is not illegal, and each illegal token of `ts` has its
`TokenError` in `p.Errors`. -/
def recorded (l0 : Lexer) (p : Parser) : Prop :=
  ∃ ts, Lexer.Reaches l0 ts p.lexer ∧ p.peekToken ∈ ts ∧ p.peekToken.Typ ≠ .T_ILLEGAL ∧
    ∀ t ∈ ts, t.Typ = .T_ILLEGAL → ParserError.TokenError t ∈ p.Errors

/-- The lexer states of the input `1 + @ 2`, each with the lexer state of
`1 + 2` at the same place. -/
def illegalExample (l l' : Lexer) : Prop :=
  (l = Lexer.New (str "1 + @ 2") ∧ l' = Lexer.New (str "1 + 2")) ∨
  (l = ⟨str " + @ 2", 1⟩ ∧ l' = ⟨str " + 2", 1⟩) ∨
  (l = ⟨str " @ 2", 1⟩ ∧ l' = ⟨str " 2", 1⟩) ∨
  (l = ⟨str " 2", 1⟩ ∧ l' = ⟨str " 2", 1⟩) ∨
  (l = ⟨[], 1⟩ ∧ l' = ⟨[], 1⟩)

/-! ## Scopes during an evaluation -/

/-- The memory `st1` comes from the memory `st` by steps of an evaluation in
the environment `env`: it is well formed, nothing is freed, and among the
environments below `base` none but `env` is changed and no `Outer` pointer is
changed. -/
def State.Stable (env base : Nat) (st st1 : State) : Prop :=
  st1.WF ∧ st.le st1 ∧ st.Frame env base st1 ∧ st.Chain base st1

/-- The entries of a capture list that leave the binding of `x` in the
capture scope `cap` as it is, run by the loop of `evalFuncExpr` with
`Eval fl n` from the memory `st` to the memory `st'`: a bare identifier other
than `x` that the defining environment `env` binds, or a declaration that
`evalDeclarationExpr` evaluates in the capture scope without binding `x`
there. -/
inductive CaptureSteps (fl : FloatOps) (n : Nat) (x : GoString) (env cap : Nat) :
    List Expression → State → State → Prop where
  | nil (st : State) : CaptureSteps fl n x env cap [] st st
  | ident (y : GoString) (c : Cell) (rest : List Expression) (st st' : State) :
      y ≠ x → Environment.Get st env y = some c →
      CaptureSteps fl n x env cap rest (Environment.Set st cap y c) st' →
      CaptureSteps fl n x env cap (.Identifier y :: rest) st st'
  | decl (left value : Expression) (rest : List Expression) (st st1 st' : State) (v : Object) :
      evalDeclarationExpr fl (Eval fl n) left value cap st = .ok v st1 →
      st1.localVar cap x = st.localVar cap x →
      CaptureSteps fl n x env cap rest st1 st' →
      CaptureSteps fl n x env cap (.DeclarationExpr left value :: rest) st st'

/-- The iterations of the loop of `evalCallExpr` over the arguments `as`:
each is evaluated in the caller's environment and bound to a fresh cell under
the parameter of its index in the call scope, or dropped when no parameter is
left.  The result is the list of the parameters that are still without an
argument. -/
def callPrefix (ev : Evaluator) (env funcCallEnv : Nat) :
    List GoString → List Expression → State → Res (List GoString)
  | ps, [], st => .ok ps st
  | p :: ps, a :: as, st =>
    (ev a env st).bind fun obj st1 =>
      let (c, st2) := st1.newCell obj
      callPrefix ev env funcCallEnv ps as (Environment.Set st2 funcCallEnv p c)
  | [], a :: as, st => (ev a env st).bind fun _ st1 => callPrefix ev env funcCallEnv [] as st1

/-- What an evaluation is at work on: an expression, evaluated by `Eval`; a
target `left` that `declareAssignHelper` gives the `value` to; or the
targets `lefts` of a pack that `declareAssignPack` gives the elements `objs`
to. -/
inductive Work where
  | expr (e : Expression)
  | target (fn : AssignFn) (left : Expression) (value : Object)
  | targets (fn : AssignFn) (lefts : List Expression) (objs : List Object)

/-- The work `w`, done in `env` from the memory `st` (an expression evaluated
with `Eval fl k`, targets assigned with `Eval fl k` as the evaluator of their
sub-expressions), arrives at the evaluation of the sub-expression `t` with
`Eval fl j` in the environment `tenv` from the memory `tst`, the
sub-expressions evaluated before having returned values.  The constructors
follow the evaluator: `here` is the arrival; the others name the place of
the sub-expression that leads to `t`, each with the evaluations that `Eval`
makes before it.  On the way no scope in which a sub-expression on the way is
evaluated comes to bind `x` itself: the environment `env`, and the scopes
that blocks, `if` and the capture lists of function literals on the way
create.  The bodies of the functions called on the way are no part of the
way. -/
inductive Reaches (fl : FloatOps) (x : GoString) (t : Expression) (tenv : Nat) (tst : State)
    (j : Nat) : Nat → Work → Nat → State → Prop where
  | here : Reaches fl x t tenv tst j j (.expr t) tenv tst
  | operand (k : Nat) (op : TokenType) (r : Expression) (env : Nat) (st : State) :
      Reaches fl x t tenv tst j k (.expr r) env st →
      Reaches fl x t tenv tst j (k + 1) (.expr (.ArithPrefixExpr op r)) env st
  | left (k : Nat) (op : TokenType) (l r : Expression) (env : Nat) (st : State) :
      Reaches fl x t tenv tst j k (.expr l) env st →
      Reaches fl x t tenv tst j (k + 1) (.expr (.ArithInfixExpr op l r)) env st
  | right (k : Nat) (op : TokenType) (l r : Expression) (env : Nat) (st st1 : State)
      (a : Object) :
      Eval fl k l env st = .ok a st1 → st1.localVar env x = none →
      Reaches fl x t tenv tst j k (.expr r) env st1 →
      Reaches fl x t tenv tst j (k + 1) (.expr (.ArithInfixExpr op l r)) env st
  | returned (k : Nat) (e : Expression) (env : Nat) (st : State) :
      Reaches fl x t tenv tst j k (.expr e) env st →
      Reaches fl x t tenv tst j (k + 1) (.expr (.ReturnExpr e)) env st
  | broken (k : Nat) (e : Expression) (env : Nat) (st : State) :
      Reaches fl x t tenv tst j k (.expr e) env st →
      Reaches fl x t tenv tst j (k + 1) (.expr (.BreakExpr e)) env st
  | declareValue (k : Nat) (left e : Expression) (env : Nat) (st : State) :
      Reaches fl x t tenv tst j k (.expr e) env st →
      Reaches fl x t tenv tst j (k + 1) (.expr (.DeclarationExpr left e)) env st
  | assignValue (k : Nat) (left e : Expression) (env : Nat) (st : State) :
      Reaches fl x t tenv tst j k (.expr e) env st →
      Reaches fl x t tenv tst j (k + 1) (.expr (.AssignExpr left e)) env st
  | declareTarget (k : Nat) (left e : Expression) (env : Nat) (st st1 : State) (v : Object) :
      Eval fl k e env st = .ok v st1 → st1.localVar env x = none →
      Reaches fl x t tenv tst j k (.target .declare left v) env st1 →
      Reaches fl x t tenv tst j (k + 1) (.expr (.DeclarationExpr left e)) env st
  | assignTarget (k : Nat) (left e : Expression) (env : Nat) (st st1 : State) (v : Object) :
      Eval fl k e env st = .ok v st1 → st1.localVar env x = none →
      Reaches fl x t tenv tst j k (.target .assign left v) env st1 →
      Reaches fl x t tenv tst j (k + 1) (.expr (.AssignExpr left e)) env st
  | targetTable (k : Nat) (fn : AssignFn) (tb ti : Expression) (v : Object) (env : Nat)
      (st : State) :
      Reaches fl x t tenv tst j k (.expr tb) env st →
      Reaches fl x t tenv tst j k (.target fn (.IndexExpr tb ti) v) env st
  | targetKey (k : Nat) (fn : AssignFn) (tb ti : Expression) (v : Object) (env : Nat)
      (st st1 : State) (table : Nat) :
      Eval fl k tb env st = .ok (.TableObj table) st1 → st1.localVar env x = none →
      Reaches fl x t tenv tst j k (.expr ti) env st1 →
      Reaches fl x t tenv tst j k (.target fn (.IndexExpr tb ti) v) env st
  | targetPack (k : Nat) (fn : AssignFn) (lefts : List Expression) (p : Nat)
      (objs : List Object) (env : Nat) (st : State) :
      st.packs[p]? = some objs →
      Reaches fl x t tenv tst j k (.targets fn lefts objs) env st →
      Reaches fl x t tenv tst j k (.target fn (.PackExpr lefts) (.PackObj p)) env st
  | targetFirst (k : Nat) (fn : AssignFn) (left : Expression) (rest : List Expression)
      (v : Object) (env : Nat) (st : State) :
      v.Typ ≠ .TPackObj →
      Reaches fl x t tenv tst j k (.target fn left v) env st →
      Reaches fl x t tenv tst j k (.target fn (.PackExpr (left :: rest)) v) env st
  | targetsHead (k : Nat) (fn : AssignFn) (left : Expression) (rest : List Expression)
      (obj : Object) (objs : List Object) (env : Nat) (st : State) :
      Reaches fl x t tenv tst j k (.target fn left obj) env st →
      Reaches fl x t tenv tst j k (.targets fn (left :: rest) (obj :: objs)) env st
  | targetsHeadNil (k : Nat) (fn : AssignFn) (left : Expression) (rest : List Expression)
      (env : Nat) (st : State) :
      Reaches fl x t tenv tst j k (.target fn left st.NilObj) env st →
      Reaches fl x t tenv tst j k (.targets fn (left :: rest) []) env st
  | targetsTail (k : Nat) (fn : AssignFn) (left : Expression) (rest : List Expression)
      (obj : Object) (objs : List Object) (env : Nat) (st st1 : State) :
      declareAssignHelper fl (Eval fl k) fn left obj env st = .ok () st1 →
      st1.localVar env x = none →
      Reaches fl x t tenv tst j k (.targets fn rest objs) env st1 →
      Reaches fl x t tenv tst j k (.targets fn (left :: rest) (obj :: objs)) env st
  | targetsTailNil (k : Nat) (fn : AssignFn) (left : Expression) (rest : List Expression)
      (env : Nat) (st st1 : State) :
      declareAssignHelper fl (Eval fl k) fn left st.NilObj env st = .ok () st1 →
      st1.localVar env x = none →
      Reaches fl x t tenv tst j k (.targets fn rest []) env st1 →
      Reaches fl x t tenv tst j k (.targets fn (left :: rest) []) env st
  | indexTable (k : Nat) (tb ti : Expression) (env : Nat) (st : State) :
      Reaches fl x t tenv tst j k (.expr tb) env st →
      Reaches fl x t tenv tst j (k + 1) (.expr (.IndexExpr tb ti)) env st
  | indexKey (k : Nat) (tb ti : Expression) (env : Nat) (st st1 : State) (table : Nat) :
      Eval fl k tb env st = .ok (.TableObj table) st1 → st1.localVar env x = none →
      Reaches fl x t tenv tst j k (.expr ti) env st1 →
      Reaches fl x t tenv tst j (k + 1) (.expr (.IndexExpr tb ti)) env st
  | block (k : Nat) (pre : List Expression) (e : Expression) (rest : List Expression)
      (env : Nat) (st st1 : State) :
      ValueSteps (Eval fl k) (NewInnerEnv env st).1 pre (NewInnerEnv env st).2 st1 →
      st1.localVar (NewInnerEnv env st).1 x = none →
      Reaches fl x t tenv tst j k (.expr e) (NewInnerEnv env st).1 st1 →
      Reaches fl x t tenv tst j (k + 1) (.expr (.BlockExpr (pre ++ e :: rest))) env st
  | ifCondition (k : Nat) (c : Expression) (A : List Expression)
      (B : Option (List Expression)) (env : Nat) (st : State) :
      Reaches fl x t tenv tst j k (.expr c) (NewInnerEnv env st).1 (NewInnerEnv env st).2 →
      Reaches fl x t tenv tst j (k + 1) (.expr (.IfExpr c A B)) env st
  | ifConsequence (k : Nat) (c : Expression) (A : List Expression)
      (B : Option (List Expression)) (env : Nat) (st st1 : State) (cv : Object) :
      Eval fl k c (NewInnerEnv env st).1 (NewInnerEnv env st).2 = .ok cv st1 →
      toBooleanObj cv = true → st1.localVar (NewInnerEnv env st).1 x = none →
      Reaches fl x t tenv tst j k (.expr (.BlockExpr A)) (NewInnerEnv env st).1 st1 →
      Reaches fl x t tenv tst j (k + 1) (.expr (.IfExpr c A B)) env st
  | ifAlternative (k : Nat) (c : Expression) (A B : List Expression) (env : Nat)
      (st st1 : State) (cv : Object) :
      Eval fl k c (NewInnerEnv env st).1 (NewInnerEnv env st).2 = .ok cv st1 →
      toBooleanObj cv = false → st1.localVar (NewInnerEnv env st).1 x = none →
      Reaches fl x t tenv tst j k (.expr (.BlockExpr B)) (NewInnerEnv env st).1 st1 →
      Reaches fl x t tenv tst j (k + 1) (.expr (.IfExpr c A (some B))) env st
  | callee (k : Nat) (fe : Expression) (args : List Expression) (env : Nat) (st : State) :
      Reaches fl x t tenv tst j k (.expr fe) env st →
      Reaches fl x t tenv tst j (k + 1) (.expr (.CallExpr fe args)) env st
  | argument (k : Nat) (fe : Expression) (pre : List Expression) (a : Expression)
      (rest : List Expression) (env : Nat) (st st1 st2 : State) (f : Nat)
      (fnObj : FuncValue) (unbound : List GoString) :
      Eval fl k fe env st = .ok (.FuncObj f) st1 → st1.funcs[f]? = some fnObj →
      callPrefix (Eval fl k) env st1.envs.length fnObj.Parameters pre
        (NewInnerEnv fnObj.FuncEnv st1).2 = .ok unbound st2 →
      st2.localVar env x = none → Reaches fl x t tenv tst j k (.expr a) env st2 →
      Reaches fl x t tenv tst j (k + 1) (.expr (.CallExpr fe (pre ++ a :: rest))) env st
  | packElement (k : Nat) (pre : List Expression) (e : Expression) (rest : List Expression)
      (env : Nat) (st st1 : State) :
      evalPackLoop (Eval fl k) st.packs.length env pre { st with packs := st.packs ++ [[]] } =
        .ok () st1 →
      st1.localVar env x = none → Reaches fl x t tenv tst j k (.expr e) env st1 →
      Reaches fl x t tenv tst j (k + 1) (.expr (.PackExpr (pre ++ e :: rest))) env st
  | tableKey (k : Nat) (pre : List (Expression × Expression)) (key value : Expression)
      (rest : List (Expression × Expression)) (env : Nat) (st st1 : State) :
      evalTableLoop fl (Eval fl k) st.tables.length env pre
        { st with tables := st.tables ++ [[]] } = .ok () st1 →
      st1.localVar env x = none → Reaches fl x t tenv tst j k (.expr key) env st1 →
      Reaches fl x t tenv tst j (k + 1) (.expr (.TableExpr (pre ++ (key, value) :: rest)))
        env st
  | tableValue (k : Nat) (pre : List (Expression × Expression)) (key value : Expression)
      (rest : List (Expression × Expression)) (env : Nat) (st st1 st2 : State)
      (kv : Object) :
      evalTableLoop fl (Eval fl k) st.tables.length env pre
        { st with tables := st.tables ++ [[]] } = .ok () st1 →
      Eval fl k key env st1 = .ok kv st2 →
      st2.localVar env x = none → Reaches fl x t tenv tst j k (.expr value) env st2 →
      Reaches fl x t tenv tst j (k + 1) (.expr (.TableExpr (pre ++ (key, value) :: rest)))
        env st
  | captureValue (k : Nat) (ps : List GoString) (pre : List Expression)
      (left value : Expression) (rest body : List Expression) (env : Nat)
      (st st1 : State) :
      captureLoop fl (Eval fl k) env st.envs.length pre (NewInnerEnv env st).2 = .ok () st1 →
      st1.localVar st.envs.length x = none →
      Reaches fl x t tenv tst j k (.expr value) st.envs.length st1 →
      Reaches fl x t tenv tst j (k + 1)
        (.expr (.FuncExpr ps (pre ++ .DeclarationExpr left value :: rest) body)) env st
  | captureTarget (k : Nat) (ps : List GoString) (pre : List Expression)
      (left value : Expression) (rest body : List Expression) (env : Nat)
      (st st1 st2 : State) (v : Object) :
      captureLoop fl (Eval fl k) env st.envs.length pre (NewInnerEnv env st).2 = .ok () st1 →
      Eval fl k value st.envs.length st1 = .ok v st2 →
      st2.localVar st.envs.length x = none →
      Reaches fl x t tenv tst j k (.target .declare left v) st.envs.length st2 →
      Reaches fl x t tenv tst j (k + 1)
        (.expr (.FuncExpr ps (pre ++ .DeclarationExpr left value :: rest) body)) env st

/-- The call `fe(args)`, evaluated with `Eval fl (K + 1)` in the environment
`env` from the memory `st`, has come to the element `e0` of the body of the
function that it calls (`evalCallExpr`): the callee has evaluated to the
function value `fnObj`, whose capture scope `fnObj.FuncEnv` is the closed
environment `cap`; the call scope `ce` has been created with the capture
scope as its outer scope and the arguments have been bound in it; the
elements `pre` of the body before `e0` have yielded objects that are not
wrappers and have left the memory `st4`.  The caller's environment is not
the capture scope of the function; the name `x` is none of the parameters,
and the elements `pre` have not left it bound in the call scope itself. -/
structure CallAt (fl : FloatOps) (x : GoString) (K : Nat) (fe : Expression)
    (args : List Expression) (env : Nat) (st : State) (fnObj : FuncValue) (cap : Environment)
    (ce : Nat) (pre : List Expression) (e0 : Expression) (rest : List Expression)
    (st4 : State) : Prop where
  run : ∃ f st1 st3, Eval fl K fe env st = .ok (.FuncObj f) st1 ∧ st1.funcs[f]? = some fnObj ∧
    st1.envs[fnObj.FuncEnv]? = some cap ∧ ce = st1.envs.length ∧
    callLoop (Eval fl K) env ce fnObj.Parameters args (NewInnerEnv fnObj.FuncEnv st1).2 =
      .ok () st3 ∧
    ValueSteps (Eval fl K) ce pre st3 st4
  closed : cap.Outer = none
  caller : env ≠ fnObj.FuncEnv
  body : fnObj.Body = pre ++ e0 :: rest
  parameter : x ∉ fnObj.Parameters
  undeclared : st4.localVar ce x = none

/-- A program with two closures that capture `x` by its bare identifier. -/
def aliasSource : String :=
  "x := 0; f := func()[x]\x7b x = 7; if true \x7b x = x + 5 \x7d \x7d; " ++
  "g := func()[x]\x7b y := 1 + x; return x \x7d"

/-- The function value of `f` in `aliasSource`. -/
def aliasF : FuncValue :=
  ⟨1, [], [.AssignExpr (.Identifier (str "x")) (.IntegerExpr 7),
    .IfExpr (.BooleanExpr true)
      [.AssignExpr (.Identifier (str "x"))
        (.ArithInfixExpr .T_PLUS (.Identifier (str "x")) (.IntegerExpr 5))] none]⟩

/-- The function value of `g` in `aliasSource`. -/
def aliasG : FuncValue :=
  ⟨2, [], [.DeclarationExpr (.Identifier (str "y"))
      (.ArithInfixExpr .T_PLUS (.IntegerExpr 1) (.Identifier (str "x"))),
    .ReturnExpr (.Identifier (str "x"))]⟩

/-- The memory that the program `aliasSource` leaves: the environments 1 and
2 are the closed capture scopes of `f` and `g`. -/
def aliasMemory : State :=
  { NilObj := .NilValue
    cells := [.IntegerObj 0, .FuncObj 0, .FuncObj 1]
    envs := [{ LocalVars := [(str "x", .alloc 0), (str "f", .alloc 1), (str "g", .alloc 2)],
               Outer := none },
      { LocalVars := [(str "x", .alloc 0)], Outer := none },
      { LocalVars := [(str "x", .alloc 0)], Outer := none }]
    tables := []
    packs := []
    funcs := [aliasF, aliasG] }

/-- The memory in which the call `f()` from `aliasMemory` begins the body of
`f`: the environment 3 is the call scope. -/
def aliasCallF : State := (NewInnerEnv 1 aliasMemory).2

/-- The memory in which the call `f()` from `aliasMemory` arrives at the
assignment `x = x + 5`: the environments 4 and 5 are the scopes of the `if`
and of its block. -/
def aliasInnerF : State :=
  (NewInnerEnv 4 (NewInnerEnv 3 (aliasCallF.store (.alloc 0) (.IntegerObj 7))).2).2

/-- The memory in which the call `g()` from `aliasMemory` begins the body of
`g`: the environment 3 is the call scope. -/
def aliasCallG : State := (NewInnerEnv 2 aliasMemory).2

@[simp] theorem Res.bind_ok {α β : Type} (v : α) (st : State) (f : α → State → Res β) :
    (Res.ok v st).bind f = f v st := rfl

@[simp] theorem Res.bind_err {α β : Type} (e : EvalError) (st : State) (f : α → State → Res β) :
    (Res.err e st : Res α).bind f = .err e st := rfl

@[simp] theorem Res.bind_panic {α β : Type} (f : α → State → Res β) :
    (Res.panic : Res α).bind f = .panic := rfl

@[simp] theorem Res.bind_timeout {α β : Type} (f : α → State → Res β) :
    (Res.timeout : Res α).bind f = .timeout := rfl

theorem toBooleanObj_eq_false (x : Object) :
    toBooleanObj x = false ↔ (x = .NilValue ∨ x = .BooleanObj false) := by
  cases x <;> simp [toBooleanObj]

/-! ## The cases of `Eval` -/

section EvalCases
variable (fl : FloatOps) (n env : Nat) (st : State)

theorem Eval_zero (e : Expression) : Eval fl 0 e env st = .timeout := rfl

theorem Eval_IntegerExpr (v : Int) :
    Eval fl (n + 1) (.IntegerExpr v) env st = .ok (.IntegerObj v) st := rfl

theorem Eval_FloatExpr (v : F64) :
    Eval fl (n + 1) (.FloatExpr v) env st = .ok (.FloatObj v) st := rfl

theorem Eval_BooleanExpr (v : Bool) :
    Eval fl (n + 1) (.BooleanExpr v) env st = .ok (.BooleanObj v) st := rfl

theorem Eval_StringExpr (v : GoString) :
    Eval fl (n + 1) (.StringExpr v) env st = .ok (.StringObj v) st := rfl

theorem Eval_NilExpr : Eval fl (n + 1) .NilExpr env st = .ok st.NilObj st := rfl

theorem Eval_TableExpr (InitValue : List (Expression × Expression)) :
    Eval fl (n + 1) (.TableExpr InitValue) env st =
      evalTableExpr fl (Eval fl n) InitValue env st := rfl

theorem Eval_ArithPrefixExpr (Op : TokenType) (Right : Expression) :
    Eval fl (n + 1) (.ArithPrefixExpr Op Right) env st =
      evalArithPrefixExpr fl (Eval fl n) Op Right env st := rfl

theorem Eval_ArithInfixExpr (Op : TokenType) (Left Right : Expression) :
    Eval fl (n + 1) (.ArithInfixExpr Op Left Right) env st =
      evalArithInfixExpr fl (Eval fl n) Op Left Right env st := rfl

theorem Eval_BlockExpr (Exprs : List Expression) :
    Eval fl (n + 1) (.BlockExpr Exprs) env st =
      evalBlockExpr (Eval fl n) Exprs (NewInnerEnv env st).1 (NewInnerEnv env st).2 := rfl

theorem Eval_IndexExpr (Table Index : Expression) :
    Eval fl (n + 1) (.IndexExpr Table Index) env st =
      evalIndexExpr fl (Eval fl n) Table Index env st := rfl

theorem Eval_FuncExpr (Parameters : List GoString) (Capture Body : List Expression) :
    Eval fl (n + 1) (.FuncExpr Parameters Capture Body) env st =
      evalFuncExpr fl (Eval fl n) Parameters Capture Body env st := rfl

theorem Eval_CallExpr (Function : Expression) (Parameters : List Expression) :
    Eval fl (n + 1) (.CallExpr Function Parameters) env st =
      evalCallExpr (Eval fl n) Function Parameters env st := rfl

theorem Eval_DeclarationExpr (Left Value : Expression) :
    Eval fl (n + 1) (.DeclarationExpr Left Value) env st =
      evalDeclarationExpr fl (Eval fl n) Left Value env st := rfl

theorem Eval_AssignExpr (Left Value : Expression) :
    Eval fl (n + 1) (.AssignExpr Left Value) env st =
      evalAssignExpr fl (Eval fl n) Left Value env st := rfl

theorem Eval_Identifier (Ident : GoString) :
    Eval fl (n + 1) (.Identifier Ident) env st = evalIdentifierExpr Ident env st := rfl

theorem Eval_ReturnExpr (ReturnValue : Expression) :
    Eval fl (n + 1) (.ReturnExpr ReturnValue) env st =
      (Eval fl n ReturnValue env st).bind fun obj st1 => .ok (.ReturnObj obj) st1 := rfl

theorem Eval_BreakExpr (BreakValue : Expression) :
    Eval fl (n + 1) (.BreakExpr BreakValue) env st =
      (Eval fl n BreakValue env st).bind fun obj st1 => .ok (.BreakObj obj) st1 := rfl

theorem Eval_ForExpr (a b c : Expression) (body : List Expression) :
    Eval fl (n + 1) (.ForExpr a b c body) env st = .panic := rfl

theorem evalIfExpr_eq (ev : Evaluator) (Condition : Expression) (Consequence : List Expression)
    (Alternative : Option (List Expression)) :
    evalIfExpr ev Condition Consequence Alternative env st =
      (ev Condition (NewInnerEnv env st).1 (NewInnerEnv env st).2).bind fun condition st1 =>
        if toBooleanObj condition then
          ev (.BlockExpr Consequence) (NewInnerEnv env st).1 st1
        else
          match Alternative with
          | some alt => ev (.BlockExpr alt) (NewInnerEnv env st).1 st1
          | none => .ok st1.NilObj st1 := rfl

end EvalCases

/-! ## Return paths -/

theorem evalBlockExpr_cons_of_return (ev : Evaluator) (x : Expression) (rest : List Expression)
    (env : Nat) (st st' : State) (v : Object) (h : ev x env st = .ok (.ReturnObj v) st') :
    evalBlockExpr ev (x :: rest) env st = .ok (.ReturnObj v) st' := by
  simp [evalBlockExpr, h]

theorem evalBlockExpr_cons_of_value (ev : Evaluator) (x : Expression) (rest : List Expression)
    (env : Nat) (st st1 : State) (o : Object) (h : ev x env st = .ok o st1)
    (h1 : o.Typ ≠ .TReturnObj) (h2 : o.Typ ≠ .TBreakObj) :
    evalBlockExpr ev (x :: rest) env st = evalBlockExpr ev rest env st1 := by
  cases o <;> simp_all [evalBlockExpr, Object.Typ]

theorem Cell.valid_mono {c : Cell} {n m : Nat} (h : c.Valid n) (hnm : n ≤ m) : c.Valid m := by
  cases c with
  | NilObjVar => trivial
  | alloc j => exact Nat.lt_of_lt_of_le h hnm

theorem Environment.wf_mono {env : Environment} {n m i : Nat} (h : env.WF n i) (hnm : n ≤ m) :
    env.WF m i :=
  ⟨h.1, fun b hb => Cell.valid_mono (h.2 b hb) hnm⟩

theorem State.WF.env {st : State} (h : st.WF) {i : Nat} {env : Environment}
    (hi : st.envs[i]? = some env) : env.WF st.cells.length i :=
  h.1 (i, env) (List.mk_mem_enum_iff_getElem?.2 hi)

theorem State.WF.func {st : State} (h : st.WF) {f : Nat} {fv : FuncValue}
    (hf : st.funcs[f]? = some fv) : fv.FuncEnv < st.envs.length :=
  h.2 fv (List.getElem?_mem hf)

theorem State.WF.mk' {st : State}
    (h1 : ∀ (i : Nat) (env : Environment), st.envs[i]? = some env → env.WF st.cells.length i)
    (h2 : ∀ fv ∈ st.funcs, fv.FuncEnv < st.envs.length) : st.WF :=
  ⟨fun p hp => h1 p.1 p.2 (List.mk_mem_enum_iff_getElem?.1 hp), h2⟩

theorem State.init_WF : State.init.WF := by decide

theorem State.le_refl (st : State) : st.le st :=
  ⟨Nat.le_refl _, Nat.le_refl _, Nat.le_refl _, Nat.le_refl _, Nat.le_refl _⟩

theorem State.le_trans {a b c : State} (h1 : a.le b) (h2 : b.le c) : a.le c :=
  ⟨Nat.le_trans h1.1 h2.1, Nat.le_trans h1.2.1 h2.2.1, Nat.le_trans h1.2.2.1 h2.2.2.1,
    Nat.le_trans h1.2.2.2.1 h2.2.2.2.1, Nat.le_trans h1.2.2.2.2 h2.2.2.2.2⟩

/-- A memory with the same environments and functions and at least as many
cells is well formed. -/
theorem State.WF.of_same_envs {st st' : State} (h : st.WF) (he : st'.envs = st.envs)
    (hf : st'.funcs = st.funcs) (hc : st.cells.length ≤ st'.cells.length) : st'.WF := by
  apply State.WF.mk'
  · intro i env hi
    rw [he] at hi
    exact Environment.wf_mono (h.env hi) hc
  · intro fv hfv
    rw [hf] at hfv
    rw [he]
    exact h.2 fv hfv

theorem State.newCell_WF {st : State} (h : st.WF) (v : Object) : (st.newCell v).2.WF :=
  h.of_same_envs rfl rfl (by simp [State.newCell])

theorem State.newCell_le (st : State) (v : Object) : st.le (st.newCell v).2 := by
  simp [State.le, State.newCell]

theorem State.newCell_valid (st : State) (v : Object) :
    (st.newCell v).1.Valid (st.newCell v).2.cells.length := by
  simp [State.newCell, Cell.Valid]

theorem State.store_WF {st : State} (h : st.WF) (c : Cell) (v : Object) : (st.store c v).WF := by
  cases c with
  | NilObjVar => exact h.of_same_envs rfl rfl (Nat.le_refl _)
  | alloc i => exact h.of_same_envs rfl rfl (by simp [State.store])

theorem State.store_le (st : State) (c : Cell) (v : Object) : st.le (st.store c v) := by
  cases c <;> simp [State.le, State.store]

theorem State.tableStore_WF (fl : FloatOps) {st : State} (h : st.WF) (t : Nat) (k v : Object) :
    (st.tableStore fl t k v).WF := by
  unfold State.tableStore
  split
  · exact h
  · exact h.of_same_envs rfl rfl (Nat.le_refl _)

theorem State.tableStore_le (fl : FloatOps) (st : State) (t : Nat) (k v : Object) :
    st.le (st.tableStore fl t k v) := by
  unfold State.tableStore
  split <;> simp [State.le]

theorem State.packAppend_WF {st : State} (h : st.WF) (p : Nat) (v : Object) :
    (st.packAppend p v).WF := by
  unfold State.packAppend
  split
  · exact h
  · exact h.of_same_envs rfl rfl (Nat.le_refl _)

theorem State.packAppend_le (st : State) (p : Nat) (v : Object) : st.le (st.packAppend p v) := by
  unfold State.packAppend
  split <;> simp [State.le]

theorem mem_mapSet {k : GoString} {c : Cell} {m : List (GoString × Cell)} {b : GoString × Cell}
    (hb : b ∈ mapSet k c m) : b = (k, c) ∨ b ∈ m := by
  induction m with
  | nil => simpa [mapSet] using hb
  | cons a rest ih =>
    obtain ⟨k', c'⟩ := a
    unfold mapSet at hb
    split at hb
    · rcases List.mem_cons.1 hb with h | h
      · exact Or.inl h
      · exact Or.inr (List.mem_cons_of_mem _ h)
    · rcases List.mem_cons.1 hb with h | h
      · exact Or.inr (h ▸ List.mem_cons_self _ _)
      · rcases ih h with h | h
        · exact Or.inl h
        · exact Or.inr (List.mem_cons_of_mem _ h)

theorem Environment.Set_envs_length (st : State) (e : Nat) (x : GoString) (c : Cell) :
    (Environment.Set st e x c).envs.length = st.envs.length := by
  unfold Environment.Set
  split <;> simp

theorem Environment.Set_cells (st : State) (e : Nat) (x : GoString) (c : Cell) :
    (Environment.Set st e x c).cells = st.cells := by
  unfold Environment.Set
  split <;> rfl

theorem Environment.Set_funcs (st : State) (e : Nat) (x : GoString) (c : Cell) :
    (Environment.Set st e x c).funcs = st.funcs := by
  unfold Environment.Set
  split <;> rfl

theorem Environment.Set_le (st : State) (e : Nat) (x : GoString) (c : Cell) :
    st.le (Environment.Set st e x c) := by
  unfold Environment.Set
  split <;> simp [State.le]

theorem Environment.Set_WF {st : State} (h : st.WF) (e : Nat) (x : GoString) {c : Cell}
    (hc : c.Valid st.cells.length) : (Environment.Set st e x c).WF := by
  unfold Environment.Set
  split
  · exact h
  · rename_i env he
    apply State.WF.mk'
    · intro i env' hi
      simp only [List.getElem?_set] at hi
      split at hi
      · split at hi
        · cases hi
          rename_i hei _
          subst hei
          have := h.env he
          exact ⟨this.1, fun b hb => by
            rcases mem_mapSet hb with hb | hb
            · subst hb; exact hc
            · exact this.2 b hb⟩
        · cases hi
      · exact h.env hi
    · intro fv hfv
      simpa using h.2 fv hfv

theorem NewInnerEnv_fst (outer : Nat) (st : State) : (NewInnerEnv outer st).1 = st.envs.length :=
  rfl

theorem NewInnerEnv_le (outer : Nat) (st : State) : st.le (NewInnerEnv outer st).2 := by
  simp [State.le, NewInnerEnv]

theorem NewInnerEnv_lt (outer : Nat) (st : State) :
    (NewInnerEnv outer st).1 < (NewInnerEnv outer st).2.envs.length := by
  simp [NewInnerEnv]

theorem NewInnerEnv_WF {st : State} (h : st.WF) {outer : Nat} (ho : outer < st.envs.length) :
    (NewInnerEnv outer st).2.WF := by
  apply State.WF.mk'
  · intro i env hi
    simp only [NewInnerEnv, List.getElem?_append] at hi
    split at hi
    · exact h.env hi
    · rename_i hlt
      cases hk : i - st.envs.length with
      | succ k => rw [hk] at hi; simp at hi
      | zero =>
        rw [hk] at hi
        simp at hi
        subst hi
        refine ⟨?_, by simp⟩
        intro o ho'
        simp at ho'
        subst ho'
        omega
  · intro fv hfv
    have := h.2 fv hfv
    simp [NewInnerEnv]
    omega

theorem Environment.Close_le (st : State) (e : Nat) : st.le (Environment.Close st e) := by
  unfold Environment.Close
  split <;> simp [State.le]

theorem Environment.Close_WF {st : State} (h : st.WF) (e : Nat) : (Environment.Close st e).WF := by
  unfold Environment.Close
  split
  · exact h
  · rename_i env he
    apply State.WF.mk'
    · intro i env' hi
      simp only [List.getElem?_set] at hi
      split at hi
      · split at hi
        · cases hi
          rename_i hei _
          subst hei
          exact ⟨by simp, (h.env he).2⟩
        · cases hi
      · exact h.env hi
    · intro fv hfv
      simpa using h.2 fv hfv

theorem mapGet_mem {k : GoString} {m : List (GoString × Cell)} {c : Cell}
    (h : mapGet k m = some c) : (k, c) ∈ m := by
  induction m with
  | nil => simp [mapGet] at h
  | cons a rest ih =>
    obtain ⟨k', c'⟩ := a
    unfold mapGet at h
    split at h
    · rename_i hk
      cases h
      subst hk
      exact List.mem_cons_self _ _
    · exact List.mem_cons_of_mem _ (ih h)

theorem Environment.GetLoop_valid {st : State} (h : st.WF) (x : GoString) :
    ∀ (n : Nat) (o : Option Nat) (c : Cell),
      Environment.GetLoop st.envs x n o = some c → c.Valid st.cells.length := by
  intro n
  induction n with
  | zero => intro o c hc; simp [Environment.GetLoop] at hc
  | succ n ih =>
    intro o c hc
    cases o with
    | none => simp [Environment.GetLoop] at hc
    | some e =>
      unfold Environment.GetLoop at hc
      split at hc
      · cases hc
      · rename_i env he
        split at hc
        · rename_i c' hc'
          cases hc
          exact (h.env he).2 _ (mapGet_mem hc')
        · exact ih _ _ hc

theorem Environment.Get_valid {st : State} (h : st.WF) {env : Nat} {x : GoString} {c : Cell}
    (hc : Environment.Get st env x = some c) : c.Valid st.cells.length :=
  Environment.GetLoop_valid h x _ _ _ hc

theorem Res.Post.mono {α : Type} {st0 st : State} {r : Res α} (h : r.Post st)
    (hle : st0.le st) : r.Post st0 := by
  cases r with
  | ok v st1 => exact ⟨h.1, State.le_trans hle h.2⟩
  | err e st1 => exact ⟨h.1, State.le_trans hle h.2⟩
  | panic => trivial
  | timeout => trivial

theorem Res.Post.bind {α β : Type} {st : State} {r : Res α} {f : α → State → Res β}
    (hr : r.Post st) (hf : ∀ v st1, st1.WF → st.le st1 → (f v st1).Post st1) :
    (r.bind f).Post st := by
  cases r with
  | ok v st1 => exact (hf v st1 hr.1 hr.2).mono hr.2
  | err e st1 => exact hr
  | panic => trivial
  | timeout => trivial

theorem Res.Post.ok {α : Type} {st st' : State} (v : α) (h : st'.WF) (hle : st.le st') :
    (Res.ok v st').Post st := ⟨h, hle⟩

theorem Res.Post.err {α : Type} {st st' : State} (e : EvalError) (h : st'.WF)
    (hle : st.le st') : (Res.err e st' : Res α).Post st := ⟨h, hle⟩

theorem Res.Post.self {α : Type} {st : State} (v : α) (h : st.WF) : (Res.ok v st).Post st :=
  ⟨h, st.le_refl⟩

section Helpers
variable {fl : FloatOps} {ev : Evaluator} (hev : ev.Sound)
include hev

theorem evalTableLoop_post (table : Nat) :
    ∀ (pairs : List (Expression × Expression)) (env : Nat) (st : State), st.WF →
      env < st.envs.length → (evalTableLoop fl ev table env pairs st).Post st := by
  intro pairs
  induction pairs with
  | nil => intro env st hwf _; exact Res.Post.self _ hwf
  | cons p rest ih =>
    intro env st hwf henv
    obtain ⟨k, v⟩ := p
    unfold evalTableLoop
    refine (hev k env st hwf henv).bind fun key st1 h1 l1 => ?_
    refine (hev v env st1 h1 (Nat.lt_of_lt_of_le henv l1.2.1)).bind fun value st2 h2 l2 => ?_
    refine (ih env _ (State.tableStore_WF fl h2 _ _ _) ?_).mono (State.tableStore_le fl _ _ _ _)
    exact Nat.lt_of_lt_of_le henv
      (State.le_trans (State.le_trans l1 l2) (State.tableStore_le fl _ _ _ _)).2.1

theorem evalTableExpr_post (pairs : List (Expression × Expression)) (env : Nat) (st : State)
    (hwf : st.WF) (henv : env < st.envs.length) : (evalTableExpr fl ev pairs env st).Post st := by
  have hle : st.le { st with tables := st.tables ++ [[]] } := by simp [State.le]
  show ((evalTableLoop fl ev st.tables.length env pairs
    { st with tables := st.tables ++ [[]] }).bind _).Post st
  have hwf0 : ({ st with tables := st.tables ++ [[]] } : State).WF :=
    hwf.of_same_envs rfl rfl (Nat.le_refl _)
  refine Res.Post.mono ?_ hle
  exact (evalTableLoop_post hev _ pairs env _ hwf0 henv).bind fun _ st1 h1 _ =>
    Res.Post.self _ h1

theorem evalPackLoop_post (pack : Nat) :
    ∀ (exprs : List Expression) (env : Nat) (st : State), st.WF →
      env < st.envs.length → (evalPackLoop ev pack env exprs st).Post st := by
  intro exprs
  induction exprs with
  | nil => intro env st hwf _; exact Res.Post.self _ hwf
  | cons e rest ih =>
    intro env st hwf henv
    unfold evalPackLoop
    refine (hev e env st hwf henv).bind fun obj st1 h1 l1 => ?_
    refine (ih env _ (State.packAppend_WF h1 _ _) ?_).mono (State.packAppend_le _ _ _)
    exact Nat.lt_of_lt_of_le henv (State.le_trans l1 (State.packAppend_le _ _ _)).2.1

theorem evalPackExpr_post (exprs : List Expression) (env : Nat) (st : State)
    (hwf : st.WF) (henv : env < st.envs.length) : (evalPackExpr ev exprs env st).Post st := by
  have hle : st.le { st with packs := st.packs ++ [[]] } := by simp [State.le]
  show ((evalPackLoop ev st.packs.length env exprs
    { st with packs := st.packs ++ [[]] }).bind _).Post st
  have hwf0 : ({ st with packs := st.packs ++ [[]] } : State).WF :=
    hwf.of_same_envs rfl rfl (Nat.le_refl _)
  refine Res.Post.mono ?_ hle
  exact (evalPackLoop_post hev _ exprs env _ hwf0 henv).bind fun _ st1 h1 _ =>
    Res.Post.self _ h1

theorem evalArithPrefixExpr_post (Op : TokenType) (Right : Expression) (env : Nat) (st : State)
    (hwf : st.WF) (henv : env < st.envs.length) :
    (evalArithPrefixExpr fl ev Op Right env st).Post st := by
  unfold evalArithPrefixExpr
  refine (hev Right env st hwf henv).bind fun right st1 h1 _ => ?_
  split
  · exact Res.Post.self _ h1
  · split
    · split
      · exact Res.Post.self _ h1
      · exact Res.Post.self _ h1
      · split
        · exact Res.Post.err _ h1 (State.le_refl _)
        · trivial
    · exact Res.Post.err _ h1 (State.le_refl _)

theorem evalArithInfixExpr_post (Op : TokenType) (Left Right : Expression) (env : Nat)
    (st : State) (hwf : st.WF) (henv : env < st.envs.length) :
    (evalArithInfixExpr fl ev Op Left Right env st).Post st := by
  unfold evalArithInfixExpr
  refine (hev Left env st hwf henv).bind fun left st1 h1 l1 => ?_
  refine (hev Right env st1 h1 (Nat.lt_of_lt_of_le henv l1.2.1)).bind fun right st2 h2 _ => ?_
  split
  · exact Res.Post.self _ h2
  · exact Res.Post.err _ h2 (State.le_refl _)
  · trivial

theorem evalBlockExpr_post :
    ∀ (exprs : List Expression) (env : Nat) (st : State), st.WF →
      env < st.envs.length → (evalBlockExpr ev exprs env st).Post st := by
  intro exprs
  induction exprs with
  | nil => intro env st hwf _; exact Res.Post.self _ hwf
  | cons e rest ih =>
    intro env st hwf henv
    unfold evalBlockExpr
    refine (hev e env st hwf henv).bind fun obj st1 h1 l1 => ?_
    split
    · exact Res.Post.self _ h1
    · exact Res.Post.self _ h1
    · exact ih env st1 h1 (Nat.lt_of_lt_of_le henv l1.2.1)

theorem evalFuncBlockExpr_post (block : List Expression) (env : Nat) (st : State)
    (hwf : st.WF) (henv : env < st.envs.length) : (evalFuncBlockExpr ev block env st).Post st := by
  unfold evalFuncBlockExpr
  refine (evalBlockExpr_post hev block env st hwf henv).bind fun obj st1 h1 _ => ?_
  split <;> exact Res.Post.self _ h1

theorem evalIndexExpr_post (Table Index : Expression) (env : Nat) (st : State)
    (hwf : st.WF) (henv : env < st.envs.length) :
    (evalIndexExpr fl ev Table Index env st).Post st := by
  unfold evalIndexExpr
  refine (hev Table env st hwf henv).bind fun table st1 h1 l1 => ?_
  split
  · refine (hev Index env st1 h1 (Nat.lt_of_lt_of_le henv l1.2.1)).bind fun index st2 h2 _ => ?_
    split
    · trivial
    · split <;> exact Res.Post.self _ h2
  · exact Res.Post.err _ h1 (State.le_refl _)

theorem evalIfExpr_post (Condition : Expression) (Consequence : List Expression)
    (Alternative : Option (List Expression)) (env : Nat) (st : State)
    (hwf : st.WF) (henv : env < st.envs.length) :
    (evalIfExpr ev Condition Consequence Alternative env st).Post st := by
  rw [evalIfExpr_eq]
  refine Res.Post.mono ?_ (NewInnerEnv_le env st)
  have hlt := NewInnerEnv_lt env st
  refine (hev Condition _ _ (NewInnerEnv_WF hwf henv) hlt).bind fun c st1 h1 l1 => ?_
  have hlt1 := Nat.lt_of_lt_of_le hlt l1.2.1
  split
  · exact hev _ _ _ h1 hlt1
  · split
    · exact hev _ _ _ h1 hlt1
    · exact Res.Post.self _ h1

omit hev in
theorem evalIdentifierExpr_post (Ident : GoString) (env : Nat) (st : State) (hwf : st.WF) :
    (evalIdentifierExpr Ident env st).Post st := by
  unfold evalIdentifierExpr
  split
  · exact Res.Post.err _ hwf (State.le_refl _)
  · split
    · exact Res.Post.self _ hwf
    · trivial

omit hev in
theorem AssignFn.call_post (fn : AssignFn) (env : Nat) (ident : GoString) (value : Object)
    (st : State) (hwf : st.WF) : (fn.call env ident value st).Post st := by
  cases fn with
  | declare =>
    exact Res.Post.ok _ (Environment.Set_WF (State.newCell_WF hwf value) _ _
      (State.newCell_valid st value))
      (State.le_trans (State.newCell_le st value) (Environment.Set_le _ _ _ _))
  | assign =>
    show (match Environment.Get st env ident with
      | none => Res.err (.assignNotDeclared ident) st
      | some o => Res.ok () (st.store o value)).Post st
    split
    · exact Res.Post.err _ hwf (State.le_refl _)
    · exact Res.Post.ok _ (State.store_WF hwf _ _) (State.store_le _ _ _)

end Helpers

mutual
theorem declareAssignHelper_post {fl : FloatOps} {ev : Evaluator} (hev : ev.Sound)
    (fn : AssignFn) :
    ∀ (left : Expression) (value : Object) (env : Nat) (st : State), st.WF →
      env < st.envs.length → (declareAssignHelper fl ev fn left value env st).Post st
  | .Identifier ident, value, env, st, hwf, _ => by
    rw [declareAssignHelper]
    exact AssignFn.call_post fn env ident value st hwf
  | .IndexExpr t i, value, env, st, hwf, henv => by
    rw [declareAssignHelper]
    refine (hev t env st hwf henv).bind fun table st1 h1 l1 => ?_
    split
    · refine (hev i env st1 h1 (Nat.lt_of_lt_of_le henv l1.2.1)).bind fun index st2 h2 _ => ?_
      exact Res.Post.ok _ (State.tableStore_WF fl h2 _ _ _) (State.tableStore_le fl _ _ _ _)
    · exact Res.Post.err _ h1 (State.le_refl _)
  | .PackExpr [], value, env, st, hwf, henv => by
    cases value <;> simp only [declareAssignHelper] <;> try exact Res.Post.self _ hwf
    split
    · trivial
    · rw [declareAssignPack]
      exact Res.Post.self _ hwf
  | .PackExpr (left :: rest), value, env, st, hwf, henv => by
    cases value <;> simp only [declareAssignHelper] <;>
      try exact declareAssignHelper_post hev fn left _ env st hwf henv
    split
    · trivial
    · exact declareAssignPack_post hev fn (left :: rest) _ env st hwf henv
  | .IntegerExpr _, _, _, _, _, _ => by simp only [declareAssignHelper]; trivial
  | .FloatExpr _, _, _, _, _, _ => by simp only [declareAssignHelper]; trivial
  | .BooleanExpr _, _, _, _, _, _ => by simp only [declareAssignHelper]; trivial
  | .StringExpr _, _, _, _, _, _ => by simp only [declareAssignHelper]; trivial
  | .TableExpr _, _, _, _, _, _ => by simp only [declareAssignHelper]; trivial
  | .NilExpr, _, _, _, _, _ => by simp only [declareAssignHelper]; trivial
  | .ArithPrefixExpr _ _, _, _, _, _, _ => by simp only [declareAssignHelper]; trivial
  | .ArithInfixExpr _ _ _, _, _, _, _, _ => by simp only [declareAssignHelper]; trivial
  | .DeclarationExpr _ _, _, _, _, _, _ => by simp only [declareAssignHelper]; trivial
  | .AssignExpr _ _, _, _, _, _, _ => by simp only [declareAssignHelper]; trivial
  | .IfExpr _ _ _, _, _, _, _, _ => by simp only [declareAssignHelper]; trivial
  | .FuncExpr _ _ _, _, _, _, _, _ => by simp only [declareAssignHelper]; trivial
  | .CallExpr _ _, _, _, _, _, _ => by simp only [declareAssignHelper]; trivial
  | .ReturnExpr _, _, _, _, _, _ => by simp only [declareAssignHelper]; trivial
  | .BlockExpr _, _, _, _, _, _ => by simp only [declareAssignHelper]; trivial
  | .ForExpr _ _ _ _, _, _, _, _, _ => by simp only [declareAssignHelper]; trivial
  | .BreakExpr _, _, _, _, _, _ => by simp only [declareAssignHelper]; trivial
theorem declareAssignPack_post {fl : FloatOps} {ev : Evaluator} (hev : ev.Sound)
    (fn : AssignFn) :
    ∀ (lefts : List Expression) (objs : List Object) (env : Nat) (st : State), st.WF →
      env < st.envs.length → (declareAssignPack fl ev fn lefts objs env st).Post st
  | [], _, _, st, hwf, _ => by
    rw [declareAssignPack]
    exact Res.Post.self _ hwf
  | left :: rest, obj :: objs, env, st, hwf, henv => by
    rw [declareAssignPack]
    refine (declareAssignHelper_post hev fn left obj env st hwf henv).bind fun _ st1 h1 l1 => ?_
    exact declareAssignPack_post hev fn rest objs env st1 h1 (Nat.lt_of_lt_of_le henv l1.2.1)
  | left :: rest, [], env, st, hwf, henv => by
    rw [declareAssignPack]
    refine (declareAssignHelper_post hev fn left _ env st hwf henv).bind fun _ st1 h1 l1 => ?_
    exact declareAssignPack_post hev fn rest [] env st1 h1 (Nat.lt_of_lt_of_le henv l1.2.1)
end

section Helpers2
variable {fl : FloatOps} {ev : Evaluator} (hev : ev.Sound)
include hev

theorem evalDeclarationExpr_post (Left Value : Expression) (env : Nat) (st : State)
    (hwf : st.WF) (henv : env < st.envs.length) :
    (evalDeclarationExpr fl ev Left Value env st).Post st := by
  unfold evalDeclarationExpr
  refine (hev Value env st hwf henv).bind fun value st1 h1 l1 => ?_
  refine (declareAssignHelper_post hev .declare Left value env st1 h1
    (Nat.lt_of_lt_of_le henv l1.2.1)).bind fun _ st2 h2 _ => Res.Post.self _ h2

theorem evalAssignExpr_post (Left Value : Expression) (env : Nat) (st : State)
    (hwf : st.WF) (henv : env < st.envs.length) :
    (evalAssignExpr fl ev Left Value env st).Post st := by
  unfold evalAssignExpr
  refine (hev Value env st hwf henv).bind fun value st1 h1 l1 => ?_
  refine (declareAssignHelper_post hev .assign Left value env st1 h1
    (Nat.lt_of_lt_of_le henv l1.2.1)).bind fun _ st2 h2 _ => Res.Post.self _ h2

theorem captureLoop_post (env funcCaptureEnv : Nat) :
    ∀ (captures : List Expression) (st : State), st.WF → funcCaptureEnv < st.envs.length →
      (captureLoop fl ev env funcCaptureEnv captures st).Post st := by
  intro captures
  induction captures with
  | nil => intro st hwf _; exact Res.Post.self _ hwf
  | cons c rest ih =>
    intro st hwf hcap
    cases c <;> simp only [captureLoop] <;> try trivial
    · rename_i Ident
      split
      · exact Res.Post.err _ hwf (State.le_refl _)
      · rename_i outerObj hget
        refine (ih _ (Environment.Set_WF hwf _ _ (Environment.Get_valid hwf hget)) ?_).mono
          (Environment.Set_le _ _ _ _)
        rw [Environment.Set_envs_length]
        exact hcap
    · rename_i Left Value
      refine (evalDeclarationExpr_post hev Left Value funcCaptureEnv st hwf hcap).bind
        fun _ st1 h1 l1 => ?_
      exact ih st1 h1 (Nat.lt_of_lt_of_le hcap l1.2.1)

theorem evalFuncExpr_post (Parameters : List GoString) (Capture Body : List Expression)
    (env : Nat) (st : State) (hwf : st.WF) (henv : env < st.envs.length) :
    (evalFuncExpr fl ev Parameters Capture Body env st).Post st := by
  show ((captureLoop fl ev env (NewInnerEnv env st).1 Capture (NewInnerEnv env st).2).bind
    _).Post st
  refine Res.Post.mono ?_ (NewInnerEnv_le env st)
  have hlt := NewInnerEnv_lt env st
  refine (captureLoop_post hev env _ Capture _ (NewInnerEnv_WF hwf henv) hlt).bind
    fun _ st1 h1 l1 => ?_
  have hc := Environment.Close_WF h1 (NewInnerEnv env st).1
  have hcl := Environment.Close_le st1 (NewInnerEnv env st).1
  refine Res.Post.ok _ ?_ (State.le_trans hcl
    ⟨Nat.le_refl _, Nat.le_refl _, Nat.le_refl _, Nat.le_refl _, by
      simp only [List.length_append, List.length_singleton]
      exact Nat.le_succ _⟩)
  apply State.WF.mk'
  · intro i e hi
    exact hc.env hi
  · intro fv hfv
    simp only [List.mem_append, List.mem_singleton] at hfv
    rcases hfv with hfv | hfv
    · exact hc.2 fv hfv
    · subst hfv
      exact Nat.lt_of_lt_of_le hlt (State.le_trans l1 hcl).2.1

omit hev in
theorem bindMissing_post (funcCallEnv : Nat) :
    ∀ (ps : List GoString) (st : State), st.WF →
      (bindMissing funcCallEnv ps st).WF ∧ st.le (bindMissing funcCallEnv ps st) := by
  intro ps
  induction ps with
  | nil => intro st hwf; exact ⟨hwf, State.le_refl _⟩
  | cons p rest ih =>
    intro st hwf
    have h1 := Environment.Set_WF hwf funcCallEnv p (show Cell.Valid _ Cell.NilObjVar from trivial)
    have := ih _ h1
    exact ⟨this.1, State.le_trans (Environment.Set_le _ _ _ _) this.2⟩

theorem evalExtra_post (env : Nat) :
    ∀ (as : List Expression) (st : State), st.WF → env < st.envs.length →
      (evalExtra ev env as st).Post st := by
  intro as
  induction as with
  | nil => intro st hwf _; exact Res.Post.self _ hwf
  | cons a rest ih =>
    intro st hwf henv
    unfold evalExtra
    refine (hev a env st hwf henv).bind fun _ st1 h1 l1 => ?_
    exact ih st1 h1 (Nat.lt_of_lt_of_le henv l1.2.1)

theorem callLoop_post (env funcCallEnv : Nat) :
    ∀ (ps : List GoString) (as : List Expression) (st : State), st.WF → env < st.envs.length →
      (callLoop ev env funcCallEnv ps as st).Post st := by
  intro ps
  induction ps with
  | nil =>
    intro as st hwf henv
    rw [callLoop]
    exact evalExtra_post hev env as st hwf henv
  | cons p rest ih =>
    intro as st hwf henv
    cases as with
    | nil =>
      rw [callLoop]
      · have := bindMissing_post funcCallEnv (p :: rest) st hwf
        exact Res.Post.ok _ this.1 this.2
      · simp
    | cons a as =>
      rw [callLoop]
      refine (hev a env st hwf henv).bind fun obj st1 h1 l1 => ?_
      have hs := Environment.Set_WF (State.newCell_WF h1 obj) funcCallEnv p
        (State.newCell_valid st1 obj)
      have hl := State.le_trans (State.newCell_le st1 obj)
        (Environment.Set_le (st1.newCell obj).2 funcCallEnv p (st1.newCell obj).1)
      exact (ih as _ hs (Nat.lt_of_lt_of_le henv (State.le_trans l1 hl).2.1)).mono hl

theorem evalCallExpr_post (Function : Expression) (Parameters : List Expression) (env : Nat)
    (st : State) (hwf : st.WF) (henv : env < st.envs.length) :
    (evalCallExpr ev Function Parameters env st).Post st := by
  unfold evalCallExpr
  refine (hev Function env st hwf henv).bind fun fn st1 h1 l1 => ?_
  split
  · split
    · trivial
    · rename_i f fnObj hf
      show ((callLoop ev env (NewInnerEnv fnObj.FuncEnv st1).1 fnObj.Parameters Parameters
        (NewInnerEnv fnObj.FuncEnv st1).2).bind _).Post st1
      refine Res.Post.mono ?_ (NewInnerEnv_le fnObj.FuncEnv st1)
      have hlt := NewInnerEnv_lt fnObj.FuncEnv st1
      have henv1 : env < (NewInnerEnv fnObj.FuncEnv st1).2.envs.length :=
        Nat.lt_of_lt_of_le henv (State.le_trans l1 (NewInnerEnv_le fnObj.FuncEnv st1)).2.1
      refine (callLoop_post hev env _ _ _ _ (NewInnerEnv_WF h1 (h1.func hf)) henv1).bind
        fun _ st3 h3 l3 => ?_
      exact evalFuncBlockExpr_post hev _ _ st3 h3 (Nat.lt_of_lt_of_le hlt l3.2.1)
  · exact Res.Post.err _ h1 (State.le_refl _)

end Helpers2

/-- The evaluator keeps memories well formed and never frees anything. -/
theorem Eval_sound (fl : FloatOps) : ∀ n : Nat, Evaluator.Sound (Eval fl n) := by
  intro n
  induction n with
  | zero => intro e env st _ _; trivial
  | succ n ih =>
    intro e env st hwf henv
    cases e with
    | IntegerExpr v => exact Res.Post.self _ hwf
    | FloatExpr v => exact Res.Post.self _ hwf
    | BooleanExpr v => exact Res.Post.self _ hwf
    | StringExpr v => exact Res.Post.self _ hwf
    | NilExpr => exact Res.Post.self _ hwf
    | TableExpr InitValue => exact evalTableExpr_post ih InitValue env st hwf henv
    | PackExpr Exprs => exact evalPackExpr_post ih Exprs env st hwf henv
    | Identifier Ident => exact evalIdentifierExpr_post Ident env st hwf
    | ArithPrefixExpr Op Right => exact evalArithPrefixExpr_post ih Op Right env st hwf henv
    | ArithInfixExpr Op Left Right =>
      exact evalArithInfixExpr_post ih Op Left Right env st hwf henv
    | DeclarationExpr Left Value => exact evalDeclarationExpr_post ih Left Value env st hwf henv
    | AssignExpr Left Value => exact evalAssignExpr_post ih Left Value env st hwf henv
    | IfExpr c a b => exact evalIfExpr_post ih c a b env st hwf henv
    | FuncExpr ps cs body => exact evalFuncExpr_post ih ps cs body env st hwf henv
    | CallExpr f as => exact evalCallExpr_post ih f as env st hwf henv
    | IndexExpr t i => exact evalIndexExpr_post ih t i env st hwf henv
    | ReturnExpr r =>
      rw [Eval_ReturnExpr]
      exact (ih r env st hwf henv).bind fun _ st1 h1 _ => Res.Post.self _ h1
    | BlockExpr es =>
      rw [Eval_BlockExpr]
      exact (evalBlockExpr_post ih es _ _ (NewInnerEnv_WF hwf henv)
        (NewInnerEnv_lt env st)).mono (NewInnerEnv_le env st)
    | ForExpr a b c body => trivial
    | BreakExpr r =>
      rw [Eval_BreakExpr]
      exact (ih r env st hwf henv).bind fun _ st1 h1 _ => Res.Post.self _ h1

/-- A normal return of `Eval` from a well-formed memory leaves a well-formed
memory that extends it. -/
theorem Eval_ok_WF {fl : FloatOps} {n : Nat} {e : Expression} {env : Nat} {st st' : State}
    {v : Object} (hwf : st.WF) (henv : env < st.envs.length)
    (h : Eval fl n e env st = .ok v st') : st'.WF ∧ st.le st' := by
  have := Eval_sound fl n e env st hwf henv
  rw [h] at this
  exact this

/-! ## Lookups in well-formed memories -/

theorem Environment.GetLoop_none (envs : List Environment) (x : GoString) (k : Nat) :
    Environment.GetLoop envs x k none = none := by
  cases k <;> rfl

/-- In a memory whose `Outer` pointers go to older environments, a lookup
from the environment `e` depends on the environments up to `e` only, and not
on the fuel once it exceeds `e`. -/
theorem Environment.GetLoop_congr (envs envs' : List Environment) (x : GoString)
    (hdec : ∀ (i : Nat) (env : Environment), envs[i]? = some env → ∀ o ∈ env.Outer, o < i) :
    ∀ (k k' e : Nat), e < k → e < k' → (∀ i, i ≤ e → envs'[i]? = envs[i]?) →
      Environment.GetLoop envs' x k' (some e) = Environment.GetLoop envs x k (some e) := by
  intro k
  induction k with
  | zero => intro k' e h; exact absurd h (Nat.not_lt_zero _)
  | succ k ih =>
    intro k' e hk hk' hag
    cases k' with
    | zero => exact absurd hk' (Nat.not_lt_zero _)
    | succ k' =>
      unfold Environment.GetLoop
      rw [hag e (Nat.le_refl _)]
      cases he : envs[e]? with
      | none => rfl
      | some env =>
        simp only
        cases mapGet x env.LocalVars with
        | some c => rfl
        | none =>
          simp only
          cases ho : env.Outer with
          | none => rw [Environment.GetLoop_none, Environment.GetLoop_none]
          | some o =>
            have hlt : o < e := hdec e env he o (by simp [ho])
            exact ih k' o (by omega) (by omega) fun i hi => hag i (by omega)

theorem State.WF.outer_lt {st : State} (h : st.WF) (i : Nat) (env : Environment)
    (hi : st.envs[i]? = some env) : ∀ o ∈ env.Outer, o < i :=
  (h.env hi).1

/-- A lookup from `env` is the same in two memories that agree on the
environments up to `env`. -/
theorem Environment.Get_congr {st st' : State} (hwf : st.WF) {env : Nat} (x : GoString)
    (henv : env < st.envs.length) (henv' : env < st'.envs.length)
    (hag : ∀ i, i ≤ env → st'.envs[i]? = st.envs[i]?) :
    Environment.Get st' env x = Environment.Get st env x :=
  Environment.GetLoop_congr st.envs st'.envs x hwf.outer_lt _ _ env henv henv' hag

theorem Environment.Set_envs_getElem? (st : State) (e : Nat) (x : GoString) (c : Cell) (i : Nat)
    (hi : i ≠ e) : (Environment.Set st e x c).envs[i]? = st.envs[i]? := by
  unfold Environment.Set
  split
  · rfl
  · simp [List.getElem?_set, Ne.symm hi]

/-- Binding a name in a newer environment does not change the lookups from
`env`. -/
theorem Environment.Get_Set_newer {st : State} (hwf : st.WF) {env e : Nat} (x y : GoString)
    (c : Cell) (henv : env < st.envs.length) (he : env < e) :
    Environment.Get (Environment.Set st e y c) env x = Environment.Get st env x :=
  Environment.Get_congr hwf x henv (by rw [Environment.Set_envs_length]; exact henv)
    fun i hi => Environment.Set_envs_getElem? st e y c i (by omega)

theorem mapGet_mapSet_self (k : GoString) (c : Cell) (m : List (GoString × Cell)) :
    mapGet k (mapSet k c m) = some c := by
  induction m with
  | nil => simp [mapSet, mapGet]
  | cons a rest ih =>
    obtain ⟨k', c'⟩ := a
    unfold mapSet
    split
    · simp [mapGet]
    · rename_i hk
      simp [mapGet, hk, ih]

theorem State.load_newCell {st : State} {c : Cell} (v : Object) (hc : c.Valid st.cells.length) :
    (st.newCell v).2.load c = st.load c := by
  cases c with
  | NilObjVar => rfl
  | alloc j =>
    have hj : j < st.cells.length := hc
    simp [State.newCell, State.load, List.getElem?_append_left hj]

theorem State.load_Set (st : State) (e : Nat) (x : GoString) (c c' : Cell) :
    (Environment.Set st e x c).load c' = st.load c' := by
  unfold Environment.Set
  split <;> cases c' <;> rfl

theorem State.load_store_self {st : State} {c : Cell} (v : Object)
    (hc : c.Valid st.cells.length) : (st.store c v).load c = some v := by
  cases c with
  | NilObjVar => rfl
  | alloc j =>
    have hj : j < st.cells.length := hc
    simp [State.store, State.load, List.getElem?_set, hj]

theorem State.load_store_ne (st : State) {c c' : Cell} (v : Object) (hne : c' ≠ c) :
    (st.store c v).load c' = st.load c' := by
  cases c with
  | NilObjVar =>
    cases c' with
    | NilObjVar => exact absurd rfl hne
    | alloc j => rfl
  | alloc i =>
    cases c' with
    | NilObjVar => rfl
    | alloc j =>
      have : i ≠ j := fun h => hne (by rw [h])
      simp [State.store, State.load, List.getElem?_set, this]

theorem Environment.Get_store (st : State) (c : Cell) (v : Object) (env : Nat) (x : GoString) :
    Environment.Get (st.store c v) env x = Environment.Get st env x := by
  cases c <;> rfl

theorem Environment.Get_newCell (st : State) (v : Object) (env : Nat) (x : GoString) :
    Environment.Get (st.newCell v).2 env x = Environment.Get st env x := rfl

/-- Declaring a name in a newer environment does not change what the names
denote in `env`. -/
theorem State.lookup_declare_newer {st : State} (hwf : st.WF) {env e : Nat} (x y : GoString)
    (v : Object) (henv : env < st.envs.length) (he : env < e) :
    (Environment.Set (st.newCell v).2 e y (st.newCell v).1).lookup env x = st.lookup env x := by
  unfold State.lookup
  rw [Environment.Get_Set_newer (State.newCell_WF hwf v) x y _ henv he,
    Environment.Get_newCell]
  cases hg : Environment.Get st env x with
  | none => rfl
  | some c =>
    simp only
    rw [State.load_Set, State.load_newCell v (Environment.Get_valid hwf hg)]

/-- A fresh inner environment sees the names of its outer environment. -/
theorem Environment.Get_NewInnerEnv {st : State} (hwf : st.WF) {env : Nat} (x : GoString)
    (henv : env < st.envs.length) :
    Environment.Get (NewInnerEnv env st).2 (NewInnerEnv env st).1 x = Environment.Get st env x := by
  have h1 : Environment.Get (NewInnerEnv env st).2 (NewInnerEnv env st).1 x =
      Environment.GetLoop (NewInnerEnv env st).2.envs x st.envs.length (some env) := by
    simp [Environment.Get, NewInnerEnv, Environment.GetLoop, mapGet]
  rw [h1]
  exact Environment.GetLoop_congr st.envs _ x hwf.outer_lt _ _ env henv henv fun i hi => by
    simp [NewInnerEnv, List.getElem?_append_left (Nat.lt_of_le_of_lt hi henv)]

theorem evalBlockExpr_singleton (ev : Evaluator) (x : Expression) (env : Nat) (st st' : State)
    (o : Object) (h : ev x env st = .ok o st') :
    ∃ r, evalBlockExpr ev [x] env st = .ok r st' := by
  cases o <;> simp [evalBlockExpr, h]

theorem Eval_declare_identifier (fl : FloatOps) (n : Nat) (x : GoString) (e : Expression)
    (env : Nat) (st st2 : State) (v : Object) (h : Eval fl n e env st = .ok v st2) :
    Eval fl (n + 1) (.DeclarationExpr (.Identifier x) e) env st =
      .ok v (Environment.Set (st2.newCell v).2 env x (st2.newCell v).1) := by
  rw [Eval_DeclarationExpr]
  simp [evalDeclarationExpr, h, declareAssignHelper, AssignFn.call]

theorem Eval_assign_identifier (fl : FloatOps) (n : Nat) (x : GoString) (e : Expression)
    (env : Nat) (st st2 : State) (v : Object) (c : Cell) (h : Eval fl n e env st = .ok v st2)
    (hc : Environment.Get st2 env x = some c) :
    Eval fl (n + 1) (.AssignExpr (.Identifier x) e) env st = .ok v (st2.store c v) := by
  rw [Eval_AssignExpr]
  simp [evalAssignExpr, h, declareAssignHelper, AssignFn.call, hc]

/-! ## Table literals allocate -/

/-- A table literal yields a reference to a storage that did not exist
before its evaluation. -/
theorem Eval_TableExpr_fresh {fl : FloatOps} {n : Nat} {pairs : List (Expression × Expression)}
    {env : Nat} {st st1 : State} {v : Object} (hwf : st.WF) (henv : env < st.envs.length)
    (h : Eval fl n (.TableExpr pairs) env st = .ok v st1) :
    v = .TableObj st.tables.length ∧ st.tables.length < st1.tables.length := by
  cases n with
  | zero => simp [Eval_zero] at h
  | succ m =>
    rw [Eval_TableExpr] at h
    have hwf0 : ({ st with tables := st.tables ++ [[]] } : State).WF :=
      hwf.of_same_envs rfl rfl (Nat.le_refl _)
    have hp := @evalTableLoop_post fl _ (Eval_sound fl m) st.tables.length pairs env _ hwf0
      henv
    change (evalTableLoop fl (Eval fl m) st.tables.length env pairs
      { st with tables := st.tables ++ [[]] }).bind _ = _ at h
    cases hr : evalTableLoop fl (Eval fl m) st.tables.length env pairs
        { st with tables := st.tables ++ [[]] } with
    | ok u st' =>
      rw [hr] at h hp
      simp only [Res.bind_ok, Res.ok.injEq] at h
      obtain ⟨hv, hst⟩ := h
      subst hst
      refine ⟨hv.symm, ?_⟩
      have := hp.2.2.2.1
      simp only [List.length_append, List.length_singleton] at this
      omega
    | err e st' => rw [hr] at h; simp at h
    | panic => rw [hr] at h; simp at h
    | timeout => rw [hr] at h; simp at h

/-! ## Pack targets -/

theorem Environment.SetNewObj_NilObj (st : State) (e : Nat) (x : GoString) (v : Object) :
    (Environment.SetNewObj st e x v).NilObj = st.NilObj := by
  unfold Environment.SetNewObj Environment.Set State.newCell
  simp only
  split <;> rfl

/-- While the package variable `NilObj` holds Nil, the declaration of a pack
of identifiers from a pack value declares each name in order, with the
element of the same index, or Nil when there is none; the elements beyond
the targets are dropped; no error is raised. -/
theorem declareAssignPack_identifiers (fl : FloatOps) (ev : Evaluator) (env : Nat) :
    ∀ (ids : List GoString) (objs : List Object) (st : State), st.NilObj = .NilValue →
      declareAssignPack fl ev .declare (ids.map .Identifier) objs env st =
        .ok () (declareAll env
          (ids.zip (objs ++ List.replicate (ids.length - objs.length) .NilValue)) st) := by
  intro ids
  induction ids with
  | nil => intro objs st _; simp [declareAssignPack, declareAll]
  | cons x rest ih =>
    intro objs st hnil
    cases objs with
    | nil =>
      have h := ih [] (Environment.SetNewObj st env x .NilValue)
        (by rw [Environment.SetNewObj_NilObj]; exact hnil)
      simp only [List.map_cons, declareAssignPack, declareAssignHelper, AssignFn.call, hnil,
        Res.bind_ok]
      simp only [List.length_nil, Nat.sub_zero, List.nil_append] at h ⊢
      rw [List.length_cons, List.replicate_succ, List.zip_cons_cons, declareAll]
      exact h
    | cons o os =>
      have h := ih os (Environment.SetNewObj st env x o)
        (by rw [Environment.SetNewObj_NilObj]; exact hnil)
      simp only [List.map_cons, declareAssignPack, declareAssignHelper, AssignFn.call,
        Res.bind_ok]
      simp only [List.length_cons, Nat.add_sub_add_right, List.cons_append, List.zip_cons_cons,
        declareAll]
      exact h

/-! ## Captures -/

theorem mapGet_mapSet_ne (k k' : GoString) (c : Cell) (m : List (GoString × Cell))
    (h : k' ≠ k) : mapGet k' (mapSet k c m) = mapGet k' m := by
  induction m with
  | nil => simp [mapSet, mapGet, Ne.symm h]
  | cons a rest ih =>
    obtain ⟨k2, c2⟩ := a
    unfold mapSet
    split
    · rename_i hk
      subst hk
      simp [mapGet, Ne.symm h]
    · simp only [mapGet, ih]

theorem State.localVar_Set_self (st : State) {e : Nat} (x : GoString) (c : Cell)
    (he : e < st.envs.length) : (Environment.Set st e x c).localVar e x = some c := by
  obtain ⟨env, henv⟩ : ∃ env, st.envs[e]? = some env := ⟨st.envs[e], by simp [he]⟩
  simp [State.localVar, Environment.Set, henv, List.getElem?_set, he, mapGet_mapSet_self]

theorem State.localVar_Set_ne (st : State) (e : Nat) (x y : GoString) (c : Cell) (h : y ≠ x) :
    (Environment.Set st e x c).localVar e y = st.localVar e y := by
  unfold State.localVar Environment.Set
  cases henv : st.envs[e]? with
  | none => simp [henv]
  | some env =>
    have he : e < st.envs.length := by
      rcases Nat.lt_or_ge e st.envs.length with h | h
      · exact h
      · simp [List.getElem?_eq_none h] at henv
    simp [List.getElem?_set, he, mapGet_mapSet_ne _ _ _ _ h]

/-- A lookup from an environment that binds the name itself finds that
binding. -/
theorem Environment.Get_of_localVar {st : State} {e : Nat} {x : GoString} {c : Cell}
    (h : st.localVar e x = some c) : Environment.Get st e x = some c := by
  unfold State.localVar at h
  cases henv : st.envs[e]? with
  | none => simp [henv] at h
  | some env =>
    rw [henv] at h
    have he : 0 < st.envs.length := by
      rcases Nat.lt_or_ge e st.envs.length with h' | h'
      · omega
      · simp [List.getElem?_eq_none h'] at henv
    unfold Environment.Get
    obtain ⟨k, hk⟩ : ∃ k, st.envs.length = k + 1 := ⟨st.envs.length - 1, by omega⟩
    rw [hk]
    simp only [Environment.GetLoop, henv]
    simp only at h
    rw [h]

theorem Environment.Close_envs_getElem? (st : State) (e i : Nat) (hi : i ≠ e) :
    (Environment.Close st e).envs[i]? = st.envs[i]? := by
  unfold Environment.Close
  split
  · rfl
  · simp [List.getElem?_set, Ne.symm hi]

theorem Environment.Close_envs_length (st : State) (e : Nat) :
    (Environment.Close st e).envs.length = st.envs.length := by
  unfold Environment.Close
  split <;> simp

theorem Environment.Close_cells (st : State) (e : Nat) :
    (Environment.Close st e).cells = st.cells := by
  unfold Environment.Close
  split <;> rfl

theorem State.localVar_Close (st : State) (e : Nat) (x : GoString) :
    (Environment.Close st e).localVar e x = st.localVar e x := by
  unfold State.localVar Environment.Close
  cases henv : st.envs[e]? with
  | none => simp [henv]
  | some env =>
    have he : e < st.envs.length := by
      rcases Nat.lt_or_ge e st.envs.length with h | h
      · exact h
      · simp [List.getElem?_eq_none h] at henv
    simp [List.getElem?_set, he]

/-- The loop of `evalFuncExpr` over a capture list of bare identifiers that
the defining environment binds: it succeeds, changes the capture scope only
and binds each captured name there to the cell that the defining environment
resolves it to. -/
theorem captureLoop_identifiers (fl : FloatOps) (ev : Evaluator) (env cap : Nat)
    (hlt : env < cap) :
    ∀ (xs : List GoString) (st : State), st.WF → cap < st.envs.length →
      (∀ y ∈ xs, (Environment.Get st env y).isSome) →
      ∃ st', captureLoop fl ev env cap (xs.map .Identifier) st = .ok () st' ∧ st'.WF ∧
        st'.cells = st.cells ∧ st'.funcs = st.funcs ∧ st'.envs.length = st.envs.length ∧
        (∀ i, i ≠ cap → st'.envs[i]? = st.envs[i]?) ∧
        (∀ y ∈ xs, st'.localVar cap y = Environment.Get st env y) ∧
        (∀ y, y ∉ xs → st'.localVar cap y = st.localVar cap y) := by
  intro xs
  induction xs with
  | nil =>
    intro st hwf _ _
    exact ⟨st, rfl, hwf, rfl, rfl, rfl, fun _ _ => rfl, fun y hy => by simp at hy,
      fun _ _ => rfl⟩
  | cons x rest ih =>
    intro st hwf hcap hall
    have henv : env < st.envs.length := Nat.lt_trans hlt hcap
    obtain ⟨c, hc⟩ := Option.isSome_iff_exists.1 (hall x (List.mem_cons_self _ _))
    have hwf1 := Environment.Set_WF hwf cap x (Environment.Get_valid hwf hc)
    have hget : ∀ y, Environment.Get (Environment.Set st cap x c) env y =
        Environment.Get st env y := fun y => Environment.Get_Set_newer hwf y x c henv hlt
    obtain ⟨st', h1, h2, h3, h4, h5, h6, h7, h8⟩ := ih (Environment.Set st cap x c) hwf1
      (by rw [Environment.Set_envs_length]; exact hcap)
      (fun y hy => by rw [hget]; exact hall y (List.mem_cons_of_mem _ hy))
    refine ⟨st', ?_, h2, ?_, ?_, ?_, ?_, ?_, ?_⟩
    · simp only [List.map_cons, captureLoop, hc]
      exact h1
    · rw [h3, Environment.Set_cells]
    · rw [h4, Environment.Set_funcs]
    · rw [h5, Environment.Set_envs_length]
    · intro i hi
      rw [h6 i hi, Environment.Set_envs_getElem? st cap x c i hi]
    · intro y hy
      by_cases hyr : y ∈ rest
      · rw [h7 y hyr, hget]
      · have hyx : y = x := by
          rcases List.mem_cons.1 hy with h | h
          · exact h
          · exact absurd h hyr
        subst hyx
        rw [h8 y hyr, State.localVar_Set_self st y c hcap, hc]
    · intro y hy
      have hyx : y ≠ x := fun h => hy (h ▸ List.mem_cons_self _ _)
      have hyr : y ∉ rest := fun h => hy (List.mem_cons_of_mem _ h)
      rw [h8 y hyr, State.localVar_Set_ne st cap x y c hyx]

/-- A function literal whose capture list is made of bare identifiers that
the defining environment binds: the literal yields a new function value whose
closed capture scope, a new environment, resolves each captured name to the
cell the defining environment resolves it to; the lookups from the defining
environment and the cells are unchanged. -/
theorem Eval_FuncExpr_identifiers (fl : FloatOps) (n : Nat) (ps xs : List GoString)
    (body : List Expression) (env : Nat) (st : State) (hwf : st.WF)
    (henv : env < st.envs.length) (hall : ∀ y ∈ xs, (Environment.Get st env y).isSome) :
    ∃ st', Eval fl (n + 1) (.FuncExpr ps (xs.map .Identifier) body) env st =
        .ok (.FuncObj st.funcs.length) st' ∧ st'.WF ∧ st'.cells = st.cells ∧
      st'.funcs[st.funcs.length]? =
        some { FuncEnv := st.envs.length, Parameters := ps, Body := body } ∧
      (∀ y ∈ xs, Environment.Get st' st.envs.length y = Environment.Get st env y) ∧
      (∀ y, Environment.Get st' env y = Environment.Get st env y) := by
  have hwf0 := NewInnerEnv_WF hwf henv
  have hget0 : ∀ y, Environment.Get (NewInnerEnv env st).2 env y = Environment.Get st env y :=
    fun y => Environment.Get_congr hwf y henv
      (Nat.lt_of_lt_of_le henv (NewInnerEnv_le env st).2.1) fun i hi => by
        simp [NewInnerEnv, List.getElem?_append_left (Nat.lt_of_le_of_lt hi henv)]
  obtain ⟨st1, h1, h2, h3, h4, h5, h6, h7, _⟩ := captureLoop_identifiers fl (Eval fl n) env
    st.envs.length henv xs (NewInnerEnv env st).2 hwf0 (NewInnerEnv_lt env st)
    (fun y hy => by rw [hget0]; exact hall y hy)
  have hres : Eval fl (n + 1) (.FuncExpr ps (xs.map .Identifier) body) env st =
      .ok (.FuncObj (Environment.Close st1 st.envs.length).funcs.length)
        { Environment.Close st1 st.envs.length with
          funcs := (Environment.Close st1 st.envs.length).funcs ++
            [{ FuncEnv := st.envs.length, Parameters := ps, Body := body }] } := by
    rw [Eval_FuncExpr]
    show ((captureLoop fl (Eval fl n) env st.envs.length (xs.map .Identifier)
      (NewInnerEnv env st).2).bind _) = _
    rw [h1]
    rfl
  have hfuncs : (Environment.Close st1 st.envs.length).funcs = st.funcs := by
    have : (Environment.Close st1 st.envs.length).funcs = st1.funcs := by
      unfold Environment.Close
      split <;> rfl
    rw [this, h4]
    rfl
  have hwfc := Environment.Close_WF h2 st.envs.length
  have hlen : (Environment.Close st1 st.envs.length).envs.length = st.envs.length + 1 := by
    rw [Environment.Close_envs_length, h5]
    simp [NewInnerEnv]
  have hwf2 : ({ Environment.Close st1 st.envs.length with
      funcs := (Environment.Close st1 st.envs.length).funcs ++
        [{ FuncEnv := st.envs.length, Parameters := ps, Body := body }] } : State).WF := by
    refine State.WF.mk' (fun i e hi => hwfc.env hi) ?_
    intro fv hfv
    simp only [List.mem_append, List.mem_singleton] at hfv
    rcases hfv with hfv | hfv
    · exact hwfc.2 fv hfv
    · subst hfv
      show st.envs.length < (Environment.Close st1 st.envs.length).envs.length
      omega
  refine ⟨_, ?_, hwf2, ?_, ?_, ?_, ?_⟩
  · rw [hres, hfuncs]
  · show (Environment.Close st1 st.envs.length).cells = st.cells
    rw [Environment.Close_cells, h3]
    rfl
  · show ((Environment.Close st1 st.envs.length).funcs ++ _)[st.funcs.length]? = _
    rw [hfuncs]
    simp
  · intro y hy
    obtain ⟨c, hc⟩ := Option.isSome_iff_exists.1 (hall y hy)
    rw [hc]
    apply Environment.Get_of_localVar
    show (Environment.Close st1 st.envs.length).localVar st.envs.length y = _
    rw [State.localVar_Close, h7 y hy, hget0, hc]
  · intro y
    refine Environment.Get_congr hwf y henv (by
      show env < (Environment.Close st1 st.envs.length).envs.length
      omega) fun i hi => ?_
    show (Environment.Close st1 st.envs.length).envs[i]? = _
    rw [Environment.Close_envs_getElem? st1 _ i (by omega), h6 i (by omega)]
    simp [NewInnerEnv, List.getElem?_append_left (Nat.lt_of_le_of_lt hi henv)]

/-- An assignment through one name of a cell is read through every name of
that cell. -/
theorem Eval_assign_visible (fl : FloatOps) (m : Nat) (x : GoString) (e : Expression)
    (a b : Nat) (c : Cell) (v : Object) (st st2 : State) (hwf : st.WF)
    (ha : a < st.envs.length) (he : Eval fl m e a st = .ok v st2)
    (hca : Environment.Get st2 a x = some c) (hcb : Environment.Get st2 b x = some c) :
    Eval fl (m + 1) (.AssignExpr (.Identifier x) e) a st = .ok v (st2.store c v) ∧
    Eval fl 1 (.Identifier x) b (st2.store c v) = .ok v (st2.store c v) := by
  have hwf2 := (Eval_ok_WF hwf ha he).1
  refine ⟨Eval_assign_identifier fl m x e a st st2 v c he hca, ?_⟩
  rw [Eval_Identifier]
  simp [evalIdentifierExpr, Environment.Get_store, hcb,
    State.load_store_self v (Environment.Get_valid hwf2 hca)]

/-! ## The string loop of the lexer -/

/-- Without a closing quote in the rest of the input the loop of `readString`
runs out of every amount of fuel: at the end of the input `peekChar` keeps
returning 0, which is not the quote, and `readChar` no longer moves. -/
theorem readStringLoop_unterminated :
    ∀ (fuel : Nat) (buf : GoString) (s : List Nat) (line : Nat), 34 ∉ s →
      readStringLoop fuel buf { input := s, line := line } = none := by
  intro fuel
  induction fuel with
  | zero => intro buf s line _; rfl
  | succ fuel ih =>
    intro buf s line hs
    cases s with
    | nil =>
      have : readStringLoop (fuel + 1) buf { input := [], line := line } =
          readStringLoop fuel (buf ++ [0]) { input := [], line := line } := rfl
      rw [this]
      exact ih _ [] line hs
    | cons c rest =>
      have hc : c ≠ 34 := fun h => hs (h ▸ List.mem_cons_self _ _)
      have hrest : 34 ∉ rest := fun h => hs (List.mem_cons_of_mem _ h)
      have : readStringLoop (fuel + 1) buf { input := c :: rest, line := line } =
          readStringLoop fuel (buf ++ [c]) { input := rest, line := line } := by
        simp [readStringLoop, Lexer.peekChar, Lexer.readChar, hc]
      rw [this]
      exact ih _ rest line hrest

/-- On an input that opens a string and never closes it, `NextToken` does not
return. -/
theorem NextToken_unterminated (s : List Nat) (line : Nat) (hs : 34 ∉ s) (fuel : Nat) :
    Lexer.NextToken fuel { input := 34 :: s, line := line } = none := by
  have h : Lexer.NextToken fuel { input := 34 :: s, line := line } =
      Lexer.readString fuel { input := 34 :: s, line := line } := rfl
  rw [h]
  simp [Lexer.readString, Lexer.readChar, readStringLoop_unterminated fuel [] s line hs]

/-! ## The block loop of the parser at the end of the input -/

theorem NextToken_nil (fuel line : Nat) :
    Lexer.NextToken fuel { input := [], line := line } =
      some ({ Typ := .T_EOF, Line := line, Message := str "EOF" }, { input := [], line := line }) :=
  rfl

/-- At the end of the input `nextToken` leaves the parser at the end of the
input. -/
theorem Parser.nextToken_AtEOF (fuel : Nat) (p : Parser) (hp : p.AtEOF) :
    ∃ p1, p.nextToken (fuel + 1) = some (p.peekToken, p1) ∧ p1.AtEOF ∧ p1.Errors = p.Errors := by
  obtain ⟨l, pk, errs⟩ := p
  obtain ⟨input, line⟩ := l
  obtain ⟨h1, h2⟩ := hp
  simp only at h2
  subst h2
  refine ⟨{ lexer := { input := [], line := line },
            peekToken := { Typ := .T_EOF, Line := line, Message := str "EOF" },
            Errors := errs }, ?_, ⟨rfl, rfl⟩, rfl⟩
  simp [Parser.nextToken, NextToken_nil]

/-- At the end of the input `parseExpr` does not return an expression: it
runs out of fuel or returns an error, consuming nothing. -/
theorem parseExpr_AtEOF (fl : FloatOps) (fuel : Nat) (precedence : Precedence) (p : Parser)
    (hp : p.AtEOF) :
    parseExpr fl fuel precedence p = .timeout ∨
      ∃ e p1, parseExpr fl fuel precedence p = .err e p1 ∧ p1.AtEOF := by
  cases fuel with
  | zero => exact Or.inl rfl
  | succ k =>
    cases k with
    | zero =>
      left
      simp [parseExpr, hp.1, prefixParseFns, Parser.next, Parser.nextToken]
    | succ j =>
      right
      obtain ⟨p1, h1, h2, _⟩ := Parser.nextToken_AtEOF j p hp
      refine ⟨{ GotToken := some p.peekToken, ExpectTokenType := .T_NONE,
                Message := "no prefix parse function" }, p1, ?_, h2⟩
      simp [parseExpr, hp.1, prefixParseFns, Parser.next, h1]

theorem skipSemicolons_AtEOF (fuel : Nat) (p : Parser) (hp : p.AtEOF) :
    skipSemicolons (fuel + 1) p = some p := by
  simp [skipSemicolons, hp.1]

/-- At the end of the input the loop of `parseBlockExpr`, which runs until
the peek token is `T_RBRACE`, runs out of every amount of fuel: each
iteration records an error and leaves the peek token `T_EOF`. -/
theorem blockLoop_AtEOF (pe : ExprParser)
    (hpe : ∀ p : Parser, p.AtEOF →
      pe LOWEST p = .timeout ∨ ∃ e p1, pe LOWEST p = .err e p1 ∧ p1.AtEOF) :
    ∀ (fuel : Nat) (exprs : List Expression) (p : Parser), p.AtEOF →
      blockLoop pe .T_RBRACE fuel exprs p = none := by
  intro fuel
  induction fuel with
  | zero => intro exprs p _; rfl
  | succ k ih =>
    intro exprs p hp
    have hne : p.peekToken.Typ ≠ .T_RBRACE := by rw [hp.1]; decide
    rcases hpe p hp with h | ⟨e, p1, h, h1⟩
    · simp [blockLoop, hne, h]
    · have h2 : Parser.AtEOF { p1 with Errors := p1.Errors ++ [.ParseError e] } := h1
      cases k with
      | zero => simp [blockLoop, hne, h, skipSemicolons]
      | succ j =>
        simp only [blockLoop, hne, h, ne_eq, not_false_eq_true, if_true,
          skipSemicolons_AtEOF j _ h2]
        exact ih exprs _ h2

/-- The case of `parseExpr` for a peek token `{`: the registered method is
`parseBlockExpr`. -/
theorem parseExpr_LBRACE (fl : FloatOps) (fuel : Nat) (precedence : Precedence) (p : Parser)
    (hp : p.peekToken.Typ = .T_LBRACE) :
    parseExpr fl (fuel + 1) precedence p =
      (parseBlockExpr (parseExpr fl fuel) fuel p).bind fun leftExpr p1 =>
        infixLoop (parseExpr fl fuel) fuel precedence fuel leftExpr p1 := by
  simp only [parseExpr, hp, prefixParseFns, PrefixParseFn.call]

/-- A block opened at the end of the input is never closed: `parseBlockExpr`
runs out of every amount of fuel. -/
theorem parseBlockExpr_unclosed (fl : FloatOps) (fuel : Nat) (p p1 : Parser) (t : Token)
    (h : p.nextToken fuel = some (t, p1)) (h1 : p1.AtEOF) :
    parseBlockExpr (parseExpr fl fuel) fuel p = .timeout := by
  have h4 := blockLoop_AtEOF (parseExpr fl fuel)
    (fun q hq => parseExpr_AtEOF fl fuel LOWEST q hq) fuel [] p1 h1
  simp only [parseBlockExpr, parseBlockExprs, Parser.next, h, h4, PRes.bind]

/-! ## Truthiness and the operators -/

/-- C8 (truthiness).  The coercion `toBooleanObj` is false exactly on Nil and
on Boolean false; in particular zero, the empty string, tables, packs and
functions are truthy.  When `e` evaluates to `x`, `!e` yields the negation of
the coercion of `x` and `!!e` the coercion itself, in the memory left by
`e`. -/
theorem truthiness (fl : FloatOps) (fuel : Nat) (e : Expression) (env : Nat) (st st' : State)
    (x : Object) (h : Eval fl fuel e env st = .ok x st') :
    (∀ y : Object, toBooleanObj y = false ↔ (y = .NilValue ∨ y = .BooleanObj false)) ∧
    toBooleanObj (.IntegerObj 0) = true ∧ toBooleanObj (.StringObj []) = true ∧
    (∀ n, toBooleanObj (.TableObj n) = true ∧ toBooleanObj (.PackObj n) = true ∧
      toBooleanObj (.FuncObj n) = true) ∧
    Eval fl (fuel + 1) (.ArithPrefixExpr .T_BANG e) env st =
      .ok (.BooleanObj (!toBooleanObj x)) st' ∧
    Eval fl (fuel + 2) (.ArithPrefixExpr .T_BANG (.ArithPrefixExpr .T_BANG e)) env st =
      .ok (.BooleanObj (toBooleanObj x)) st' := by
  refine ⟨toBooleanObj_eq_false, rfl, rfl, fun n => ⟨rfl, rfl, rfl⟩, ?_, ?_⟩
  · simp [Eval_ArithPrefixExpr, evalArithPrefixExpr, h]
  · simp [Eval_ArithPrefixExpr, evalArithPrefixExpr, h, toBooleanObj]

/-- The statement of C8 on the program `!!10086` of the tests. -/
theorem truthiness_witness :
    Eval bitsOps 1 (.IntegerExpr 10086) 0 State.init = .ok (.IntegerObj 10086) State.init ∧
    Eval bitsOps 3 (.ArithPrefixExpr .T_BANG (.ArithPrefixExpr .T_BANG (.IntegerExpr 10086))) 0
      State.init = .ok (.BooleanObj true) State.init :=
  ⟨rfl, (truthiness bitsOps 1 (.IntegerExpr 10086) 0 State.init State.init (.IntegerObj 10086)
    rfl).2.2.2.2.2⟩

/-- C7 (numeric promotion).  When the operands of an infix operator evaluate
to an Integer `i` and a Float `f`, in either order, `x` and `y` being the
operands as floats (`float64(i)` for the Integer, `f` itself for the Float),
the four arithmetic operators yield the Float of the float operation on `x`
and `y`, and the six comparisons the Boolean of the float comparison. -/
theorem numeric_promotion (fl : FloatOps) (fuel : Nat) (l r : Expression) (env : Nat)
    (st st1 st2 : State) (i : Int) (f : F64) (a b : Object) (x y : F64)
    (hab : (a = .IntegerObj i ∧ x = fl.ofInt i ∧ b = .FloatObj f ∧ y = f) ∨
      (a = .FloatObj f ∧ x = f ∧ b = .IntegerObj i ∧ y = fl.ofInt i))
    (hl : Eval fl fuel l env st = .ok a st1) (hr : Eval fl fuel r env st1 = .ok b st2) :
    Eval fl (fuel + 1) (.ArithInfixExpr .T_PLUS l r) env st = .ok (.FloatObj (fl.add x y)) st2 ∧
    Eval fl (fuel + 1) (.ArithInfixExpr .T_MINUS l r) env st = .ok (.FloatObj (fl.sub x y)) st2 ∧
    Eval fl (fuel + 1) (.ArithInfixExpr .T_ASTERISK l r) env st =
      .ok (.FloatObj (fl.mul x y)) st2 ∧
    Eval fl (fuel + 1) (.ArithInfixExpr .T_SLASH l r) env st = .ok (.FloatObj (fl.div x y)) st2 ∧
    Eval fl (fuel + 1) (.ArithInfixExpr .T_LT l r) env st = .ok (.BooleanObj (fl.lt x y)) st2 ∧
    Eval fl (fuel + 1) (.ArithInfixExpr .T_LE l r) env st = .ok (.BooleanObj (fl.le x y)) st2 ∧
    Eval fl (fuel + 1) (.ArithInfixExpr .T_GT l r) env st = .ok (.BooleanObj (fl.gt x y)) st2 ∧
    Eval fl (fuel + 1) (.ArithInfixExpr .T_GE l r) env st = .ok (.BooleanObj (fl.ge x y)) st2 ∧
    Eval fl (fuel + 1) (.ArithInfixExpr .T_EQ l r) env st = .ok (.BooleanObj (fl.eq x y)) st2 ∧
    Eval fl (fuel + 1) (.ArithInfixExpr .T_NEQ l r) env st = .ok (.BooleanObj (fl.ne x y)) st2 := by
  rcases hab with ⟨rfl, rfl, rfl, rfl⟩ | ⟨rfl, rfl, rfl, rfl⟩ <;>
    simp [Eval_ArithInfixExpr, evalArithInfixExpr, hl, hr, infixValues, isArithOrCompare, Object.Typ,
      toFloatObj, mixedInfix]

/-- The statement of C7 on `20 + f`, for the float `f` of bit pattern 5. -/
theorem numeric_promotion_witness :
    Eval bitsOps 2 (.ArithInfixExpr .T_PLUS (.IntegerExpr 20) (.FloatExpr ⟨5⟩)) 0 State.init =
      .ok (.FloatObj (bitsOps.add (bitsOps.ofInt 20) ⟨5⟩)) State.init :=
  (numeric_promotion bitsOps 1 (.IntegerExpr 20) (.FloatExpr ⟨5⟩) 0 State.init State.init
    State.init 20 ⟨5⟩ (.IntegerObj 20) (.FloatObj ⟨5⟩) (bitsOps.ofInt 20) ⟨5⟩
    (Or.inl ⟨rfl, rfl, rfl, rfl⟩) rfl rfl).1

/-! ## Return escape -/

/-- C4 (environment shadowing).  In a well-formed memory, let the right-hand
side `e`, evaluated in the fresh scope of a block, yield `v2`, and let `x`
denote `v1` in the enclosing environment `env` once `e` is evaluated.  Then
the block `{ x := e }` leaves `x` equal to `v1` in `env`: the declaration
binds a new cell in the inner scope of the block.  If moreover `e` has not
declared `x` in the block's scope, the block `{ x = e }` leaves `x` equal to
`v2` in `env`. -/
theorem environment_shadowing (fl : FloatOps) (n : Nat) (x : GoString) (e : Expression)
    (env : Nat) (st st2 : State) (v1 v2 : Object)
    (hwf : st.WF) (henv : env < st.envs.length)
    (hrhs : Eval fl n e (NewInnerEnv env st).1 (NewInnerEnv env st).2 = .ok v2 st2)
    (hx : st2.lookup env x = some v1)
    (hin : Environment.Get st2 (NewInnerEnv env st).1 x = Environment.Get st2 env x) :
    (∃ r st3, Eval fl (n + 2) (.BlockExpr [.DeclarationExpr (.Identifier x) e]) env st
        = .ok r st3 ∧ st3.lookup env x = some v1) ∧
    (∃ r st3, Eval fl (n + 2) (.BlockExpr [.AssignExpr (.Identifier x) e]) env st
        = .ok r st3 ∧ st3.lookup env x = some v2) := by
  have h2 := Eval_ok_WF (NewInnerEnv_WF hwf henv) (NewInnerEnv_lt env st) hrhs
  have henv2 : env < st2.envs.length :=
    Nat.lt_of_lt_of_le henv (State.le_trans (NewInnerEnv_le env st) h2.2).2.1
  constructor
  · obtain ⟨r, hr⟩ := evalBlockExpr_singleton (Eval fl (n + 1)) _ _ _ _ _
      (Eval_declare_identifier fl n x e _ _ st2 v2 hrhs)
    refine ⟨r, _, by rw [Eval_BlockExpr]; exact hr, ?_⟩
    rw [State.lookup_declare_newer h2.1 x x v2 henv2 (by rw [NewInnerEnv_fst]; exact henv)]
    exact hx
  · unfold State.lookup at hx
    cases hg : Environment.Get st2 env x with
    | none => simp [hg] at hx
    | some c =>
      obtain ⟨r, hr⟩ := evalBlockExpr_singleton (Eval fl (n + 1)) _ _ _ _ _
        (Eval_assign_identifier fl n x e _ _ st2 v2 c hrhs (hin.trans hg))
      refine ⟨r, _, by rw [Eval_BlockExpr]; exact hr, ?_⟩
      unfold State.lookup
      rw [Environment.Get_store, hg]
      exact State.load_store_self v2 (Environment.Get_valid h2.1 hg)

/-- The statement of C4 after `x := 1`: the blocks `{ x := 2 }` and
`{ x = 2 }` leave the outer `x` equal to 1 and to 2. -/
theorem environment_shadowing_witness :
    (∃ r st3, Eval bitsOps 3 (.BlockExpr [.DeclarationExpr (.Identifier (str "x")) (.IntegerExpr 2)])
        0 (Environment.SetNewObj (NewEnv State.init).2 0 (str "x") (.IntegerObj 1))
        = .ok r st3 ∧ st3.lookup 0 (str "x") = some (.IntegerObj 1)) ∧
    (∃ r st3, Eval bitsOps 3 (.BlockExpr [.AssignExpr (.Identifier (str "x")) (.IntegerExpr 2)])
        0 (Environment.SetNewObj (NewEnv State.init).2 0 (str "x") (.IntegerObj 1))
        = .ok r st3 ∧ st3.lookup 0 (str "x") = some (.IntegerObj 2)) :=
  environment_shadowing bitsOps 1 (str "x") (.IntegerExpr 2) 0
    (Environment.SetNewObj (NewEnv State.init).2 0 (str "x") (.IntegerObj 1)) _
    (.IntegerObj 1) (.IntegerObj 2) (by decide) (by decide) rfl (by decide) (by decide)

/-! ## Reference equality -/

/-- C6, failing input.  The program `f := func(){}; return f == f` parses
without error and its evaluation returns an evaluation error, not Boolean
true: the switch on the type under `T_EQ` in `evalArithInfixExpr` has cases
for Table and Pack, which compare the pointers, and none for Function. -/
theorem function_equality_is_an_error :
    (runSource bitsOps 40 "f := func(){}; return f == f").map
      (fun r => (r.1.value?, r.1.error?.isSome, r.2)) = some (none, true, 0) := by
  decide!

/-- What `==` and `!=` do on references.  (1) When both operands evaluate to
the same Table or Pack value, `==` yields Boolean true and `!=` Boolean false,
without error.  (2) When both evaluate to the same Function value, `==` and
`!=` return the evaluation error "Arith Infix Expr operator and operand".
(3) Two table literals, the second evaluated in a memory that extends the one
left by the first, yield values that `==` finds unequal and `!=` different,
whatever their contents. -/
theorem reference_equality (fl : FloatOps) (n : Nat) :
    (∀ (l r : Expression) (env : Nat) (st st1 st2 : State) (v : Object),
      ((∃ t, v = .TableObj t) ∨ (∃ p, v = .PackObj p)) →
      Eval fl n l env st = .ok v st1 → Eval fl n r env st1 = .ok v st2 →
      Eval fl (n + 1) (.ArithInfixExpr .T_EQ l r) env st = .ok (.BooleanObj true) st2 ∧
      Eval fl (n + 1) (.ArithInfixExpr .T_NEQ l r) env st = .ok (.BooleanObj false) st2) ∧
    (∀ (l r : Expression) (env : Nat) (st st1 st2 : State) (f : Nat),
      Eval fl n l env st = .ok (.FuncObj f) st1 → Eval fl n r env st1 = .ok (.FuncObj f) st2 →
      Eval fl (n + 1) (.ArithInfixExpr .T_EQ l r) env st =
        .err (.arithInfixOperatorOperand .T_EQ l r) st2 ∧
      Eval fl (n + 1) (.ArithInfixExpr .T_NEQ l r) env st =
        .err (.arithInfixOperatorOperand .T_NEQ l r) st2) ∧
    (∀ (ps1 ps2 : List (Expression × Expression)) (env env2 : Nat) (st st1 st2 st3 : State)
      (v1 v2 : Object), st.WF → env < st.envs.length → st2.WF → env2 < st2.envs.length →
      Eval fl n (.TableExpr ps1) env st = .ok v1 st1 → st1.le st2 →
      Eval fl n (.TableExpr ps2) env2 st2 = .ok v2 st3 →
      infixValues fl .T_EQ v1 v2 = .val (.BooleanObj false) ∧
      infixValues fl .T_NEQ v1 v2 = .val (.BooleanObj true)) := by
  refine ⟨?_, ?_, ?_⟩
  · intro l r env st st1 st2 v hv hl hr
    rcases hv with ⟨t, rfl⟩ | ⟨p, rfl⟩ <;>
      simp [Eval_ArithInfixExpr, evalArithInfixExpr, hl, hr, infixValues, isArithOrCompare,
        sameTypeInfix]
  · intro l r env st st1 st2 f hl hr
    simp [Eval_ArithInfixExpr, evalArithInfixExpr, hl, hr, infixValues, isArithOrCompare,
      sameTypeInfix]
  · intro ps1 ps2 env env2 st st1 st2 st3 v1 v2 hwf henv hwf2 henv2 h1 hle h2
    obtain ⟨rfl, hlt1⟩ := Eval_TableExpr_fresh hwf henv h1
    obtain ⟨rfl, _⟩ := Eval_TableExpr_fresh hwf2 henv2 h2
    have hne : st.tables.length ≠ st2.tables.length := by
      have := hle.2.2.1
      omega
    simp [infixValues, isArithOrCompare, sameTypeInfix, hne, Object.Typ]

/-- On a variable `t` bound to a table, `t == t` yields true. -/
theorem reference_equality_on_table :
    Eval bitsOps 2 (.ArithInfixExpr .T_EQ (.Identifier (str "t")) (.Identifier (str "t"))) 0
      tableMemory = .ok (.BooleanObj true) tableMemory :=
  ((reference_equality bitsOps 1).1 (.Identifier (str "t")) (.Identifier (str "t")) 0
    tableMemory tableMemory tableMemory (.TableObj 0) (Or.inl ⟨0, rfl⟩) rfl rfl).1

/-! ## Pack destructuring -/

/-- C5, failing inputs.  A call that leaves a parameter without argument
binds it to `&NilObj`, so that an assignment to the parameter overwrites the
package variable `NilObj`, from which the targets without element are filled.
After `f := func(a){ a = 5 }; f()` the declaration `[x, y] := [1]` gives `y`
the Integer 5 instead of Nil; and in `func(a, b){ [a, b] = [7]; return b }`
called without argument, where both targets are declared, `b` receives 7
instead of Nil. -/
theorem pack_destructuring_after_overwritten_nil :
    (runSource bitsOps 40 "f := func(a){ a = 5 }; f(); [x, y] := [1]; return y").map
      (fun r => (r.1.value?, r.2)) = some (some (.IntegerObj 5), 0) ∧
    (runSource bitsOps 40 "f := func(a, b){ [a, b] = [7]; return b }; return f()").map
      (fun r => (r.1.value?, r.2)) = some (some (.IntegerObj 7), 0) := by
  constructor <;> decide!

/-! ## Termination of the lexer and the parser -/

/-- C9, failing input.  On the input `"abc`, which ends inside a string
literal, the first call of `NextToken` does not terminate: it runs out of
every amount of fuel. -/
theorem lexer_unterminated_string_diverges :
    ∀ fuel : Nat, (Lexer.New (str "\"abc")).NextToken fuel = none :=
  fun fuel => NextToken_unterminated (str "abc") 1 (by decide) fuel

/-- C10, failing input.  On the input `{`, a block that is never closed,
`ParseProgram` does not terminate: it runs out of every amount of fuel. -/
theorem parser_unclosed_brace_diverges (fl : FloatOps) :
    ∀ fuel : Nat, ParseProgram fl fuel (Parser.New (Lexer.New (str "\x7b"))) = none := by
  intro fuel
  cases fuel with
  | zero => rfl
  | succ k =>
    have h1 : (Parser.New (Lexer.New (str "\x7b"))).nextToken (k + 1) =
        some ({ Typ := .T_LBRACE, Line := 0, Message := str "begin of file" },
          { lexer := { input := [], line := 1 },
            peekToken := { Typ := .T_LBRACE, Line := 1, Message := [] }, Errors := [] }) := rfl
    have h2 : parseExpr fl (k + 1) LOWEST
        { lexer := { input := [], line := 1 },
          peekToken := { Typ := .T_LBRACE, Line := 1, Message := [] }, Errors := [] } =
        .timeout := by
      cases k with
      | zero => rfl
      | succ j =>
        have h3 : Parser.nextToken (j + 1)
            { lexer := { input := [], line := 1 },
              peekToken := { Typ := .T_LBRACE, Line := 1, Message := [] }, Errors := [] } =
            some ({ Typ := .T_LBRACE, Line := 1, Message := [] },
              { lexer := { input := [], line := 1 },
                peekToken := { Typ := .T_EOF, Line := 1, Message := str "EOF" },
                Errors := [] }) := rfl
        rw [parseExpr_LBRACE fl (j + 1) LOWEST _ rfl,
          parseBlockExpr_unclosed fl (j + 1) _ _ _ h3 ⟨rfl, rfl⟩]
        rfl
    simp [ParseProgram, h1, blockLoop, h2]

/-! ## Integer arithmetic -/

/-- The wrapped value lies in the range of `int64` and differs from the exact
one by a multiple of `2 ^ 64`. -/
theorem wrapInt64_spec (x : Int) :
    -2 ^ 63 ≤ wrapInt64 x ∧ wrapInt64 x < 2 ^ 63 ∧ (2 : Int) ^ 64 ∣ wrapInt64 x - x := by
  unfold wrapInt64
  refine ⟨by omega, by omega, ?_⟩
  have h := Int.emod_add_ediv (x + 2 ^ 63) (2 ^ 64)
  exact ⟨-((x + 2 ^ 63) / 2 ^ 64), by omega⟩

/-- A value in the range of `int64` is not changed by wrapping. -/
theorem wrapInt64_of_range (x : Int) (h1 : -2 ^ 63 ≤ x) (h2 : x < 2 ^ 63) : wrapInt64 x = x := by
  unfold wrapInt64
  omega

/-- The quotient of two `int64` values is in the range of `int64`, except for
the most negative value divided by -1. -/
theorem tdiv_range (a b : Int) (ha1 : -2 ^ 63 ≤ a) (ha2 : a < 2 ^ 63) (hb : b ≠ 0)
    (hne : ¬(a = -2 ^ 63 ∧ b = -1)) : -2 ^ 63 ≤ Int.tdiv a b ∧ Int.tdiv a b < 2 ^ 63 := by
  have habs : (Int.tdiv a b).natAbs ≤ a.natAbs := by
    rw [Int.natAbs_tdiv]
    exact Nat.div_le_self _ _
  by_cases hb1 : b = -1
  · subst hb1
    have : Int.tdiv a (-1) = -a := by
      rw [Int.tdiv_neg]; simp
    rw [this]
    have : a ≠ -2 ^ 63 := fun h => hne ⟨h, rfl⟩
    omega
  · constructor
    · omega
    · by_cases h63 : a = -2 ^ 63
      · by_cases hb2 : b = 1
        · subst hb2
          rw [Int.tdiv_one]
          exact ha2
        · have h2 : 2 ≤ b.natAbs := by omega
          have h3 : (Int.tdiv a b).natAbs ≤ a.natAbs / 2 := by
            rw [Int.natAbs_tdiv]
            exact Nat.div_le_div_left h2 (by decide)
          have h4 : a.natAbs = 2 ^ 63 := by
            subst h63
            rfl
          rw [h4] at h3
          omega
      · omega

/-- On two Integers every operator that yields a value yields an Integer or a
Boolean. -/
theorem infixValues_integers (fl : FloatOps) (Op : TokenType) (a b : Int) (o : Object)
    (h : infixValues fl Op (.IntegerObj a) (.IntegerObj b) = .val o) :
    o.Typ = .TIntegerObj ∨ o.Typ = .TBooleanObj := by
  by_cases hb : b = 0 <;>
    cases Op <;>
      simp [infixValues, isArithOrCompare, sameTypeInfix, Object.Typ, toBooleanObj, hb] at h <;>
      subst h <;> simp [Object.Typ]

/-- Integer division by an Integer 0 ends in a run-time panic, whatever the
dividend. -/
theorem Eval_integer_division_by_zero (fl : FloatOps) (fuel : Nat) (l r : Expression)
    (env : Nat) (st st1 st2 : State) (a : Int)
    (hl : Eval fl fuel l env st = .ok (.IntegerObj a) st1)
    (hr : Eval fl fuel r env st1 = .ok (.IntegerObj 0) st2) :
    Eval fl (fuel + 1) (.ArithInfixExpr .T_SLASH l r) env st = .panic := by
  simp [Eval_ArithInfixExpr, evalArithInfixExpr, hl, hr, infixValues, isArithOrCompare,
    sameTypeInfix, Object.Typ]

/-- Unary minus: the wrapped negation on an Integer, the float negation on a
Float, the error "minus prefix operator with wrong value type" on every other
value except a Function, and a run-time panic on a Function, for which
`ObjType.String` has no case. -/
theorem Eval_minus (fl : FloatOps) (fuel : Nat) (e : Expression) (env : Nat) (st st1 : State)
    (x : Object) (h : Eval fl fuel e env st = .ok x st1) :
    (∀ v, x = .IntegerObj v → Eval fl (fuel + 1) (.ArithPrefixExpr .T_MINUS e) env st =
      .ok (.IntegerObj (wrapInt64 (-v))) st1) ∧
    (∀ v, x = .FloatObj v → Eval fl (fuel + 1) (.ArithPrefixExpr .T_MINUS e) env st =
      .ok (.FloatObj (fl.neg v)) st1) ∧
    (x.Typ ≠ .TIntegerObj → x.Typ ≠ .TFloatObj → x.Typ ≠ .TFuncObj →
      ∃ s, Eval fl (fuel + 1) (.ArithPrefixExpr .T_MINUS e) env st =
        .err (.minusWrongType s) st1) ∧
    (∀ f, x = .FuncObj f → Eval fl (fuel + 1) (.ArithPrefixExpr .T_MINUS e) env st = .panic) := by
  refine ⟨?_, ?_, ?_, ?_⟩
  · rintro v rfl
    simp [Eval_ArithPrefixExpr, evalArithPrefixExpr, h]
  · rintro v rfl
    simp [Eval_ArithPrefixExpr, evalArithPrefixExpr, h]
  · intro h1 h2 h3
    cases x <;> simp [Object.Typ] at h1 h2 h3 <;>
      simp [Eval_ArithPrefixExpr, evalArithPrefixExpr, h, Object.Typ, ObjType.String]
  · rintro f rfl
    simp [Eval_ArithPrefixExpr, evalArithPrefixExpr, h, Object.Typ, ObjType.String]

/-! ## Calls -/

/-- Binding the parameters without argument leaves the names that are not
among them. -/
theorem bindMissing_localVar_ne (ce : Nat) (x : GoString) :
    ∀ (ps : List GoString) (st : State), x ∉ ps →
      (bindMissing ce ps st).localVar ce x = st.localVar ce x := by
  intro ps
  induction ps with
  | nil => intro st _; rfl
  | cons p rest ih =>
    intro st hx
    have h1 : x ≠ p := fun h => hx (h ▸ List.mem_cons_self _ _)
    have h2 : x ∉ rest := fun h => hx (List.mem_cons_of_mem _ h)
    rw [bindMissing, ih _ h2, State.localVar_Set_ne _ _ _ _ _ h1]

/-- Binding the parameters without argument does not change the number of
environments. -/
theorem bindMissing_envs_length (ce : Nat) :
    ∀ (ps : List GoString) (st : State), (bindMissing ce ps st).envs.length = st.envs.length := by
  intro ps
  induction ps with
  | nil => intro st; rfl
  | cons p rest ih => intro st; rw [bindMissing, ih, Environment.Set_envs_length]

/-- Every parameter without argument is bound in the call scope to the
address of the package variable `NilObj`, not to a fresh cell. -/
theorem bindMissing_localVar (ce : Nat) :
    ∀ (ps : List GoString) (st : State), ce < st.envs.length → ∀ p ∈ ps,
      (bindMissing ce ps st).localVar ce p = some .NilObjVar := by
  intro ps
  induction ps with
  | nil => intro st _ p hp; exact absurd hp (List.not_mem_nil _)
  | cons q rest ih =>
    intro st hce p hp
    rw [bindMissing]
    by_cases hr : p ∈ rest
    · exact ih _ (by rw [Environment.Set_envs_length]; exact hce) p hr
    · have hpq : p = q := by
        rcases List.mem_cons.mp hp with h | h
        · exact h
        · exact absurd h hr
      subst hpq
      rw [bindMissing_localVar_ne ce p rest _ hr]
      exact State.localVar_Set_self st p .NilObjVar hce

/-! ## Tables -/

/-- On values that are not floats or wrappers, the equality of map keys holds
of a key and itself. -/
theorem keyEq_self (fl : FloatOps) (k : Object) (h1 : k.Typ ≠ .TFloatObj)
    (h2 : k.Typ ≠ .TReturnObj) (h3 : k.Typ ≠ .TBreakObj) : keyEq fl k k = true := by
  cases k <;> simp [Object.Typ] at h1 h2 h3 <;> simp [keyEq]

/-- The equality of map keys inherits the Euclidean property of the float
equality. -/
theorem keyEq_euclidean (fl : FloatOps) (hfl : fl.EqEuclidean) :
    ∀ a b c : Object, keyEq fl a b = true → keyEq fl a c = true → keyEq fl b c = true := by
  intro a
  induction a with
  | FloatObj x =>
    intro b c hab hac
    cases b <;> simp [keyEq] at hab
    cases c <;> simp [keyEq] at hac
    simp only [keyEq]
    exact hfl _ _ _ hab hac
  | ReturnObj x ih =>
    intro b c hab hac
    cases b <;> simp [keyEq] at hab
    cases c <;> simp [keyEq] at hac
    simp only [keyEq]
    exact ih _ _ hab hac
  | BreakObj x ih =>
    intro b c hab hac
    cases b <;> simp [keyEq] at hab
    cases c <;> simp [keyEq] at hac
    simp only [keyEq]
    exact ih _ _ hab hac
  | _ =>
    intro b c hab hac
    cases b <;> simp [keyEq] at hab
    cases c <;> simp [keyEq] at hac
    simp_all [keyEq]

/-- A key equal to itself is found after it is written. -/
theorem storeGet_storeSet_self (fl : FloatOps) (k v : Object) (hk : keyEq fl k k = true) :
    ∀ store : List (Object × Object), storeGet fl k (storeSet fl k v store) = some v := by
  intro store
  induction store with
  | nil => simp [storeSet, storeGet, hk]
  | cons a rest ih =>
    obtain ⟨k1, v1⟩ := a
    by_cases h : keyEq fl k1 k = true
    · simp [storeSet, storeGet, h]
    · simp [storeSet, storeGet, h, ih]

/-- A write under `k` leaves the value under every key different from `k`. -/
theorem storeGet_storeSet_ne (fl : FloatOps) (hfl : fl.EqEuclidean) (k k' v : Object)
    (hne : keyEq fl k k' = false) :
    ∀ store : List (Object × Object),
      storeGet fl k' (storeSet fl k v store) = storeGet fl k' store := by
  intro store
  induction store with
  | nil => simp [storeSet, storeGet, hne]
  | cons a rest ih =>
    obtain ⟨k1, v1⟩ := a
    by_cases h : keyEq fl k1 k = true
    · have h' : keyEq fl k1 k' = false := by
        cases hk : keyEq fl k1 k' with
        | false => rfl
        | true => rw [keyEq_euclidean fl hfl k1 k k' h hk] at hne; exact Bool.noConfusion hne
      simp [storeSet, storeGet, h, h']
    · by_cases h' : keyEq fl k1 k' = true
      · simp [storeSet, storeGet, h, h']
      · simp [storeSet, storeGet, h, h', ih]

/-- The table storage number `t` after a write through the pointer `t`. -/
theorem State.tableStore_tables_self (fl : FloatOps) (st : State) (t : Nat) (k v : Object)
    (store : List (Object × Object)) (h : st.tables[t]? = some store) :
    (st.tableStore fl t k v).tables[t]? = some (storeSet fl k v store) := by
  have ht : t < st.tables.length := by
    by_contra hlt
    rw [List.getElem?_eq_none (by omega)] at h
    exact Option.noConfusion h
  simp [State.tableStore, h, List.getElem?_set, ht]

/-- A write through the pointer `t` leaves every other table storage. -/
theorem State.tableStore_tables_ne (fl : FloatOps) (st : State) (t t' : Nat) (k v : Object)
    (h : t' ≠ t) : (st.tableStore fl t k v).tables[t']? = st.tables[t']? := by
  unfold State.tableStore
  split
  · rfl
  · simp [List.getElem?_set, Ne.symm h]

/-- A write into a table storage changes nothing but the heap of tables. -/
theorem State.tableStore_same (fl : FloatOps) (st : State) (t : Nat) (k v : Object) :
    (st.tableStore fl t k v).envs = st.envs ∧ (st.tableStore fl t k v).cells = st.cells ∧
    (st.tableStore fl t k v).packs = st.packs ∧ (st.tableStore fl t k v).funcs = st.funcs ∧
    (st.tableStore fl t k v).NilObj = st.NilObj ∧
    (st.tableStore fl t k v).tables.length = st.tables.length := by
  unfold State.tableStore
  split <;> simp

/-- An index read.  (1) When the receiver does not evaluate to a Table, the
result is the error "eval an index of non table" in the memory left by the
receiver, whatever the index expression is.  (2) When the receiver evaluates
to a Table and the index to `key`, the result is the value stored under `key`
if there is one and the content of the package variable `NilObj`
otherwise. -/
theorem Eval_IndexExpr_read (fl : FloatOps) (fuel : Nat) (T : Expression) (env : Nat)
    (st st1 : State) (x : Object) (hT : Eval fl fuel T env st = .ok x st1) :
    (x.Typ ≠ .TTableObj → ∀ K : Expression,
      Eval fl (fuel + 1) (.IndexExpr T K) env st = .err .evalIndexNonTable st1) ∧
    (∀ (t : Nat) (K : Expression) (key : Object) (st2 : State) (store : List (Object × Object)),
      x = .TableObj t → Eval fl fuel K env st1 = .ok key st2 → st2.tables[t]? = some store →
      Eval fl (fuel + 1) (.IndexExpr T K) env st =
        .ok ((storeGet fl key store).getD st2.NilObj) st2) := by
  constructor
  · intro hx K
    cases x <;> simp [Object.Typ] at hx <;> simp [Eval_IndexExpr, evalIndexExpr, hT]
  · rintro t K key st2 store rfl hK hs
    cases hg : storeGet fl key store <;>
      simp [Eval_IndexExpr, evalIndexExpr, hT, hK, hs, hg]

/-! ## The frame of an evaluation -/

theorem State.frame_refl (env base : Nat) (st : State) : st.Frame env base st :=
  ⟨Nat.le_refl _, fun _ _ _ => rfl⟩

theorem State.frame_trans {env base : Nat} {a b c : State} (h1 : a.Frame env base b)
    (h2 : b.Frame env base c) : a.Frame env base c :=
  ⟨Nat.le_trans h1.1 h2.1, fun i hi hne => (h2.2 i hi hne).trans (h1.2 i hi hne)⟩

theorem State.frame_of_envs_eq {env base : Nat} {st st' : State} (h : st'.envs = st.envs) :
    st.Frame env base st' :=
  ⟨by rw [h], fun _ _ _ => by rw [h]⟩

/-- A step in the frame of an environment that is not below `base` changes no
environment below `base`. -/
theorem State.frame_of_newer {e2 env base : Nat} {st st' : State} (h : st.Frame e2 base st')
    (hb : base ≤ e2) : st.Frame env base st' :=
  ⟨h.1, fun i hi _ => h.2 i hi (by omega)⟩

theorem State.frame_base_le {env base : Nat} {st st' : State} (h : st.Frame env base st')
    (hb : base ≤ st.envs.length) : base ≤ st'.envs.length :=
  Nat.le_trans hb h.1

theorem NewInnerEnv_frame (outer env base : Nat) (st : State) (hb : base ≤ st.envs.length) :
    st.Frame env base (NewInnerEnv outer st).2 := by
  refine ⟨by simp [NewInnerEnv], fun i hi _ => ?_⟩
  simp only [NewInnerEnv]
  exact List.getElem?_append_left (by omega)

theorem Environment.Set_frame (st : State) (e : Nat) (x : GoString) (c : Cell) (env base : Nat)
    (h : e = env ∨ base ≤ e) : st.Frame env base (Environment.Set st e x c) := by
  refine ⟨by rw [Environment.Set_envs_length], fun i hi hne => ?_⟩
  exact Environment.Set_envs_getElem? st e x c i (by omega)

theorem Environment.Close_frame (st : State) (e env base : Nat) (h : e = env ∨ base ≤ e) :
    st.Frame env base (Environment.Close st e) := by
  refine ⟨by rw [Environment.Close_envs_length], fun i hi hne => ?_⟩
  exact Environment.Close_envs_getElem? st e i (by omega)

theorem State.store_frame (st : State) (c : Cell) (v : Object) (env base : Nat) :
    st.Frame env base (st.store c v) := by
  cases c <;> exact State.frame_of_envs_eq rfl

theorem State.tableStore_frame (fl : FloatOps) (st : State) (t : Nat) (k v : Object)
    (env base : Nat) : st.Frame env base (st.tableStore fl t k v) :=
  State.frame_of_envs_eq (State.tableStore_same fl st t k v).1

theorem State.packAppend_frame (st : State) (p : Nat) (v : Object) (env base : Nat) :
    st.Frame env base (st.packAppend p v) := by
  apply State.frame_of_envs_eq
  unfold State.packAppend
  split <;> rfl

theorem Res.framePost_self {α : Type} (env base : Nat) (v : α) (st : State) :
    (Res.ok v st).FramePost env base st :=
  State.frame_refl env base st

theorem Res.framePost_err {α : Type} (env base : Nat) (e : EvalError) (st : State) :
    (Res.err e st : Res α).FramePost env base st :=
  State.frame_refl env base st

theorem Res.framePost_mono {α : Type} {env base : Nat} {st st1 : State} {r : Res α}
    (h : r.FramePost env base st1) (hf : st.Frame env base st1) : r.FramePost env base st := by
  cases r with
  | ok v st' => exact State.frame_trans hf h
  | err e st' => exact State.frame_trans hf h
  | panic => trivial
  | timeout => trivial

theorem Res.framePost_of_newer {α : Type} {e2 env base : Nat} {st : State} {r : Res α}
    (h : r.FramePost e2 base st) (hb : base ≤ e2) : r.FramePost env base st := by
  cases r with
  | ok v st' => exact State.frame_of_newer h hb
  | err e st' => exact State.frame_of_newer h hb
  | panic => trivial
  | timeout => trivial

theorem Res.framePost_bind {α β : Type} {env base : Nat} {st : State} {r : Res α}
    {f : α → State → Res β} (hr : r.FramePost env base st)
    (hf : ∀ v st1, st.Frame env base st1 → (f v st1).FramePost env base st1) :
    (r.bind f).FramePost env base st := by
  cases r with
  | ok v st1 => exact Res.framePost_mono (hf v st1 hr) hr
  | err e st1 => exact hr
  | panic => trivial
  | timeout => trivial

section FrameHelpers
variable {fl : FloatOps} {ev : Evaluator} (hev : ev.Framed)
include hev

theorem evalTableLoop_frame (table env base : Nat) :
    ∀ (pairs : List (Expression × Expression)) (st : State), base ≤ st.envs.length →
      (evalTableLoop fl ev table env pairs st).FramePost env base st := by
  intro pairs
  induction pairs with
  | nil => intro st _; exact Res.framePost_self _ _ _ _
  | cons kv rest ih =>
    intro st hb
    obtain ⟨k, v⟩ := kv
    unfold evalTableLoop
    refine Res.framePost_bind (hev k env base st hb) fun key st1 f1 => ?_
    have hb1 := State.frame_base_le f1 hb
    refine Res.framePost_bind (hev v env base st1 hb1) fun value st2 f2 => ?_
    have hb2 := State.frame_base_le f2 hb1
    have f3 := State.tableStore_frame fl st2 table key value env base
    exact Res.framePost_mono (ih _ (State.frame_base_le f3 hb2)) f3

theorem evalTableExpr_frame (pairs : List (Expression × Expression)) (env base : Nat)
    (st : State) (hb : base ≤ st.envs.length) :
    (evalTableExpr fl ev pairs env st).FramePost env base st := by
  have f0 : st.Frame env base { st with tables := st.tables ++ [[]] } :=
    State.frame_of_envs_eq rfl
  show ((evalTableLoop fl ev st.tables.length env pairs
    { st with tables := st.tables ++ [[]] }).bind _).FramePost env base st
  refine Res.framePost_mono ?_ f0
  exact Res.framePost_bind (evalTableLoop_frame hev _ env base pairs _ hb)
    fun _ st1 _ => Res.framePost_self _ _ _ _

theorem evalPackLoop_frame (pack env base : Nat) :
    ∀ (exprs : List Expression) (st : State), base ≤ st.envs.length →
      (evalPackLoop ev pack env exprs st).FramePost env base st := by
  intro exprs
  induction exprs with
  | nil => intro st _; exact Res.framePost_self _ _ _ _
  | cons e rest ih =>
    intro st hb
    unfold evalPackLoop
    refine Res.framePost_bind (hev e env base st hb) fun obj st1 f1 => ?_
    have hb1 := State.frame_base_le f1 hb
    have f2 := State.packAppend_frame st1 pack obj env base
    exact Res.framePost_mono (ih _ (State.frame_base_le f2 hb1)) f2

theorem evalPackExpr_frame (exprs : List Expression) (env base : Nat) (st : State)
    (hb : base ≤ st.envs.length) : (evalPackExpr ev exprs env st).FramePost env base st := by
  have f0 : st.Frame env base { st with packs := st.packs ++ [[]] } :=
    State.frame_of_envs_eq rfl
  show ((evalPackLoop ev st.packs.length env exprs
    { st with packs := st.packs ++ [[]] }).bind _).FramePost env base st
  refine Res.framePost_mono ?_ f0
  exact Res.framePost_bind (evalPackLoop_frame hev _ env base exprs _ hb)
    fun _ st1 _ => Res.framePost_self _ _ _ _

theorem evalArithPrefixExpr_frame (Op : TokenType) (Right : Expression) (env base : Nat)
    (st : State) (hb : base ≤ st.envs.length) :
    (evalArithPrefixExpr fl ev Op Right env st).FramePost env base st := by
  unfold evalArithPrefixExpr
  refine Res.framePost_bind (hev Right env base st hb) fun right st1 _ => ?_
  split
  · exact Res.framePost_self _ _ _ _
  · split
    · split
      · exact Res.framePost_self _ _ _ _
      · exact Res.framePost_self _ _ _ _
      · split
        · exact Res.framePost_err _ _ _ _
        · trivial
    · exact Res.framePost_err _ _ _ _

theorem evalArithInfixExpr_frame (Op : TokenType) (Left Right : Expression) (env base : Nat)
    (st : State) (hb : base ≤ st.envs.length) :
    (evalArithInfixExpr fl ev Op Left Right env st).FramePost env base st := by
  unfold evalArithInfixExpr
  refine Res.framePost_bind (hev Left env base st hb) fun left st1 f1 => ?_
  refine Res.framePost_bind (hev Right env base st1 (State.frame_base_le f1 hb))
    fun right st2 _ => ?_
  split
  · exact Res.framePost_self _ _ _ _
  · exact Res.framePost_err _ _ _ _
  · trivial

theorem evalBlockExpr_frame (env base : Nat) :
    ∀ (exprs : List Expression) (st : State), base ≤ st.envs.length →
      (evalBlockExpr ev exprs env st).FramePost env base st := by
  intro exprs
  induction exprs with
  | nil => intro st _; exact Res.framePost_self _ _ _ _
  | cons e rest ih =>
    intro st hb
    unfold evalBlockExpr
    refine Res.framePost_bind (hev e env base st hb) fun obj st1 f1 => ?_
    split
    · exact Res.framePost_self _ _ _ _
    · exact Res.framePost_self _ _ _ _
    · exact ih st1 (State.frame_base_le f1 hb)

theorem evalFuncBlockExpr_frame (block : List Expression) (env base : Nat) (st : State)
    (hb : base ≤ st.envs.length) : (evalFuncBlockExpr ev block env st).FramePost env base st := by
  unfold evalFuncBlockExpr
  refine Res.framePost_bind (evalBlockExpr_frame hev env base block st hb) fun obj st1 _ => ?_
  split <;> exact Res.framePost_self _ _ _ _

theorem evalIndexExpr_frame (Table Index : Expression) (env base : Nat) (st : State)
    (hb : base ≤ st.envs.length) :
    (evalIndexExpr fl ev Table Index env st).FramePost env base st := by
  unfold evalIndexExpr
  refine Res.framePost_bind (hev Table env base st hb) fun table st1 f1 => ?_
  split
  · refine Res.framePost_bind (hev Index env base st1 (State.frame_base_le f1 hb))
      fun index st2 _ => ?_
    split
    · trivial
    · split <;> exact Res.framePost_self _ _ _ _
  · exact Res.framePost_err _ _ _ _

theorem evalIfExpr_frame (Condition : Expression) (Consequence : List Expression)
    (Alternative : Option (List Expression)) (env base : Nat) (st : State)
    (hb : base ≤ st.envs.length) :
    (evalIfExpr ev Condition Consequence Alternative env st).FramePost env base st := by
  rw [evalIfExpr_eq]
  have f0 := NewInnerEnv_frame env env base st hb
  have hb0 := State.frame_base_le f0 hb
  have hnew : base ≤ (NewInnerEnv env st).1 := hb
  refine Res.framePost_mono (Res.framePost_of_newer ?_ hnew) f0
  refine Res.framePost_bind (hev Condition _ base _ hb0) fun c st1 f1 => ?_
  have hb1 := State.frame_base_le f1 hb0
  split
  · exact hev _ _ _ _ hb1
  · split
    · exact hev _ _ _ _ hb1
    · exact Res.framePost_self _ _ _ _

end FrameHelpers

theorem evalIdentifierExpr_frame (Ident : GoString) (env base : Nat) (st : State) :
    (evalIdentifierExpr Ident env st).FramePost env base st := by
  unfold evalIdentifierExpr
  split
  · exact Res.framePost_err _ _ _ _
  · split
    · exact Res.framePost_self _ _ _ _
    · trivial

theorem AssignFn.call_frame (fn : AssignFn) (env base : Nat) (ident : GoString) (value : Object)
    (st : State) : (fn.call env ident value st).FramePost env base st := by
  cases fn with
  | declare =>
    exact State.frame_trans (State.frame_of_envs_eq rfl)
      (Environment.Set_frame (st.newCell value).2 env ident (st.newCell value).1 env base
        (Or.inl rfl))
  | assign =>
    show (match Environment.Get st env ident with
      | none => Res.err (.assignNotDeclared ident) st
      | some o => Res.ok () (st.store o value)).FramePost env base st
    split
    · exact Res.framePost_err _ _ _ _
    · exact State.store_frame _ _ _ _ _

mutual
theorem declareAssignHelper_frame {fl : FloatOps} {ev : Evaluator} (hev : ev.Framed)
    (fn : AssignFn) (base : Nat) :
    ∀ (left : Expression) (value : Object) (env : Nat) (st : State), base ≤ st.envs.length →
      (declareAssignHelper fl ev fn left value env st).FramePost env base st
  | .Identifier ident, value, env, st, _ => by
    rw [declareAssignHelper]
    exact AssignFn.call_frame fn env base ident value st
  | .IndexExpr t i, value, env, st, hb => by
    rw [declareAssignHelper]
    refine Res.framePost_bind (hev t env base st hb) fun table st1 f1 => ?_
    split
    · refine Res.framePost_bind (hev i env base st1 (State.frame_base_le f1 hb))
        fun index st2 _ => ?_
      exact State.tableStore_frame fl _ _ _ _ _ _
    · exact Res.framePost_err _ _ _ _
  | .PackExpr [], value, env, st, hb => by
    cases value <;> simp only [declareAssignHelper] <;> try exact Res.framePost_self _ _ _ _
    split
    · trivial
    · rw [declareAssignPack]
      exact Res.framePost_self _ _ _ _
  | .PackExpr (left :: rest), value, env, st, hb => by
    cases value <;> simp only [declareAssignHelper] <;>
      try exact declareAssignHelper_frame hev fn base left _ env st hb
    split
    · trivial
    · exact declareAssignPack_frame hev fn base (left :: rest) _ env st hb
  | .IntegerExpr _, _, _, _, _ => by simp only [declareAssignHelper]; trivial
  | .FloatExpr _, _, _, _, _ => by simp only [declareAssignHelper]; trivial
  | .BooleanExpr _, _, _, _, _ => by simp only [declareAssignHelper]; trivial
  | .StringExpr _, _, _, _, _ => by simp only [declareAssignHelper]; trivial
  | .TableExpr _, _, _, _, _ => by simp only [declareAssignHelper]; trivial
  | .NilExpr, _, _, _, _ => by simp only [declareAssignHelper]; trivial
  | .ArithPrefixExpr _ _, _, _, _, _ => by simp only [declareAssignHelper]; trivial
  | .ArithInfixExpr _ _ _, _, _, _, _ => by simp only [declareAssignHelper]; trivial
  | .DeclarationExpr _ _, _, _, _, _ => by simp only [declareAssignHelper]; trivial
  | .AssignExpr _ _, _, _, _, _ => by simp only [declareAssignHelper]; trivial
  | .IfExpr _ _ _, _, _, _, _ => by simp only [declareAssignHelper]; trivial
  | .FuncExpr _ _ _, _, _, _, _ => by simp only [declareAssignHelper]; trivial
  | .CallExpr _ _, _, _, _, _ => by simp only [declareAssignHelper]; trivial
  | .ReturnExpr _, _, _, _, _ => by simp only [declareAssignHelper]; trivial
  | .BlockExpr _, _, _, _, _ => by simp only [declareAssignHelper]; trivial
  | .ForExpr _ _ _ _, _, _, _, _ => by simp only [declareAssignHelper]; trivial
  | .BreakExpr _, _, _, _, _ => by simp only [declareAssignHelper]; trivial
theorem declareAssignPack_frame {fl : FloatOps} {ev : Evaluator} (hev : ev.Framed)
    (fn : AssignFn) (base : Nat) :
    ∀ (lefts : List Expression) (objs : List Object) (env : Nat) (st : State),
      base ≤ st.envs.length → (declareAssignPack fl ev fn lefts objs env st).FramePost env base st
  | [], _, _, st, _ => by
    rw [declareAssignPack]
    exact Res.framePost_self _ _ _ _
  | left :: rest, obj :: objs, env, st, hb => by
    rw [declareAssignPack]
    refine Res.framePost_bind (declareAssignHelper_frame hev fn base left obj env st hb)
      fun _ st1 f1 => ?_
    exact declareAssignPack_frame hev fn base rest objs env st1 (State.frame_base_le f1 hb)
  | left :: rest, [], env, st, hb => by
    rw [declareAssignPack]
    refine Res.framePost_bind (declareAssignHelper_frame hev fn base left _ env st hb)
      fun _ st1 f1 => ?_
    exact declareAssignPack_frame hev fn base rest [] env st1 (State.frame_base_le f1 hb)
end

section FrameHelpers2
variable {fl : FloatOps} {ev : Evaluator} (hev : ev.Framed)
include hev

theorem evalDeclarationExpr_frame (Left Value : Expression) (env base : Nat) (st : State)
    (hb : base ≤ st.envs.length) :
    (evalDeclarationExpr fl ev Left Value env st).FramePost env base st := by
  unfold evalDeclarationExpr
  refine Res.framePost_bind (hev Value env base st hb) fun value st1 f1 => ?_
  exact Res.framePost_bind (declareAssignHelper_frame hev .declare base Left value env st1
    (State.frame_base_le f1 hb)) fun _ st2 _ => Res.framePost_self _ _ _ _

theorem evalAssignExpr_frame (Left Value : Expression) (env base : Nat) (st : State)
    (hb : base ≤ st.envs.length) :
    (evalAssignExpr fl ev Left Value env st).FramePost env base st := by
  unfold evalAssignExpr
  refine Res.framePost_bind (hev Value env base st hb) fun value st1 f1 => ?_
  exact Res.framePost_bind (declareAssignHelper_frame hev .assign base Left value env st1
    (State.frame_base_le f1 hb)) fun _ st2 _ => Res.framePost_self _ _ _ _

theorem captureLoop_frame (env cap base : Nat) :
    ∀ (captures : List Expression) (st : State), base ≤ st.envs.length →
      (captureLoop fl ev env cap captures st).FramePost cap base st := by
  intro captures
  induction captures with
  | nil => intro st _; exact Res.framePost_self _ _ _ _
  | cons c rest ih =>
    intro st hb
    cases c <;> simp only [captureLoop] <;> try trivial
    · rename_i Ident
      split
      · exact Res.framePost_err _ _ _ _
      · rename_i outerObj hget
        have f1 := Environment.Set_frame st cap Ident outerObj cap base (Or.inl rfl)
        exact Res.framePost_mono (ih _ (State.frame_base_le f1 hb)) f1
    · rename_i Left Value
      refine Res.framePost_bind (evalDeclarationExpr_frame hev Left Value cap base st hb)
        fun _ st1 f1 => ?_
      exact ih st1 (State.frame_base_le f1 hb)

theorem evalFuncExpr_frame (Parameters : List GoString) (Capture Body : List Expression)
    (env base : Nat) (st : State) (hb : base ≤ st.envs.length) :
    (evalFuncExpr fl ev Parameters Capture Body env st).FramePost env base st := by
  show ((captureLoop fl ev env (NewInnerEnv env st).1 Capture (NewInnerEnv env st).2).bind
    _).FramePost env base st
  have f0 := NewInnerEnv_frame env env base st hb
  have hb0 := State.frame_base_le f0 hb
  have hnew : base ≤ (NewInnerEnv env st).1 := hb
  refine Res.framePost_mono (Res.framePost_of_newer ?_ hnew) f0
  refine Res.framePost_bind (captureLoop_frame hev env _ base Capture _ hb0) fun _ st1 f1 => ?_
  exact State.frame_trans
    (Environment.Close_frame st1 (NewInnerEnv env st).1 (NewInnerEnv env st).1 base (Or.inl rfl))
    (State.frame_of_envs_eq rfl)

omit hev in
theorem bindMissing_frame (ce env base : Nat) (hce : base ≤ ce) :
    ∀ (ps : List GoString) (st : State), st.Frame env base (bindMissing ce ps st) := by
  intro ps
  induction ps with
  | nil => intro st; exact State.frame_refl _ _ _
  | cons p rest ih =>
    intro st
    exact State.frame_trans (Environment.Set_frame st ce p .NilObjVar env base (Or.inr hce))
      (ih _)

theorem evalExtra_frame (env base : Nat) :
    ∀ (as : List Expression) (st : State), base ≤ st.envs.length →
      (evalExtra ev env as st).FramePost env base st := by
  intro as
  induction as with
  | nil => intro st _; exact Res.framePost_self _ _ _ _
  | cons a rest ih =>
    intro st hb
    unfold evalExtra
    refine Res.framePost_bind (hev a env base st hb) fun _ st1 f1 => ?_
    exact ih st1 (State.frame_base_le f1 hb)

theorem callLoop_frame (env ce base : Nat) (hce : base ≤ ce) :
    ∀ (ps : List GoString) (as : List Expression) (st : State), base ≤ st.envs.length →
      (callLoop ev env ce ps as st).FramePost env base st := by
  intro ps
  induction ps with
  | nil =>
    intro as st hb
    rw [callLoop]
    exact evalExtra_frame hev env base as st hb
  | cons p rest ih =>
    intro as st hb
    cases as with
    | nil =>
      rw [callLoop]
      · exact bindMissing_frame ce env base hce (p :: rest) st
      · simp
    | cons a as =>
      rw [callLoop]
      refine Res.framePost_bind (hev a env base st hb) fun obj st1 f1 => ?_
      have f2 : st1.Frame env base (Environment.Set (st1.newCell obj).2 ce p (st1.newCell obj).1) :=
        State.frame_trans (State.frame_of_envs_eq rfl)
          (Environment.Set_frame (st1.newCell obj).2 ce p (st1.newCell obj).1 env base
            (Or.inr hce))
      exact Res.framePost_mono
        (ih as _ (State.frame_base_le f2 (State.frame_base_le f1 hb))) f2

theorem evalCallExpr_frame (Function : Expression) (Parameters : List Expression)
    (env base : Nat) (st : State) (hb : base ≤ st.envs.length) :
    (evalCallExpr ev Function Parameters env st).FramePost env base st := by
  unfold evalCallExpr
  refine Res.framePost_bind (hev Function env base st hb) fun fn st1 f1 => ?_
  have hb1 := State.frame_base_le f1 hb
  split
  · split
    · trivial
    · rename_i f fnObj hf
      show ((callLoop ev env (NewInnerEnv fnObj.FuncEnv st1).1 fnObj.Parameters Parameters
        (NewInnerEnv fnObj.FuncEnv st1).2).bind _).FramePost env base st1
      have f0 := NewInnerEnv_frame fnObj.FuncEnv env base st1 hb1
      have hb0 := State.frame_base_le f0 hb1
      have hnew : base ≤ (NewInnerEnv fnObj.FuncEnv st1).1 := hb1
      refine Res.framePost_mono ?_ f0
      refine Res.framePost_bind (callLoop_frame hev env _ base hnew _ _ _ hb0)
        fun _ st3 f3 => ?_
      exact Res.framePost_of_newer
        (evalFuncBlockExpr_frame hev _ _ base st3 (State.frame_base_le f3 hb0)) hnew
  · exact Res.framePost_err _ _ _ _

end FrameHelpers2

/-- The evaluator respects the frame: an evaluation in the environment `env`
adds environments and changes, among those that exist when it starts, none
but `env`. -/
theorem Eval_framed (fl : FloatOps) : ∀ n : Nat, Evaluator.Framed (Eval fl n) := by
  intro n
  induction n with
  | zero => intro e env base st _; trivial
  | succ n ih =>
    intro e env base st hb
    cases e with
    | IntegerExpr v => exact Res.framePost_self _ _ _ _
    | FloatExpr v => exact Res.framePost_self _ _ _ _
    | BooleanExpr v => exact Res.framePost_self _ _ _ _
    | StringExpr v => exact Res.framePost_self _ _ _ _
    | NilExpr => exact Res.framePost_self _ _ _ _
    | TableExpr InitValue => exact evalTableExpr_frame ih InitValue env base st hb
    | PackExpr Exprs => exact evalPackExpr_frame ih Exprs env base st hb
    | Identifier Ident => exact evalIdentifierExpr_frame Ident env base st
    | ArithPrefixExpr Op Right => exact evalArithPrefixExpr_frame ih Op Right env base st hb
    | ArithInfixExpr Op Left Right =>
      exact evalArithInfixExpr_frame ih Op Left Right env base st hb
    | DeclarationExpr Left Value => exact evalDeclarationExpr_frame ih Left Value env base st hb
    | AssignExpr Left Value => exact evalAssignExpr_frame ih Left Value env base st hb
    | IfExpr c a b => exact evalIfExpr_frame ih c a b env base st hb
    | FuncExpr ps cs body => exact evalFuncExpr_frame ih ps cs body env base st hb
    | CallExpr f as => exact evalCallExpr_frame ih f as env base st hb
    | IndexExpr t i => exact evalIndexExpr_frame ih t i env base st hb
    | ReturnExpr r =>
      rw [Eval_ReturnExpr]
      exact Res.framePost_bind (ih r env base st hb) fun _ st1 _ => Res.framePost_self _ _ _ _
    | BlockExpr es =>
      rw [Eval_BlockExpr]
      have hnew : base ≤ (NewInnerEnv env st).1 := hb
      have f0 := NewInnerEnv_frame env env base st hb
      exact Res.framePost_mono (Res.framePost_of_newer
        (evalBlockExpr_frame ih _ base es _ (State.frame_base_le f0 hb)) hnew) f0
    | ForExpr a b c body => trivial
    | BreakExpr r =>
      rw [Eval_BreakExpr]
      exact Res.framePost_bind (ih r env base st hb) fun _ st1 _ => Res.framePost_self _ _ _ _

/-- A return of `Eval` in the environment `env` leaves every other
environment that existed before as it was. -/
theorem Eval_ok_frame {fl : FloatOps} {n : Nat} {e : Expression} {env : Nat} {st st' : State}
    {v : Object} (h : Eval fl n e env st = .ok v st') :
    ∀ i, i < st.envs.length → i ≠ env → st'.envs[i]? = st.envs[i]? := by
  have := Eval_framed fl n e env st.envs.length st (Nat.le_refl _)
  rw [h] at this
  exact this.2

/-! ## The arguments of a call -/

/-- With at least as many arguments as parameters, the loop of `evalCallExpr`
is the walk of the specification, for every evaluator. -/
theorem callLoop_eq_spec (ev : Evaluator) (env ce : Nat) :
    ∀ (ps : List GoString) (as : List Expression) (st : State), ps.length ≤ as.length →
      callLoop ev env ce ps as st = specArgumentsInOrder ev env ce ps as st := by
  intro ps as
  induction as generalizing ps with
  | nil =>
    intro st h
    cases ps with
    | nil => rfl
    | cons p ps => simp at h
  | cons a as ih =>
    intro st h
    cases ps with
    | nil =>
      rw [callLoop, specArgumentsInOrder, evalExtra]
      congr 1
      funext _ st1
      have := ih [] st1 (Nat.zero_le _)
      rw [callLoop] at this
      exact this
    | cons p ps =>
      rw [callLoop, specArgumentsInOrder]
      congr 1
      funext v st1
      exact ih ps _ (by simpa using h)

/-- An evaluation adds environments and removes none. -/
theorem Eval_ok_envs_length {fl : FloatOps} {n : Nat} {e : Expression} {env : Nat}
    {st st' : State} {v : Object} (h : Eval fl n e env st = .ok v st') :
    st.envs.length ≤ st'.envs.length := by
  have := Eval_framed fl n e env st.envs.length st (Nat.le_refl _)
  rw [h] at this
  exact this.1

theorem Environment.Set_envs_outer (st : State) (e : Nat) (x : GoString) (c : Cell) (i : Nat) :
    (Environment.Set st e x c).envs[i]?.map (·.Outer) = st.envs[i]?.map (·.Outer) := by
  unfold Environment.Set
  cases h : st.envs[e]? with
  | none => rfl
  | some env =>
    simp only []
    by_cases hi : e = i
    · subst hi
      have he : e < st.envs.length := by
        by_contra hlt
        rw [List.getElem?_eq_none (by omega)] at h
        exact Option.noConfusion h
      simp [List.getElem?_set, he, h]
    · simp [List.getElem?_set, hi]

/-- The walk over the arguments binds in the call scope the parameters, and
nothing else: the evaluation of the arguments, bound or extra, in the
caller's environment leaves the call scope as it is. -/
theorem specArguments_localVar (fl : FloatOps) (n : Nat) (env ce : Nat) (hne : env ≠ ce) :
    ∀ (as : List Expression) (ps : List GoString) (st st3 : State), ce < st.envs.length →
      ps.length ≤ as.length →
      specArgumentsInOrder (Eval fl n) env ce ps as st = .ok () st3 →
      (∀ x, (st3.localVar ce x).isSome = true ↔ ((st.localVar ce x).isSome = true ∨ x ∈ ps)) ∧
      st3.envs[ce]?.map (·.Outer) = st.envs[ce]?.map (·.Outer) := by
  intro as
  induction as with
  | nil =>
    intro ps st st3 _ hlen h
    cases ps with
    | nil =>
      rw [specArgumentsInOrder] at h
      injection h with _ h
      subst h
      exact ⟨fun x => by simp, rfl⟩
    | cons p ps => simp at hlen
  | cons a as ih =>
    intro ps st st3 hce hlen h
    cases hev : Eval fl n a env st with
    | ok v st1 =>
      have hfr := Eval_ok_frame hev ce hce (Ne.symm hne)
      have hce1 : ce < st1.envs.length := Nat.lt_of_lt_of_le hce (Eval_ok_envs_length hev)
      have hlv : ∀ x, st1.localVar ce x = st.localVar ce x := by
        intro x
        simp only [State.localVar, hfr]
      cases ps with
      | nil =>
        rw [specArgumentsInOrder, hev, Res.bind_ok] at h
        obtain ⟨h1, h2⟩ := ih [] st1 st3 hce1 (Nat.zero_le _) h
        refine ⟨fun x => ?_, by rw [h2, hfr]⟩
        rw [h1 x, hlv x]
      | cons p ps =>
        rw [specArgumentsInOrder, hev, Res.bind_ok] at h
        have hce2 : ce < (Environment.SetNewObj st1 ce p v).envs.length := by
          show ce < (Environment.Set (st1.newCell v).2 ce p (st1.newCell v).1).envs.length
          rw [Environment.Set_envs_length]
          exact hce1
        obtain ⟨h1, h2⟩ := ih ps _ st3 hce2 (by simpa using hlen) h
        constructor
        · intro x
          rw [h1 x]
          by_cases hx : x = p
          · subst hx
            have : (Environment.SetNewObj st1 ce x v).localVar ce x =
                some (st1.newCell v).1 :=
              State.localVar_Set_self (st1.newCell v).2 x (st1.newCell v).1 hce1
            simp [this]
          · have : (Environment.SetNewObj st1 ce p v).localVar ce x = st1.localVar ce x :=
              State.localVar_Set_ne (st1.newCell v).2 ce p x (st1.newCell v).1 hx
            rw [this, hlv x]
            simp [hx]
        · rw [h2]
          show (Environment.Set (st1.newCell v).2 ce p (st1.newCell v).1).envs[ce]?.map _ = _
          rw [Environment.Set_envs_outer]
          show st1.envs[ce]?.map _ = _
          rw [hfr]
    | err e st1 => rw [specArgumentsInOrder.eq_def] at h; cases ps <;> simp [hev] at h
    | panic => rw [specArgumentsInOrder.eq_def] at h; cases ps <;> simp [hev] at h
    | timeout => rw [specArgumentsInOrder.eq_def] at h; cases ps <;> simp [hev] at h

/-! ## Wrappers in the memory -/

theorem Object.plain_within (l : Level) {o : Object} (h : o.Plain) : o.Within l := by
  cases o <;> simp [Object.Plain, Object.Typ] at h <;> trivial

theorem Object.within_value {o : Object} (h : o.Within .value) : o.Plain := by
  cases o <;> simp [Object.Within] at h <;> simp [Object.Plain, Object.Typ]

theorem State.clean_load {st : State} (h : st.Clean) {c : Cell} {v : Object}
    (hv : st.load c = some v) : v.Plain := by
  cases c with
  | NilObjVar =>
    simp only [State.load, Option.some.injEq] at hv
    exact hv ▸ h.1
  | alloc i => exact h.2.1 v (List.getElem?_mem hv)

theorem State.clean_of_same {st st' : State} (h : st.Clean) (h1 : st'.NilObj = st.NilObj)
    (h2 : st'.cells = st.cells) (h3 : st'.packs = st.packs) (h4 : st'.tables = st.tables)
    (h5 : st'.funcs = st.funcs) : st'.Clean := by
  unfold State.Clean
  rw [h1, h2, h3, h4, h5]
  exact h

theorem State.clean_newCell {st : State} (h : st.Clean) {v : Object} (hv : v.Plain) :
    (st.newCell v).2.Clean := by
  refine ⟨h.1, ?_, h.2.2.1, h.2.2.2.1, h.2.2.2.2⟩
  intro o ho
  simp only [State.newCell, List.mem_append, List.mem_singleton] at ho
  rcases ho with ho | ho
  · exact h.2.1 o ho
  · exact ho ▸ hv

theorem State.clean_store {st : State} (h : st.Clean) (c : Cell) {v : Object} (hv : v.Plain) :
    (st.store c v).Clean := by
  cases c with
  | NilObjVar => exact ⟨hv, h.2.1, h.2.2.1, h.2.2.2.1, h.2.2.2.2⟩
  | alloc i =>
    refine ⟨h.1, ?_, h.2.2.1, h.2.2.2.1, h.2.2.2.2⟩
    intro o ho
    rcases List.mem_or_eq_of_mem_set ho with ho | ho
    · exact h.2.1 o ho
    · exact ho ▸ hv

theorem storeSet_plain (fl : FloatOps) {k v : Object} (hk : k.Plain) (hv : v.Plain) :
    ∀ store : List (Object × Object), (∀ kv ∈ store, kv.1.Plain ∧ kv.2.Plain) →
      ∀ kv ∈ storeSet fl k v store, kv.1.Plain ∧ kv.2.Plain := by
  intro store
  induction store with
  | nil =>
    intro _ kv hkv
    simp only [storeSet, List.mem_singleton] at hkv
    exact hkv ▸ ⟨hk, hv⟩
  | cons a rest ih =>
    intro h kv hkv
    obtain ⟨k1, v1⟩ := a
    unfold storeSet at hkv
    split at hkv
    · rcases List.mem_cons.mp hkv with hkv | hkv
      · exact hkv ▸ ⟨(h (k1, v1) (List.mem_cons_self _ _)).1, hv⟩
      · exact h kv (List.mem_cons_of_mem _ hkv)
    · rcases List.mem_cons.mp hkv with hkv | hkv
      · exact hkv ▸ h (k1, v1) (List.mem_cons_self _ _)
      · exact ih (fun x hx => h x (List.mem_cons_of_mem _ hx)) kv hkv

theorem storeGet_mem (fl : FloatOps) {k v : Object} :
    ∀ store : List (Object × Object), storeGet fl k store = some v → ∃ k', (k', v) ∈ store := by
  intro store
  induction store with
  | nil => intro h; simp [storeGet] at h
  | cons a rest ih =>
    intro h
    obtain ⟨k1, v1⟩ := a
    unfold storeGet at h
    split at h
    · injection h with h
      exact ⟨k1, h ▸ List.mem_cons_self _ _⟩
    · obtain ⟨k', hk'⟩ := ih h
      exact ⟨k', List.mem_cons_of_mem _ hk'⟩

theorem State.clean_tableStore (fl : FloatOps) {st : State} (h : st.Clean) (t : Nat)
    {k v : Object} (hk : k.Plain) (hv : v.Plain) : (st.tableStore fl t k v).Clean := by
  unfold State.tableStore
  cases hs : st.tables[t]? with
  | none => exact h
  | some store =>
    refine ⟨h.1, h.2.1, h.2.2.1, ?_, h.2.2.2.2⟩
    intro s hsm
    rcases List.mem_or_eq_of_mem_set hsm with hsm | hsm
    · exact h.2.2.2.1 s hsm
    · subst hsm
      exact storeSet_plain fl hk hv store (h.2.2.2.1 store (List.getElem?_mem hs))

theorem State.clean_packAppend {st : State} (h : st.Clean) (p : Nat) {v : Object}
    (hv : v.Plain) : (st.packAppend p v).Clean := by
  unfold State.packAppend
  cases hs : st.packs[p]? with
  | none => exact h
  | some objs =>
    refine ⟨h.1, h.2.1, ?_, h.2.2.2.1, h.2.2.2.2⟩
    intro s hsm o ho
    rcases List.mem_or_eq_of_mem_set hsm with hsm | hsm
    · exact h.2.2.1 s hsm o ho
    · subst hsm
      rcases List.mem_append.mp ho with ho | ho
      · exact h.2.2.1 objs (List.getElem?_mem hs) o ho
      · exact (List.mem_singleton.mp ho) ▸ hv

theorem State.clean_Set {st : State} (h : st.Clean) (e : Nat) (x : GoString) (c : Cell) :
    (Environment.Set st e x c).Clean := by
  unfold Environment.Set
  split
  · exact h
  · exact State.clean_of_same h rfl rfl rfl rfl rfl

theorem State.clean_Close {st : State} (h : st.Clean) (e : Nat) :
    (Environment.Close st e).Clean := by
  unfold Environment.Close
  split
  · exact h
  · exact State.clean_of_same h rfl rfl rfl rfl rfl

theorem State.clean_NewInnerEnv {st : State} (h : st.Clean) (outer : Nat) :
    (NewInnerEnv outer st).2.Clean :=
  State.clean_of_same h rfl rfl rfl rfl rfl

theorem State.init_clean : State.init.Clean := by
  refine ⟨by decide, ?_, ?_, ?_, ?_⟩ <;> intro x hx <;> simp [State.init] at hx

theorem Res.cleanPost_bind {α β : Type} {P : α → Prop} {Q : β → Prop} {r : Res α}
    {f : α → State → Res β} (hr : r.CleanPost P)
    (hf : ∀ v st1, P v → st1.Clean → (f v st1).CleanPost Q) : (r.bind f).CleanPost Q := by
  cases r with
  | ok v st1 => exact hf v st1 hr.1 hr.2
  | err e st1 => exact hr
  | panic => trivial
  | timeout => trivial

theorem Res.cleanPost_weaken {α : Type} {P Q : α → Prop} {r : Res α} (hr : r.CleanPost P)
    (h : ∀ v, P v → Q v) : r.CleanPost Q := by
  cases r with
  | ok v st1 => exact ⟨h v hr.1, hr.2⟩
  | err e st1 => exact hr
  | panic => trivial
  | timeout => trivial

theorem sameTypeInfix_plain (fl : FloatOps) (Op : TokenType) (l r o : Object)
    (h : sameTypeInfix fl Op l r = .val o) : o.Plain := by
  cases Op <;> simp only [sameTypeInfix] at h <;> try exact Arith.noConfusion h
  all_goals
    split at h <;>
      first
      | exact Arith.noConfusion h
      | (injection h with h; subst h; simp [Object.Plain, Object.Typ])
      | (split at h
         · exact Arith.noConfusion h
         · injection h with h; subst h; simp [Object.Plain, Object.Typ])

theorem mixedInfix_plain (fl : FloatOps) (Op : TokenType) (l r : F64) (o : Object)
    (h : mixedInfix fl Op l r = .val o) : o.Plain := by
  cases Op <;> simp only [mixedInfix] at h <;>
    first
    | exact Arith.noConfusion h
    | (injection h with h; subst h; simp [Object.Plain, Object.Typ])

/-- An operator on two objects that are not wrappers yields none. -/
theorem infixValues_plain (fl : FloatOps) (Op : TokenType) (l r o : Object) (hl : l.Plain)
    (hr : r.Plain) (h : infixValues fl Op l r = .val o) : o.Plain := by
  unfold infixValues at h
  split at h
  · split at h <;> injection h with h <;> subst h <;> assumption
  · split at h <;> injection h with h <;> subst h <;> assumption
  · split at h
    · split at h
      · exact sameTypeInfix_plain fl Op l r o h
      · split at h
        · split at h
          · exact mixedInfix_plain fl Op _ _ o h
          · exact Arith.noConfusion h
        · exact Arith.noConfusion h
    · exact Arith.noConfusion h

section CleanHelpers
variable {fl : FloatOps} {ev : Evaluator} (hev : ev.Contained)
include hev

theorem evalTableLoop_clean (table env : Nat) :
    ∀ (pairs : List (Expression × Expression)) (st : State),
      Expression.fitsPairs pairs = true → st.Clean →
      (evalTableLoop fl ev table env pairs st).CleanPost (fun _ => True) := by
  intro pairs
  induction pairs with
  | nil => intro st _ hc; exact ⟨trivial, hc⟩
  | cons kv rest ih =>
    intro st hfit hc
    obtain ⟨k, v⟩ := kv
    simp only [Expression.fitsPairs, Bool.and_eq_true] at hfit
    obtain ⟨⟨hk, hv⟩, hrest⟩ := hfit
    unfold evalTableLoop
    refine Res.cleanPost_bind (hev .value k env st hk hc) fun key st1 pk c1 => ?_
    refine Res.cleanPost_bind (hev .value v env st1 hv c1) fun value st2 pv c2 => ?_
    exact ih _ hrest (State.clean_tableStore fl c2 table (Object.within_value pk)
      (Object.within_value pv))

theorem evalTableExpr_clean (l : Level) (pairs : List (Expression × Expression)) (env : Nat)
    (st : State) (hfit : Expression.fitsPairs pairs = true) (hc : st.Clean) :
    (evalTableExpr fl ev pairs env st).CleanPost (Object.Within l) := by
  have hc0 : ({ st with tables := st.tables ++ [[]] } : State).Clean := by
    refine ⟨hc.1, hc.2.1, hc.2.2.1, ?_, hc.2.2.2.2⟩
    intro t ht kv hkv
    simp only [List.mem_append, List.mem_singleton] at ht
    rcases ht with ht | ht
    · exact hc.2.2.2.1 t ht kv hkv
    · subst ht
      exact absurd hkv (List.not_mem_nil _)
  show ((evalTableLoop fl ev st.tables.length env pairs
    { st with tables := st.tables ++ [[]] }).bind _).CleanPost (Object.Within l)
  exact Res.cleanPost_bind (evalTableLoop_clean hev _ env pairs _ hfit hc0)
    fun _ st1 _ c1 => ⟨trivial, c1⟩

theorem evalPackLoop_clean (pack env : Nat) :
    ∀ (exprs : List Expression) (st : State), Expression.fitsList .value exprs = true →
      st.Clean → (evalPackLoop ev pack env exprs st).CleanPost (fun _ => True) := by
  intro exprs
  induction exprs with
  | nil => intro st _ hc; exact ⟨trivial, hc⟩
  | cons e rest ih =>
    intro st hfit hc
    simp only [Expression.fitsList, Bool.and_eq_true] at hfit
    unfold evalPackLoop
    refine Res.cleanPost_bind (hev .value e env st hfit.1 hc) fun obj st1 po c1 => ?_
    exact ih _ hfit.2 (State.clean_packAppend c1 pack (Object.within_value po))

theorem evalPackExpr_clean (l : Level) (exprs : List Expression) (env : Nat) (st : State)
    (hfit : Expression.fitsList .value exprs = true) (hc : st.Clean) :
    (evalPackExpr ev exprs env st).CleanPost (Object.Within l) := by
  have hc0 : ({ st with packs := st.packs ++ [[]] } : State).Clean := by
    refine ⟨hc.1, hc.2.1, ?_, hc.2.2.2.1, hc.2.2.2.2⟩
    intro p hp o ho
    simp only [List.mem_append, List.mem_singleton] at hp
    rcases hp with hp | hp
    · exact hc.2.2.1 p hp o ho
    · subst hp
      exact absurd ho (List.not_mem_nil _)
  show ((evalPackLoop ev st.packs.length env exprs
    { st with packs := st.packs ++ [[]] }).bind _).CleanPost (Object.Within l)
  exact Res.cleanPost_bind (evalPackLoop_clean hev _ env exprs _ hfit hc0)
    fun _ st1 _ c1 => ⟨trivial, c1⟩

theorem evalArithPrefixExpr_clean (l : Level) (Op : TokenType) (Right : Expression) (env : Nat)
    (st : State) (hfit : Expression.fits .value Right = true) (hc : st.Clean) :
    (evalArithPrefixExpr fl ev Op Right env st).CleanPost (Object.Within l) := by
  unfold evalArithPrefixExpr
  refine Res.cleanPost_bind (hev .value Right env st hfit hc) fun right st1 _ c1 => ?_
  split
  · exact ⟨trivial, c1⟩
  · split
    · split
      · exact ⟨trivial, c1⟩
      · exact ⟨trivial, c1⟩
      · split
        · exact c1
        · trivial
    · exact c1

theorem evalArithInfixExpr_clean (l : Level) (Op : TokenType) (Left Right : Expression)
    (env : Nat) (st : State) (hL : Expression.fits .value Left = true)
    (hR : Expression.fits .value Right = true) (hc : st.Clean) :
    (evalArithInfixExpr fl ev Op Left Right env st).CleanPost (Object.Within l) := by
  unfold evalArithInfixExpr
  refine Res.cleanPost_bind (hev .value Left env st hL hc) fun left st1 pl c1 => ?_
  refine Res.cleanPost_bind (hev .value Right env st1 hR c1) fun right st2 pr c2 => ?_
  split
  · rename_i o ho
    exact ⟨Object.plain_within l (infixValues_plain fl Op left right o
      (Object.within_value pl) (Object.within_value pr) ho), c2⟩
  · exact c2
  · trivial

/-- A block whose elements fit the level `l` yields an object within `l` that
is not a Break-wrapper. -/
theorem evalBlockExpr_clean (l : Level) (env : Nat) :
    ∀ (exprs : List Expression) (st : State), Expression.fitsList l exprs = true → st.Clean →
      (evalBlockExpr ev exprs env st).CleanPost
        (fun o => o.Within l ∧ o.Typ ≠ .TBreakObj) := by
  intro exprs
  induction exprs with
  | nil =>
    intro st _ hc
    exact ⟨⟨Object.plain_within l hc.1, hc.1.2⟩, hc⟩
  | cons e rest ih =>
    intro st hfit hc
    simp only [Expression.fitsList, Bool.and_eq_true] at hfit
    unfold evalBlockExpr
    refine Res.cleanPost_bind (hev l e env st hfit.1 hc) fun obj st1 po c1 => ?_
    split
    · exact ⟨⟨po, by simp [Object.Typ]⟩, c1⟩
    · rename_i v
      have hv : v.Plain := po.2
      exact ⟨⟨Object.plain_within l hv, hv.2⟩, c1⟩
    · exact ih st1 hfit.2 c1

theorem evalFuncBlockExpr_clean (block : List Expression) (env : Nat) (st : State)
    (hfit : Expression.fitsList .returns block = true) (hc : st.Clean) :
    (evalFuncBlockExpr ev block env st).CleanPost Object.Plain := by
  unfold evalFuncBlockExpr
  refine Res.cleanPost_bind (evalBlockExpr_clean hev .returns env block st hfit hc)
    fun obj st1 po c1 => ?_
  split
  · exact ⟨po.1.2, c1⟩
  · rename_i hne
    refine ⟨⟨?_, po.2⟩, c1⟩
    intro ht
    cases obj <;> simp [Object.Typ] at ht
    exact hne _ rfl

theorem evalIndexExpr_clean (l : Level) (Table Index : Expression) (env : Nat) (st : State)
    (hT : Expression.fits .value Table = true) (hI : Expression.fits .value Index = true)
    (hc : st.Clean) : (evalIndexExpr fl ev Table Index env st).CleanPost (Object.Within l) := by
  unfold evalIndexExpr
  refine Res.cleanPost_bind (hev .value Table env st hT hc) fun table st1 _ c1 => ?_
  split
  · refine Res.cleanPost_bind (hev .value Index env st1 hI c1) fun index st2 _ c2 => ?_
    split
    · trivial
    · rename_i store hs
      split
      · rename_i res hres
        obtain ⟨k', hk'⟩ := storeGet_mem fl store hres
        exact ⟨Object.plain_within l (c2.2.2.2.1 store (List.getElem?_mem hs) _ hk').2, c2⟩
      · exact ⟨Object.plain_within l c2.1, c2⟩
  · exact c1

theorem evalIfExpr_clean (l : Level) (Condition : Expression) (Consequence : List Expression)
    (Alternative : Option (List Expression)) (env : Nat) (st : State)
    (hC : Expression.fits .value Condition = true)
    (hA : Expression.fitsList l.inBlock Consequence = true)
    (hB : Expression.fitsOpt l.inBlock Alternative = true) (hc : st.Clean) :
    (evalIfExpr ev Condition Consequence Alternative env st).CleanPost (Object.Within l) := by
  rw [evalIfExpr_eq]
  refine Res.cleanPost_bind (hev .value Condition _ _ hC (State.clean_NewInnerEnv hc env))
    fun c st1 _ c1 => ?_
  split
  · exact hev l _ _ _ (by simpa [Expression.fits] using hA) c1
  · split
    · rename_i alt
      exact hev l _ _ _ (by simpa [Expression.fits, Expression.fitsOpt] using hB) c1
    · exact ⟨Object.plain_within l c1.1, c1⟩

omit hev in
theorem evalIdentifierExpr_clean (l : Level) (Ident : GoString) (env : Nat) (st : State)
    (hc : st.Clean) : (evalIdentifierExpr Ident env st).CleanPost (Object.Within l) := by
  unfold evalIdentifierExpr
  split
  · exact hc
  · split
    · rename_i v hv
      exact ⟨Object.plain_within l (State.clean_load hc hv), hc⟩
    · trivial

omit hev in
theorem AssignFn.call_clean (fn : AssignFn) (env : Nat) (ident : GoString) (value : Object)
    (st : State) (hv : value.Plain) (hc : st.Clean) :
    (fn.call env ident value st).CleanPost (fun _ => True) := by
  cases fn with
  | declare => exact ⟨trivial, State.clean_Set (State.clean_newCell hc hv) _ _ _⟩
  | assign =>
    show (match Environment.Get st env ident with
      | none => Res.err (.assignNotDeclared ident) st
      | some o => Res.ok () (st.store o value)).CleanPost (fun _ => True)
    split
    · exact hc
    · exact ⟨trivial, State.clean_store hc _ hv⟩

end CleanHelpers

mutual
theorem declareAssignHelper_clean {fl : FloatOps} {ev : Evaluator} (hev : ev.Contained)
    (fn : AssignFn) :
    ∀ (left : Expression) (value : Object) (env : Nat) (st : State),
      Expression.fits .value left = true → value.Plain → st.Clean →
      (declareAssignHelper fl ev fn left value env st).CleanPost (fun _ => True)
  | .Identifier ident, value, env, st, _, hv, hc => by
    rw [declareAssignHelper]
    exact AssignFn.call_clean fn env ident value st hv hc
  | .IndexExpr t i, value, env, st, hfit, hv, hc => by
    simp only [Expression.fits, Bool.and_eq_true] at hfit
    rw [declareAssignHelper]
    refine Res.cleanPost_bind (hev .value t env st hfit.1 hc) fun table st1 _ c1 => ?_
    split
    · refine Res.cleanPost_bind (hev .value i env st1 hfit.2 c1) fun index st2 pi c2 => ?_
      exact ⟨trivial, State.clean_tableStore fl c2 _ (Object.within_value pi) hv⟩
    · exact c1
  | .PackExpr [], value, env, st, _, _, hc => by
    cases value <;> simp only [declareAssignHelper] <;> try exact ⟨trivial, hc⟩
    split
    · trivial
    · rw [declareAssignPack]
      exact ⟨trivial, hc⟩
  | .PackExpr (left :: rest), value, env, st, hfit, hv, hc => by
    have hfit' : Expression.fitsList .value (left :: rest) = true := by
      simpa [Expression.fits] using hfit
    have hleft : Expression.fits .value left = true := by
      simp only [Expression.fitsList, Bool.and_eq_true] at hfit'
      exact hfit'.1
    cases value <;> simp only [declareAssignHelper] <;>
      try exact declareAssignHelper_clean hev fn left _ env st hleft hv hc
    split
    · trivial
    · rename_i objs hobjs
      exact declareAssignPack_clean hev fn (left :: rest) objs env st hfit'
        (hc.2.2.1 objs (List.getElem?_mem hobjs)) hc
  | .IntegerExpr _, _, _, _, _, _, _ => by simp only [declareAssignHelper]; trivial
  | .FloatExpr _, _, _, _, _, _, _ => by simp only [declareAssignHelper]; trivial
  | .BooleanExpr _, _, _, _, _, _, _ => by simp only [declareAssignHelper]; trivial
  | .StringExpr _, _, _, _, _, _, _ => by simp only [declareAssignHelper]; trivial
  | .TableExpr _, _, _, _, _, _, _ => by simp only [declareAssignHelper]; trivial
  | .NilExpr, _, _, _, _, _, _ => by simp only [declareAssignHelper]; trivial
  | .ArithPrefixExpr _ _, _, _, _, _, _, _ => by simp only [declareAssignHelper]; trivial
  | .ArithInfixExpr _ _ _, _, _, _, _, _, _ => by simp only [declareAssignHelper]; trivial
  | .DeclarationExpr _ _, _, _, _, _, _, _ => by simp only [declareAssignHelper]; trivial
  | .AssignExpr _ _, _, _, _, _, _, _ => by simp only [declareAssignHelper]; trivial
  | .IfExpr _ _ _, _, _, _, _, _, _ => by simp only [declareAssignHelper]; trivial
  | .FuncExpr _ _ _, _, _, _, _, _, _ => by simp only [declareAssignHelper]; trivial
  | .CallExpr _ _, _, _, _, _, _, _ => by simp only [declareAssignHelper]; trivial
  | .ReturnExpr _, _, _, _, _, _, _ => by simp only [declareAssignHelper]; trivial
  | .BlockExpr _, _, _, _, _, _, _ => by simp only [declareAssignHelper]; trivial
  | .ForExpr _ _ _ _, _, _, _, _, _, _ => by simp only [declareAssignHelper]; trivial
  | .BreakExpr _, _, _, _, _, _, _ => by simp only [declareAssignHelper]; trivial
theorem declareAssignPack_clean {fl : FloatOps} {ev : Evaluator} (hev : ev.Contained)
    (fn : AssignFn) :
    ∀ (lefts : List Expression) (objs : List Object) (env : Nat) (st : State),
      Expression.fitsList .value lefts = true → (∀ o ∈ objs, o.Plain) → st.Clean →
      (declareAssignPack fl ev fn lefts objs env st).CleanPost (fun _ => True)
  | [], _, _, st, _, _, hc => by
    rw [declareAssignPack]
    exact ⟨trivial, hc⟩
  | left :: rest, obj :: objs, env, st, hfit, ho, hc => by
    simp only [Expression.fitsList, Bool.and_eq_true] at hfit
    rw [declareAssignPack]
    refine Res.cleanPost_bind (declareAssignHelper_clean hev fn left obj env st hfit.1
      (ho obj (List.mem_cons_self _ _)) hc) fun _ st1 _ c1 => ?_
    exact declareAssignPack_clean hev fn rest objs env st1 hfit.2
      (fun o h => ho o (List.mem_cons_of_mem _ h)) c1
  | left :: rest, [], env, st, hfit, ho, hc => by
    simp only [Expression.fitsList, Bool.and_eq_true] at hfit
    rw [declareAssignPack]
    refine Res.cleanPost_bind (declareAssignHelper_clean hev fn left _ env st hfit.1 hc.1 hc)
      fun _ st1 _ c1 => ?_
    exact declareAssignPack_clean hev fn rest [] env st1 hfit.2 ho c1
end

theorem Object.within_of_inBlock {l : Level} {o : Object} (h : o.Within l.inBlock)
    (hb : o.Typ ≠ .TBreakObj) : o.Within l := by
  cases o <;> try trivial
  cases l <;> simp_all [Object.Within, Level.inBlock]

section CleanHelpers2
variable {fl : FloatOps} {ev : Evaluator} (hev : ev.Contained)
include hev

theorem evalDeclarationExpr_clean (l : Level) (Left Value : Expression) (env : Nat)
    (st : State) (hL : Expression.fits .value Left = true)
    (hV : Expression.fits .value Value = true) (hc : st.Clean) :
    (evalDeclarationExpr fl ev Left Value env st).CleanPost (Object.Within l) := by
  unfold evalDeclarationExpr
  refine Res.cleanPost_bind (hev .value Value env st hV hc) fun value st1 pv c1 => ?_
  exact Res.cleanPost_bind (declareAssignHelper_clean hev .declare Left value env st1 hL
    (Object.within_value pv) c1) fun _ st2 _ c2 =>
      ⟨Object.plain_within l (Object.within_value pv), c2⟩

theorem evalAssignExpr_clean (l : Level) (Left Value : Expression) (env : Nat)
    (st : State) (hL : Expression.fits .value Left = true)
    (hV : Expression.fits .value Value = true) (hc : st.Clean) :
    (evalAssignExpr fl ev Left Value env st).CleanPost (Object.Within l) := by
  unfold evalAssignExpr
  refine Res.cleanPost_bind (hev .value Value env st hV hc) fun value st1 pv c1 => ?_
  exact Res.cleanPost_bind (declareAssignHelper_clean hev .assign Left value env st1 hL
    (Object.within_value pv) c1) fun _ st2 _ c2 =>
      ⟨Object.plain_within l (Object.within_value pv), c2⟩

theorem captureLoop_clean (env cap : Nat) :
    ∀ (captures : List Expression) (st : State), Expression.fitsList .value captures = true →
      st.Clean → (captureLoop fl ev env cap captures st).CleanPost (fun _ => True) := by
  intro captures
  induction captures with
  | nil => intro st _ hc; exact ⟨trivial, hc⟩
  | cons c rest ih =>
    intro st hfit hc
    simp only [Expression.fitsList, Bool.and_eq_true] at hfit
    cases c <;> simp only [captureLoop] <;> try trivial
    · rename_i Ident
      split
      · exact hc
      · exact ih _ hfit.2 (State.clean_Set hc _ _ _)
    · rename_i Left Value
      have h1 := hfit.1
      simp only [Expression.fits, Bool.and_eq_true] at h1
      refine Res.cleanPost_bind (evalDeclarationExpr_clean hev .value Left Value cap st h1.1 h1.2
        hc) fun _ st1 _ c1 => ?_
      exact ih st1 hfit.2 c1

theorem evalFuncExpr_clean (l : Level) (Parameters : List GoString)
    (Capture Body : List Expression) (env : Nat) (st : State)
    (hC : Expression.fitsList .value Capture = true)
    (hB : Expression.fitsList .returns Body = true) (hc : st.Clean) :
    (evalFuncExpr fl ev Parameters Capture Body env st).CleanPost (Object.Within l) := by
  show ((captureLoop fl ev env (NewInnerEnv env st).1 Capture (NewInnerEnv env st).2).bind
    _).CleanPost (Object.Within l)
  refine Res.cleanPost_bind (captureLoop_clean hev env _ Capture _ hC
    (State.clean_NewInnerEnv hc env)) fun _ st1 _ c1 => ?_
  have c2 := State.clean_Close c1 (NewInnerEnv env st).1
  refine ⟨trivial, c2.1, c2.2.1, c2.2.2.1, c2.2.2.2.1, ?_⟩
  intro fv hfv
  simp only [List.mem_append, List.mem_singleton] at hfv
  rcases hfv with hfv | hfv
  · exact c2.2.2.2.2 fv hfv
  · subst hfv
    exact hB

omit hev in
theorem bindMissing_clean (ce : Nat) :
    ∀ (ps : List GoString) (st : State), st.Clean → (bindMissing ce ps st).Clean := by
  intro ps
  induction ps with
  | nil => intro st hc; exact hc
  | cons p rest ih => intro st hc; exact ih _ (State.clean_Set hc _ _ _)

theorem evalExtra_clean (env : Nat) :
    ∀ (as : List Expression) (st : State), Expression.fitsList .value as = true → st.Clean →
      (evalExtra ev env as st).CleanPost (fun _ => True) := by
  intro as
  induction as with
  | nil => intro st _ hc; exact ⟨trivial, hc⟩
  | cons a rest ih =>
    intro st hfit hc
    simp only [Expression.fitsList, Bool.and_eq_true] at hfit
    unfold evalExtra
    refine Res.cleanPost_bind (hev .value a env st hfit.1 hc) fun _ st1 _ c1 => ?_
    exact ih st1 hfit.2 c1

theorem callLoop_clean (env ce : Nat) :
    ∀ (ps : List GoString) (as : List Expression) (st : State),
      Expression.fitsList .value as = true → st.Clean →
      (callLoop ev env ce ps as st).CleanPost (fun _ => True) := by
  intro ps
  induction ps with
  | nil =>
    intro as st hfit hc
    rw [callLoop]
    exact evalExtra_clean hev env as st hfit hc
  | cons p rest ih =>
    intro as st hfit hc
    cases as with
    | nil =>
      rw [callLoop]
      · exact ⟨trivial, bindMissing_clean ce (p :: rest) st hc⟩
      · simp
    | cons a as =>
      simp only [Expression.fitsList, Bool.and_eq_true] at hfit
      rw [callLoop]
      refine Res.cleanPost_bind (hev .value a env st hfit.1 hc) fun obj st1 po c1 => ?_
      exact ih as _ hfit.2
        (State.clean_Set (State.clean_newCell c1 (Object.within_value po)) _ _ _)

theorem evalCallExpr_clean (l : Level) (Function : Expression) (Parameters : List Expression)
    (env : Nat) (st : State) (hF : Expression.fits .value Function = true)
    (hP : Expression.fitsList .value Parameters = true) (hc : st.Clean) :
    (evalCallExpr ev Function Parameters env st).CleanPost (Object.Within l) := by
  unfold evalCallExpr
  refine Res.cleanPost_bind (hev .value Function env st hF hc) fun fn st1 _ c1 => ?_
  split
  · split
    · trivial
    · rename_i f fnObj hf
      show ((callLoop ev env (NewInnerEnv fnObj.FuncEnv st1).1 fnObj.Parameters Parameters
        (NewInnerEnv fnObj.FuncEnv st1).2).bind _).CleanPost (Object.Within l)
      refine Res.cleanPost_bind (callLoop_clean hev env _ _ _ _ hP
        (State.clean_NewInnerEnv c1 _)) fun _ st3 _ c3 => ?_
      exact Res.cleanPost_weaken (evalFuncBlockExpr_clean hev fnObj.Body _ st3
        (c1.2.2.2.2 fnObj (List.getElem?_mem hf)) c3) fun v hv => Object.plain_within l hv
  · exact c1

end CleanHelpers2

/-- The evaluator contains the wrappers: on an expression that fits the level
`l`, from a memory without wrappers, `Eval` yields an object within `l` and
leaves a memory without wrappers. -/
theorem Eval_contained (fl : FloatOps) : ∀ n : Nat, Evaluator.Contained (Eval fl n) := by
  intro n
  induction n with
  | zero => intro l e env st _ _; trivial
  | succ n ih =>
    intro l e env st hfit hc
    cases e with
    | IntegerExpr v => exact ⟨trivial, hc⟩
    | FloatExpr v => exact ⟨trivial, hc⟩
    | BooleanExpr v => exact ⟨trivial, hc⟩
    | StringExpr v => exact ⟨trivial, hc⟩
    | NilExpr => exact ⟨Object.plain_within l hc.1, hc⟩
    | TableExpr InitValue =>
      exact evalTableExpr_clean ih l InitValue env st (by simpa [Expression.fits] using hfit) hc
    | PackExpr Exprs =>
      exact evalPackExpr_clean ih l Exprs env st (by simpa [Expression.fits] using hfit) hc
    | Identifier Ident => exact evalIdentifierExpr_clean l Ident env st hc
    | ArithPrefixExpr Op Right =>
      exact evalArithPrefixExpr_clean ih l Op Right env st
        (by simpa [Expression.fits] using hfit) hc
    | ArithInfixExpr Op Left Right =>
      simp only [Expression.fits, Bool.and_eq_true] at hfit
      exact evalArithInfixExpr_clean ih l Op Left Right env st hfit.1 hfit.2 hc
    | DeclarationExpr Left Value =>
      simp only [Expression.fits, Bool.and_eq_true] at hfit
      exact evalDeclarationExpr_clean ih l Left Value env st hfit.1 hfit.2 hc
    | AssignExpr Left Value =>
      simp only [Expression.fits, Bool.and_eq_true] at hfit
      exact evalAssignExpr_clean ih l Left Value env st hfit.1 hfit.2 hc
    | IfExpr c a b =>
      simp only [Expression.fits, Bool.and_eq_true] at hfit
      exact evalIfExpr_clean ih l c a b env st hfit.1.1 hfit.1.2 hfit.2 hc
    | FuncExpr ps cs body =>
      simp only [Expression.fits, Bool.and_eq_true] at hfit
      exact evalFuncExpr_clean ih l ps cs body env st hfit.1 hfit.2 hc
    | CallExpr f as =>
      simp only [Expression.fits, Bool.and_eq_true] at hfit
      exact evalCallExpr_clean ih l f as env st hfit.1 hfit.2 hc
    | IndexExpr t i =>
      simp only [Expression.fits, Bool.and_eq_true] at hfit
      exact evalIndexExpr_clean ih l t i env st hfit.1 hfit.2 hc
    | ReturnExpr r =>
      cases l <;> simp only [Expression.fits] at hfit <;> try exact Bool.noConfusion hfit
      rw [Eval_ReturnExpr]
      exact Res.cleanPost_bind (ih .value r env st hfit hc) fun obj st1 po c1 =>
        ⟨⟨rfl, Object.within_value po⟩, c1⟩
    | BlockExpr es =>
      rw [Eval_BlockExpr]
      exact Res.cleanPost_weaken (evalBlockExpr_clean ih l.inBlock _ es _
        (by simpa [Expression.fits] using hfit) (State.clean_NewInnerEnv hc env))
        fun o ho => Object.within_of_inBlock ho.1 ho.2
    | ForExpr a b c body => trivial
    | BreakExpr r =>
      cases l <;> simp only [Expression.fits] at hfit <;> try exact Bool.noConfusion hfit
      all_goals
        rw [Eval_BreakExpr]
        exact Res.cleanPost_bind (ih .value r env st hfit hc) fun obj st1 po c1 =>
          ⟨⟨by decide, Object.within_value po⟩, c1⟩

/-! ## Control-flow wrappers -/

/-- C11 as amended.  Let every `return` of a program stand as an element of a
function body (the program itself included) or of a block or if-arm that
stands so, every `break` as an element of a block or if-arm, and the operand
of every `return` and `break` at a value place (`Expression.fits`).  Then the
top-level evaluation yields an object that is not a Return- or Break-wrapper
and leaves a memory in which no binding cell, pack or table (and not the
variable `NilObj`) holds a wrapper, also when it returns an error.  And in
every such memory, whose function values have bodies of that form, a call
whose callee and arguments stand at value places yields an object that is not
a wrapper and leaves such a memory. -/
theorem wrappers_contained (fl : FloatOps) (fuel : Nat) (block : List Expression)
    (hfit : Expression.fitsList .returns block = true) :
    (∀ (o : Object) (st' : State), runProgram fl fuel block = .ok o st' →
      o.Plain ∧ st'.Clean) ∧
    (∀ (e : EvalError) (st' : State), runProgram fl fuel block = .err e st' → st'.Clean) ∧
    (∀ (F : Expression) (as : List Expression) (env : Nat) (st : State),
      Expression.fits .value (.CallExpr F as) = true → st.Clean →
      (∀ (o : Object) (st' : State), Eval fl fuel (.CallExpr F as) env st = .ok o st' →
        o.Plain ∧ st'.Clean) ∧
      (∀ (e : EvalError) (st' : State), Eval fl fuel (.CallExpr F as) env st = .err e st' →
        st'.Clean)) := by
  have hrun : (runProgram fl fuel block).CleanPost Object.Plain :=
    evalFuncBlockExpr_clean (Eval_contained fl fuel) block _ _ hfit
      (State.clean_of_same State.init_clean rfl rfl rfl rfl rfl)
  refine ⟨fun o st' h => ?_, fun e st' h => ?_, fun F as env st hF hc => ?_⟩
  · rw [h] at hrun
    exact hrun
  · rw [h] at hrun
    exact hrun
  · have hcall := Eval_contained fl fuel .value (.CallExpr F as) env st hF hc
    constructor
    · intro o st' h
      rw [h] at hcall
      exact ⟨Object.within_value hcall.1, hcall.2⟩
    · intro e st' h
      rw [h] at hcall
      exact hcall

/-- The statement of C11 as amended on the program
`f := func(x, y){ return if x > y break x else break y }; return f(1, 2)`:
its source text parses without error to a program of the form required, and
the evaluation yields the Integer 2, which is not a wrapper, and leaves a
memory without wrappers. -/
theorem wrappers_contained_witness :
    (parseSource bitsOps 40
      (str "f := func(x, y){ return if x > y break x else break y }; return f(1, 2)")).map
      (fun b => (Expression.fitsList .returns b.1, b.2.Errors.length)) = some (true, 0) ∧
    Expression.fitsList .returns maxProgram = true ∧
    ∃ st' : State, runProgram bitsOps 20 maxProgram = .ok (.IntegerObj 2) st' ∧
      (Object.IntegerObj 2).Plain ∧ st'.Clean :=
  ⟨by decide!, rfl, _, rfl, (wrappers_contained bitsOps 20 maxProgram rfl).1 _ _ rfl⟩

/-- C11, counterexample.  The programs `return return 1` and
`return break 1` parse without error and their top-level evaluation yields the
Return-wrapper and the Break-wrapper of the Integer 1: `evalFuncBlockExpr`
removes one Return-wrapper and the operand of a `return` may itself yield a
wrapper.  In the third program the assignment `y = if true { return 1 }` in a
closure stores a Return-wrapper in the captured cell of `y`, which the
top-level `return y` then yields. -/
theorem wrappers_escape_counterexample :
    (runSource bitsOps 40 "return return 1").map (fun r => (r.1.value?, r.2)) =
      some (some (.ReturnObj (.IntegerObj 1)), 0) ∧
    (runSource bitsOps 40 "return break 1").map (fun r => (r.1.value?, r.2)) =
      some (some (.BreakObj (.IntegerObj 1)), 0) ∧
    (runSource bitsOps 40
      "y := 0; f := func()[y]{ y = if true { return 1 } }; f(); return y").map
      (fun r => (r.1.value?, r.2)) = some (some (.ReturnObj (.IntegerObj 1)), 0) := by
  refine ⟨?_, ?_, ?_⟩ <;> decide!

/-! ## Calls: missing and extra arguments -/

/-- C12, failing inputs.  `evalCallExpr` binds a parameter without argument
to `&NilObj`, the address of the package variable, not to a fresh cell.  After
`f := func(a){ a = 5 }; f()` the assignment in the body has overwritten
`NilObj`: the literal `nil` and the empty block `{}` evaluate to the Integer
5, and so does the missing parameter `b` of a later call `g()`. -/
theorem missing_parameter_shares_NilObj :
    (runSource bitsOps 40 "f := func(a){ a = 5 }; f(); return nil").map
      (fun r => (r.1.value?, r.2)) = some (some (.IntegerObj 5), 0) ∧
    (runSource bitsOps 40 "f := func(a){ a = 5 }; f(); return {}").map
      (fun r => (r.1.value?, r.2)) = some (some (.IntegerObj 5), 0) ∧
    (runSource bitsOps 40
      "f := func(a){ a = 5 }; f(); g := func(b){ return b }; return g()").map
      (fun r => (r.1.value?, r.2)) = some (some (.IntegerObj 5), 0) := by
  refine ⟨?_, ?_, ?_⟩ <;> decide!

/-- C13 (extra arguments).  In a well-formed memory let the callee evaluate
to a function with at most as many parameters as the call has arguments, and
let `ce` be the call scope, the new inner environment of the function's
capture scope.  (1) The call is the walk `specArgumentsInOrder` over all the
arguments followed by the body: each argument, bound or extra, is evaluated
once, in index order, in the caller's environment `env`, before the body; the
value of argument `i` is installed in a fresh cell under parameter `i` and
the values of the extra arguments are dropped.  (2) When the walk returns,
the names bound in the call scope are the declared parameters and no other,
and the scope is still the inner environment of the capture scope: the
evaluation of the arguments has not touched it.  (3) The result of the call
is the result of `evalFuncBlockExpr` on the body in that scope. -/
theorem extra_arguments (fl : FloatOps) (n : Nat) (F : Expression) (as : List Expression)
    (env : Nat) (st st1 : State) (f : Nat) (fnObj : FuncValue)
    (hwf : st.WF) (henv : env < st.envs.length)
    (hfn : Eval fl n F env st = .ok (.FuncObj f) st1) (hf : st1.funcs[f]? = some fnObj)
    (hlen : fnObj.Parameters.length ≤ as.length) :
    Eval fl (n + 1) (.CallExpr F as) env st =
      (specArgumentsInOrder (Eval fl n) env (NewInnerEnv fnObj.FuncEnv st1).1 fnObj.Parameters as
        (NewInnerEnv fnObj.FuncEnv st1).2).bind
        (fun _ st3 => evalFuncBlockExpr (Eval fl n) fnObj.Body
          (NewInnerEnv fnObj.FuncEnv st1).1 st3) ∧
    ∀ st3 : State,
      specArgumentsInOrder (Eval fl n) env (NewInnerEnv fnObj.FuncEnv st1).1 fnObj.Parameters as
        (NewInnerEnv fnObj.FuncEnv st1).2 = .ok () st3 →
      (∀ x, (st3.localVar (NewInnerEnv fnObj.FuncEnv st1).1 x).isSome = true ↔
        x ∈ fnObj.Parameters) ∧
      st3.envs[(NewInnerEnv fnObj.FuncEnv st1).1]?.map (·.Outer) = some (some fnObj.FuncEnv) ∧
      Eval fl (n + 1) (.CallExpr F as) env st =
        evalFuncBlockExpr (Eval fl n) fnObj.Body (NewInnerEnv fnObj.FuncEnv st1).1 st3 := by
  have hcall : Eval fl (n + 1) (.CallExpr F as) env st =
      (specArgumentsInOrder (Eval fl n) env (NewInnerEnv fnObj.FuncEnv st1).1 fnObj.Parameters as
        (NewInnerEnv fnObj.FuncEnv st1).2).bind
        (fun _ st3 => evalFuncBlockExpr (Eval fl n) fnObj.Body
          (NewInnerEnv fnObj.FuncEnv st1).1 st3) := by
    rw [Eval_CallExpr]
    simp only [evalCallExpr, hfn, Res.bind_ok, hf]
    rw [callLoop_eq_spec _ _ _ _ _ _ hlen]
  refine ⟨hcall, fun st3 h3 => ?_⟩
  have hle := (Eval_ok_WF hwf henv hfn).2
  have hne : env ≠ (NewInnerEnv fnObj.FuncEnv st1).1 := by
    have : env < st1.envs.length := Nat.lt_of_lt_of_le henv hle.2.1
    rw [NewInnerEnv_fst]
    omega
  obtain ⟨h1, h2⟩ := specArguments_localVar fl n env _ hne as fnObj.Parameters _ st3
    (NewInnerEnv_lt _ _) hlen h3
  refine ⟨fun x => ?_, ?_, ?_⟩
  · rw [h1 x]
    have : (NewInnerEnv fnObj.FuncEnv st1).2.localVar (NewInnerEnv fnObj.FuncEnv st1).1 x =
        none := by
      simp [State.localVar, NewInnerEnv, mapGet]
    simp [this]
  · rw [h2]
    simp [NewInnerEnv]
  · rw [hcall, h3, Res.bind_ok]

/-- The statement of C13 on the call `f(1, x = 7)` of `func(a){ return a }`
in a memory where `x` is 0: the call yields 1, the value of the bound
argument, and the extra argument has been evaluated, `x` being 7 afterwards;
and the same from the source text. -/
theorem extra_arguments_witness :
    (∃ st' : State,
      Eval bitsOps 4 (.CallExpr (.Identifier (str "f"))
        [.IntegerExpr 1, .AssignExpr (.Identifier (str "x")) (.IntegerExpr 7)]) 0 callMemory =
        .ok (.IntegerObj 1) st' ∧ st'.lookup 0 (str "x") = some (.IntegerObj 7)) ∧
    (runSource bitsOps 40
      "x := 0; f := func(a){ return a }; r := f(1, x = 7); return r + x").map
      (fun r => (r.1.value?, r.2)) = some (some (.IntegerObj 8), 0) :=
  ⟨⟨_, ((extra_arguments bitsOps 3 (.Identifier (str "f"))
      [.IntegerExpr 1, .AssignExpr (.Identifier (str "x")) (.IntegerExpr 7)] 0 callMemory
      callMemory 0 ⟨1, [str "a"], [.ReturnExpr (.Identifier (str "a"))]⟩
      (by decide) (by decide) rfl rfl (by decide)).1).trans rfl, by decide⟩, by decide!⟩

/-- The memory `callMemory` is the one that the program
`x := 0; f := func(a){ return a }` leaves. -/
theorem callMemory_eq :
    (runSource bitsOps 40 "x := 0; f := func(a){ return a }").map
      (fun r => r.1.state?.map (fun s => (s.cells, s.envs, s.funcs.map (·.FuncEnv)))) =
      some (some (callMemory.cells, callMemory.envs, callMemory.funcs.map (·.FuncEnv))) := by
  decide!

/-! ## Integer arithmetic, division by zero -/

/-- C14 (integer arithmetic).  When both operands of an infix operator
evaluate to Integers `a` and `b`: `+`, `-` and `*` yield the Integer of the
exact result wrapped into the signed 64-bit range; `/` with `b != 0` yields
the Integer of the quotient truncated toward zero (`Int.tdiv`), wrapped, which
is the quotient itself for operands in the range except for the most negative
value divided by -1; the six comparisons yield the Boolean of the comparison
of `a` and `b` as signed integers.  Wrapping yields the value of the range
that is congruent modulo `2 ^ 64`.  No operator yields a Float on two
Integers: every value is an Integer or a Boolean. -/
theorem integer_arithmetic (fl : FloatOps) (fuel : Nat) (l r : Expression) (env : Nat)
    (st st1 st2 : State) (a b : Int)
    (hl : Eval fl fuel l env st = .ok (.IntegerObj a) st1)
    (hr : Eval fl fuel r env st1 = .ok (.IntegerObj b) st2) :
    Eval fl (fuel + 1) (.ArithInfixExpr .T_PLUS l r) env st =
      .ok (.IntegerObj (wrapInt64 (a + b))) st2 ∧
    Eval fl (fuel + 1) (.ArithInfixExpr .T_MINUS l r) env st =
      .ok (.IntegerObj (wrapInt64 (a - b))) st2 ∧
    Eval fl (fuel + 1) (.ArithInfixExpr .T_ASTERISK l r) env st =
      .ok (.IntegerObj (wrapInt64 (a * b))) st2 ∧
    (b ≠ 0 → Eval fl (fuel + 1) (.ArithInfixExpr .T_SLASH l r) env st =
      .ok (.IntegerObj (wrapInt64 (Int.tdiv a b))) st2) ∧
    (-2 ^ 63 ≤ a → a < 2 ^ 63 → b ≠ 0 → ¬(a = -2 ^ 63 ∧ b = -1) →
      wrapInt64 (Int.tdiv a b) = Int.tdiv a b) ∧
    Eval fl (fuel + 1) (.ArithInfixExpr .T_LT l r) env st =
      .ok (.BooleanObj (decide (a < b))) st2 ∧
    Eval fl (fuel + 1) (.ArithInfixExpr .T_LE l r) env st =
      .ok (.BooleanObj (decide (a ≤ b))) st2 ∧
    Eval fl (fuel + 1) (.ArithInfixExpr .T_GT l r) env st =
      .ok (.BooleanObj (decide (a > b))) st2 ∧
    Eval fl (fuel + 1) (.ArithInfixExpr .T_GE l r) env st =
      .ok (.BooleanObj (decide (a ≥ b))) st2 ∧
    Eval fl (fuel + 1) (.ArithInfixExpr .T_EQ l r) env st =
      .ok (.BooleanObj (decide (a = b))) st2 ∧
    Eval fl (fuel + 1) (.ArithInfixExpr .T_NEQ l r) env st =
      .ok (.BooleanObj (decide (a ≠ b))) st2 ∧
    (∀ x : Int, -2 ^ 63 ≤ wrapInt64 x ∧ wrapInt64 x < 2 ^ 63 ∧ (2 : Int) ^ 64 ∣ wrapInt64 x - x) ∧
    (∀ x : Int, -2 ^ 63 ≤ x → x < 2 ^ 63 → wrapInt64 x = x) ∧
    (∀ (Op : TokenType) (o : Object) (st3 : State),
      Eval fl (fuel + 1) (.ArithInfixExpr Op l r) env st = .ok o st3 →
      o.Typ = .TIntegerObj ∨ o.Typ = .TBooleanObj) := by
  refine ⟨?_, ?_, ?_, ?_, ?_, ?_, ?_, ?_, ?_, ?_, ?_, wrapInt64_spec, wrapInt64_of_range, ?_⟩
  · simp [Eval_ArithInfixExpr, evalArithInfixExpr, hl, hr, infixValues, isArithOrCompare,
      sameTypeInfix, Object.Typ]
  · simp [Eval_ArithInfixExpr, evalArithInfixExpr, hl, hr, infixValues, isArithOrCompare,
      sameTypeInfix, Object.Typ]
  · simp [Eval_ArithInfixExpr, evalArithInfixExpr, hl, hr, infixValues, isArithOrCompare,
      sameTypeInfix, Object.Typ]
  · intro hb
    simp [Eval_ArithInfixExpr, evalArithInfixExpr, hl, hr, infixValues, isArithOrCompare,
      sameTypeInfix, Object.Typ, hb]
  · intro h1 h2 hb hne
    obtain ⟨h3, h4⟩ := tdiv_range a b h1 h2 hb hne
    exact wrapInt64_of_range _ h3 h4
  · simp [Eval_ArithInfixExpr, evalArithInfixExpr, hl, hr, infixValues, isArithOrCompare,
      sameTypeInfix, Object.Typ]
  · simp [Eval_ArithInfixExpr, evalArithInfixExpr, hl, hr, infixValues, isArithOrCompare,
      sameTypeInfix, Object.Typ]
  · simp [Eval_ArithInfixExpr, evalArithInfixExpr, hl, hr, infixValues, isArithOrCompare,
      sameTypeInfix, Object.Typ]
  · simp [Eval_ArithInfixExpr, evalArithInfixExpr, hl, hr, infixValues, isArithOrCompare,
      sameTypeInfix, Object.Typ]
  · simp [Eval_ArithInfixExpr, evalArithInfixExpr, hl, hr, infixValues, isArithOrCompare,
      sameTypeInfix, Object.Typ]
  · simp [Eval_ArithInfixExpr, evalArithInfixExpr, hl, hr, infixValues, isArithOrCompare,
      sameTypeInfix, Object.Typ]
  · intro Op o st3 h
    rw [Eval_ArithInfixExpr] at h
    simp only [evalArithInfixExpr, hl, hr, Res.bind_ok] at h
    cases hv : infixValues fl Op (.IntegerObj a) (.IntegerObj b) with
    | val o' =>
      rw [hv] at h
      injection h with h1 h2
      exact h1 ▸ infixValues_integers fl Op a b o' hv
    | noCase => rw [hv] at h; exact Res.noConfusion h
    | panic => rw [hv] at h; exact Res.noConfusion h

/-- The statement of C14 on `-7 / 2`, which is -3, and on the largest
`int64` plus 1, which wraps to the most negative one. -/
theorem integer_arithmetic_witness :
    Eval bitsOps 2 (.ArithInfixExpr .T_SLASH (.IntegerExpr (-7)) (.IntegerExpr 2)) 0 State.init =
      .ok (.IntegerObj (-3)) State.init ∧
    Eval bitsOps 2 (.ArithInfixExpr .T_PLUS (.IntegerExpr 9223372036854775807) (.IntegerExpr 1))
      0 State.init = .ok (.IntegerObj (-9223372036854775808)) State.init :=
  ⟨(integer_arithmetic bitsOps 1 (.IntegerExpr (-7)) (.IntegerExpr 2) 0 State.init State.init
      State.init (-7) 2 rfl rfl).2.2.2.1 (by decide),
    (integer_arithmetic bitsOps 1 (.IntegerExpr 9223372036854775807) (.IntegerExpr 1) 0
      State.init State.init State.init 9223372036854775807 1 rfl rfl).1⟩

/-- C15, failing input.  The program `return 1 / 0` parses without error and
its evaluation ends in a Go run-time panic (integer divide by zero): the
`T_SLASH` case of `evalArithInfixExpr` divides the two `int64` values without
testing the divisor, so no `*EvalError` is returned to the caller. -/
theorem integer_division_by_zero_panics :
    (runSource bitsOps 40 "return 1 / 0").map
      (fun r => (r.1.panicked, r.1.error?.isSome, r.2)) = some (true, false, 0) := by
  decide!

/-! ## Equality on mixed types, logical operators, unary minus -/

/-- C16 as amended.  When the operands of `==` or `!=` evaluate to values of
different types that are not both numeric, the evaluation returns the error
"Arith Infix Expr operator and operand" for the expression, and no value. -/
theorem mixed_type_equality (fl : FloatOps) (fuel : Nat) (l r : Expression) (env : Nat)
    (st st1 st2 : State) (a b : Object)
    (hl : Eval fl fuel l env st = .ok a st1) (hr : Eval fl fuel r env st1 = .ok b st2)
    (htyp : a.Typ ≠ b.Typ) (hnum : ¬(a.isNumeric = true ∧ b.isNumeric = true)) :
    Eval fl (fuel + 1) (.ArithInfixExpr .T_EQ l r) env st =
      .err (.arithInfixOperatorOperand .T_EQ l r) st2 ∧
    Eval fl (fuel + 1) (.ArithInfixExpr .T_NEQ l r) env st =
      .err (.arithInfixOperatorOperand .T_NEQ l r) st2 := by
  have h : ¬((a.Typ = .TIntegerObj ∨ a.Typ = .TFloatObj) ∧
      (b.Typ = .TIntegerObj ∨ b.Typ = .TFloatObj)) := by
    simpa [Object.isNumeric] using hnum
  constructor <;>
    simp only [Eval_ArithInfixExpr, evalArithInfixExpr, hl, hr, Res.bind_ok, infixValues,
      isArithOrCompare, if_true, if_neg htyp, if_neg h]

/-- The statement of C16 as amended on `1 == "a"`. -/
theorem mixed_type_equality_witness :
    Eval bitsOps 2 (.ArithInfixExpr .T_EQ (.IntegerExpr 1) (.StringExpr (str "a"))) 0 State.init =
      .err (.arithInfixOperatorOperand .T_EQ (.IntegerExpr 1) (.StringExpr (str "a")))
        State.init :=
  (mixed_type_equality bitsOps 1 (.IntegerExpr 1) (.StringExpr (str "a")) 0 State.init State.init
    State.init (.IntegerObj 1) (.StringObj (str "a")) rfl rfl (by decide) (by decide)).1

/-- C16, counterexample.  The programs `return 1 == "a"` and
`return nil != 1` parse without error and their evaluation returns an
evaluation error and no value, where the claim has Boolean false and Boolean
true. -/
theorem mixed_type_equality_counterexample :
    (runSource bitsOps 40 "return 1 == \"a\"").map
      (fun r => (r.1.value?, r.1.error?.isSome, r.2)) = some (none, true, 0) ∧
    (runSource bitsOps 40 "return nil != 1").map
      (fun r => (r.1.value?, r.1.error?.isSome, r.2)) = some (none, true, 0) := by
  constructor <;> decide!

/-- C17 (logical operators).  `l and r` and `l or r` evaluate `l`, then `r`
in the memory left by `l`, whatever the value of `l`.  When `l` yields `x` and
`r` yields `y`, `and` yields `y` itself if `x` is truthy and `x` itself
otherwise, and `or` yields `x` itself if `x` is truthy and `y` otherwise, in
the memory left by `r`.  When `r` returns an error, so do `l and r` and
`l or r`, whatever `x` is. -/
theorem logical_operators (fl : FloatOps) (fuel : Nat) (l r : Expression) (env : Nat)
    (st st1 : State) (x : Object) (hl : Eval fl fuel l env st = .ok x st1) :
    (∀ (y : Object) (st2 : State), Eval fl fuel r env st1 = .ok y st2 →
      Eval fl (fuel + 1) (.ArithInfixExpr .T_AND l r) env st =
        .ok (if toBooleanObj x = true then y else x) st2 ∧
      Eval fl (fuel + 1) (.ArithInfixExpr .T_OR l r) env st =
        .ok (if toBooleanObj x = true then x else y) st2) ∧
    (∀ (e : EvalError) (st2 : State), Eval fl fuel r env st1 = .err e st2 →
      Eval fl (fuel + 1) (.ArithInfixExpr .T_AND l r) env st = .err e st2 ∧
      Eval fl (fuel + 1) (.ArithInfixExpr .T_OR l r) env st = .err e st2) := by
  constructor
  · intro y st2 hr
    constructor <;>
      cases hx : toBooleanObj x <;>
        simp [Eval_ArithInfixExpr, evalArithInfixExpr, hl, hr, infixValues, hx]
  · intro e st2 hr
    constructor <;> simp [Eval_ArithInfixExpr, evalArithInfixExpr, hl, hr]

/-- The statement of C17 on `false and 10` and `false or 10`, and on
`false and -true`, whose right operand is an error. -/
theorem logical_operators_witness :
    (Eval bitsOps 2 (.ArithInfixExpr .T_AND (.BooleanExpr false) (.IntegerExpr 10)) 0 State.init =
        .ok (.BooleanObj false) State.init ∧
      Eval bitsOps 2 (.ArithInfixExpr .T_OR (.BooleanExpr false) (.IntegerExpr 10)) 0 State.init =
        .ok (.IntegerObj 10) State.init) ∧
    Eval bitsOps 3 (.ArithInfixExpr .T_AND (.BooleanExpr false)
        (.ArithPrefixExpr .T_MINUS (.BooleanExpr true))) 0 State.init =
      .err (.minusWrongType "TBooleanObj") State.init :=
  ⟨(logical_operators bitsOps 1 (.BooleanExpr false) (.IntegerExpr 10) 0 State.init State.init
      (.BooleanObj false) rfl).1 (.IntegerObj 10) State.init rfl,
    ((logical_operators bitsOps 2 (.BooleanExpr false)
      (.ArithPrefixExpr .T_MINUS (.BooleanExpr true)) 0 State.init State.init
      (.BooleanObj false) rfl).2 (.minusWrongType "TBooleanObj") State.init rfl).1⟩

/-- C18, failing input.  The program `f := func(){}; return -f` parses
without error and its evaluation ends in a Go run-time panic: the default
case of `evalArithPrefixExpr` formats the error with
`right.Type().String()`, and the switch of `ObjType.String` has no case for
`TFuncObj`, so no `*EvalError` is returned. -/
theorem minus_on_function_panics :
    (runSource bitsOps 40 "f := func(){}; return -f").map
      (fun r => (r.1.panicked, r.1.error?.isSome, r.2)) = some (true, false, 0) := by
  decide!

/-! ## Index read and write -/

/-- C19, failing input.  For an absent key `evalIndexExpr` returns the content
of the package variable `NilObj`, which the program has overwritten through a
parameter without argument: after `f := func(a){ a = 5 }; f()` the read of
the absent key `x` of an empty table yields the Integer 5, not Nil. -/
theorem index_read_after_overwritten_nil :
    (runSource bitsOps 40 "f := func(a){ a = 5 }; f(); t := table{}; return t.x").map
      (fun r => (r.1.value?, r.2)) = some (some (.IntegerObj 5), 0) := by
  decide!

/-- C20 as amended.  Let the float equality be Euclidean, and in
`t.[k] = v` or `t.[k] := v` let the value evaluate to `v`, then the receiver
to the table storage `t`, then the index to a key `k` that is equal to itself
as a map key (every key but a Float NaN).  Both forms yield `v` and leave the
memory `st3` of the three evaluations with the one change that the storage
`t` holds `v` under `k`.  In that memory an index read through any receiver
that evaluates to the storage `t` (the same variable or an alias) with an
index that evaluates to `k` yields `v`; the values under all keys different
from `k` and all other table storages are as before; and the environments
with their bindings, the binding cells (none is added), the packs, the
function values and `NilObj` are those of `st3`. -/
theorem index_write (fl : FloatOps) (hfl : fl.EqEuclidean) (fuel : Nat) (T K V : Expression)
    (env : Nat) (st st1 st2 st3 : State) (t : Nat) (k v : Object)
    (store : List (Object × Object))
    (hV : Eval fl fuel V env st = .ok v st1)
    (hT : Eval fl fuel T env st1 = .ok (.TableObj t) st2)
    (hK : Eval fl fuel K env st2 = .ok k st3)
    (hstore : st3.tables[t]? = some store) (hk : keyEq fl k k = true) :
    Eval fl (fuel + 1) (.AssignExpr (.IndexExpr T K) V) env st =
      .ok v (st3.tableStore fl t k v) ∧
    Eval fl (fuel + 1) (.DeclarationExpr (.IndexExpr T K) V) env st =
      .ok v (st3.tableStore fl t k v) ∧
    (∀ (m : Nat) (T' K' : Expression) (env' : Nat),
      Eval fl m T' env' (st3.tableStore fl t k v) = .ok (.TableObj t) (st3.tableStore fl t k v) →
      Eval fl m K' env' (st3.tableStore fl t k v) = .ok k (st3.tableStore fl t k v) →
      Eval fl (m + 1) (.IndexExpr T' K') env' (st3.tableStore fl t k v) =
        .ok v (st3.tableStore fl t k v)) ∧
    (∃ store', (st3.tableStore fl t k v).tables[t]? = some store' ∧
      storeGet fl k store' = some v ∧
      ∀ k', keyEq fl k k' = false → storeGet fl k' store' = storeGet fl k' store) ∧
    (∀ t', t' ≠ t → (st3.tableStore fl t k v).tables[t']? = st3.tables[t']?) ∧
    (st3.tableStore fl t k v).envs = st3.envs ∧
    (st3.tableStore fl t k v).cells = st3.cells ∧
    (st3.tableStore fl t k v).packs = st3.packs ∧
    (st3.tableStore fl t k v).funcs = st3.funcs ∧
    (st3.tableStore fl t k v).NilObj = st3.NilObj := by
  have hs := State.tableStore_tables_self fl st3 t k v store hstore
  have hfr := State.tableStore_same fl st3 t k v
  refine ⟨?_, ?_, ?_, ⟨_, hs, storeGet_storeSet_self fl k v hk store,
    fun k' hk' => storeGet_storeSet_ne fl hfl k k' v hk' store⟩,
    fun t' ht' => State.tableStore_tables_ne fl st3 t t' k v ht',
    hfr.1, hfr.2.1, hfr.2.2.1, hfr.2.2.2.1, hfr.2.2.2.2.1⟩
  · simp [Eval_AssignExpr, evalAssignExpr, hV, declareAssignHelper, hT, hK]
  · simp [Eval_DeclarationExpr, evalDeclarationExpr, hV, declareAssignHelper, hT, hK]
  · intro m T' K' env' hT' hK'
    have h := (Eval_IndexExpr_read fl m T' env' _ _ _ hT').2 t K' k _ _ rfl hK' hs
    rw [h, storeGet_storeSet_self fl k v hk store]
    rfl

/-- The float equality of `bitsOps` is Euclidean. -/
theorem bitsOps_eqEuclidean : bitsOps.EqEuclidean := by
  intro a b c hab hac
  simp only [bitsOps, decide_eq_true_eq] at hab hac ⊢
  rw [← hab, ← hac]

/-- The statement of C20 as amended on `t.[1] = 5` in a memory where `t` is
bound to an empty table: the read `t.[1]` then yields 5. -/
theorem index_write_witness :
    Eval bitsOps 3 (.AssignExpr (.IndexExpr (.Identifier (str "t")) (.IntegerExpr 1))
        (.IntegerExpr 5)) 0 tableMemory =
      .ok (.IntegerObj 5) (tableMemory.tableStore bitsOps 0 (.IntegerObj 1) (.IntegerObj 5)) ∧
    Eval bitsOps 3 (.IndexExpr (.Identifier (str "t")) (.IntegerExpr 1)) 0
        (tableMemory.tableStore bitsOps 0 (.IntegerObj 1) (.IntegerObj 5)) =
      .ok (.IntegerObj 5) (tableMemory.tableStore bitsOps 0 (.IntegerObj 1) (.IntegerObj 5)) :=
  ⟨(index_write bitsOps bitsOps_eqEuclidean 2 (.Identifier (str "t")) (.IntegerExpr 1)
      (.IntegerExpr 5) 0 tableMemory tableMemory tableMemory tableMemory 0 (.IntegerObj 1)
      (.IntegerObj 5) [] rfl rfl rfl rfl rfl).1,
    (index_write bitsOps bitsOps_eqEuclidean 2 (.Identifier (str "t")) (.IntegerExpr 1)
      (.IntegerExpr 5) 0 tableMemory tableMemory tableMemory tableMemory 0 (.IntegerObj 1)
      (.IntegerObj 5) [] rfl rfl rfl rfl rfl).2.2.1 2 (.Identifier (str "t")) (.IntegerExpr 1) 0
      rfl rfl⟩

/-- C20, counterexample.  With the `==` of IEEE-754, in a memory where `t`
is bound to an empty table and `k` to a Float NaN, `t.[k] = 1` yields 1 and
the read `t.[k]` in the memory it leaves yields Nil, not 1: a NaN key is
equal to no key of the map, itself included. -/
theorem index_write_counterexample :
    ∃ st' : State,
      Eval ieeeEqOps 3 (.AssignExpr (.IndexExpr (.Identifier (str "t")) (.Identifier (str "k")))
        (.IntegerExpr 1)) 0 nanMemory = .ok (.IntegerObj 1) st' ∧
      Eval ieeeEqOps 2 (.IndexExpr (.Identifier (str "t")) (.Identifier (str "k"))) 0 st' =
        .ok .NilValue st' :=
  ⟨_, rfl, rfl⟩

/-! ## Assignment, detached scopes, if and block -/

theorem State.store_envs (st : State) (c : Cell) (v : Object) : (st.store c v).envs = st.envs := by
  cases c <;> rfl

theorem State.store_same (st : State) (c : Cell) (v : Object) :
    (st.store c v).cells.length = st.cells.length ∧ (st.store c v).tables = st.tables ∧
    (st.store c v).packs = st.packs ∧ (st.store c v).funcs = st.funcs := by
  cases c <;> simp [State.store]

/-- A lookup that passes through a scope and its closed outer scope, neither
of which binds the name, finds nothing, whatever the other environments
bind. -/
theorem Environment.Get_detached {st : State} {a ce : Nat} {ea ec : Environment}
    {x : GoString} (ha : st.envs[a]? = some ea) (hout : ea.Outer = some ce)
    (hc : st.envs[ce]? = some ec) (hclosed : ec.Outer = none)
    (hxa : mapGet x ea.LocalVars = none) (hxc : mapGet x ec.LocalVars = none) :
    Environment.Get st a x = none := by
  have hne : a ≠ ce := by
    intro h
    subst h
    rw [ha] at hc
    injection hc with hc
    subst hc
    rw [hout] at hclosed
    exact Option.noConfusion hclosed
  have h1 : a < st.envs.length := by
    by_contra h
    rw [List.getElem?_eq_none (by omega)] at ha
    exact Option.noConfusion ha
  have h2 : ce < st.envs.length := by
    by_contra h
    rw [List.getElem?_eq_none (by omega)] at hc
    exact Option.noConfusion hc
  obtain ⟨k, hk⟩ : ∃ k, st.envs.length = k + 2 := ⟨st.envs.length - 2, by omega⟩
  unfold Environment.Get
  rw [hk]
  simp only [Environment.GetLoop, ha, hxa, hout, hc, hxc, hclosed]
  exact Environment.GetLoop_none _ _ _

/-- The loop of `evalCallExpr` binds in the call scope the parameters and
nothing else, when the caller's environment is another one. -/
theorem callLoop_localVar (fl : FloatOps) (n : Nat) (env ce : Nat) (hne : env ≠ ce) :
    ∀ (ps : List GoString) (as : List Expression) (st st3 : State), ce < st.envs.length →
      callLoop (Eval fl n) env ce ps as st = .ok () st3 →
      (∀ x, (st3.localVar ce x).isSome = true ↔ ((st.localVar ce x).isSome = true ∨ x ∈ ps)) ∧
      st3.envs[ce]?.map (·.Outer) = st.envs[ce]?.map (·.Outer) := by
  intro ps as
  induction as generalizing ps with
  | nil =>
    intro st st3 hce h
    cases ps with
    | nil =>
      rw [callLoop, evalExtra] at h
      injection h with _ h
      subst h
      exact ⟨fun x => by simp, rfl⟩
    | cons p ps =>
      rw [callLoop] at h
      · injection h with _ h
        subst h
        constructor
        · intro x
          by_cases hx : x ∈ p :: ps
          · simp [bindMissing_localVar ce (p :: ps) st hce x hx, hx]
          · simp [bindMissing_localVar_ne ce x (p :: ps) st hx, hx]
        · clear hce
          generalize p :: ps = qs
          induction qs generalizing st with
          | nil => rfl
          | cons q qs ih => rw [bindMissing, ih, Environment.Set_envs_outer]
      · simp
  | cons a as ih =>
    intro st st3 hce h
    have hlen : ps.length ≤ (a :: as).length ∨ (a :: as).length < ps.length := by omega
    cases hev : Eval fl n a env st with
    | ok v st1 =>
      have hfr := Eval_ok_frame hev ce hce (Ne.symm hne)
      have hce1 : ce < st1.envs.length := Nat.lt_of_lt_of_le hce (Eval_ok_envs_length hev)
      have hlv : ∀ x, st1.localVar ce x = st.localVar ce x := by
        intro x
        simp only [State.localVar, hfr]
      cases ps with
      | nil =>
        rw [callLoop, evalExtra, hev, Res.bind_ok] at h
        have h' : callLoop (Eval fl n) env ce [] as st1 = .ok () st3 := by
          rw [callLoop]; exact h
        obtain ⟨h1, h2⟩ := ih [] st1 st3 hce1 h'
        refine ⟨fun x => ?_, by rw [h2, hfr]⟩
        rw [h1 x, hlv x]
      | cons p ps =>
        rw [callLoop, hev, Res.bind_ok] at h
        have hce2 : ce < (Environment.Set (st1.newCell v).2 ce p (st1.newCell v).1).envs.length := by
          rw [Environment.Set_envs_length]
          exact hce1
        obtain ⟨h1, h2⟩ := ih ps _ st3 hce2 h
        constructor
        · intro x
          rw [h1 x]
          by_cases hx : x = p
          · subst hx
            simp [State.localVar_Set_self (st1.newCell v).2 x (st1.newCell v).1 hce1]
          · rw [State.localVar_Set_ne (st1.newCell v).2 ce p x (st1.newCell v).1 hx]
            have : (st1.newCell v).2.localVar ce x = st1.localVar ce x := rfl
            rw [this, hlv x]
            simp [hx]
        · rw [h2, Environment.Set_envs_outer]
          show st1.envs[ce]?.map _ = _
          rw [hfr]
    | err e st1 => cases ps <;> simp [callLoop, evalExtra, hev] at h
    | panic => cases ps <;> simp [callLoop, evalExtra, hev] at h
    | timeout => cases ps <;> simp [callLoop, evalExtra, hev] at h

/-- A function literal yields a function value whose capture scope is the new
environment number `st.envs.length`, closed: its `Outer` pointer is nil. -/
theorem Eval_FuncExpr_closed {fl : FloatOps} {n : Nat} {ps : List GoString}
    {caps body : List Expression} {env : Nat} {st st' : State} {o : Object}
    (hwf : st.WF) (henv : env < st.envs.length)
    (h : Eval fl (n + 1) (.FuncExpr ps caps body) env st = .ok o st') :
    ∃ f cap, o = .FuncObj f ∧
      st'.funcs[f]? = some { FuncEnv := st.envs.length, Parameters := ps, Body := body } ∧
      st'.envs[st.envs.length]? = some cap ∧ cap.Outer = none := by
  rw [Eval_FuncExpr] at h
  have hpost := @captureLoop_post fl (Eval fl n) (Eval_sound fl n) env (NewInnerEnv env st).1 caps
    (NewInnerEnv env st).2 (NewInnerEnv_WF hwf henv) (NewInnerEnv_lt env st)
  change ((captureLoop fl (Eval fl n) env (NewInnerEnv env st).1 caps
    (NewInnerEnv env st).2).bind _) = _ at h
  cases hl : captureLoop fl (Eval fl n) env (NewInnerEnv env st).1 caps (NewInnerEnv env st).2 with
  | ok u st1 =>
    rw [hl] at hpost
    rw [hl, Res.bind_ok] at h
    injection h with ho hst
    have hlt : st.envs.length < st1.envs.length :=
      Nat.lt_of_lt_of_le (NewInnerEnv_lt env st) hpost.2.2.1
    obtain ⟨e1, he1⟩ : ∃ e1, st1.envs[st.envs.length]? = some e1 :=
      ⟨st1.envs[st.envs.length], by simp [hlt]⟩
    refine ⟨_, { e1 with Outer := none }, ho.symm, ?_, ?_, rfl⟩
    · rw [← hst]
      simp [NewInnerEnv_fst]
    · rw [← hst]
      simp [Environment.Close, NewInnerEnv_fst, he1, List.getElem?_set, hlt]
  | err e st1 => rw [hl] at h; exact Res.noConfusion h
  | panic => rw [hl] at h; exact Res.noConfusion h
  | timeout => rw [hl] at h; exact Res.noConfusion h

theorem evalBlockExpr_cons_of_break (ev : Evaluator) (x : Expression) (rest : List Expression)
    (env : Nat) (st st' : State) (v : Object) (h : ev x env st = .ok (.BreakObj v) st') :
    evalBlockExpr ev (x :: rest) env st = .ok v st' := by
  simp [evalBlockExpr, h]

theorem evalBlockExpr_cons_of_err (ev : Evaluator) (x : Expression) (rest : List Expression)
    (env : Nat) (st st' : State) (e : EvalError) (h : ev x env st = .err e st') :
    evalBlockExpr ev (x :: rest) env st = .err e st' := by
  simp [evalBlockExpr, h]

/-- A block passes over the sub-expressions that yield objects that are not
wrappers, whatever the objects are. -/
theorem evalBlockExpr_valueSteps (ev : Evaluator) (env : Nat) (es rest : List Expression)
    (st st' : State) (h : ValueSteps ev env es st st') :
    evalBlockExpr ev (es ++ rest) env st = evalBlockExpr ev rest env st' := by
  induction h with
  | nil st => rfl
  | cons e es st st1 st' o he h1 h2 _ ih =>
    rw [List.cons_append, evalBlockExpr_cons_of_value ev e _ env st st1 o he h1 h2, ih]

/-- What `evalBlockExpr` does: after sub-expressions that yield objects that
are not wrappers, (1) a sub-expression that yields a Return-wrapper ends the
block with that wrapper, (2) one that yields a Break-wrapper ends it with the
payload, (3) one that returns an error ends it with the error, the
sub-expressions `rest` after it having no part in the result; (4) when all
the sub-expressions yield objects that are not wrappers, the block yields the
content of the package variable `NilObj`. -/
theorem evalBlockExpr_spec (ev : Evaluator) (env : Nat) (es : List Expression) (st st1 : State)
    (h : ValueSteps ev env es st st1) :
    (∀ x rest v st', ev x env st1 = .ok (.ReturnObj v) st' →
      evalBlockExpr ev (es ++ x :: rest) env st = .ok (.ReturnObj v) st') ∧
    (∀ x rest v st', ev x env st1 = .ok (.BreakObj v) st' →
      evalBlockExpr ev (es ++ x :: rest) env st = .ok v st') ∧
    (∀ x rest e st', ev x env st1 = .err e st' →
      evalBlockExpr ev (es ++ x :: rest) env st = .err e st') ∧
    evalBlockExpr ev es env st = .ok st1.NilObj st1 := by
  refine ⟨fun x rest v st' hx => ?_, fun x rest v st' hx => ?_, fun x rest e st' hx => ?_, ?_⟩
  · rw [evalBlockExpr_valueSteps ev env es _ st st1 h]
    exact evalBlockExpr_cons_of_return ev x rest env st1 st' v hx
  · rw [evalBlockExpr_valueSteps ev env es _ st st1 h]
    exact evalBlockExpr_cons_of_break ev x rest env st1 st' v hx
  · rw [evalBlockExpr_valueSteps ev env es _ st st1 h]
    exact evalBlockExpr_cons_of_err ev x rest env st1 st' e hx
  · have := evalBlockExpr_valueSteps ev env es [] st st1 h
    rw [List.append_nil] at this
    rw [this]
    rfl

/-- A function literal whose capture list is made of bare identifiers that
the defining environment binds, `x` not among them: the capture scope of the
function value is closed and does not bind `x`, whatever the defining
environment binds. -/
theorem Eval_FuncExpr_detached (fl : FloatOps) (n : Nat) (ps xs : List GoString)
    (body : List Expression) (env : Nat) (st : State) (hwf : st.WF)
    (henv : env < st.envs.length) (hall : ∀ y ∈ xs, (Environment.Get st env y).isSome)
    (x : GoString) (hx : x ∉ xs) :
    ∃ st' cap, Eval fl (n + 1) (.FuncExpr ps (xs.map .Identifier) body) env st =
        .ok (.FuncObj st.funcs.length) st' ∧
      st'.funcs[st.funcs.length]? =
        some { FuncEnv := st.envs.length, Parameters := ps, Body := body } ∧
      st'.envs[st.envs.length]? = some cap ∧ cap.Outer = none ∧
      mapGet x cap.LocalVars = none := by
  have hwf0 := NewInnerEnv_WF hwf henv
  have hget0 : ∀ y, Environment.Get (NewInnerEnv env st).2 env y = Environment.Get st env y :=
    fun y => Environment.Get_congr hwf y henv
      (Nat.lt_of_lt_of_le henv (NewInnerEnv_le env st).2.1) fun i hi => by
        simp [NewInnerEnv, List.getElem?_append_left (Nat.lt_of_le_of_lt hi henv)]
  obtain ⟨st1, h1, _, _, h4, _, _, _, h8⟩ := captureLoop_identifiers fl (Eval fl n) env
    st.envs.length henv xs (NewInnerEnv env st).2 hwf0 (NewInnerEnv_lt env st)
    (fun y hy => by rw [hget0]; exact hall y hy)
  have hres : Eval fl (n + 1) (.FuncExpr ps (xs.map .Identifier) body) env st =
      .ok (.FuncObj (Environment.Close st1 st.envs.length).funcs.length)
        { Environment.Close st1 st.envs.length with
          funcs := (Environment.Close st1 st.envs.length).funcs ++
            [{ FuncEnv := st.envs.length, Parameters := ps, Body := body }] } := by
    rw [Eval_FuncExpr]
    show ((captureLoop fl (Eval fl n) env st.envs.length (xs.map .Identifier)
      (NewInnerEnv env st).2).bind _) = _
    rw [h1]
    rfl
  have hfuncs : (Environment.Close st1 st.envs.length).funcs = st.funcs := by
    have : (Environment.Close st1 st.envs.length).funcs = st1.funcs := by
      unfold Environment.Close
      split <;> rfl
    rw [this, h4]
    rfl
  rw [hfuncs] at hres
  obtain ⟨f, cap, ho, hf, hcap, hclosed⟩ := Eval_FuncExpr_closed hwf henv hres
  refine ⟨_, cap, hres, ?_, hcap, hclosed, ?_⟩
  · show (st.funcs ++ _)[st.funcs.length]? = _
    simp
  · have hlv : (Environment.Close st1 st.envs.length).localVar st.envs.length x = none := by
      rw [State.localVar_Close, h8 x hx]
      simp [State.localVar, NewInnerEnv, mapGet]
    have hcap' : (Environment.Close st1 st.envs.length).envs[st.envs.length]? = some cap := hcap
    simpa [State.localVar, hcap'] using hlv
/-! ## The chains of environments are kept -/

theorem State.chain_refl (base : Nat) (st : State) : st.Chain base st :=
  ⟨Nat.le_refl _, fun _ _ => rfl⟩

theorem State.chain_trans {base : Nat} {a b c : State} (h1 : a.Chain base b)
    (h2 : b.Chain base c) : a.Chain base c :=
  ⟨Nat.le_trans h1.1 h2.1, fun i hi => (h2.2 i hi).trans (h1.2 i hi)⟩

theorem State.chain_of_envs_eq {base : Nat} {st st' : State} (h : st'.envs = st.envs) :
    st.Chain base st' :=
  ⟨by rw [h], fun _ _ => by rw [h]⟩

theorem State.chain_base_le {base : Nat} {st st' : State} (h : st.Chain base st')
    (hb : base ≤ st.envs.length) : base ≤ st'.envs.length :=
  Nat.le_trans hb h.1

theorem NewInnerEnv_chain (outer base : Nat) (st : State) (hb : base ≤ st.envs.length) :
    st.Chain base (NewInnerEnv outer st).2 := by
  refine ⟨by simp [NewInnerEnv], fun i hi => ?_⟩
  simp only [NewInnerEnv]
  rw [List.getElem?_append_left (by omega)]

theorem Environment.Set_chain (st : State) (e : Nat) (x : GoString) (c : Cell) (base : Nat) :
    st.Chain base (Environment.Set st e x c) :=
  ⟨by rw [Environment.Set_envs_length], fun i _ => Environment.Set_envs_outer st e x c i⟩

theorem Environment.Close_chain (st : State) (e base : Nat) (h : base ≤ e) :
    st.Chain base (Environment.Close st e) := by
  refine ⟨by rw [Environment.Close_envs_length], fun i hi => ?_⟩
  rw [Environment.Close_envs_getElem? st e i (by omega)]

theorem State.store_chain (st : State) (c : Cell) (v : Object) (base : Nat) :
    st.Chain base (st.store c v) := by
  cases c <;> exact State.chain_of_envs_eq rfl

theorem State.tableStore_chain (fl : FloatOps) (st : State) (t : Nat) (k v : Object)
    (base : Nat) : st.Chain base (st.tableStore fl t k v) :=
  State.chain_of_envs_eq (State.tableStore_same fl st t k v).1

theorem State.packAppend_chain (st : State) (p : Nat) (v : Object) (base : Nat) :
    st.Chain base (st.packAppend p v) := by
  apply State.chain_of_envs_eq
  unfold State.packAppend
  split <;> rfl

theorem Res.chainPost_self {α : Type} (base : Nat) (v : α) (st : State) :
    (Res.ok v st).ChainPost base st :=
  State.chain_refl base st

theorem Res.chainPost_err {α : Type} (base : Nat) (e : EvalError) (st : State) :
    (Res.err e st : Res α).ChainPost base st :=
  State.chain_refl base st

theorem Res.chainPost_mono {α : Type} {base : Nat} {st st1 : State} {r : Res α}
    (h : r.ChainPost base st1) (hf : st.Chain base st1) : r.ChainPost base st := by
  cases r with
  | ok v st' => exact State.chain_trans hf h
  | err e st' => exact State.chain_trans hf h
  | panic => trivial
  | timeout => trivial

theorem Res.chainPost_bind {α β : Type} {base : Nat} {st : State} {r : Res α}
    {f : α → State → Res β} (hr : r.ChainPost base st)
    (hf : ∀ v st1, st.Chain base st1 → (f v st1).ChainPost base st1) :
    (r.bind f).ChainPost base st := by
  cases r with
  | ok v st1 => exact Res.chainPost_mono (hf v st1 hr) hr
  | err e st1 => exact hr
  | panic => trivial
  | timeout => trivial

section ChainHelpers
variable {fl : FloatOps} {ev : Evaluator} (hev : ev.Chained)
include hev

theorem evalTableLoop_chain (table env base : Nat) :
    ∀ (pairs : List (Expression × Expression)) (st : State), base ≤ st.envs.length →
      (evalTableLoop fl ev table env pairs st).ChainPost base st := by
  intro pairs
  induction pairs with
  | nil => intro st _; exact Res.chainPost_self _ _ _
  | cons kv rest ih =>
    intro st hb
    obtain ⟨k, v⟩ := kv
    unfold evalTableLoop
    refine Res.chainPost_bind (hev k env base st hb) fun key st1 f1 => ?_
    have hb1 := State.chain_base_le f1 hb
    refine Res.chainPost_bind (hev v env base st1 hb1) fun value st2 f2 => ?_
    have hb2 := State.chain_base_le f2 hb1
    have f3 := State.tableStore_chain fl st2 table key value base
    exact Res.chainPost_mono (ih _ (State.chain_base_le f3 hb2)) f3

theorem evalTableExpr_chain (pairs : List (Expression × Expression)) (env base : Nat)
    (st : State) (hb : base ≤ st.envs.length) :
    (evalTableExpr fl ev pairs env st).ChainPost base st := by
  have f0 : st.Chain base { st with tables := st.tables ++ [[]] } :=
    State.chain_of_envs_eq rfl
  show ((evalTableLoop fl ev st.tables.length env pairs
    { st with tables := st.tables ++ [[]] }).bind _).ChainPost base st
  refine Res.chainPost_mono ?_ f0
  exact Res.chainPost_bind (evalTableLoop_chain hev _ env base pairs _ hb)
    fun _ st1 _ => Res.chainPost_self _ _ _

theorem evalPackLoop_chain (pack env base : Nat) :
    ∀ (exprs : List Expression) (st : State), base ≤ st.envs.length →
      (evalPackLoop ev pack env exprs st).ChainPost base st := by
  intro exprs
  induction exprs with
  | nil => intro st _; exact Res.chainPost_self _ _ _
  | cons e rest ih =>
    intro st hb
    unfold evalPackLoop
    refine Res.chainPost_bind (hev e env base st hb) fun obj st1 f1 => ?_
    have hb1 := State.chain_base_le f1 hb
    have f2 := State.packAppend_chain st1 pack obj base
    exact Res.chainPost_mono (ih _ (State.chain_base_le f2 hb1)) f2

theorem evalPackExpr_chain (exprs : List Expression) (env base : Nat) (st : State)
    (hb : base ≤ st.envs.length) : (evalPackExpr ev exprs env st).ChainPost base st := by
  have f0 : st.Chain base { st with packs := st.packs ++ [[]] } :=
    State.chain_of_envs_eq rfl
  show ((evalPackLoop ev st.packs.length env exprs
    { st with packs := st.packs ++ [[]] }).bind _).ChainPost base st
  refine Res.chainPost_mono ?_ f0
  exact Res.chainPost_bind (evalPackLoop_chain hev _ env base exprs _ hb)
    fun _ st1 _ => Res.chainPost_self _ _ _

theorem evalArithPrefixExpr_chain (Op : TokenType) (Right : Expression) (env base : Nat)
    (st : State) (hb : base ≤ st.envs.length) :
    (evalArithPrefixExpr fl ev Op Right env st).ChainPost base st := by
  unfold evalArithPrefixExpr
  refine Res.chainPost_bind (hev Right env base st hb) fun right st1 _ => ?_
  split
  · exact Res.chainPost_self _ _ _
  · split
    · split
      · exact Res.chainPost_self _ _ _
      · exact Res.chainPost_self _ _ _
      · split
        · exact Res.chainPost_err _ _ _
        · trivial
    · exact Res.chainPost_err _ _ _

theorem evalArithInfixExpr_chain (Op : TokenType) (Left Right : Expression) (env base : Nat)
    (st : State) (hb : base ≤ st.envs.length) :
    (evalArithInfixExpr fl ev Op Left Right env st).ChainPost base st := by
  unfold evalArithInfixExpr
  refine Res.chainPost_bind (hev Left env base st hb) fun left st1 f1 => ?_
  refine Res.chainPost_bind (hev Right env base st1 (State.chain_base_le f1 hb))
    fun right st2 _ => ?_
  split
  · exact Res.chainPost_self _ _ _
  · exact Res.chainPost_err _ _ _
  · trivial

theorem evalBlockExpr_chain (env base : Nat) :
    ∀ (exprs : List Expression) (st : State), base ≤ st.envs.length →
      (evalBlockExpr ev exprs env st).ChainPost base st := by
  intro exprs
  induction exprs with
  | nil => intro st _; exact Res.chainPost_self _ _ _
  | cons e rest ih =>
    intro st hb
    unfold evalBlockExpr
    refine Res.chainPost_bind (hev e env base st hb) fun obj st1 f1 => ?_
    split
    · exact Res.chainPost_self _ _ _
    · exact Res.chainPost_self _ _ _
    · exact ih st1 (State.chain_base_le f1 hb)

theorem evalFuncBlockExpr_chain (block : List Expression) (env base : Nat) (st : State)
    (hb : base ≤ st.envs.length) : (evalFuncBlockExpr ev block env st).ChainPost base st := by
  unfold evalFuncBlockExpr
  refine Res.chainPost_bind (evalBlockExpr_chain hev env base block st hb) fun obj st1 _ => ?_
  split <;> exact Res.chainPost_self _ _ _

theorem evalIndexExpr_chain (Table Index : Expression) (env base : Nat) (st : State)
    (hb : base ≤ st.envs.length) :
    (evalIndexExpr fl ev Table Index env st).ChainPost base st := by
  unfold evalIndexExpr
  refine Res.chainPost_bind (hev Table env base st hb) fun table st1 f1 => ?_
  split
  · refine Res.chainPost_bind (hev Index env base st1 (State.chain_base_le f1 hb))
      fun index st2 _ => ?_
    split
    · trivial
    · split <;> exact Res.chainPost_self _ _ _
  · exact Res.chainPost_err _ _ _

theorem evalIfExpr_chain (Condition : Expression) (Consequence : List Expression)
    (Alternative : Option (List Expression)) (env base : Nat) (st : State)
    (hb : base ≤ st.envs.length) :
    (evalIfExpr ev Condition Consequence Alternative env st).ChainPost base st := by
  rw [evalIfExpr_eq]
  have f0 := NewInnerEnv_chain env base st hb
  have hb0 := State.chain_base_le f0 hb
  refine Res.chainPost_mono ?_ f0
  refine Res.chainPost_bind (hev Condition _ base _ hb0) fun c st1 f1 => ?_
  have hb1 := State.chain_base_le f1 hb0
  split
  · exact hev _ _ _ _ hb1
  · split
    · exact hev _ _ _ _ hb1
    · exact Res.chainPost_self _ _ _

end ChainHelpers

theorem evalIdentifierExpr_chain (Ident : GoString) (env base : Nat) (st : State) :
    (evalIdentifierExpr Ident env st).ChainPost base st := by
  unfold evalIdentifierExpr
  split
  · exact Res.chainPost_err _ _ _
  · split
    · exact Res.chainPost_self _ _ _
    · trivial

theorem AssignFn.call_chain (fn : AssignFn) (env base : Nat) (ident : GoString) (value : Object)
    (st : State) : (fn.call env ident value st).ChainPost base st := by
  cases fn with
  | declare =>
    exact State.chain_trans (State.chain_of_envs_eq rfl)
      (Environment.Set_chain (st.newCell value).2 env ident (st.newCell value).1 base)
  | assign =>
    show (match Environment.Get st env ident with
      | none => Res.err (.assignNotDeclared ident) st
      | some o => Res.ok () (st.store o value)).ChainPost base st
    split
    · exact Res.chainPost_err _ _ _
    · exact State.store_chain _ _ _ _

mutual
theorem declareAssignHelper_chain {fl : FloatOps} {ev : Evaluator} (hev : ev.Chained)
    (fn : AssignFn) (base : Nat) :
    ∀ (left : Expression) (value : Object) (env : Nat) (st : State), base ≤ st.envs.length →
      (declareAssignHelper fl ev fn left value env st).ChainPost base st
  | .Identifier ident, value, env, st, _ => by
    rw [declareAssignHelper]
    exact AssignFn.call_chain fn env base ident value st
  | .IndexExpr t i, value, env, st, hb => by
    rw [declareAssignHelper]
    refine Res.chainPost_bind (hev t env base st hb) fun table st1 f1 => ?_
    split
    · refine Res.chainPost_bind (hev i env base st1 (State.chain_base_le f1 hb))
        fun index st2 _ => ?_
      exact State.tableStore_chain fl _ _ _ _ _
    · exact Res.chainPost_err _ _ _
  | .PackExpr [], value, env, st, hb => by
    cases value <;> simp only [declareAssignHelper] <;> try exact Res.chainPost_self _ _ _
    split
    · trivial
    · rw [declareAssignPack]
      exact Res.chainPost_self _ _ _
  | .PackExpr (left :: rest), value, env, st, hb => by
    cases value <;> simp only [declareAssignHelper] <;>
      try exact declareAssignHelper_chain hev fn base left _ env st hb
    split
    · trivial
    · exact declareAssignPack_chain hev fn base (left :: rest) _ env st hb
  | .IntegerExpr _, _, _, _, _ => by simp only [declareAssignHelper]; trivial
  | .FloatExpr _, _, _, _, _ => by simp only [declareAssignHelper]; trivial
  | .BooleanExpr _, _, _, _, _ => by simp only [declareAssignHelper]; trivial
  | .StringExpr _, _, _, _, _ => by simp only [declareAssignHelper]; trivial
  | .TableExpr _, _, _, _, _ => by simp only [declareAssignHelper]; trivial
  | .NilExpr, _, _, _, _ => by simp only [declareAssignHelper]; trivial
  | .ArithPrefixExpr _ _, _, _, _, _ => by simp only [declareAssignHelper]; trivial
  | .ArithInfixExpr _ _ _, _, _, _, _ => by simp only [declareAssignHelper]; trivial
  | .DeclarationExpr _ _, _, _, _, _ => by simp only [declareAssignHelper]; trivial
  | .AssignExpr _ _, _, _, _, _ => by simp only [declareAssignHelper]; trivial
  | .IfExpr _ _ _, _, _, _, _ => by simp only [declareAssignHelper]; trivial
  | .FuncExpr _ _ _, _, _, _, _ => by simp only [declareAssignHelper]; trivial
  | .CallExpr _ _, _, _, _, _ => by simp only [declareAssignHelper]; trivial
  | .ReturnExpr _, _, _, _, _ => by simp only [declareAssignHelper]; trivial
  | .BlockExpr _, _, _, _, _ => by simp only [declareAssignHelper]; trivial
  | .ForExpr _ _ _ _, _, _, _, _ => by simp only [declareAssignHelper]; trivial
  | .BreakExpr _, _, _, _, _ => by simp only [declareAssignHelper]; trivial
theorem declareAssignPack_chain {fl : FloatOps} {ev : Evaluator} (hev : ev.Chained)
    (fn : AssignFn) (base : Nat) :
    ∀ (lefts : List Expression) (objs : List Object) (env : Nat) (st : State),
      base ≤ st.envs.length → (declareAssignPack fl ev fn lefts objs env st).ChainPost base st
  | [], _, _, st, _ => by
    rw [declareAssignPack]
    exact Res.chainPost_self _ _ _
  | left :: rest, obj :: objs, env, st, hb => by
    rw [declareAssignPack]
    refine Res.chainPost_bind (declareAssignHelper_chain hev fn base left obj env st hb)
      fun _ st1 f1 => ?_
    exact declareAssignPack_chain hev fn base rest objs env st1 (State.chain_base_le f1 hb)
  | left :: rest, [], env, st, hb => by
    rw [declareAssignPack]
    refine Res.chainPost_bind (declareAssignHelper_chain hev fn base left _ env st hb)
      fun _ st1 f1 => ?_
    exact declareAssignPack_chain hev fn base rest [] env st1 (State.chain_base_le f1 hb)
end

section ChainHelpers2
variable {fl : FloatOps} {ev : Evaluator} (hev : ev.Chained)
include hev

theorem evalDeclarationExpr_chain (Left Value : Expression) (env base : Nat) (st : State)
    (hb : base ≤ st.envs.length) :
    (evalDeclarationExpr fl ev Left Value env st).ChainPost base st := by
  unfold evalDeclarationExpr
  refine Res.chainPost_bind (hev Value env base st hb) fun value st1 f1 => ?_
  exact Res.chainPost_bind (declareAssignHelper_chain hev .declare base Left value env st1
    (State.chain_base_le f1 hb)) fun _ st2 _ => Res.chainPost_self _ _ _

theorem evalAssignExpr_chain (Left Value : Expression) (env base : Nat) (st : State)
    (hb : base ≤ st.envs.length) :
    (evalAssignExpr fl ev Left Value env st).ChainPost base st := by
  unfold evalAssignExpr
  refine Res.chainPost_bind (hev Value env base st hb) fun value st1 f1 => ?_
  exact Res.chainPost_bind (declareAssignHelper_chain hev .assign base Left value env st1
    (State.chain_base_le f1 hb)) fun _ st2 _ => Res.chainPost_self _ _ _

theorem captureLoop_chain (env cap base : Nat) :
    ∀ (captures : List Expression) (st : State), base ≤ st.envs.length →
      (captureLoop fl ev env cap captures st).ChainPost base st := by
  intro captures
  induction captures with
  | nil => intro st _; exact Res.chainPost_self _ _ _
  | cons c rest ih =>
    intro st hb
    cases c <;> simp only [captureLoop] <;> try trivial
    · rename_i Ident
      split
      · exact Res.chainPost_err _ _ _
      · rename_i outerObj hget
        have f1 := Environment.Set_chain st cap Ident outerObj base
        exact Res.chainPost_mono (ih _ (State.chain_base_le f1 hb)) f1
    · rename_i Left Value
      refine Res.chainPost_bind (evalDeclarationExpr_chain hev Left Value cap base st hb)
        fun _ st1 f1 => ?_
      exact ih st1 (State.chain_base_le f1 hb)

theorem evalFuncExpr_chain (Parameters : List GoString) (Capture Body : List Expression)
    (env base : Nat) (st : State) (hb : base ≤ st.envs.length) :
    (evalFuncExpr fl ev Parameters Capture Body env st).ChainPost base st := by
  show ((captureLoop fl ev env (NewInnerEnv env st).1 Capture (NewInnerEnv env st).2).bind
    _).ChainPost base st
  have f0 := NewInnerEnv_chain env base st hb
  have hb0 := State.chain_base_le f0 hb
  have hnew : base ≤ (NewInnerEnv env st).1 := hb
  refine Res.chainPost_mono ?_ f0
  refine Res.chainPost_bind (captureLoop_chain hev env _ base Capture _ hb0) fun _ st1 f1 => ?_
  exact State.chain_trans
    (Environment.Close_chain st1 (NewInnerEnv env st).1 base hnew)
    (State.chain_of_envs_eq rfl)

omit hev in
theorem bindMissing_chain (ce base : Nat) :
    ∀ (ps : List GoString) (st : State), st.Chain base (bindMissing ce ps st) := by
  intro ps
  induction ps with
  | nil => intro st; exact State.chain_refl _ _
  | cons p rest ih =>
    intro st
    exact State.chain_trans (Environment.Set_chain st ce p .NilObjVar base)
      (ih _)

theorem evalExtra_chain (env base : Nat) :
    ∀ (as : List Expression) (st : State), base ≤ st.envs.length →
      (evalExtra ev env as st).ChainPost base st := by
  intro as
  induction as with
  | nil => intro st _; exact Res.chainPost_self _ _ _
  | cons a rest ih =>
    intro st hb
    unfold evalExtra
    refine Res.chainPost_bind (hev a env base st hb) fun _ st1 f1 => ?_
    exact ih st1 (State.chain_base_le f1 hb)

theorem callLoop_chain (env ce base : Nat) :
    ∀ (ps : List GoString) (as : List Expression) (st : State), base ≤ st.envs.length →
      (callLoop ev env ce ps as st).ChainPost base st := by
  intro ps
  induction ps with
  | nil =>
    intro as st hb
    rw [callLoop]
    exact evalExtra_chain hev env base as st hb
  | cons p rest ih =>
    intro as st hb
    cases as with
    | nil =>
      rw [callLoop]
      · exact bindMissing_chain ce base (p :: rest) st
      · simp
    | cons a as =>
      rw [callLoop]
      refine Res.chainPost_bind (hev a env base st hb) fun obj st1 f1 => ?_
      have f2 : st1.Chain base (Environment.Set (st1.newCell obj).2 ce p (st1.newCell obj).1) :=
        State.chain_trans (State.chain_of_envs_eq rfl)
          (Environment.Set_chain (st1.newCell obj).2 ce p (st1.newCell obj).1 base)
      exact Res.chainPost_mono
        (ih as _ (State.chain_base_le f2 (State.chain_base_le f1 hb))) f2

theorem evalCallExpr_chain (Function : Expression) (Parameters : List Expression)
    (env base : Nat) (st : State) (hb : base ≤ st.envs.length) :
    (evalCallExpr ev Function Parameters env st).ChainPost base st := by
  unfold evalCallExpr
  refine Res.chainPost_bind (hev Function env base st hb) fun fn st1 f1 => ?_
  have hb1 := State.chain_base_le f1 hb
  split
  · split
    · trivial
    · rename_i f fnObj hf
      show ((callLoop ev env (NewInnerEnv fnObj.FuncEnv st1).1 fnObj.Parameters Parameters
        (NewInnerEnv fnObj.FuncEnv st1).2).bind _).ChainPost base st1
      have f0 := NewInnerEnv_chain fnObj.FuncEnv base st1 hb1
      have hb0 := State.chain_base_le f0 hb1
      refine Res.chainPost_mono ?_ f0
      refine Res.chainPost_bind (callLoop_chain hev env _ base _ _ _ hb0)
        fun _ st3 f3 => ?_
      exact evalFuncBlockExpr_chain hev _ _ base st3 (State.chain_base_le f3 hb0)
  · exact Res.chainPost_err _ _ _

end ChainHelpers2


/-- The evaluator keeps the chains: an evaluation adds environments and
changes the `Outer` pointer of none that exists when it starts. -/
theorem Eval_chained (fl : FloatOps) : ∀ n : Nat, Evaluator.Chained (Eval fl n) := by
  intro n
  induction n with
  | zero => intro e env base st _; trivial
  | succ n ih =>
    intro e env base st hb
    cases e with
    | IntegerExpr v => exact Res.chainPost_self _ _ _
    | FloatExpr v => exact Res.chainPost_self _ _ _
    | BooleanExpr v => exact Res.chainPost_self _ _ _
    | StringExpr v => exact Res.chainPost_self _ _ _
    | NilExpr => exact Res.chainPost_self _ _ _
    | TableExpr InitValue => exact evalTableExpr_chain ih InitValue env base st hb
    | PackExpr Exprs => exact evalPackExpr_chain ih Exprs env base st hb
    | Identifier Ident => exact evalIdentifierExpr_chain Ident env base st
    | ArithPrefixExpr Op Right => exact evalArithPrefixExpr_chain ih Op Right env base st hb
    | ArithInfixExpr Op Left Right =>
      exact evalArithInfixExpr_chain ih Op Left Right env base st hb
    | DeclarationExpr Left Value => exact evalDeclarationExpr_chain ih Left Value env base st hb
    | AssignExpr Left Value => exact evalAssignExpr_chain ih Left Value env base st hb
    | IfExpr c a b => exact evalIfExpr_chain ih c a b env base st hb
    | FuncExpr ps cs body => exact evalFuncExpr_chain ih ps cs body env base st hb
    | CallExpr f as => exact evalCallExpr_chain ih f as env base st hb
    | IndexExpr t i => exact evalIndexExpr_chain ih t i env base st hb
    | ReturnExpr r =>
      rw [Eval_ReturnExpr]
      exact Res.chainPost_bind (ih r env base st hb) fun _ st1 _ => Res.chainPost_self _ _ _
    | BlockExpr es =>
      rw [Eval_BlockExpr]
      have hnew : base ≤ (NewInnerEnv env st).1 := hb
      have f0 := NewInnerEnv_chain env base st hb
      exact Res.chainPost_mono
        (evalBlockExpr_chain ih _ base es _ (State.chain_base_le f0 hb)) f0
    | ForExpr a b c body => trivial
    | BreakExpr r =>
      rw [Eval_BreakExpr]
      exact Res.chainPost_bind (ih r env base st hb) fun _ st1 _ => Res.chainPost_self _ _ _


/-- A return of `Eval` leaves the `Outer` pointer of every environment that
existed before as it was. -/
theorem Eval_ok_outer {fl : FloatOps} {n : Nat} {e : Expression} {env : Nat} {st st' : State}
    {v : Object} (h : Eval fl n e env st = .ok v st') :
    ∀ i, i < st.envs.length → st'.envs[i]?.map (·.Outer) = st.envs[i]?.map (·.Outer) := by
  have := Eval_chained fl n e env st.envs.length st (Nat.le_refl _)
  rw [h] at this
  exact this.2
/-! ## The lexer on numbers and strings -/

theorem isNumber_bounds {c : Nat} (h : isNumber c = true) : 48 ≤ c ∧ c ≤ 57 := by
  simpa [isNumber] using h

theorem readNumberLoop_digits (line : Nat) (ds rest : List Nat)
    (hds : ∀ c ∈ ds, isNumber c = true) :
    ∀ buf, readNumberLoop line buf (ds ++ rest) = readNumberLoop line (buf ++ ds) rest := by
  induction ds with
  | nil => intro buf; simp
  | cons c ds ih =>
    intro buf
    have hc := hds c (List.mem_cons_self _ _)
    have hb := isNumber_bounds hc
    have h46 : c ≠ 46 := by omega
    rw [List.cons_append, readNumberLoop]
    simp only [h46, if_false, hc, if_true]
    rw [ih (fun d hd => hds d (List.mem_cons_of_mem _ hd))]
    simp

theorem readNumberLoop_end (line : Nat) (buf rest : List Nat) (hrest : endsNumber rest = true) :
    readNumberLoop line buf rest =
      ({ Typ := .T_INT, Line := line, Message := orZero buf }, { input := rest, line := line }) := by
  cases rest with
  | nil => rfl
  | cons c r =>
    simp only [endsNumber, Bool.and_eq_true, Bool.not_eq_true', decide_eq_true_eq] at hrest
    rw [readNumberLoop]
    simp [hrest.1, hrest.2, orZero]

/-- The method `readNumber` on a run of digits that the input ends: an
integer token with the run as text (`0` for an empty run). -/
theorem readNumberLoop_run (line : Nat) (ds rest : List Nat)
    (hds : ∀ c ∈ ds, isNumber c = true) (hrest : endsNumber rest = true) :
    readNumberLoop line [] (ds ++ rest) =
      ({ Typ := .T_INT, Line := line, Message := orZero ds }, { input := rest, line := line }) := by
  rw [readNumberLoop_digits line ds rest hds, List.nil_append, readNumberLoop_end line ds rest hrest]

/-- The method `readNumber` on digits, a dot, digits: a float token. -/
theorem readNumberLoop_float (line : Nat) (a b rest : List Nat)
    (ha : ∀ c ∈ a, isNumber c = true) (hb : ∀ c ∈ b, isNumber c = true)
    (hrest : endsNumber rest = true) :
    readNumberLoop line [] (a ++ 46 :: (b ++ rest)) =
      ({ Typ := .T_FLOAT, Line := line, Message := a ++ [46] ++ orZero b },
        { input := rest, line := line }) := by
  rw [readNumberLoop_digits line a _ ha, List.nil_append, readNumberLoop]
  simp [readNumberLoop_run line b rest hb hrest, floatToken]

theorem skipBlankLoop_of_gt (c : Nat) (rest : List Nat) (line : Nat) (h : 32 < c) :
    skipBlankLoop (c :: rest) line = { input := c :: rest, line := line } := by
  rw [skipBlankLoop]
  simp [show ¬ c ≤ 32 by omega]

/-- The method `NextToken` on an input that begins with a digit is
`readNumber`. -/
theorem Lexer.NextToken_digit (fuel line c : Nat) (rest : List Nat) (hc : isNumber c = true) :
    Lexer.NextToken fuel { input := c :: rest, line := line } =
      some (readNumberLoop line [] (c :: rest)) := by
  have hb := isNumber_bounds hc
  unfold Lexer.NextToken Lexer.skipBlank
  simp only [skipBlankLoop_of_gt c rest line (by omega), Lexer.peekChar]
  simp [show c ≠ 0 by omega, show c ≠ 44 by omega, show c ≠ 59 by omega, show c ≠ 43 by omega,
    show c ≠ 45 by omega, show c ≠ 42 by omega, show c ≠ 47 by omega, show c ≠ 40 by omega,
    show c ≠ 41 by omega, show c ≠ 91 by omega, show c ≠ 93 by omega, show c ≠ 123 by omega,
    show c ≠ 125 by omega, show c ≠ 34 by omega, show c ≠ 46 by omega, show c ≠ 58 by omega,
    show c ≠ 33 by omega, show c ≠ 60 by omega, show c ≠ 62 by omega, show c ≠ 61 by omega,
    hc, Lexer.readNumber]

/-- The method `NextToken` on an input that begins with a dot: `readFloat`
with the integer part `0` when a digit follows, the dot token otherwise. -/
theorem Lexer.NextToken_dot (fuel line : Nat) (rest : List Nat) :
    Lexer.NextToken fuel { input := 46 :: rest, line := line } =
      if isNumber (Lexer.peekChar { input := rest, line := line }) then
        some (floatToken line [48] (readNumberLoop line [] rest).1, (readNumberLoop line [] rest).2)
      else some ({ Typ := .T_DOT, Line := line, Message := [] }, { input := rest, line := line }) := by
  unfold Lexer.NextToken Lexer.skipBlank
  simp only [skipBlankLoop_of_gt 46 rest line (by omega), Lexer.peekChar]
  simp [Lexer.readChar, Lexer.readFloat, Lexer.readNumber, Lexer.newToken, Lexer.peekChar]

theorem readStringLoop_run (s rest : List Nat) (line : Nat) (hs : 34 ∉ s) :
    ∀ (fuel : Nat) (buf : GoString), s.length < fuel →
      readStringLoop fuel buf { input := s ++ 34 :: rest, line := line } =
        some (buf ++ s, { input := 34 :: rest, line := line }) := by
  induction s with
  | nil =>
    intro fuel buf hf
    obtain ⟨k, rfl⟩ : ∃ k, fuel = k + 1 := ⟨fuel - 1, by simp at hf; omega⟩
    simp [readStringLoop, Lexer.peekChar]
  | cons c s ih =>
    intro fuel buf hf
    obtain ⟨k, rfl⟩ : ∃ k, fuel = k + 1 := ⟨fuel - 1, by simp at hf; omega⟩
    have hc : c ≠ 34 := fun h => hs (by simp [h])
    have hs' : 34 ∉ s := fun h => hs (List.mem_cons_of_mem _ h)
    rw [List.cons_append, readStringLoop]
    simp only [Lexer.peekChar, ne_eq, hc, not_false_eq_true, if_true, Lexer.readChar]
    rw [ih hs' k (buf ++ [c]) (by simp at hf; omega)]
    simp

/-! ## Fuel -/

theorem readStringLoop_mono : ∀ (n m : Nat) (buf : GoString) (l : Lexer) (r : GoString × Lexer),
    readStringLoop n buf l = some r → n ≤ m → readStringLoop m buf l = some r := by
  intro n
  induction n with
  | zero => intro m buf l r h; exact absurd h (by simp [readStringLoop])
  | succ n ih =>
    intro m buf l r h hm
    obtain ⟨k, rfl⟩ : ∃ k, m = k + 1 := ⟨m - 1, by omega⟩
    rw [readStringLoop] at h ⊢
    split
    · rename_i hp
      rw [if_pos hp] at h
      exact ih k _ _ r h (by omega)
    · rename_i hp
      rw [if_neg hp] at h
      exact h

/-- More fuel does not change a token that `NextToken` returns. -/
theorem Lexer.NextToken_mono (n m : Nat) (l : Lexer) (r : Token × Lexer)
    (h : Lexer.NextToken n l = some r) (hm : n ≤ m) : Lexer.NextToken m l = some r := by
  by_cases hc : l.skipBlank.peekChar = 34
  · have e : ∀ k, Lexer.NextToken k l = l.skipBlank.readString k := by
      intro k
      unfold Lexer.NextToken
      simp [hc]
    rw [e] at h ⊢
    unfold Lexer.readString at h ⊢
    simp only [] at h ⊢
    cases hl : readStringLoop n [] l.skipBlank.readChar.2 with
    | none => rw [hl] at h; exact absurd h (by simp)
    | some r1 =>
      rw [hl] at h
      rw [readStringLoop_mono n m _ _ r1 hl hm]
      exact h
  · have e : Lexer.NextToken m l = Lexer.NextToken n l := by
      unfold Lexer.NextToken
      simp only [hc, if_false]
    rw [e]
    exact h

/-- More fuel does not change what `nextToken` returns. -/
theorem Parser.nextToken_mono : ∀ (n m : Nat) (p : Parser) (r : Token × Parser),
    p.nextToken n = some r → n ≤ m → p.nextToken m = some r := by
  intro n
  induction n with
  | zero => intro m p r h; exact absurd h (by simp [Parser.nextToken])
  | succ n ih =>
    intro m p r h hm
    obtain ⟨k, rfl⟩ : ∃ k, m = k + 1 := ⟨m - 1, by omega⟩
    rw [Parser.nextToken] at h ⊢
    cases hl : p.lexer.NextToken n with
    | none => rw [hl] at h; exact absurd h (by simp)
    | some tl =>
      obtain ⟨t, l⟩ := tl
      rw [hl] at h
      rw [Lexer.NextToken_mono n k p.lexer (t, l) hl (by omega)]
      simp only [] at h ⊢
      split
      · rename_i ht
        rw [if_pos ht] at h
        cases hn : Parser.nextToken n { p with lexer := l, peekToken := t } with
        | none => rw [hn] at h; exact absurd h (by simp)
        | some r2 =>
          rw [hn] at h
          rw [ih k _ r2 hn (by omega)]
          exact h
      · rename_i ht
        rw [if_neg ht] at h
        exact h

/-- The method `nextToken` returns the peek token. -/
theorem Parser.nextToken_fst : ∀ (n : Nat) (p : Parser) (r : Token × Parser),
    p.nextToken n = some r → r.1 = p.peekToken := by
  intro n p r h
  cases n with
  | zero => exact absurd h (by simp [Parser.nextToken])
  | succ n =>
    rw [Parser.nextToken] at h
    cases hl : p.lexer.NextToken n with
    | none => rw [hl] at h; exact absurd h (by simp)
    | some tl =>
      obtain ⟨t, l⟩ := tl
      rw [hl] at h
      simp only [] at h
      split at h
      · cases hn : Parser.nextToken n { p with lexer := l, peekToken := t } with
        | none => rw [hn] at h; exact absurd h (by simp)
        | some r2 =>
          rw [hn] at h
          injection h with h
          rw [← h]
      · injection h with h
        rw [← h]
/-! ## The chain of a call scope -/

/-- Sub-expressions evaluated one after the other in `env` add environments,
change no other environment that existed before and keep every `Outer`
pointer. -/
theorem valueSteps_frame {fl : FloatOps} {n env : Nat} {es : List Expression} {st st' : State}
    (h : ValueSteps (Eval fl n) env es st st') :
    st.envs.length ≤ st'.envs.length ∧
    (∀ i, i < st.envs.length → i ≠ env → st'.envs[i]? = st.envs[i]?) ∧
    ∀ i, i < st.envs.length → st'.envs[i]?.map (·.Outer) = st.envs[i]?.map (·.Outer) := by
  induction h with
  | nil st => exact ⟨Nat.le_refl _, fun _ _ _ => rfl, fun _ _ => rfl⟩
  | cons e es st st1 st' o he _ _ _ ih =>
    have hl := Eval_ok_envs_length he
    refine ⟨Nat.le_trans hl ih.1, fun i hi hne => ?_, fun i hi => ?_⟩
    · rw [ih.2.1 i (by omega) hne, Eval_ok_frame he i hi hne]
    · rw [ih.2.2 i (by omega), Eval_ok_outer he i hi]

/-- A call of a function value whose capture scope is closed and does not bind
`x`, `x` being none of the parameters, from an environment that is not the
capture scope.  Let the body begin with sub-expressions `es` that yield
objects that are not wrappers and leave the binding of `x` in the call scope
as it is, followed by a read of `x`.  At the read the lookup of `x` from the
call scope finds nothing, and the call returns the error "identifier haven't
declare". -/
theorem evalCallExpr_detached (fl : FloatOps) (k : Nat) (fe : Expression)
    (args : List Expression) (env : Nat) (st st1 st3 st4 : State) (f : Nat) (fnObj : FuncValue)
    (cap : Environment) (x : GoString) (es : List Expression) (first : Expression)
    (rest : List Expression)
    (henv : env < st.envs.length)
    (hfe : Eval fl (k + 2) fe env st = .ok (.FuncObj f) st1)
    (hf : st1.funcs[f]? = some fnObj)
    (hcap : st1.envs[fnObj.FuncEnv]? = some cap) (hclosed : cap.Outer = none)
    (hxcap : mapGet x cap.LocalVars = none) (hxps : x ∉ fnObj.Parameters)
    (hne : env ≠ fnObj.FuncEnv)
    (hargs : callLoop (Eval fl (k + 2)) env st1.envs.length fnObj.Parameters args
      (NewInnerEnv fnObj.FuncEnv st1).2 = .ok () st3)
    (hsteps : ValueSteps (Eval fl (k + 2)) st1.envs.length es st3 st4)
    (hdecl : st4.localVar st1.envs.length x = st3.localVar st1.envs.length x)
    (hbody : fnObj.Body = es ++ first :: rest)
    (hfirst : first = .Identifier x ∨ first = .ReturnExpr (.Identifier x)) :
    Environment.Get st4 st1.envs.length x = none ∧
    Eval fl (k + 3) (.CallExpr fe args) env st = .err (.identifierNotDeclared x) st4 := by
  have hlen : st.envs.length ≤ st1.envs.length := Eval_ok_envs_length hfe
  have hcaplt : fnObj.FuncEnv < st1.envs.length := by
    by_contra h
    rw [List.getElem?_eq_none (by omega)] at hcap
    exact Option.noConfusion hcap
  have hce2 : st1.envs.length < (NewInnerEnv fnObj.FuncEnv st1).2.envs.length := by
    simp [NewInnerEnv]
  obtain ⟨hlv, hout⟩ := callLoop_localVar fl (k + 2) env st1.envs.length (by omega)
    fnObj.Parameters args _ st3 hce2 hargs
  have hfr := @callLoop_frame (Eval fl (k + 2)) (Eval_framed fl (k + 2)) env st1.envs.length
    st1.envs.length (Nat.le_refl _) fnObj.Parameters args (NewInnerEnv fnObj.FuncEnv st1).2
    (Nat.le_of_lt hce2)
  rw [hargs] at hfr
  have hcap3 : st3.envs[fnObj.FuncEnv]? = some cap := by
    rw [hfr.2 fnObj.FuncEnv hcaplt (Ne.symm hne)]
    simp only [NewInnerEnv]
    rw [List.getElem?_append_left hcaplt]
    exact hcap
  have hnew : (NewInnerEnv fnObj.FuncEnv st1).2.envs[st1.envs.length]? =
      some { LocalVars := [], Outer := some fnObj.FuncEnv } := by
    simp [NewInnerEnv]
  rw [hnew] at hout
  have hx0 : (NewInnerEnv fnObj.FuncEnv st1).2.localVar st1.envs.length x = none := by
    simp [State.localVar, hnew, mapGet]
  have hx3 : st3.localVar st1.envs.length x = none := by
    have := hlv x
    rw [hx0] at this
    cases h : st3.localVar st1.envs.length x with
    | none => rfl
    | some c =>
      rw [h] at this
      simp [hxps] at this
  cases hea : st3.envs[st1.envs.length]? with
  | none => simp [hea] at hout
  | some ea =>
    rw [hea] at hout
    have hoa : ea.Outer = some fnObj.FuncEnv := by simpa using hout
    have hce3 : st1.envs.length < st3.envs.length := by
      by_contra h
      rw [List.getElem?_eq_none (by omega)] at hea
      exact Option.noConfusion hea
    obtain ⟨_, hfr4, hout4⟩ := valueSteps_frame hsteps
    have hcap4 : st4.envs[fnObj.FuncEnv]? = some cap := by
      rw [hfr4 fnObj.FuncEnv (by omega) (by omega)]
      exact hcap3
    have hout4' := hout4 st1.envs.length hce3
    rw [hea] at hout4'
    cases hea4 : st4.envs[st1.envs.length]? with
    | none => simp [hea4] at hout4'
    | some ea4 =>
      rw [hea4] at hout4'
      have hoa4 : ea4.Outer = some fnObj.FuncEnv := by
        have : ea4.Outer = ea.Outer := by simpa using hout4'
        rw [this, hoa]
      have hxa4 : mapGet x ea4.LocalVars = none := by
        rw [hx3] at hdecl
        simpa [State.localVar, hea4] using hdecl
      have hget := Environment.Get_detached hea4 hoa4 hcap4 hclosed hxa4 hxcap
      refine ⟨hget, ?_⟩
      have hread : ∀ m, Eval fl (m + 1) (.Identifier x) st1.envs.length st4 =
          .err (.identifierNotDeclared x) st4 := by
        intro m
        rw [Eval_Identifier]
        simp [evalIdentifierExpr, hget]
      have hfirstErr : Eval fl (k + 2) first st1.envs.length st4 =
          .err (.identifierNotDeclared x) st4 := by
        rcases hfirst with h | h
        · rw [h]; exact hread _
        · rw [h, Eval_ReturnExpr, hread k]; rfl
      rw [Eval_CallExpr]
      unfold evalCallExpr
      rw [hfe, Res.bind_ok]
      simp only [hf]
      show ((callLoop (Eval fl (k + 2)) env st1.envs.length fnObj.Parameters args
        (NewInnerEnv fnObj.FuncEnv st1).2).bind _) = _
      rw [hargs, Res.bind_ok, hbody, NewInnerEnv_fst]
      unfold evalFuncBlockExpr
      rw [evalBlockExpr_valueSteps _ _ es _ st3 st4 hsteps,
        evalBlockExpr_cons_of_err _ first rest _ st4 st4 _ hfirstErr]
      rfl
/-! ## The parser on atoms and operators -/

theorem PRes.bindOk {α β : Type} (v : α) (p : Parser) (f : α → Parser → PRes β) :
    (PRes.ok v p).bind f = f v p := rfl

theorem Parser.nextToken_pos {n : Nat} {p : Parser} {r : Token × Parser}
    (h : p.nextToken n = some r) : 1 ≤ n := by
  cases n with
  | zero => exact absurd h (by simp [Parser.nextToken])
  | succ n => omega

theorem Parser.next_of_nextToken {α : Type} {n m : Nat} {p p1 : Parser} {t : Token}
    (k : Token → Parser → PRes α) (h : p.nextToken n = some (t, p1)) (hm : n ≤ m) :
    p.next m k = k t p1 := by
  unfold Parser.next
  rw [Parser.nextToken_mono n m p _ h hm]

theorem infixLoop_stop (pe : ExprParser) (cf : Nat) (prec : Precedence) (k : Nat)
    (left : Expression) (p : Parser) (h : p.StopsAt prec) :
    infixLoop pe cf prec (k + 1) left p = .ok left p := by
  rw [infixLoop]
  rcases h with h | h
  · rw [if_neg (Nat.not_lt.mpr h)]
  · rw [h]
    split <;> rfl

theorem infixLoop_ok_stops (pe : ExprParser) (cf : Nat) (prec : Precedence) :
    ∀ (k : Nat) (left : Expression) (p : Parser) (e : Expression) (p1 : Parser),
      infixLoop pe cf prec k left p = .ok e p1 → p1.StopsAt prec := by
  intro k
  induction k with
  | zero => intro left p e p1 h; exact PRes.noConfusion h
  | succ k ih =>
    intro left p e p1 h
    rw [infixLoop] at h
    split at h
    · cases hfn : infixParseFns p.peekToken.Typ with
      | none =>
        rw [hfn] at h
        injection h with _ hp
        subst hp
        exact Or.inr hfn
      | some fn =>
        rw [hfn] at h
        simp only [] at h
        cases hc : fn.call pe cf left p with
        | ok l1 p2 =>
          rw [hc, PRes.bindOk] at h
          exact ih l1 p2 e p1 h
        | err e1 p2 => rw [hc] at h; exact PRes.noConfusion h
        | timeout => rw [hc] at h; exact PRes.noConfusion h
    · rename_i hlt
      injection h with _ hp
      subst hp
      exact Or.inl (Nat.not_lt.mp hlt)

/-- After `parseExpr` has returned an expression, its loop would end again at
the parser it leaves. -/
theorem parseExpr_ok_stops (fl : FloatOps) (m : Nat) (prec : Precedence) (p p1 : Parser)
    (e : Expression) (h : parseExpr fl m prec p = .ok e p1) : p1.StopsAt prec := by
  cases m with
  | zero => exact PRes.noConfusion h
  | succ m =>
    rw [parseExpr] at h
    cases hfn : prefixParseFns p.peekToken.Typ with
    | none =>
      rw [hfn] at h
      simp only [Parser.next] at h
      split at h <;> exact PRes.noConfusion h
    | some fn =>
      rw [hfn] at h
      simp only [] at h
      cases hc : fn.call fl (parseExpr fl m) m p with
      | ok l1 p2 =>
        rw [hc, PRes.bindOk] at h
        exact infixLoop_ok_stops _ _ _ _ _ _ _ _ h
      | err e1 p2 => rw [hc] at h; exact PRes.noConfusion h
      | timeout => rw [hc] at h; exact PRes.noConfusion h

/-- The case of `parseExpr` for a peek token that is an atom: the prefix
handler reads the token and the loop starts with the atom. -/
theorem parseExpr_atom (fl : FloatOps) {n m : Nat} (prec : Precedence) {p p1 : Parser}
    {a : Expression} (ha : atomExpr fl p.peekToken = some a)
    (h : p.nextToken n = some (p.peekToken, p1)) (hm : n ≤ m) :
    parseExpr fl (m + 1) prec p = infixLoop (parseExpr fl m) m prec m a p1 := by
  rw [parseExpr]
  unfold atomExpr at ha
  cases ht : p.peekToken.Typ <;> rw [ht] at ha <;> simp only [] at ha <;>
    first
      | exact Option.noConfusion ha
      | skip
  all_goals simp only [prefixParseFns, PrefixParseFn.call, parseInteger, parseFloat, parseBoolean,
    parseString, parseNil, parserIdentifier, Parser.next_of_nextToken _ h hm, ht]
  all_goals first
    | (injection ha with ha; subst ha; rfl)
    | (cases hv : ParseInt p.peekToken.Message with
       | none => rw [hv] at ha; exact Option.noConfusion ha
       | some v =>
         rw [hv] at ha
         injection ha with ha
         subst ha
         rfl)
    | (cases hv : fl.parse p.peekToken.Message with
       | none => rw [hv] at ha; exact Option.noConfusion ha
       | some v =>
         rw [hv] at ha
         injection ha with ha
         subst ha
         rfl)

/-- An atom followed by a token that ends the loop is parsed to itself. -/
theorem parseExpr_atom_stop (fl : FloatOps) {n m : Nat} (prec : Precedence) {p p1 : Parser}
    {a : Expression} (ha : atomExpr fl p.peekToken = some a)
    (h : p.nextToken n = some (p.peekToken, p1)) (hm : n ≤ m) (hstop : p1.StopsAt prec) :
    parseExpr fl (m + 1) prec p = .ok a p1 := by
  rw [parseExpr_atom fl prec ha h hm]
  have h1 := Parser.nextToken_pos h
  obtain ⟨k, rfl⟩ : ∃ k, m = k + 1 := ⟨m - 1, by omega⟩
  exact infixLoop_stop _ _ _ _ _ _ hstop

theorem isInfixOperator_fn {t : TokenType} (h : isInfixOperator t = true) :
    infixParseFns t = some .parseArithInfixExpr ∧ 2 ≤ tokenPrecedences t := by
  cases t <;> first
    | exact Bool.noConfusion h
    | exact ⟨rfl, by decide⟩

/-- One turn of the loop of `parseExpr` at a binary operator: the operator is
read and its right operand is parsed with the operator's precedence as the
minimum. -/
theorem infixLoop_arith (pe : ExprParser) {n cf : Nat} (prec : Precedence) (k : Nat)
    (left : Expression) {p p2 : Parser} (hop : isInfixOperator p.peekToken.Typ = true)
    (hprec : prec < tokenPrecedences p.peekToken.Typ)
    (h : p.nextToken n = some (p.peekToken, p2)) (hn : n ≤ cf) :
    infixLoop pe cf prec (k + 1) left p =
      (pe (tokenPrecedences p.peekToken.Typ) p2).bind fun right p3 =>
        infixLoop pe cf prec k (.ArithInfixExpr p.peekToken.Typ left right) p3 := by
  rw [infixLoop, if_pos hprec, (isInfixOperator_fn hop).1]
  simp only [InfixParseFn.call, parseArithInfixExpr, Parser.next_of_nextToken _ h hn, hop, if_true]
  cases pe (tokenPrecedences p.peekToken.Typ) p2 <;> rfl

/-- One turn of the loop of `parseExpr` at `=` or `:=` after an assignable
left-hand side: the operator is read and the right-hand side is parsed with
the lowest precedence as the minimum. -/
theorem infixLoop_assign (pe : ExprParser) {n cf : Nat} (k : Nat) (left : Expression)
    {p p2 : Parser} (hop : p.peekToken.Typ = .T_ASSIGN ∨ p.peekToken.Typ = .T_DECLARATION)
    (hl : notAssignable left = false)
    (h : p.nextToken n = some (p.peekToken, p2)) (hn : n ≤ cf) :
    infixLoop pe cf LOWEST (k + 1) left p =
      (pe LOWEST p2).bind fun right p3 =>
        infixLoop pe cf LOWEST k (assignNode p.peekToken.Typ left right) p3 := by
  rw [infixLoop]
  rcases hop with hop | hop
  · rw [hop]
    simp only [tokenPrecedences, LOWEST, ASSIGN, Nat.lt_one_iff, if_true, infixParseFns,
      InfixParseFn.call, parserAssignExpr, Parser.next_of_nextToken _ h hn, hl, assignNode]
    cases pe 0 p2 <;> rfl
  · rw [hop]
    simp only [tokenPrecedences, LOWEST, ASSIGN, Nat.lt_one_iff, if_true, infixParseFns,
      InfixParseFn.call, parserDeclarationExpr, Parser.next_of_nextToken _ h hn, hl, assignNode]
    cases pe 0 p2 <;> rfl

/-- An expression is not returned with less than two units of fuel: with one
unit the loop of `parseExpr` has none. -/
theorem parseExpr_ok_fuel (fl : FloatOps) (m : Nat) (prec : Precedence) (p p1 : Parser)
    (e : Expression) (h : parseExpr fl m prec p = .ok e p1) : 2 ≤ m := by
  match m, h with
  | 0, h => exact PRes.noConfusion h
  | 1, h =>
    exfalso
    rw [parseExpr] at h
    cases hfn : prefixParseFns p.peekToken.Typ with
    | none =>
      rw [hfn] at h
      simp [Parser.next, Parser.nextToken] at h
    | some fn =>
      rw [hfn] at h
      simp only [] at h
      cases hc : fn.call fl (parseExpr fl 0) 0 p with
      | ok l1 p2 => rw [hc, PRes.bindOk] at h; exact PRes.noConfusion h
      | err e1 p2 => rw [hc] at h; exact PRes.noConfusion h
      | timeout => rw [hc] at h; exact PRes.noConfusion h
  | m + 2, _ => omega

/-! ## Integer literals -/

theorem digitsValue_decimal (ds : List Nat) (hds : ∀ c ∈ ds, isNumber c = true) :
    ∀ acc, digitsValue 10 acc ds =
      some (ds.foldl (fun acc c => acc * 10 + (c - 48)) acc) := by
  induction ds with
  | nil => intro acc; rfl
  | cons c ds ih =>
    intro acc
    have hb := isNumber_bounds (hds c (List.mem_cons_self _ _))
    rw [digitsValue, if_pos (by omega), ih (fun d hd => hds d (List.mem_cons_of_mem _ hd))]
    rfl

theorem ParseInt_of_digitsValue (d : List Nat) (hne : d ≠ [])
    (hzero : d = [48] ∨ d.head? ≠ some 48) (n : Nat)
    (hv : digitsValue 10 0 d = some n) (hfit : n < 2 ^ 63) : ParseInt d = some (n : Int) := by
  unfold ParseInt
  split
  · exact absurd rfl hne
  · rcases hzero with h | h
    · exact absurd h (by simp)
    · exact absurd h (by simp)
  · simp only [hv]
    rw [if_pos hfit]

/-- The call `strconv.ParseInt(s, 0, 64)` on a run of digits without a
leading zero is the decimal value when it fits. -/
theorem ParseInt_decimal (d : List Nat) (hd : ∀ c ∈ d, isNumber c = true) (hne : d ≠ [])
    (hzero : d = [48] ∨ d.head? ≠ some 48) (hfit : specDecimalValue d < 2 ^ 63) :
    ParseInt d = some (specDecimalValue d : Int) :=
  ParseInt_of_digitsValue d hne hzero _ (digitsValue_decimal d hd 0) hfit
/-! ## The parse functions see the parser through its tokens only -/

theorem PRes.sim_bind {α β : Type} {S : Parser → Parser → Prop} {r r' : PRes α}
    {f f' : α → Parser → PRes β} (h : PRes.Sim S r r')
    (hf : ∀ v p q, S p q → PRes.Sim S (f v p) (f' v q)) : PRes.Sim S (r.bind f) (r'.bind f') := by
  cases r with
  | ok v p =>
    cases r' with
    | ok w q =>
      obtain ⟨hv, hs⟩ := h
      subst hv
      exact hf v p q hs
    | err e q => exact False.elim h
    | timeout => exact False.elim h
  | err e p =>
    cases r' with
    | ok w q => exact False.elim h
    | err e' q => exact h
    | timeout => exact False.elim h
  | timeout => trivial


theorem Parser.next_sim {S : Parser → Parser → Prop} (hS : ParserSim S)
    {α : Type} {p q : Parser} (n : Nat) {k k' : Token → Parser → PRes α}
    (h : S p q) (hk : ∀ t p1 q1, S p1 q1 → PRes.Sim S (k t p1) (k' t q1)) :
    PRes.Sim S (p.next n k) (q.next n k') := by
  unfold Parser.next
  cases hp : p.nextToken n with
  | none => trivial
  | some r =>
    obtain ⟨t, p1⟩ := r
    obtain ⟨q1, hq, h1⟩ := hS.next p q n t p1 h hp
    rw [hq]
    exact hk t p1 q1 h1

theorem Parser.expect_sim {S : Parser → Parser → Prop} (hS : ParserSim S)
    {α : Type} {p q : Parser} (tt : TokenType) {k k' : PRes α}
    (h : S p q) (hk : PRes.Sim S k k') : PRes.Sim S (p.expect tt k) (q.expect tt k') := by
  unfold Parser.expect Parser.checkPeekToken
  rw [hS.peek p q h]
  split
  · exact ⟨rfl, h⟩
  · exact hk



theorem PRes.sim_ok {S : Parser → Parser → Prop} {α : Type} {p q : Parser} (v : α) (h : S p q) :
    PRes.Sim S (.ok v p) (.ok v q) := ⟨rfl, h⟩

theorem PRes.sim_err {S : Parser → Parser → Prop}
    {α : Type} {p q : Parser} (e : ParseError) (h : S p q) :
    PRes.Sim S (.err e p : PRes α) (.err e q) := ⟨rfl, h⟩

theorem parseInteger_sim {S : Parser → Parser → Prop} (hS : ParserSim S)
    (fuel : Nat) {p q : Parser} (h : S p q) :
    PRes.Sim S (parseInteger fuel p) (parseInteger fuel q) := by
  unfold parseInteger
  refine Parser.next_sim hS fuel h fun t p1 q1 h1 => ?_
  split
  · exact PRes.sim_err _ h1
  · exact PRes.sim_ok _ h1

theorem parseFloat_sim {S : Parser → Parser → Prop} (hS : ParserSim S)
    (fl : FloatOps) (fuel : Nat) {p q : Parser} (h : S p q) :
    PRes.Sim S (parseFloat fl fuel p) (parseFloat fl fuel q) := by
  unfold parseFloat
  refine Parser.next_sim hS fuel h fun t p1 q1 h1 => ?_
  split
  · exact PRes.sim_err _ h1
  · exact PRes.sim_ok _ h1

theorem parseBoolean_sim {S : Parser → Parser → Prop} (hS : ParserSim S)
    (fuel : Nat) {p q : Parser} (h : S p q) :
    PRes.Sim S (parseBoolean fuel p) (parseBoolean fuel q) := by
  unfold parseBoolean
  refine Parser.next_sim hS fuel h fun t p1 q1 h1 => ?_
  split
  · exact PRes.sim_ok _ h1
  · split
    · exact PRes.sim_ok _ h1
    · exact PRes.sim_err _ h1

theorem parseString_sim {S : Parser → Parser → Prop} (hS : ParserSim S)
    (fuel : Nat) {p q : Parser} (h : S p q) :
    PRes.Sim S (parseString fuel p) (parseString fuel q) := by
  unfold parseString
  refine Parser.next_sim hS fuel h fun t p1 q1 h1 => ?_
  split
  · exact PRes.sim_ok _ h1
  · exact PRes.sim_err _ h1

theorem parseNil_sim {S : Parser → Parser → Prop} (hS : ParserSim S)
    (fuel : Nat) {p q : Parser} (h : S p q) :
    PRes.Sim S (parseNil fuel p) (parseNil fuel q) := by
  unfold parseNil
  refine Parser.next_sim hS fuel h fun t p1 q1 h1 => ?_
  split
  · exact PRes.sim_ok _ h1
  · exact PRes.sim_err _ h1

theorem parserIdentifier_sim {S : Parser → Parser → Prop} (hS : ParserSim S)
    (fuel : Nat) {p q : Parser} (h : S p q) :
    PRes.Sim S (parserIdentifier fuel p) (parserIdentifier fuel q) := by
  unfold parserIdentifier
  exact Parser.next_sim hS fuel h fun t p1 q1 h1 => PRes.sim_ok _ h1


theorem parserReturnExpr_sim {S : Parser → Parser → Prop} (hS : ParserSim S)
    {pe : ExprParser} (hpe : ∀ prec p q, S p q → PRes.Sim S (pe prec p) (pe prec q))
    (fuel : Nat) {p q : Parser} (h : S p q) :
    PRes.Sim S (parserReturnExpr pe fuel p) (parserReturnExpr pe fuel q) := by
  unfold parserReturnExpr
  refine Parser.next_sim hS fuel h fun t p1 q1 h1 => ?_
  exact PRes.sim_bind (hpe _ _ _ h1) fun v p2 q2 h2 => PRes.sim_ok _ h2

theorem parserBreakExpr_sim {S : Parser → Parser → Prop} (hS : ParserSim S)
    {pe : ExprParser} (hpe : ∀ prec p q, S p q → PRes.Sim S (pe prec p) (pe prec q))
    (fuel : Nat) {p q : Parser} (h : S p q) :
    PRes.Sim S (parserBreakExpr pe fuel p) (parserBreakExpr pe fuel q) := by
  unfold parserBreakExpr
  refine Parser.next_sim hS fuel h fun t p1 q1 h1 => ?_
  exact PRes.sim_bind (hpe _ _ _ h1) fun v p2 q2 h2 => PRes.sim_ok _ h2

theorem parserDeclarationExpr_sim {S : Parser → Parser → Prop} (hS : ParserSim S)
    {pe : ExprParser} (hpe : ∀ prec p q, S p q → PRes.Sim S (pe prec p) (pe prec q))
    (fuel : Nat) (left : Expression) {p q : Parser} (h : S p q) :
    PRes.Sim S (parserDeclarationExpr pe fuel left p) (parserDeclarationExpr pe fuel left q) := by
  unfold parserDeclarationExpr
  refine Parser.next_sim hS fuel h fun t p1 q1 h1 => ?_
  split
  · exact PRes.sim_err _ h1
  · exact PRes.sim_bind (hpe _ _ _ h1) fun v p2 q2 h2 => PRes.sim_ok _ h2

theorem parserAssignExpr_sim {S : Parser → Parser → Prop} (hS : ParserSim S)
    {pe : ExprParser} (hpe : ∀ prec p q, S p q → PRes.Sim S (pe prec p) (pe prec q))
    (fuel : Nat) (left : Expression) {p q : Parser} (h : S p q) :
    PRes.Sim S (parserAssignExpr pe fuel left p) (parserAssignExpr pe fuel left q) := by
  unfold parserAssignExpr
  refine Parser.next_sim hS fuel h fun t p1 q1 h1 => ?_
  split
  · exact PRes.sim_err _ h1
  · exact PRes.sim_bind (hpe _ _ _ h1) fun v p2 q2 h2 => PRes.sim_ok _ h2

theorem parseArithInfixExpr_sim {S : Parser → Parser → Prop} (hS : ParserSim S)
    {pe : ExprParser} (hpe : ∀ prec p q, S p q → PRes.Sim S (pe prec p) (pe prec q))
    (fuel : Nat) (left : Expression) {p q : Parser} (h : S p q) :
    PRes.Sim S (parseArithInfixExpr pe fuel left p) (parseArithInfixExpr pe fuel left q) := by
  unfold parseArithInfixExpr
  refine Parser.next_sim hS fuel h fun t p1 q1 h1 => ?_
  split
  · exact PRes.sim_bind (hpe _ _ _ h1) fun v p2 q2 h2 => PRes.sim_ok _ h2
  · exact PRes.sim_err _ h1

theorem parseArithPrefixExpr_sim {S : Parser → Parser → Prop} (hS : ParserSim S)
    {pe : ExprParser} (hpe : ∀ prec p q, S p q → PRes.Sim S (pe prec p) (pe prec q))
    (fuel : Nat) {p q : Parser} (h : S p q) :
    PRes.Sim S (parseArithPrefixExpr pe fuel p) (parseArithPrefixExpr pe fuel q) := by
  unfold parseArithPrefixExpr
  refine Parser.next_sim hS fuel h fun t p1 q1 h1 => ?_
  split
  · exact PRes.sim_bind (hpe _ _ _ h1) fun v p2 q2 h2 => PRes.sim_ok _ h2
  · exact PRes.sim_err _ h1

theorem parseGroupedExpr_sim {S : Parser → Parser → Prop} (hS : ParserSim S)
    {pe : ExprParser} (hpe : ∀ prec p q, S p q → PRes.Sim S (pe prec p) (pe prec q))
    (fuel : Nat) {p q : Parser} (h : S p q) :
    PRes.Sim S (parseGroupedExpr pe fuel p) (parseGroupedExpr pe fuel q) := by
  unfold parseGroupedExpr
  refine Parser.next_sim hS fuel h fun t p1 q1 h1 => ?_
  refine PRes.sim_bind (hpe _ _ _ h1) fun v p2 q2 h2 => ?_
  unfold Parser.checkPeekToken
  rw [hS.peek p2 q2 h2]
  split
  · exact PRes.sim_err _ h2
  · exact Parser.next_sim hS fuel h2 fun t p3 q3 h3 => PRes.sim_ok _ h3

theorem skipSemicolons_sim {S : Parser → Parser → Prop} (hS : ParserSim S)
    : ∀ (fuel : Nat) {p q : Parser}, S p q →
    optSim S ((skipSemicolons fuel p).map fun r => ((), r))
      ((skipSemicolons fuel q).map fun r => ((), r)) := by
  intro fuel
  induction fuel with
  | zero => intro p q _; trivial
  | succ k ih =>
    intro p q h
    rw [skipSemicolons, skipSemicolons, hS.peek p q h]
    split
    · cases hp : p.nextToken k with
      | none => trivial
      | some r =>
        obtain ⟨t, p1⟩ := r
        obtain ⟨q1, hq, h1⟩ := hS.next p q k t p1 h hp
        rw [hq]
        exact ih h1
    · exact ⟨rfl, h⟩

theorem blockLoop_sim {S : Parser → Parser → Prop} (hS : ParserSim S)
    {pe : ExprParser} (hpe : ∀ prec p q, S p q → PRes.Sim S (pe prec p) (pe prec q))
    (stop : TokenType) : ∀ (fuel : Nat) (exprs : List Expression)
    {p q : Parser}, S p q →
    optSim S (blockLoop pe stop fuel exprs p) (blockLoop pe stop fuel exprs q) := by
  intro fuel
  induction fuel with
  | zero => intro exprs p q _; trivial
  | succ k ih =>
    intro exprs p q h
    rw [blockLoop, blockLoop, hS.peek p q h]
    split
    · have he := hpe LOWEST p q h
      cases hp : pe LOWEST p with
      | timeout => trivial
      | err e p1 =>
        rw [hp] at he
        cases hq : pe LOWEST q with
        | timeout => rw [hq] at he; exact False.elim he
        | ok v q1 => rw [hq] at he; exact False.elim he
        | err e' q1 =>
          rw [hq] at he
          obtain ⟨hee, h1⟩ := he
          subst hee
          have hs := skipSemicolons_sim hS k (hS.error p1 q1 e h1)
          simp only []
          cases hsp : skipSemicolons k { p1 with Errors := p1.Errors ++ [.ParseError e] } with
          | none => trivial
          | some p2 =>
            rw [hsp] at hs
            cases hsq : skipSemicolons k { q1 with Errors := q1.Errors ++ [.ParseError e] } with
            | none => rw [hsq] at hs; exact False.elim hs
            | some q2 =>
              rw [hsq] at hs
              exact ih _ hs.2
      | ok v p1 =>
        rw [hp] at he
        cases hq : pe LOWEST q with
        | timeout => rw [hq] at he; exact False.elim he
        | err e' q1 => rw [hq] at he; exact False.elim he
        | ok w q1 =>
          rw [hq] at he
          obtain ⟨hvw, h1⟩ := he
          subst hvw
          have hs := skipSemicolons_sim hS k h1
          simp only []
          cases hsp : skipSemicolons k p1 with
          | none => trivial
          | some p2 =>
            rw [hsp] at hs
            cases hsq : skipSemicolons k q1 with
            | none => rw [hsq] at hs; exact False.elim hs
            | some q2 =>
              rw [hsq] at hs
              exact ih _ hs.2
    · exact ⟨rfl, h⟩

theorem parseBlockExprs_sim {S : Parser → Parser → Prop} (hS : ParserSim S)
    {pe : ExprParser} (hpe : ∀ prec p q, S p q → PRes.Sim S (pe prec p) (pe prec q))
    (fuel : Nat) {p q : Parser} (h : S p q) :
    PRes.Sim S (parseBlockExprs pe fuel p) (parseBlockExprs pe fuel q) := by
  unfold parseBlockExprs
  refine Parser.next_sim hS fuel h fun t p1 q1 h1 => ?_
  have hb := blockLoop_sim hS hpe .T_RBRACE fuel [] h1
  cases hp : blockLoop pe .T_RBRACE fuel [] p1 with
  | none => trivial
  | some r =>
    obtain ⟨es, p2⟩ := r
    rw [hp] at hb
    cases hq : blockLoop pe .T_RBRACE fuel [] q1 with
    | none => rw [hq] at hb; exact False.elim hb
    | some r' =>
      obtain ⟨es', q2⟩ := r'
      rw [hq] at hb
      obtain ⟨hes, h2⟩ := hb
      subst hes
      refine Parser.next_sim hS fuel h2 fun t p3 q3 h3 => ?_
      split
      · exact PRes.sim_err _ h3
      · exact PRes.sim_ok _ h3

theorem parseBlockExpr_sim {S : Parser → Parser → Prop} (hS : ParserSim S)
    {pe : ExprParser} (hpe : ∀ prec p q, S p q → PRes.Sim S (pe prec p) (pe prec q))
    (fuel : Nat) {p q : Parser} (h : S p q) :
    PRes.Sim S (parseBlockExpr pe fuel p) (parseBlockExpr pe fuel q) := by
  unfold parseBlockExpr
  exact PRes.sim_bind (parseBlockExprs_sim hS hpe fuel h) fun v p2 q2 h2 => PRes.sim_ok _ h2

theorem commaLoop_sim {S : Parser → Parser → Prop} (hS : ParserSim S)
    {pe : ExprParser} (hpe : ∀ prec p q, S p q → PRes.Sim S (pe prec p) (pe prec q))
    (endToken : TokenType) : ∀ (fuel : Nat) (exprs : List Expression)
    {p q : Parser}, S p q →
    PRes.Sim S (commaLoop pe endToken fuel exprs p) (commaLoop pe endToken fuel exprs q) := by
  intro fuel
  induction fuel with
  | zero => intro exprs p q _; trivial
  | succ k ih =>
    intro exprs p q h
    rw [commaLoop, commaLoop, hS.peek p q h]
    split
    · refine PRes.sim_bind (hpe _ _ _ h) fun v p1 q1 h1 => ?_
      rw [hS.peek p1 q1 h1]
      split
      · exact Parser.next_sim hS k h1 fun t p2 q2 h2 => ih _ h2
      · exact PRes.sim_ok _ h1
    · exact PRes.sim_ok _ h

theorem parseCommaExprs_sim {S : Parser → Parser → Prop} (hS : ParserSim S)
    {pe : ExprParser} (hpe : ∀ prec p q, S p q → PRes.Sim S (pe prec p) (pe prec q))
    (fuel : Nat) (b e : TokenType) {p q : Parser} (h : S p q) :
    PRes.Sim S (parseCommaExprs pe fuel b e p) (parseCommaExprs pe fuel b e q) := by
  unfold parseCommaExprs
  refine Parser.expect_sim hS b h ?_
  refine Parser.next_sim hS fuel h fun t p1 q1 h1 => ?_
  refine PRes.sim_bind (commaLoop_sim hS hpe e fuel [] h1) fun v p2 q2 h2 => ?_
  refine Parser.expect_sim hS e h2 ?_
  exact Parser.next_sim hS fuel h2 fun t p3 q3 h3 => PRes.sim_ok _ h3

theorem parseImplicitBlockExpr_sim {S : Parser → Parser → Prop} (hS : ParserSim S)
    {pe : ExprParser} (hpe : ∀ prec p q, S p q → PRes.Sim S (pe prec p) (pe prec q))
    (fuel : Nat) {p q : Parser} (h : S p q) :
    PRes.Sim S (parseImplicitBlockExpr pe fuel p) (parseImplicitBlockExpr pe fuel q) := by
  unfold parseImplicitBlockExpr
  rw [hS.peek p q h]
  split
  · exact parseBlockExprs_sim hS hpe fuel h
  · refine PRes.sim_bind (hpe _ _ _ h) fun v p1 q1 h1 => ?_
    rw [hS.peek p1 q1 h1]
    split
    · exact Parser.next_sim hS fuel h1 fun t p2 q2 h2 => PRes.sim_ok _ h2
    · exact PRes.sim_ok _ h1

theorem parseIfExpr_sim {S : Parser → Parser → Prop} (hS : ParserSim S)
    {pe : ExprParser} (hpe : ∀ prec p q, S p q → PRes.Sim S (pe prec p) (pe prec q))
    (fuel : Nat) {p q : Parser} (h : S p q) :
    PRes.Sim S (parseIfExpr pe fuel p) (parseIfExpr pe fuel q) := by
  unfold parseIfExpr
  refine Parser.next_sim hS fuel h fun t p1 q1 h1 => ?_
  refine PRes.sim_bind (hpe _ _ _ h1) fun c p2 q2 h2 => ?_
  refine PRes.sim_bind (parseImplicitBlockExpr_sim hS hpe fuel h2) fun a p3 q3 h3 => ?_
  rw [hS.peek p3 q3 h3]
  split
  · refine Parser.next_sim hS fuel h3 fun t p4 q4 h4 => ?_
    exact PRes.sim_bind (parseImplicitBlockExpr_sim hS hpe fuel h4) fun b p5 q5 h5 =>
      PRes.sim_ok _ h5
  · exact PRes.sim_ok _ h3

theorem parseFuncExpr_sim {S : Parser → Parser → Prop} (hS : ParserSim S)
    {pe : ExprParser} (hpe : ∀ prec p q, S p q → PRes.Sim S (pe prec p) (pe prec q))
    (fuel : Nat) {p q : Parser} (h : S p q) :
    PRes.Sim S (parseFuncExpr pe fuel p) (parseFuncExpr pe fuel q) := by
  unfold parseFuncExpr
  refine Parser.next_sim hS fuel h fun t p1 q1 h1 => ?_
  refine PRes.sim_bind (parseCommaExprs_sim hS hpe fuel _ _ h1) fun ps p2 q2 h2 => ?_
  split
  · exact PRes.sim_err _ h2
  · simp only []
    rw [hS.peek p2 q2 h2]
    split
    · refine PRes.sim_bind (parseCommaExprs_sim hS hpe fuel _ _ h2) fun cs p3 q3 h3 => ?_
      split
      · exact PRes.sim_bind (parseImplicitBlockExpr_sim hS hpe fuel h3) fun b p4 q4 h4 =>
          PRes.sim_ok _ h4
      · exact PRes.sim_err _ h3
    · exact PRes.sim_bind (parseImplicitBlockExpr_sim hS hpe fuel h2) fun b p4 q4 h4 =>
        PRes.sim_ok _ h4

theorem parseIndexExpr_sim {S : Parser → Parser → Prop} (hS : ParserSim S)
    {pe : ExprParser} (hpe : ∀ prec p q, S p q → PRes.Sim S (pe prec p) (pe prec q))
    (fuel : Nat) {p q : Parser} (h : S p q) :
    PRes.Sim S (parseIndexExpr pe fuel p) (parseIndexExpr pe fuel q) := by
  unfold parseIndexExpr
  rw [hS.peek p q h]
  split
  · exact Parser.next_sim hS fuel h fun t p1 q1 h1 => PRes.sim_ok _ h1
  · refine Parser.expect_sim hS _ h ?_
    refine Parser.next_sim hS fuel h fun t p1 q1 h1 => ?_
    refine PRes.sim_bind (hpe _ _ _ h1) fun v p2 q2 h2 => ?_
    refine Parser.expect_sim hS _ h2 ?_
    exact Parser.next_sim hS fuel h2 fun t p3 q3 h3 => PRes.sim_ok _ h3

theorem tableLoop_sim {S : Parser → Parser → Prop} (hS : ParserSim S)
    {pe : ExprParser} (hpe : ∀ prec p q, S p q → PRes.Sim S (pe prec p) (pe prec q)) : ∀ (fuel : Nat) (pairs : List (Expression × Expression))
    {p q : Parser}, S p q →
    PRes.Sim S (tableLoop pe fuel pairs p) (tableLoop pe fuel pairs q) := by
  intro fuel
  induction fuel with
  | zero => intro pairs p q _; trivial
  | succ k ih =>
    intro pairs p q h
    rw [tableLoop, tableLoop, hS.peek p q h]
    split
    · refine PRes.sim_bind (parseIndexExpr_sim hS hpe k h) fun key p1 q1 h1 => ?_
      refine Parser.expect_sim hS _ h1 ?_
      refine Parser.next_sim hS k h1 fun t p2 q2 h2 => ?_
      refine PRes.sim_bind (hpe _ _ _ h2) fun v p3 q3 h3 => ?_
      rw [hS.peek p3 q3 h3]
      split
      · exact Parser.next_sim hS k h3 fun t p4 q4 h4 => ih _ h4
      · exact PRes.sim_ok _ h3
    · exact PRes.sim_ok _ h

theorem parseTableExpr_sim {S : Parser → Parser → Prop} (hS : ParserSim S)
    {pe : ExprParser} (hpe : ∀ prec p q, S p q → PRes.Sim S (pe prec p) (pe prec q))
    (fuel : Nat) {p q : Parser} (h : S p q) :
    PRes.Sim S (parseTableExpr pe fuel p) (parseTableExpr pe fuel q) := by
  unfold parseTableExpr
  refine Parser.next_sim hS fuel h fun t p1 q1 h1 => ?_
  refine Parser.expect_sim hS _ h1 ?_
  refine Parser.next_sim hS fuel h1 fun t p2 q2 h2 => ?_
  refine PRes.sim_bind (tableLoop_sim hS hpe fuel [] h2) fun v p3 q3 h3 => ?_
  refine Parser.expect_sim hS _ h3 ?_
  exact Parser.next_sim hS fuel h3 fun t p4 q4 h4 => PRes.sim_ok _ h4

theorem parseDotExpr_sim {S : Parser → Parser → Prop} (hS : ParserSim S)
    {pe : ExprParser} (hpe : ∀ prec p q, S p q → PRes.Sim S (pe prec p) (pe prec q))
    (fuel : Nat) (left : Expression) {p q : Parser} (h : S p q) :
    PRes.Sim S (parseDotExpr pe fuel left p) (parseDotExpr pe fuel left q) := by
  unfold parseDotExpr
  refine Parser.next_sim hS fuel h fun t p1 q1 h1 => ?_
  exact PRes.sim_bind (parseIndexExpr_sim hS hpe fuel h1) fun v p2 q2 h2 => PRes.sim_ok _ h2

theorem parseCallExpr_sim {S : Parser → Parser → Prop} (hS : ParserSim S)
    {pe : ExprParser} (hpe : ∀ prec p q, S p q → PRes.Sim S (pe prec p) (pe prec q))
    (fuel : Nat) (left : Expression) {p q : Parser} (h : S p q) :
    PRes.Sim S (parseCallExpr pe fuel left p) (parseCallExpr pe fuel left q) := by
  unfold parseCallExpr
  exact PRes.sim_bind (parseCommaExprs_sim hS hpe fuel _ _ h) fun v p2 q2 h2 => PRes.sim_ok _ h2

theorem parseForExpr_sim {S : Parser → Parser → Prop} (hS : ParserSim S)
    {pe : ExprParser} (hpe : ∀ prec p q, S p q → PRes.Sim S (pe prec p) (pe prec q))
    (fuel : Nat) {p q : Parser} (h : S p q) :
    PRes.Sim S (parseForExpr pe fuel p) (parseForExpr pe fuel q) := by
  unfold parseForExpr
  refine Parser.next_sim hS fuel h fun t p1 q1 h1 => ?_
  refine PRes.sim_bind (hpe _ _ _ h1) fun a p2 q2 h2 => ?_
  refine Parser.expect_sim hS _ h2 ?_
  refine Parser.next_sim hS fuel h2 fun t p3 q3 h3 => ?_
  refine PRes.sim_bind (hpe _ _ _ h3) fun b p4 q4 h4 => ?_
  refine Parser.expect_sim hS _ h4 ?_
  refine Parser.next_sim hS fuel h4 fun t p5 q5 h5 => ?_
  refine PRes.sim_bind (hpe _ _ _ h5) fun c p6 q6 h6 => ?_
  simp only []
  rw [hS.peek p6 q6 h6]
  split
  · refine Parser.next_sim hS fuel h6 fun t p7 q7 h7 => ?_
    exact PRes.sim_bind (parseImplicitBlockExpr_sim hS hpe fuel h7) fun b p8 q8 h8 =>
      PRes.sim_ok _ h8
  · exact PRes.sim_bind (parseImplicitBlockExpr_sim hS hpe fuel h6) fun b p8 q8 h8 =>
      PRes.sim_ok _ h8

theorem parsePackExpr_sim {S : Parser → Parser → Prop} (hS : ParserSim S)
    {pe : ExprParser} (hpe : ∀ prec p q, S p q → PRes.Sim S (pe prec p) (pe prec q))
    (fuel : Nat) {p q : Parser} (h : S p q) :
    PRes.Sim S (parsePackExpr pe fuel p) (parsePackExpr pe fuel q) := by
  unfold parsePackExpr
  exact PRes.sim_bind (parseCommaExprs_sim hS hpe fuel _ _ h) fun v p2 q2 h2 => PRes.sim_ok _ h2

theorem prefixCall_sim {S : Parser → Parser → Prop} (hS : ParserSim S)
    {pe : ExprParser} (hpe : ∀ prec p q, S p q → PRes.Sim S (pe prec p) (pe prec q))
    (fl : FloatOps) (fuel : Nat) (fn : PrefixParseFn) {p q : Parser}
    (h : S p q) : PRes.Sim S (fn.call fl pe fuel p) (fn.call fl pe fuel q) := by
  cases fn
  · exact parseInteger_sim hS fuel h
  · exact parseFloat_sim hS fl fuel h
  · exact parseBoolean_sim hS fuel h
  · exact parseString_sim hS fuel h
  · exact parseTableExpr_sim hS hpe fuel h
  · exact parsePackExpr_sim hS hpe fuel h
  · exact parseNil_sim hS fuel h
  · exact parserIdentifier_sim hS fuel h
  · exact parserReturnExpr_sim hS hpe fuel h
  · exact parserBreakExpr_sim hS hpe fuel h
  · exact parseGroupedExpr_sim hS hpe fuel h
  · exact parseBlockExpr_sim hS hpe fuel h
  · exact parseIfExpr_sim hS hpe fuel h
  · exact parseFuncExpr_sim hS hpe fuel h
  · exact parseForExpr_sim hS hpe fuel h
  · exact parseArithPrefixExpr_sim hS hpe fuel h

theorem infixCall_sim {S : Parser → Parser → Prop} (hS : ParserSim S)
    {pe : ExprParser} (hpe : ∀ prec p q, S p q → PRes.Sim S (pe prec p) (pe prec q))
    (fuel : Nat) (fn : InfixParseFn) (left : Expression)
    {p q : Parser} (h : S p q) :
    PRes.Sim S (fn.call pe fuel left p) (fn.call pe fuel left q) := by
  cases fn
  · exact parserDeclarationExpr_sim hS hpe fuel left h
  · exact parserAssignExpr_sim hS hpe fuel left h
  · exact parseCallExpr_sim hS hpe fuel left h
  · exact parseDotExpr_sim hS hpe fuel left h
  · exact parseArithInfixExpr_sim hS hpe fuel left h

theorem infixLoop_sim {S : Parser → Parser → Prop} (hS : ParserSim S)
    {pe : ExprParser} (hpe : ∀ prec p q, S p q → PRes.Sim S (pe prec p) (pe prec q))
    (cf : Nat) (prec : Precedence) : ∀ (fuel : Nat) (left : Expression)
    {p q : Parser}, S p q →
    PRes.Sim S (infixLoop pe cf prec fuel left p) (infixLoop pe cf prec fuel left q) := by
  intro fuel
  induction fuel with
  | zero => intro left p q _; trivial
  | succ k ih =>
    intro left p q h
    rw [infixLoop, infixLoop, hS.peek p q h]
    split
    · split
      · exact PRes.sim_ok _ h
      · exact PRes.sim_bind (infixCall_sim hS hpe cf _ left h) fun v p1 q1 h1 =>
          ih v h1
    · exact PRes.sim_ok _ h


/-- The method `parseExpr` respects every relation between parsers that
`nextToken` and the recording of parse errors respect: on related parsers it
returns the same expression, or the same error, and related parsers. -/
theorem parseExpr_sim {S : Parser → Parser → Prop} (hS : ParserSim S) (fl : FloatOps) :
    ∀ (fuel : Nat) (prec : Precedence) (p q : Parser), S p q →
      PRes.Sim S (parseExpr fl fuel prec p) (parseExpr fl fuel prec q) := by
  intro fuel
  induction fuel with
  | zero => intro prec p q _; trivial
  | succ k ih =>
    intro prec p q h
    rw [parseExpr, parseExpr, hS.peek p q h]
    split
    · exact Parser.next_sim hS k h fun t p1 q1 h1 => PRes.sim_err _ h1
    · exact PRes.sim_bind (prefixCall_sim hS ih fl k _ h) fun v p1 q1 h1 =>
        infixLoop_sim hS ih k prec k v h1

/-- The method `ParseProgram` respects every such relation. -/
theorem ParseProgram_sim {S : Parser → Parser → Prop} (hS : ParserSim S) (fl : FloatOps)
    (fuel : Nat) (p q : Parser) (h : S p q) :
    optSim S (ParseProgram fl fuel p) (ParseProgram fl fuel q) := by
  unfold ParseProgram
  cases hp : p.nextToken fuel with
  | none => trivial
  | some r =>
    obtain ⟨t, p1⟩ := r
    obtain ⟨q1, hq, h1⟩ := hS.next p q fuel t p1 h hp
    rw [hq]
    simp only []
    have hb := blockLoop_sim hS (parseExpr_sim hS fl fuel) .T_EOF fuel [] h1
    cases hbp : blockLoop (parseExpr fl fuel) .T_EOF fuel [] p1 with
    | none => trivial
    | some r2 =>
      obtain ⟨es, p2⟩ := r2
      rw [hbp] at hb
      cases hbq : blockLoop (parseExpr fl fuel) .T_EOF fuel [] q1 with
      | none => rw [hbq] at hb; exact False.elim hb
      | some r3 =>
        obtain ⟨es', q2⟩ := r3
        rw [hbq] at hb
        obtain ⟨hes, h2⟩ := hb
        subst hes
        simp only []
        cases hp3 : p2.nextToken fuel with
        | none => trivial
        | some r4 =>
          obtain ⟨t3, p3⟩ := r4
          obtain ⟨q3, hq3, h3⟩ := hS.next p2 q2 fuel t3 p3 h2 hp3
          rw [hq3]
          exact ⟨rfl, h3⟩
/-! ## Assignments and integer literals in the parser -/

/-- An identifier followed by `=` or `:=` and a right-hand side that
`parseExpr` reads at the lowest precedence: the result is the assignment of
the whole right-hand side to the identifier. -/
theorem parseExpr_assign_identifier (fl : FloatOps) {n m : Nat} {p0 p1 p2 p3 : Parser}
    {r : Expression} (ha : p0.peekToken.Typ = .T_IDENT)
    (h0 : p0.nextToken n = some (p0.peekToken, p1))
    (hop : p1.peekToken.Typ = .T_ASSIGN ∨ p1.peekToken.Typ = .T_DECLARATION)
    (h1 : p1.nextToken n = some (p1.peekToken, p2))
    (hr : parseExpr fl m LOWEST p2 = .ok r p3) (hn : n ≤ m) :
    parseExpr fl (m + 1) LOWEST p0 =
      .ok (assignNode p1.peekToken.Typ (.Identifier p0.peekToken.Message) r) p3 := by
  have hat : atomExpr fl p0.peekToken = some (.Identifier p0.peekToken.Message) := by
    simp [atomExpr, ha]
  have h2 := parseExpr_ok_fuel fl m LOWEST p2 p3 r hr
  obtain ⟨k, rfl⟩ : ∃ k, m = k + 2 := ⟨m - 2, by omega⟩
  rw [parseExpr_atom fl LOWEST hat h0 hn, infixLoop_assign _ (k + 1) (.Identifier p0.peekToken.Message) hop rfl h1 hn, hr,
    PRes.bindOk]
  exact infixLoop_stop _ _ _ _ _ _ (parseExpr_ok_stops fl _ LOWEST p2 p3 r hr)

theorem NextToken_digits (fuel : Nat) (d : List Nat) (hd : ∀ c ∈ d, isNumber c = true)
    (hne : d ≠ []) :
    Lexer.NextToken fuel { input := d, line := 1 } =
      some ({ Typ := .T_INT, Line := 1, Message := d }, { input := [], line := 1 }) := by
  cases d with
  | nil => exact absurd rfl hne
  | cons c rest =>
    rw [Lexer.NextToken_digit fuel 1 c rest (hd c (List.mem_cons_self _ _))]
    have := readNumberLoop_run 1 (c :: rest) [] hd rfl
    rw [List.append_nil] at this
    rw [this]
    simp [orZero]

/-- The parse of a source text that is a run of digits whose text
`strconv.ParseInt` converts to `v`: one integer expression and no error. -/
theorem parseSource_digits (fl : FloatOps) (k : Nat) (d : List Nat)
    (hd : ∀ c ∈ d, isNumber c = true) (hne : d ≠ []) (v : Int) (hv : ParseInt d = some v) :
    parseSource fl (k + 3) d =
      some ([.IntegerExpr v],
        { lexer := { input := [], line := 1 },
          peekToken := { Typ := .T_EOF, Line := 1, Message := str "EOF" },
          Errors := [] }) := by
  simp [parseSource, ParseProgram, Parser.nextToken, Parser.New, Lexer.New,
    NextToken_digits _ d hd hne, NextToken_nil, blockLoop, parseExpr, prefixParseFns,
    PrefixParseFn.call, parseInteger, Parser.next, hv, PRes.bind, infixLoop, tokenPrecedences,
    skipSemicolons, LOWEST]
/-! ## Illegal tokens are skipped by `nextToken` -/

theorem Lexer.Reaches_append {l l1 l2 : Lexer} {ts us : List Token}
    (h1 : Lexer.Reaches l ts l1) (h2 : Lexer.Reaches l1 us l2) :
    Lexer.Reaches l (ts ++ us) l2 := by
  induction h1 with
  | refl l => exact h2
  | step n l la lb t ts hn _ ih => exact Lexer.Reaches.step n l la _ t _ hn (ih h2)

theorem Parser.nextToken_skipSim {R : Lexer → Lexer → Prop} (hR : SkipsIllegal R) :
    ∀ (n : Nat) (p q : Parser) (t : Token) (p1 : Parser), R p.lexer q.lexer →
      (q.Errors = p.Errors.filter fun e => !e.isTokenError) →
      p.nextToken n = some (t, p1) →
      ∃ q1, q.nextToken n = some (q.peekToken, q1) ∧ skipSim R p1 q1 := by
  intro n
  induction n with
  | zero => intro p q t p1 _ _ h; exact absurd h (by simp [Parser.nextToken])
  | succ n ih =>
    intro p q t p1 hr he h
    rw [Parser.nextToken] at h
    cases hl : p.lexer.NextToken n with
    | none => rw [hl] at h; exact absurd h (by simp)
    | some r =>
      obtain ⟨t1, l1⟩ := r
      rw [hl] at h
      have hs := hR p.lexer q.lexer hr n t1 l1 hl
      by_cases hi : t1.Typ = .T_ILLEGAL
      · rw [if_pos hi] at hs
        simp only [hi, if_true] at h
        cases h2 : Parser.nextToken n { p with lexer := l1, peekToken := t1 } with
        | none => rw [h2] at h; exact absurd h (by simp)
        | some r2 =>
          obtain ⟨ill, p2⟩ := r2
          rw [h2] at h
          simp only [Option.some.injEq, Prod.mk.injEq] at h
          obtain ⟨_, hp1⟩ := h
          subst hp1
          obtain ⟨q1, hq, hpk, hr1, he1⟩ :=
            ih { p with lexer := l1, peekToken := t1 } q ill p2 hs he h2
          refine ⟨q1, Parser.nextToken_mono n (n + 1) q _ hq (Nat.le_succ n), hpk, hr1, ?_⟩
          simp [List.filter_append, ParserError.isTokenError, he1]
      · rw [if_neg hi] at hs
        simp only [hi, if_false] at h
        simp only [Option.some.injEq, Prod.mk.injEq] at h
        obtain ⟨_, hp1⟩ := h
        subst hp1
        obtain ⟨l1', hq, hr1⟩ := hs
        refine ⟨{ q with lexer := l1', peekToken := t1 }, ?_, rfl, hr1, he⟩
        rw [Parser.nextToken, hq]
        simp [hi]

/-- The relation `skipSim R` is respected by `nextToken` and by the recording
of parse errors. -/
theorem skipSim_parserSim {R : Lexer → Lexer → Prop} (hR : SkipsIllegal R) :
    ParserSim (skipSim R) := by
  refine ⟨fun _ _ h => h.1, fun p q n t p1 h hp => ?_, fun p q e h => ?_⟩
  · obtain ⟨q1, hq, hs⟩ := Parser.nextToken_skipSim hR n p q t p1 h.2.1 h.2.2 hp
    have ht : t = p.peekToken := Parser.nextToken_fst n p _ hp
    refine ⟨q1, ?_, hs⟩
    rw [hq, ht, h.1]
  · refine ⟨h.1, h.2.1, ?_⟩
    simp [List.filter_append, ParserError.isTokenError, h.2.2]

/-- What one call of `nextToken` does: it returns the old peek token, the
tokens it reads end in the new peek token, which is not illegal, the errors
recorded before stay, and each illegal token read has its `TokenError`. -/
theorem Parser.nextToken_reaches : ∀ (n : Nat) (p : Parser) (t : Token) (p1 : Parser),
    p.nextToken n = some (t, p1) →
    ∃ us, Lexer.Reaches p.lexer us p1.lexer ∧ p1.peekToken ∈ us ∧
      p1.peekToken.Typ ≠ .T_ILLEGAL ∧ (∀ e ∈ p.Errors, e ∈ p1.Errors) ∧
      ∀ u ∈ us, u.Typ = .T_ILLEGAL → ParserError.TokenError u ∈ p1.Errors := by
  intro n
  induction n with
  | zero => intro p t p1 h; exact absurd h (by simp [Parser.nextToken])
  | succ n ih =>
    intro p t p1 h
    rw [Parser.nextToken] at h
    cases hl : p.lexer.NextToken n with
    | none => rw [hl] at h; exact absurd h (by simp)
    | some r =>
      obtain ⟨t1, l1⟩ := r
      rw [hl] at h
      by_cases hi : t1.Typ = .T_ILLEGAL
      · simp only [hi, if_true] at h
        cases h2 : Parser.nextToken n { p with lexer := l1, peekToken := t1 } with
        | none => rw [h2] at h; exact absurd h (by simp)
        | some r2 =>
          obtain ⟨ill, p2⟩ := r2
          rw [h2] at h
          simp only [Option.some.injEq, Prod.mk.injEq] at h
          obtain ⟨_, hp1⟩ := h
          subst hp1
          have hill : ill = t1 := Parser.nextToken_fst n _ _ h2
          obtain ⟨us, hre, hmem, hne, hmono, hrec⟩ := ih _ ill p2 h2
          refine ⟨t1 :: us, Lexer.Reaches.step n _ l1 _ t1 us hl hre,
            List.mem_cons_of_mem _ hmem, hne, ?_, ?_⟩
          · intro e he
            exact List.mem_append_left _ (hmono e he)
          · intro u hu hui
            rcases List.mem_cons.mp hu with rfl | hu
            · rw [hill]
              exact List.mem_append_right _ (List.mem_singleton.mpr rfl)
            · exact List.mem_append_left _ (hrec u hu hui)
      · simp only [hi, if_false] at h
        simp only [Option.some.injEq, Prod.mk.injEq] at h
        obtain ⟨_, hp1⟩ := h
        subst hp1
        refine ⟨[t1], Lexer.Reaches.step n _ l1 _ t1 [] hl (Lexer.Reaches.refl _),
          List.mem_singleton.mpr rfl, hi, fun e he => he, ?_⟩
        intro u hu hui
        rw [List.mem_singleton.mp hu] at hui
        exact absurd hui hi

theorem recorded_nextToken {l0 : Lexer} {n : Nat} {p p1 : Parser} {t : Token}
    (h : ∃ ts, Lexer.Reaches l0 ts p.lexer ∧
      ∀ u ∈ ts, u.Typ = .T_ILLEGAL → ParserError.TokenError u ∈ p.Errors)
    (hp : p.nextToken n = some (t, p1)) : recorded l0 p1 := by
  obtain ⟨ts, hre, hrec⟩ := h
  obtain ⟨us, hre1, hmem, hne, hmono, hrec1⟩ := Parser.nextToken_reaches n p t p1 hp
  refine ⟨ts ++ us, Lexer.Reaches_append hre hre1, List.mem_append_right _ hmem, hne, ?_⟩
  intro u hu hui
  rcases List.mem_append.mp hu with hu | hu
  · exact hmono _ (hrec u hu hui)
  · exact hrec1 u hu hui

/-- The parsers that have recorded their illegal tokens, related to
themselves, are respected by `nextToken` and by the recording of parse
errors. -/
theorem recorded_parserSim (l0 : Lexer) :
    ParserSim fun p q => p = q ∧ recorded l0 p := by
  refine ⟨fun _ _ h => by rw [h.1], fun p q n t p1 h hp => ?_, fun p q e h => ?_⟩
  · obtain ⟨hpq, ts, hre, _, _, hrec⟩ := h
    subst hpq
    exact ⟨p1, hp, rfl, recorded_nextToken ⟨ts, hre, hrec⟩ hp⟩
  · obtain ⟨hpq, ts, hre, hmem, hne, hrec⟩ := h
    subst hpq
    exact ⟨rfl, ts, hre, hmem, hne, fun u hu hui => List.mem_append_left _ (hrec u hu hui)⟩

theorem blockLoop_peek (pe : ExprParser) (stop : TokenType) : ∀ (fuel : Nat)
    (exprs : List Expression) (p : Parser) (r : List Expression × Parser),
    blockLoop pe stop fuel exprs p = some r → r.2.peekToken.Typ = stop := by
  intro fuel
  induction fuel with
  | zero => intro exprs p r h; exact absurd h (by simp [blockLoop])
  | succ k ih =>
    intro exprs p r h
    rw [blockLoop] at h
    split at h
    · cases hp : pe LOWEST p with
      | timeout => rw [hp] at h; exact absurd h (by simp)
      | err e p1 =>
        rw [hp] at h
        simp only [] at h
        cases hs : skipSemicolons k { p1 with Errors := p1.Errors ++ [.ParseError e] } with
        | none => rw [hs] at h; exact absurd h (by simp)
        | some p2 => rw [hs] at h; exact ih _ _ _ h
      | ok v p1 =>
        rw [hp] at h
        simp only [] at h
        cases hs : skipSemicolons k p1 with
        | none => rw [hs] at h; exact absurd h (by simp)
        | some p2 => rw [hs] at h; exact ih _ _ _ h
    · rename_i hstop
      simp only [Option.some.injEq] at h
      subst h
      exact not_not.mp hstop

theorem illegalExample_skips : SkipsIllegal illegalExample := by
  intro l l' h n t l1 hn
  rcases h with ⟨rfl, rfl⟩ | ⟨rfl, rfl⟩ | ⟨rfl, rfl⟩ | ⟨rfl, rfl⟩ | ⟨rfl, rfl⟩
  · have e : Lexer.NextToken n (Lexer.New (str "1 + @ 2")) =
        some (⟨.T_INT, 1, str "1"⟩, ⟨str " + @ 2", 1⟩) := rfl
    rw [e] at hn
    simp only [Option.some.injEq, Prod.mk.injEq] at hn
    obtain ⟨rfl, rfl⟩ := hn
    rw [if_neg (by decide)]
    exact ⟨⟨str " + 2", 1⟩, rfl, Or.inr (Or.inl ⟨rfl, rfl⟩)⟩
  · have e : Lexer.NextToken n ⟨str " + @ 2", 1⟩ =
        some (⟨.T_PLUS, 1, []⟩, ⟨str " @ 2", 1⟩) := rfl
    rw [e] at hn
    simp only [Option.some.injEq, Prod.mk.injEq] at hn
    obtain ⟨rfl, rfl⟩ := hn
    rw [if_neg (by decide)]
    exact ⟨⟨str " 2", 1⟩, rfl, Or.inr (Or.inr (Or.inl ⟨rfl, rfl⟩))⟩
  · have e : Lexer.NextToken n ⟨str " @ 2", 1⟩ =
        some (⟨.T_ILLEGAL, 1, []⟩, ⟨str " 2", 1⟩) := rfl
    rw [e] at hn
    simp only [Option.some.injEq, Prod.mk.injEq] at hn
    obtain ⟨rfl, rfl⟩ := hn
    rw [if_pos (by decide)]
    exact Or.inr (Or.inr (Or.inr (Or.inl ⟨rfl, rfl⟩)))
  · have e : Lexer.NextToken n ⟨str " 2", 1⟩ =
        some (⟨.T_INT, 1, str "2"⟩, ⟨[], 1⟩) := rfl
    rw [e] at hn
    simp only [Option.some.injEq, Prod.mk.injEq] at hn
    obtain ⟨rfl, rfl⟩ := hn
    rw [if_neg (by decide)]
    exact ⟨⟨[], 1⟩, rfl, Or.inr (Or.inr (Or.inr (Or.inr ⟨rfl, rfl⟩)))⟩
  · have e : Lexer.NextToken n ⟨[], 1⟩ =
        some (⟨.T_EOF, 1, str "EOF"⟩, ⟨[], 1⟩) := rfl
    rw [e] at hn
    simp only [Option.some.injEq, Prod.mk.injEq] at hn
    obtain ⟨rfl, rfl⟩ := hn
    rw [if_neg (by decide)]
    exact ⟨⟨[], 1⟩, rfl, Or.inr (Or.inr (Or.inr (Or.inr ⟨rfl, rfl⟩)))⟩
/-! ## If and block -/

/-- C23, failing input.  An `if` without alternative whose condition is falsy
returns the content of the package variable `NilObj`, which the program has
overwritten through a parameter without argument: after
`f := func(a){ a = 5 }; f()` the expression `if false { 1 }` yields the
Integer 5, not Nil. -/
theorem if_without_else_after_overwritten_nil :
    (runSource bitsOps 40 "f := func(a){ a = 5 }; f(); return if false { 1 }").map
      (fun r => (r.1.value?, r.2)) = some (some (.IntegerObj 5), 0) := by
  decide!

/-- C24, failing input.  A block without escape returns the content of the
package variable `NilObj`, which the program has overwritten through a
parameter without argument: after `f := func(a){ a = 5 }; f()` the block
`{ 1 }` yields the Integer 5, not Nil. -/
theorem block_value_after_overwritten_nil :
    (runSource bitsOps 40 "f := func(a){ a = 5 }; f(); return { 1 }").map
      (fun r => (r.1.value?, r.2)) = some (some (.IntegerObj 5), 0) := by
  decide!
/-! ## Operator precedence -/

/-- C25.  Let the parser stand at an atom `a` that is followed by a binary
operator `op1`, an atom `b`, a binary operator `op2`, an atom `c` and a token
that no loop of `parseExpr` continues with (a token without precedence or
without infix handler), the tokens being those that `nextToken` returns with
`n` units of fuel.  With three more units of fuel, `parseExpr` at the lowest
precedence returns `a op1 (b op2 c)` when the precedence of `op2` in
`tokenPrecedences` is strictly higher than that of `op1`, and
`(a op1 b) op2 c` otherwise, in particular for two operators of equal
precedence; all the tokens are read.  The precedences of the twelve binary
operators are those of the ladder `OR < AND < EQUALS < COMPARE < SUM <
PRODUCT`. -/
theorem precedence_grouping (fl : FloatOps) (n m : Nat) (p0 p1 p2 p3 p4 p5 : Parser)
    (a b c : Expression)
    (ha : atomExpr fl p0.peekToken = some a) (h0 : p0.nextToken n = some (p0.peekToken, p1))
    (hop1 : isInfixOperator p1.peekToken.Typ = true)
    (h1 : p1.nextToken n = some (p1.peekToken, p2))
    (hb : atomExpr fl p2.peekToken = some b) (h2 : p2.nextToken n = some (p2.peekToken, p3))
    (hop2 : isInfixOperator p3.peekToken.Typ = true)
    (h3 : p3.nextToken n = some (p3.peekToken, p4))
    (hc : atomExpr fl p4.peekToken = some c) (h4 : p4.nextToken n = some (p4.peekToken, p5))
    (hend : tokenPrecedences p5.peekToken.Typ = 0 ∨ infixParseFns p5.peekToken.Typ = none)
    (hm : n + 3 ≤ m) :
    parseExpr fl m LOWEST p0 =
      .ok (if tokenPrecedences p1.peekToken.Typ < tokenPrecedences p3.peekToken.Typ then
          .ArithInfixExpr p1.peekToken.Typ a (.ArithInfixExpr p3.peekToken.Typ b c)
        else .ArithInfixExpr p3.peekToken.Typ (.ArithInfixExpr p1.peekToken.Typ a b) c) p5 ∧
    (tokenPrecedences .T_OR = OR ∧ tokenPrecedences .T_AND = AND ∧
      tokenPrecedences .T_EQ = EQUALS ∧ tokenPrecedences .T_NEQ = EQUALS ∧
      tokenPrecedences .T_LE = EQUALS ∧ tokenPrecedences .T_GE = EQUALS ∧
      tokenPrecedences .T_LT = COMPARE ∧ tokenPrecedences .T_GT = COMPARE ∧
      tokenPrecedences .T_PLUS = SUM ∧ tokenPrecedences .T_MINUS = SUM ∧
      tokenPrecedences .T_ASTERISK = PRODUCT ∧ tokenPrecedences .T_SLASH = PRODUCT) ∧
    (OR < AND ∧ AND < EQUALS ∧ EQUALS < COMPARE ∧ COMPARE < SUM ∧ SUM < PRODUCT) := by
  refine ⟨?_, ⟨rfl, rfl, rfl, rfl, rfl, rfl, rfl, rfl, rfl, rfl, rfl, rfl⟩, by decide⟩
  have hn1 := Parser.nextToken_pos h0
  obtain ⟨g, rfl⟩ : ∃ g, m = g + 4 := ⟨m - 4, by omega⟩
  have hstop : ∀ prec, p5.StopsAt prec := by
    intro prec
    rcases hend with h | h
    · exact Or.inl (by rw [h]; exact Nat.zero_le _)
    · exact Or.inr h
  have hp1 := (isInfixOperator_fn hop1).2
  have hp2 := (isInfixOperator_fn hop2).2
  have hpos1 : LOWEST < tokenPrecedences p1.peekToken.Typ :=
    Nat.lt_of_lt_of_le (by decide : LOWEST < 2) hp1
  have hpos2 : LOWEST < tokenPrecedences p3.peekToken.Typ :=
    Nat.lt_of_lt_of_le (by decide : LOWEST < 2) hp2
  have e1 : n ≤ g + 1 := by omega
  have e2 : n ≤ g + 2 := by omega
  have e3 : n ≤ g + 3 := by omega
  rw [parseExpr_atom fl LOWEST ha h0 e3, infixLoop_arith _ LOWEST (g + 2) a hop1 hpos1 h1 e3,
    parseExpr_atom fl _ hb h2 e2]
  by_cases hlt : tokenPrecedences p1.peekToken.Typ < tokenPrecedences p3.peekToken.Typ
  · rw [if_pos hlt, infixLoop_arith _ _ (g + 1) b hop2 hlt h3 e2,
      parseExpr_atom_stop fl _ hc h4 e1 (hstop _), PRes.bindOk,
      infixLoop_stop _ _ _ _ _ _ (hstop _), PRes.bindOk,
      infixLoop_stop _ _ _ _ _ _ (hstop _)]
  · rw [if_neg hlt, infixLoop_stop _ _ _ _ _ _ (Or.inl (Nat.not_lt.mp hlt)), PRes.bindOk,
      infixLoop_arith _ LOWEST (g + 1) _ hop2 hpos2 h3 e3,
      parseExpr_atom_stop fl _ hc h4 e2 (hstop _), PRes.bindOk,
      infixLoop_stop _ _ _ _ _ _ (hstop _)]

/-- C25, witness: `1 + 2 * 3` is grouped as `1 + (2 * 3)` and `1 - 2 - 3` as
`(1 - 2) - 3`; the programs that return them evaluate to 7 and to -4. -/
theorem precedence_grouping_witness :
    parseExpr bitsOps 12 LOWEST (parserAfter "1 + 2 * 3" 1) =
      .ok (.ArithInfixExpr .T_PLUS (.IntegerExpr 1)
        (.ArithInfixExpr .T_ASTERISK (.IntegerExpr 2) (.IntegerExpr 3)))
        (parserAfter "1 + 2 * 3" 6) ∧
    parseExpr bitsOps 12 LOWEST (parserAfter "1 - 2 - 3" 1) =
      .ok (.ArithInfixExpr .T_MINUS (.ArithInfixExpr .T_MINUS (.IntegerExpr 1)
        (.IntegerExpr 2)) (.IntegerExpr 3)) (parserAfter "1 - 2 - 3" 6) ∧
    (runSource bitsOps 40 "return 1 + 2 * 3").map (fun r => (r.1.value?, r.2)) =
      some (some (.IntegerObj 7), 0) ∧
    (runSource bitsOps 40 "return 1 - 2 - 3").map (fun r => (r.1.value?, r.2)) =
      some (some (.IntegerObj (-4)), 0) :=
  ⟨(precedence_grouping bitsOps 9 12 (parserAfter "1 + 2 * 3" 1) (parserAfter "1 + 2 * 3" 2)
      (parserAfter "1 + 2 * 3" 3) (parserAfter "1 + 2 * 3" 4) (parserAfter "1 + 2 * 3" 5)
      (parserAfter "1 + 2 * 3" 6) (.IntegerExpr 1) (.IntegerExpr 2) (.IntegerExpr 3)
      rfl rfl rfl rfl rfl rfl rfl rfl rfl rfl (Or.inl rfl) (by decide)).1,
    (precedence_grouping bitsOps 9 12 (parserAfter "1 - 2 - 3" 1) (parserAfter "1 - 2 - 3" 2)
      (parserAfter "1 - 2 - 3" 3) (parserAfter "1 - 2 - 3" 4) (parserAfter "1 - 2 - 3" 5)
      (parserAfter "1 - 2 - 3" 6) (.IntegerExpr 1) (.IntegerExpr 2) (.IntegerExpr 3)
      rfl rfl rfl rfl rfl rfl rfl rfl rfl rfl (Or.inl rfl) (by decide)).1,
    by decide!, by decide!⟩

/-! ## Assignments in the parser -/

/-- C26.  Let the parser stand at an identifier `a` that is followed by `=`
or `:=`, an identifier `b`, `=` or `:=` again, and a right-hand side that
`parseExpr` at the lowest precedence reads as the expression `c`, up to the
parser `p5`.  Then `b op2 c` is parsed, from the second identifier, to the
assignment node of `b` and the whole of `c`, and the chain `a op1 b op2 c` to
the assignment node of `a` and that node: the right-hand side of an assignment
is read at the lowest precedence, so it extends over every operator that
follows, another assignment included. -/
theorem assignment_right_associative (fl : FloatOps) (n m : Nat) (p0 p1 p2 p3 p4 p5 : Parser)
    (c : Expression)
    (ha : p0.peekToken.Typ = .T_IDENT) (h0 : p0.nextToken n = some (p0.peekToken, p1))
    (hop1 : p1.peekToken.Typ = .T_ASSIGN ∨ p1.peekToken.Typ = .T_DECLARATION)
    (h1 : p1.nextToken n = some (p1.peekToken, p2))
    (hb : p2.peekToken.Typ = .T_IDENT) (h2 : p2.nextToken n = some (p2.peekToken, p3))
    (hop2 : p3.peekToken.Typ = .T_ASSIGN ∨ p3.peekToken.Typ = .T_DECLARATION)
    (h3 : p3.nextToken n = some (p3.peekToken, p4))
    (hc : parseExpr fl m LOWEST p4 = .ok c p5) (hn : n ≤ m) :
    parseExpr fl (m + 1) LOWEST p2 =
      .ok (assignNode p3.peekToken.Typ (.Identifier p2.peekToken.Message) c) p5 ∧
    parseExpr fl (m + 2) LOWEST p0 =
      .ok (assignNode p1.peekToken.Typ (.Identifier p0.peekToken.Message)
        (assignNode p3.peekToken.Typ (.Identifier p2.peekToken.Message) c)) p5 := by
  have hbc := parseExpr_assign_identifier fl hb h2 hop2 h3 hc hn
  exact ⟨hbc, parseExpr_assign_identifier fl ha h0 hop1 h1 hbc (by omega)⟩

/-- C26, witness: the chains `a = b = c`, `a := b = c + 1` and the
assignment `a = 1 + 2`. -/
theorem assignment_right_associative_witness :
    (parseExpr bitsOps 11 LOWEST (parserAfter "a = b = c" 3) =
        .ok (.AssignExpr (.Identifier (str "b")) (.Identifier (str "c")))
          (parserAfter "a = b = c" 6) ∧
      parseExpr bitsOps 12 LOWEST (parserAfter "a = b = c" 1) =
        .ok (.AssignExpr (.Identifier (str "a"))
          (.AssignExpr (.Identifier (str "b")) (.Identifier (str "c"))))
          (parserAfter "a = b = c" 6)) ∧
    (parseSource bitsOps 40 (str "a := b = c + 1")).map (fun b => (b.1, b.2.Errors)) =
      some ([.DeclarationExpr (.Identifier (str "a")) (.AssignExpr (.Identifier (str "b"))
        (.ArithInfixExpr .T_PLUS (.Identifier (str "c")) (.IntegerExpr 1)))], []) ∧
    (parseSource bitsOps 40 (str "a = 1 + 2")).map (fun b => (b.1, b.2.Errors)) =
      some ([.AssignExpr (.Identifier (str "a"))
        (.ArithInfixExpr .T_PLUS (.IntegerExpr 1) (.IntegerExpr 2))], []) :=
  ⟨assignment_right_associative bitsOps 9 10 (parserAfter "a = b = c" 1)
      (parserAfter "a = b = c" 2) (parserAfter "a = b = c" 3) (parserAfter "a = b = c" 4)
      (parserAfter "a = b = c" 5) (parserAfter "a = b = c" 6) (.Identifier (str "c"))
      rfl rfl (Or.inl rfl) rfl rfl rfl (Or.inl rfl) rfl rfl (by decide), rfl, rfl⟩

/-- C27, failing input.  `PackExpr.IsAssignable` accepts a pack element only
when it is an identifier or an assignable pack: an index expression, which
`IndexExpr.IsAssignable` accepts on its own, is refused as an element.  The
sources `[t.a, x] = [1, 2]` and `[t.a, x] := [1, 2]` are parsed with the
error "left expression can't assign" and without assignment node (the
right-hand side is then parsed as an expression of its own), while `t.a = 1`
and `[[a], x] = 1` are accepted; and the evaluator, given the assignment to
the pack `[t.a, x]` as a tree, performs it: `declareAssignHelper` handles an
index target in a pack. -/
theorem pack_with_index_target_refused :
    notAssignable (.PackExpr [.IndexExpr (.Identifier (str "t")) (.StringExpr (str "a")),
      .Identifier (str "x")]) = true ∧
    (parseSource bitsOps 40 (str "[t.a, x] = [1, 2]")).map (fun b => (b.1, b.2.Errors)) =
      some ([.PackExpr [.IntegerExpr 1, .IntegerExpr 2]],
        [.ParseError ⟨some ⟨.T_ASSIGN, 1, []⟩, .T_NONE,
          "Assign’s left expression can't assign"⟩]) ∧
    (parseSource bitsOps 40 (str "[t.a, x] := [1, 2]")).map (fun b => (b.1, b.2.Errors)) =
      some ([.PackExpr [.IntegerExpr 1, .IntegerExpr 2]],
        [.ParseError ⟨some ⟨.T_DECLARATION, 1, []⟩, .T_NONE,
          "Declaration’s left expression can't assign"⟩]) ∧
    (parseSource bitsOps 40 (str "t.a = 1")).map (fun b => (b.1, b.2.Errors)) =
      some ([.AssignExpr (.IndexExpr (.Identifier (str "t")) (.StringExpr (str "a")))
        (.IntegerExpr 1)], []) ∧
    (parseSource bitsOps 40 (str "[[a], x] = 1")).map (fun b => (b.1, b.2.Errors)) =
      some ([.AssignExpr (.PackExpr [.PackExpr [.Identifier (str "a")], .Identifier (str "x")])
        (.IntegerExpr 1)], []) ∧
    (evalFuncBlockExpr (Eval bitsOps 10)
      [.AssignExpr (.PackExpr [.IndexExpr (.Identifier (str "t")) (.StringExpr (str "a")),
          .Identifier (str "x")]) (.PackExpr [.IntegerExpr 1, .IntegerExpr 2]),
        .ReturnExpr (.ArithInfixExpr .T_PLUS
          (.IndexExpr (.Identifier (str "t")) (.StringExpr (str "a"))) (.Identifier (str "x")))]
      0 (Environment.SetNewObj tableMemory 0 (str "x") (.IntegerObj 0))).value? =
      some (.IntegerObj 3) :=
  ⟨rfl, rfl, rfl, rfl, rfl, by decide!⟩

/-! ## Integer literals -/

/-- C28 as amended.  Let `d` be a non-empty run of decimal digits that is `0`
itself or does not begin with `0`, whose decimal value `n` fits in a signed
64-bit integer.  With at least three units of fuel, lexing and parsing the
source text `d` yields the one expression Integer `n` and no parse error, and
evaluating this expression yields the Integer object `n`. -/
theorem integer_literal_value (fl : FloatOps) (k j : Nat) (d : List Nat) (env : Nat)
    (st : State) (hd : ∀ c ∈ d, isNumber c = true) (hne : d ≠ [])
    (hzero : d = [48] ∨ d.head? ≠ some 48) (hfit : specDecimalValue d < 2 ^ 63) :
    ∃ p, parseSource fl (k + 3) d = some ([.IntegerExpr (specDecimalValue d : Int)], p) ∧
      p.Errors = [] ∧ p.AtEOF ∧
      Eval fl (j + 1) (.IntegerExpr (specDecimalValue d : Int)) env st =
        .ok (.IntegerObj (specDecimalValue d : Int)) st :=
  ⟨_, parseSource_digits fl k d hd hne _ (ParseInt_decimal d hd hne hzero hfit), rfl,
    ⟨rfl, rfl⟩, rfl⟩

/-- C28 as amended, witness: the literals `10` and `0`. -/
theorem integer_literal_value_witness :
    (∃ p, parseSource bitsOps 3 (str "10") = some ([.IntegerExpr 10], p) ∧
      p.Errors = [] ∧ p.AtEOF ∧
      Eval bitsOps 1 (.IntegerExpr 10) 0 State.init = .ok (.IntegerObj 10) State.init) ∧
    ∃ p, parseSource bitsOps 3 (str "0") = some ([.IntegerExpr 0], p) ∧
      p.Errors = [] ∧ p.AtEOF ∧
      Eval bitsOps 1 (.IntegerExpr 0) 0 State.init = .ok (.IntegerObj 0) State.init :=
  ⟨integer_literal_value bitsOps 0 0 (str "10") 0 State.init (by decide) (by decide)
      (Or.inr (by decide)) (by decide),
    integer_literal_value bitsOps 0 0 (str "0") 0 State.init (by decide) (by decide)
      (Or.inl rfl) (by decide)⟩

/-- C28, counterexample.  `parseInteger` converts the text with
`strconv.ParseInt(token.Message, 0, 64)`, and base 0 reads a leading `0` as
the mark of base 8: the run `010`, of decimal value 10, is parsed to the
Integer 8 and evaluates to 8, and the run `08`, of decimal value 8, is a parse
error and gives no expression. -/
theorem integer_literal_leading_zero_counterexample :
    specDecimalValue (str "010") = 10 ∧
    (parseSource bitsOps 40 (str "010")).map (fun b => (b.1, b.2.Errors)) =
      some ([.IntegerExpr 8], []) ∧
    (runSource bitsOps 40 "return 010").map (fun r => (r.1.value?, r.2)) =
      some (some (.IntegerObj 8), 0) ∧
    specDecimalValue (str "08") = 8 ∧
    (parseSource bitsOps 40 (str "08")).map (fun b => (b.1, b.2.Errors)) =
      some ([], [.ParseError ⟨some ⟨.T_INT, 1, str "08"⟩, .T_INT, "parseInt error"⟩]) :=
  ⟨by decide, rfl, by decide!, by decide, rfl⟩

/-! ## Float and string literals in the lexer -/

/-- C29.  Let `a` and `b` be runs of digits, not both empty, and let the
input `rest` after them be empty or begin with a byte that is neither a digit
nor a dot.  On the input `a.b` followed by `rest`, `NextToken` returns one
FLOAT token whose text is `a`, or `0` when `a` is empty, then a dot, then `b`,
or `0` when `b` is empty, and leaves the lexer at `rest`.  On a dot that no
digit follows, at the start of a token, `NextToken` returns the DOT token. -/
theorem float_literal_lexing (fuel line : Nat) (a b rest : List Nat)
    (ha : ∀ c ∈ a, isNumber c = true) (hb : ∀ c ∈ b, isNumber c = true)
    (hab : a ≠ [] ∨ b ≠ []) (hrest : endsNumber rest = true) :
    Lexer.NextToken fuel { input := a ++ 46 :: (b ++ rest), line := line } =
      some ({ Typ := .T_FLOAT, Line := line, Message := orZero a ++ [46] ++ orZero b },
        { input := rest, line := line }) ∧
    ∀ tail : List Nat, (∀ c ∈ tail.head?, isNumber c = false) →
      Lexer.NextToken fuel { input := 46 :: tail, line := line } =
        some ({ Typ := .T_DOT, Line := line, Message := [] },
          { input := tail, line := line }) := by
  constructor
  · cases a with
    | nil =>
      cases b with
      | nil => simp at hab
      | cons d b =>
        have hd := hb d (List.mem_cons_self _ _)
        rw [List.nil_append, Lexer.NextToken_dot, List.cons_append]
        simp only [Lexer.peekChar, hd, if_true]
        have := readNumberLoop_run line (d :: b) rest hb hrest
        rw [List.cons_append] at this
        rw [this]
        simp [floatToken, orZero]
    | cons c a =>
      rw [List.cons_append, Lexer.NextToken_digit fuel line c _ (ha c (List.mem_cons_self _ _))]
      have := readNumberLoop_float line (c :: a) b rest ha hb hrest
      rw [List.cons_append] at this
      rw [this]
      simp [orZero]
  · intro tail htail
    rw [Lexer.NextToken_dot]
    cases tail with
    | nil => rfl
    | cons c r =>
      have hc : isNumber c = false := htail c rfl
      simp [Lexer.peekChar, hc]

/-- C29, witness: `10.` gives the text `10.0`, `.10` the text `0.10`, `1.5x`
the text `1.5` with the lexer left at `x`, and `.x` the DOT token. -/
theorem float_literal_lexing_witness :
    Lexer.NextToken 1 { input := str "10.", line := 1 } =
      some ({ Typ := .T_FLOAT, Line := 1, Message := str "10.0" }, { input := [], line := 1 }) ∧
    Lexer.NextToken 1 { input := str ".10", line := 1 } =
      some ({ Typ := .T_FLOAT, Line := 1, Message := str "0.10" }, { input := [], line := 1 }) ∧
    Lexer.NextToken 1 { input := str "1.5x", line := 1 } =
      some ({ Typ := .T_FLOAT, Line := 1, Message := str "1.5" },
        { input := str "x", line := 1 }) ∧
    Lexer.NextToken 1 { input := str ".x", line := 1 } =
      some ({ Typ := .T_DOT, Line := 1, Message := [] }, { input := str "x", line := 1 }) :=
  ⟨(float_literal_lexing 1 1 (str "10") [] [] (by decide) (by decide) (Or.inl (by decide))
      rfl).1,
    (float_literal_lexing 1 1 [] (str "10") [] (by decide) (by decide) (Or.inr (by decide))
      rfl).1,
    (float_literal_lexing 1 1 (str "1") (str "5") (str "x") (by decide) (by decide)
      (Or.inl (by decide)) rfl).1,
    (float_literal_lexing 1 1 (str "1") [] [] (by decide) (by decide) (Or.inl (by decide))
      rfl).2 (str "x") (by decide)⟩

/-- C30.  For every byte string `s` without the double quote (byte 34) and
every input `rest` after the closing quote, `NextToken` on the input quote,
`s`, quote, `rest` returns, with more units of fuel than `s` has bytes, one
STRING token whose text is `s` byte for byte, on the line of the lexer, and
leaves the lexer at `rest`, just after the closing quote. -/
theorem string_literal_lexing (fuel line : Nat) (s rest : List Nat) (hs : 34 ∉ s)
    (hfuel : s.length < fuel) :
    Lexer.NextToken fuel { input := 34 :: (s ++ 34 :: rest), line := line } =
      some ({ Typ := .T_STRING, Line := line, Message := s },
        { input := rest, line := line }) := by
  have h : Lexer.NextToken fuel { input := 34 :: (s ++ 34 :: rest), line := line } =
      Lexer.readString fuel { input := 34 :: (s ++ 34 :: rest), line := line } := rfl
  rw [h]
  simp [Lexer.readString, Lexer.readChar, readStringLoop_run s rest line hs fuel [] hfuel,
    Lexer.newToken]

/-- C30, witness: a string with a backslash and a line feed, kept verbatim. -/
theorem string_literal_lexing_witness :
    Lexer.NextToken 6 { input := 34 :: ([97, 92, 110, 10, 99] ++ 34 :: [32, 120]), line := 1 } =
      some ({ Typ := .T_STRING, Line := 1, Message := [97, 92, 110, 10, 99] },
        { input := [32, 120], line := 1 }) :=
  string_literal_lexing 6 1 [97, 92, 110, 10, 99] [32, 120] (by decide) (by decide)
/-! ## Lookups along the chain of scopes -/

theorem GetLoop_eq_specLookup (envs : List Environment) (x : GoString)
    (hdec : ∀ (i : Nat) (env : Environment), envs[i]? = some env → ∀ o ∈ env.Outer, o < i)
    (e : Nat) (chain : List Environment) (h : ScopeChain envs e chain) :
    ∀ k, e < k → Environment.GetLoop envs x k (some e) = specLookup x chain := by
  induction h with
  | last e env he ho =>
    intro k hk
    obtain ⟨j, rfl⟩ : ∃ j, k = j + 1 := ⟨k - 1, by omega⟩
    simp only [Environment.GetLoop, he, specLookup, ho]
    cases mapGet x env.LocalVars with
    | some c => rfl
    | none => exact Environment.GetLoop_none _ _ _
  | cons e o env rest he ho _ ih =>
    intro k hk
    obtain ⟨j, rfl⟩ : ∃ j, k = j + 1 := ⟨k - 1, by omega⟩
    have hlt : o < e := hdec e env he o (by simp [ho])
    simp only [Environment.GetLoop, he, specLookup, ho]
    cases mapGet x env.LocalVars with
    | some c => rfl
    | none => exact ih j (by omega)

/-- In a well-formed memory every environment has a chain of scopes. -/
theorem ScopeChain_exists {st : State} (hwf : st.WF) :
    ∀ e, e < st.envs.length → ∃ chain, ScopeChain st.envs e chain := by
  intro e
  induction e using Nat.strong_induction_on with
  | _ e ih =>
    intro he
    obtain ⟨env, henv⟩ : ∃ env, st.envs[e]? = some env := ⟨st.envs[e], by simp [he]⟩
    cases ho : env.Outer with
    | none => exact ⟨[env], .last e env henv ho⟩
    | some o =>
      have hlt : o < e := hwf.outer_lt e env henv o (by simp [ho])
      obtain ⟨rest, hrest⟩ := ih o hlt (by omega)
      exact ⟨env :: rest, .cons e o env rest henv ho hrest⟩

theorem Encloses_lt {st : State} (hwf : st.WF) {outer inner : Nat}
    (h : Encloses st.envs outer inner) : outer < inner := by
  induction h with
  | direct inner env he ho => exact hwf.outer_lt inner env he _ (by simp [ho])
  | step mid inner env he ho _ ih =>
    have := hwf.outer_lt inner env he mid (by simp [ho])
    omega

theorem specLookup_append (x : GoString) (pre rest : List Environment)
    (h : ∀ env ∈ pre, mapGet x env.LocalVars = none) :
    specLookup x (pre ++ rest) = specLookup x rest := by
  induction pre with
  | nil => rfl
  | cons env pre ih =>
    rw [List.cons_append, specLookup, h env (List.mem_cons_self _ _)]
    exact ih fun e he => h e (List.mem_cons_of_mem _ he)
/-! ## Keys and bodies in the parser -/

theorem Parser.expect_pos {α : Type} (p : Parser) (tt : TokenType) (k : PRes α)
    (h : p.peekToken.Typ = tt) : p.expect tt k = k := by
  simp [Parser.expect, Parser.checkPeekToken, h]

/-- The method `parseIndexExpr` at an identifier: the string expression with
the text of the identifier, whatever `parseEntireExpr` does. -/
theorem parseIndexExpr_identifier (pe : ExprParser) {n f : Nat} {p r : Parser}
    (hp : p.peekToken.Typ = .T_IDENT) (hpn : p.nextToken n = some (p.peekToken, r))
    (hf : n ≤ f) : parseIndexExpr pe f p = .ok (.StringExpr p.peekToken.Message) r := by
  unfold parseIndexExpr
  rw [if_pos hp, Parser.next_of_nextToken _ hpn hf]

/-- The method `parseIndexExpr` at a bracketed string literal. -/
theorem parseIndexExpr_bracket_string (fl : FloatOps) {n m f : Nat} {q q1 q2 r : Parser}
    (hq : q.peekToken.Typ = .T_LBRACKET) (hqn : q.nextToken n = some (q.peekToken, q1))
    (hq1 : q1.peekToken.Typ = .T_STRING) (hq1n : q1.nextToken n = some (q1.peekToken, q2))
    (hq2 : q2.peekToken.Typ = .T_RBRACKET) (hq2n : q2.nextToken n = some (q2.peekToken, r))
    (hm : n ≤ m) (hf : n ≤ f) :
    parseIndexExpr (parseExpr fl (m + 1)) f q = .ok (.StringExpr q1.peekToken.Message) r := by
  unfold parseIndexExpr
  have hne : ¬ q.peekToken.Typ = .T_IDENT := by rw [hq]; decide
  have hat : atomExpr fl q1.peekToken = some (.StringExpr q1.peekToken.Message) := by
    simp [atomExpr, hq1]
  have hstop : q2.StopsAt LOWEST := Or.inr (by rw [hq2]; rfl)
  rw [if_neg hne, Parser.expect_pos _ _ _ hq, Parser.next_of_nextToken _ hqn hf,
    parseExpr_atom_stop fl LOWEST hat hq1n hm hstop, PRes.bindOk, Parser.expect_pos _ _ _ hq2,
    Parser.next_of_nextToken _ hq2n hf]

theorem blockLoop_single (pe : ExprParser) (stop : TokenType) {k : Nat} {e : Expression}
    {q1 q2 : Parser} (h1 : q1.peekToken.Typ ≠ stop) (he : pe LOWEST q1 = .ok e q2)
    (h2 : q2.peekToken.Typ = stop) (hs : stop ≠ .T_SEMICOLON) :
    blockLoop pe stop (k + 2) [] q1 = some ([e], q2) := by
  have hsemi : ¬ q2.peekToken.Typ = .T_SEMICOLON := by rw [h2]; exact hs
  rw [blockLoop, if_pos h1, he]
  simp only []
  rw [skipSemicolons, if_neg hsemi]
  simp only []
  rw [blockLoop, if_neg (not_not.mpr h2)]
  rfl
/-! ## Table keys -/

theorem keyEq_typ (fl : FloatOps) : ∀ a b : Object, keyEq fl a b = true → a.Typ = b.Typ := by
  intro a b h
  cases a <;> cases b <;> first
    | rfl
    | (simp [keyEq] at h)

/-- A write under a key leaves the reads under the keys of another type as
they were. -/
theorem storeGet_storeSet_typ (fl : FloatOps) (k k' v : Object) (hne : k.Typ ≠ k'.Typ) :
    ∀ store : List (Object × Object),
      storeGet fl k' (storeSet fl k v store) = storeGet fl k' store := by
  have hkk : keyEq fl k k' = false := by
    cases h : keyEq fl k k' with
    | false => rfl
    | true => exact absurd (keyEq_typ fl k k' h) hne
  intro store
  induction store with
  | nil => simp [storeSet, storeGet, hkk]
  | cons a rest ih =>
    obtain ⟨k1, v1⟩ := a
    by_cases h : keyEq fl k1 k = true
    · have h1 : keyEq fl k1 k' = false := by
        cases h' : keyEq fl k1 k' with
        | false => rfl
        | true =>
          exact absurd ((keyEq_typ fl k1 k h).symm.trans (keyEq_typ fl k1 k' h')) hne
      simp [storeSet, storeGet, h, h1]
    · simp [storeSet, storeGet, h, ih]

/-- How the keys of a table are matched.  (1) An Integer key and a Float key
are never the same key, whatever their values, so a write under one leaves
every read under the other as it was.  (2) The language's `==` on the Integer
`n` and the Float `float64(n)` converts the Integer and compares the floats.
(3) Two Integer, Boolean or String keys are the same key exactly when their
values are equal, two Float keys when the float `==` holds, and two Table,
Pack or Function keys exactly when they point to the same storage. -/
theorem keyEq_spec (fl : FloatOps) :
    (∀ (n : Int) (f : F64) (v : Object) (store : List (Object × Object)),
      keyEq fl (.IntegerObj n) (.FloatObj f) = false ∧
      keyEq fl (.FloatObj f) (.IntegerObj n) = false ∧
      storeGet fl (.FloatObj f) (storeSet fl (.IntegerObj n) v store) =
        storeGet fl (.FloatObj f) store ∧
      storeGet fl (.IntegerObj n) (storeSet fl (.FloatObj f) v store) =
        storeGet fl (.IntegerObj n) store) ∧
    (∀ n : Int, infixValues fl .T_EQ (.IntegerObj n) (.FloatObj (fl.ofInt n)) =
      .val (.BooleanObj (fl.eq (fl.ofInt n) (fl.ofInt n)))) ∧
    (∀ a b : Int, keyEq fl (.IntegerObj a) (.IntegerObj b) = decide (a = b)) ∧
    (∀ a b : Bool, keyEq fl (.BooleanObj a) (.BooleanObj b) = decide (a = b)) ∧
    (∀ a b : GoString, keyEq fl (.StringObj a) (.StringObj b) = decide (a = b)) ∧
    (∀ a b : F64, keyEq fl (.FloatObj a) (.FloatObj b) = fl.eq a b) ∧
    (∀ a b : Nat, keyEq fl (.TableObj a) (.TableObj b) = decide (a = b)) ∧
    (∀ a b : Nat, keyEq fl (.PackObj a) (.PackObj b) = decide (a = b)) ∧
    (∀ a b : Nat, keyEq fl (.FuncObj a) (.FuncObj b) = decide (a = b)) := by
  refine ⟨fun n f v store => ⟨by simp [keyEq], by simp [keyEq],
    storeGet_storeSet_typ fl _ _ v (by simp [Object.Typ]) store,
    storeGet_storeSet_typ fl _ _ v (by simp [Object.Typ]) store⟩, fun n => ?_,
    fun a b => by simp [keyEq], fun a b => by simp [keyEq], fun a b => by simp [keyEq],
    fun a b => by simp [keyEq], fun a b => by simp [keyEq], fun a b => by simp [keyEq],
    fun a b => by simp [keyEq]⟩
  simp [infixValues, isArithOrCompare, Object.Typ, toFloatObj, mixedInfix]
/-! ## The line counter of the lexer -/

/-- The method `skipBlank` consumes a run of blank bytes and adds the number
of line feeds of the run to the line counter. -/
theorem skipBlankLoop_line : ∀ (input : List Nat) (line : Nat),
    ∃ blanks rest, input = blanks ++ rest ∧ (∀ b ∈ blanks, b ≠ 0 ∧ b ≤ 32) ∧
      skipBlankLoop input line = { input := rest, line := line + blanks.count 10 } := by
  intro input
  induction input with
  | nil => intro line; exact ⟨[], [], rfl, by simp, rfl⟩
  | cons c rest ih =>
    intro line
    by_cases hc : c ≠ 0 ∧ c ≤ 32
    · obtain ⟨blanks, rest', h1, h2, h3⟩ := ih (if c = 10 then line + 1 else line)
      refine ⟨c :: blanks, rest', by rw [h1]; rfl, ?_, ?_⟩
      · intro b hb
        rcases List.mem_cons.1 hb with h | h
        · rw [h]; exact hc
        · exact h2 b h
      · rw [skipBlankLoop, if_pos hc, h3]
        by_cases h10 : c = 10
        · subst h10
          simp [Nat.add_assoc, Nat.add_comm]
        · simp [h10, List.count_cons, Ne.symm h10]
    · refine ⟨[], c :: rest, rfl, by simp, ?_⟩
      rw [skipBlankLoop, if_neg hc]
      rfl

theorem readNumberLoop_line (line : Nat) : ∀ (input : List Nat) (buf : GoString),
    (readNumberLoop line buf input).1.Line = line ∧
    (readNumberLoop line buf input).2.line = line := by
  intro input
  induction input with
  | nil => intro buf; exact ⟨rfl, rfl⟩
  | cons c rest ih =>
    intro buf
    rw [readNumberLoop]
    split
    · refine ⟨?_, (ih []).2⟩
      simp only [floatToken]
      split <;> rfl
    · split
      · exact ih _
      · exact ⟨rfl, rfl⟩

theorem some_pair {α β : Type} {x : α × β} {a : α} {b : β} (h : some x = some (a, b)) :
    x.1 = a ∧ x.2 = b := by
  injection h with h
  rw [h]
  exact ⟨rfl, rfl⟩

theorem Lexer.readChar_line (l : Lexer) : l.readChar.2.line = l.line := by
  unfold Lexer.readChar
  split <;> rfl

theorem readStringLoop_line : ∀ (fuel : Nat) (buf : GoString) (l : Lexer) (r : GoString × Lexer),
    readStringLoop fuel buf l = some r → r.2.line = l.line := by
  intro fuel
  induction fuel with
  | zero => intro buf l r h; exact absurd h (by simp [readStringLoop])
  | succ k ih =>
    intro buf l r h
    rw [readStringLoop] at h
    split at h
    · exact (ih _ _ r h).trans (Lexer.readChar_line l)
    · injection h with h
      rw [← h]

/-- The line of a token is the line counter after the blanks before it, and
the counter is the same after the token: no token reader moves it, the reader
of strings included. -/
theorem Lexer.NextToken_line (n : Nat) (l : Lexer) (t : Token) (l1 : Lexer)
    (h : l.NextToken n = some (t, l1)) :
    t.Line = l.skipBlank.line ∧ l1.line = l.skipBlank.line := by
  unfold Lexer.NextToken at h
  simp only [] at h
  have hs : ∀ (tt : TokenType) (m : GoString) (r : Token × Lexer),
      l.skipBlank.single tt m = some r →
      r.1.Line = l.skipBlank.line ∧ r.2.line = l.skipBlank.line := by
    intro tt m r hr
    simp only [Lexer.single] at hr
    injection hr with hr
    rw [← hr]
    exact ⟨Lexer.readChar_line _, Lexer.readChar_line _⟩
  have ho : ∀ (two one : TokenType) (r : Token × Lexer),
      l.skipBlank.oneOrTwo two one = some r →
      r.1.Line = l.skipBlank.line ∧ r.2.line = l.skipBlank.line := by
    intro two one r hr
    simp only [Lexer.oneOrTwo] at hr
    split at hr <;> injection hr with hr <;> rw [← hr] <;>
      exact ⟨by simp only [Lexer.newToken, Lexer.readChar_line],
        by simp only [Lexer.readChar_line]⟩
  by_cases h0 : l.skipBlank.peekChar = 0
  · rw [if_pos h0] at h
    exact hs _ _ _ h
  rw [if_neg h0] at h
  by_cases h44 : l.skipBlank.peekChar = 44
  · rw [if_pos h44] at h
    exact hs _ _ _ h
  rw [if_neg h44] at h
  by_cases h59 : l.skipBlank.peekChar = 59
  · rw [if_pos h59] at h
    exact hs _ _ _ h
  rw [if_neg h59] at h
  by_cases h43 : l.skipBlank.peekChar = 43
  · rw [if_pos h43] at h
    exact hs _ _ _ h
  rw [if_neg h43] at h
  by_cases h45 : l.skipBlank.peekChar = 45
  · rw [if_pos h45] at h
    exact hs _ _ _ h
  rw [if_neg h45] at h
  by_cases h42 : l.skipBlank.peekChar = 42
  · rw [if_pos h42] at h
    exact hs _ _ _ h
  rw [if_neg h42] at h
  by_cases h47 : l.skipBlank.peekChar = 47
  · rw [if_pos h47] at h
    exact hs _ _ _ h
  rw [if_neg h47] at h
  by_cases h40 : l.skipBlank.peekChar = 40
  · rw [if_pos h40] at h
    exact hs _ _ _ h
  rw [if_neg h40] at h
  by_cases h41 : l.skipBlank.peekChar = 41
  · rw [if_pos h41] at h
    exact hs _ _ _ h
  rw [if_neg h41] at h
  by_cases h91 : l.skipBlank.peekChar = 91
  · rw [if_pos h91] at h
    exact hs _ _ _ h
  rw [if_neg h91] at h
  by_cases h93 : l.skipBlank.peekChar = 93
  · rw [if_pos h93] at h
    exact hs _ _ _ h
  rw [if_neg h93] at h
  by_cases h123 : l.skipBlank.peekChar = 123
  · rw [if_pos h123] at h
    exact hs _ _ _ h
  rw [if_neg h123] at h
  by_cases h125 : l.skipBlank.peekChar = 125
  · rw [if_pos h125] at h
    exact hs _ _ _ h
  rw [if_neg h125] at h
  by_cases h34 : l.skipBlank.peekChar = 34
  · rw [if_pos h34] at h
    simp only [Lexer.readString] at h
    cases hl : readStringLoop n [] l.skipBlank.readChar.2 with
    | none => rw [hl] at h; exact absurd h (by simp)
    | some r =>
      rw [hl] at h
      obtain ⟨ht, hl1⟩ := some_pair h
      have hr := readStringLoop_line n [] _ r hl
      rw [← ht, ← hl1]
      exact ⟨by simp only [Lexer.newToken, Lexer.readChar_line, hr],
        by simp only [Lexer.readChar_line, hr]⟩
  rw [if_neg h34] at h
  by_cases h46 : l.skipBlank.peekChar = 46
  · rw [if_pos h46] at h
    split at h
    · obtain ⟨ht, hl1⟩ := some_pair h
      rw [← ht, ← hl1]
      simp only [Lexer.readFloat, Lexer.readNumber]
      refine ⟨?_, ?_⟩
      · simp only [floatToken]
        split <;> simp [Lexer.readChar_line]
      · rw [(readNumberLoop_line _ _ _).2, Lexer.readChar_line]
    · obtain ⟨ht, hl1⟩ := some_pair h
      rw [← ht, ← hl1]
      exact ⟨by simp only [Lexer.newToken, Lexer.readChar_line],
        by simp only [Lexer.readChar_line]⟩
  rw [if_neg h46] at h
  by_cases h58 : l.skipBlank.peekChar = 58
  · rw [if_pos h58] at h
    exact ho _ _ _ h
  rw [if_neg h58] at h
  by_cases h33 : l.skipBlank.peekChar = 33
  · rw [if_pos h33] at h
    exact ho _ _ _ h
  rw [if_neg h33] at h
  by_cases h60 : l.skipBlank.peekChar = 60
  · rw [if_pos h60] at h
    exact ho _ _ _ h
  rw [if_neg h60] at h
  by_cases h62 : l.skipBlank.peekChar = 62
  · rw [if_pos h62] at h
    exact ho _ _ _ h
  rw [if_neg h62] at h
  by_cases h61 : l.skipBlank.peekChar = 61
  · rw [if_pos h61] at h
    exact ho _ _ _ h
  rw [if_neg h61] at h
  split at h
  · obtain ⟨ht, hl1⟩ := some_pair h
    rw [← ht, ← hl1]
    exact readNumberLoop_line _ _ _
  · split at h
    · obtain ⟨ht, hl1⟩ := some_pair h
      rw [← ht, ← hl1]
      simp [Lexer.readWord, Lexer.newToken]
    · exact hs _ _ _ h
/-! ## Environment lookup -/

/-- C31.  In a well-formed memory (the `Outer` pointers go to older
environments, as in every run) let `e` be an environment.  (1) `e` has a
chain of scopes, from `e` outwards to the scope without outer scope, and
`Environment.Get` on `e` is the lookup of the specification in that chain:
the cell bound under the name in the innermost scope of the chain that binds
it, nil when none binds it; in particular, when the scopes `pre` before a
scope `env` of the chain do not bind the name and `env` binds it to `c`, the
result is `c`.  (2) A binding installed by `Set` or `SetNewObj` in an inner
scope of `e` changes the result of no `Get` on `e`. -/
theorem environment_lookup (st : State) (hwf : st.WF) (e : Nat) (he : e < st.envs.length) :
    (∃ chain, ScopeChain st.envs e chain ∧
      (∀ x, Environment.Get st e x = specLookup x chain) ∧
      (∀ x pre env rest c, chain = pre ++ env :: rest →
        (∀ s ∈ pre, mapGet x s.LocalVars = none) → mapGet x env.LocalVars = some c →
        Environment.Get st e x = some c) ∧
      (∀ x, (∀ s ∈ chain, mapGet x s.LocalVars = none) → Environment.Get st e x = none)) ∧
    (∀ inner, Encloses st.envs e inner → ∀ (x y : GoString) (c : Cell) (v : Object),
      Environment.Get (Environment.Set st inner y c) e x = Environment.Get st e x ∧
      Environment.Get (Environment.SetNewObj st inner y v) e x = Environment.Get st e x) := by
  constructor
  · obtain ⟨chain, hchain⟩ := ScopeChain_exists hwf e he
    have hget : ∀ x, Environment.Get st e x = specLookup x chain := fun x =>
      GetLoop_eq_specLookup st.envs x hwf.outer_lt e chain hchain _ he
    refine ⟨chain, hchain, hget, fun x pre env rest c hc hpre henv => ?_, fun x hnone => ?_⟩
    · rw [hget, hc, specLookup_append x pre _ hpre, specLookup, henv]
    · rw [hget]
      clear hget hchain
      induction chain with
      | nil => rfl
      | cons s rest ih =>
        rw [specLookup, hnone s (List.mem_cons_self _ _)]
        exact ih fun t ht => hnone t (List.mem_cons_of_mem _ ht)
  · intro inner hin x y c v
    have hlt := Encloses_lt hwf hin
    refine ⟨Environment.Get_Set_newer hwf x y c he hlt, ?_⟩
    show Environment.Get (Environment.Set (st.newCell v).2 inner y (st.newCell v).1) e x = _
    rw [Environment.Get_Set_newer (State.newCell_WF hwf v) x y _ he hlt]
    rfl

/-- C31, witness: the memory of the test `TestEnv`.  From `env3` the name
`hello` resolves to the cell of `env2`, which holds `shijie`, not to that of
`env1`; `k2`, bound in `env2`, is not visible from `env1`; and a binding of
`k3` installed in `env3` is visible neither from `env2` nor from `env1`. -/
theorem environment_lookup_witness :
    ((∃ chain, ScopeChain testEnvMemory.envs 2 chain ∧
        (∀ x, Environment.Get testEnvMemory 2 x = specLookup x chain) ∧
        (∀ x pre env rest c, chain = pre ++ env :: rest →
          (∀ s ∈ pre, mapGet x s.LocalVars = none) → mapGet x env.LocalVars = some c →
          Environment.Get testEnvMemory 2 x = some c) ∧
        (∀ x, (∀ s ∈ chain, mapGet x s.LocalVars = none) →
          Environment.Get testEnvMemory 2 x = none)) ∧
      (∀ inner, Encloses testEnvMemory.envs 2 inner →
        ∀ (x y : GoString) (c : Cell) (v : Object),
        Environment.Get (Environment.Set testEnvMemory inner y c) 2 x =
          Environment.Get testEnvMemory 2 x ∧
        Environment.Get (Environment.SetNewObj testEnvMemory inner y v) 2 x =
          Environment.Get testEnvMemory 2 x)) ∧
    testEnvMemory.lookup 0 (str "hello") = some (.StringObj (str "world")) ∧
    testEnvMemory.lookup 1 (str "hello") = some (.StringObj (str "shijie")) ∧
    testEnvMemory.lookup 2 (str "hello") = some (.StringObj (str "shijie")) ∧
    Environment.Get testEnvMemory 0 (str "k2") = none ∧
    testEnvMemory.lookup 1 (str "k2") = some (.StringObj (str "v2")) ∧
    testEnvMemory.lookup 2 (str "k2") = some (.StringObj (str "v2")) ∧
    Encloses testEnvMemory.envs 0 2 ∧
    Environment.Get (Environment.SetNewObj testEnvMemory 2 (str "k3") (.IntegerObj 1)) 1
      (str "k3") = none :=
  ⟨environment_lookup testEnvMemory (by decide) 2 (by decide), by decide, by decide, by decide,
    by decide, by decide, by decide,
    .step 0 1 2 ⟨[], some 1⟩ rfl rfl (.direct 0 1 _ rfl rfl), by decide⟩

/-- C32. Identifier keys are string keys.  Let the parser `p` stand at an
identifier with the text `name`, and the parser `q` at `[`, followed by a
string literal with the text `name` and `]`, both leaving the parser `r`.
For every `parseEntireExpr`, `parseIndexExpr` returns the String expression
with the text `name` at `p`, and `parseIndexExpr` returns the same expression
at `q`.  So `parseDotExpr` returns the same Index expression of `left` for
the two spellings after a dot, each turn of the loop of `parseTableExpr`
continues in the same way with the key `StringExpr name`, and
`parseTableExpr` gives the same result for two table literals that start with
the two spellings.  The evaluation of the key is the string `name` in every
environment and memory, which stays as it is: no variable is looked up. -/
theorem identifier_key_is_string_key (fl : FloatOps) (n m f : Nat) (name : GoString)
    (p q q1 q2 r : Parser)
    (hp : p.peekToken.Typ = .T_IDENT) (hpm : p.peekToken.Message = name)
    (hpn : p.nextToken n = some (p.peekToken, r))
    (hq : q.peekToken.Typ = .T_LBRACKET) (hqn : q.nextToken n = some (q.peekToken, q1))
    (hq1 : q1.peekToken.Typ = .T_STRING) (hq1m : q1.peekToken.Message = name)
    (hq1n : q1.nextToken n = some (q1.peekToken, q2))
    (hq2 : q2.peekToken.Typ = .T_RBRACKET) (hq2n : q2.nextToken n = some (q2.peekToken, r))
    (hm : n ≤ m) (hf : n ≤ f) :
    (∀ pe : ExprParser, parseIndexExpr pe f p = .ok (.StringExpr name) r) ∧
    parseIndexExpr (parseExpr fl (m + 1)) f q = .ok (.StringExpr name) r ∧
    (∀ (left : Expression) (pd qd : Parser),
      pd.nextToken n = some (pd.peekToken, p) → qd.nextToken n = some (qd.peekToken, q) →
      parseDotExpr (parseExpr fl (m + 1)) f left pd =
        .ok (.IndexExpr left (.StringExpr name)) r ∧
      parseDotExpr (parseExpr fl (m + 1)) f left qd =
        .ok (.IndexExpr left (.StringExpr name)) r) ∧
    (∀ pairs : List (Expression × Expression),
      tableLoop (parseExpr fl (m + 1)) (f + 1) pairs p =
        (r.expect .T_ASSIGN <|
          r.next f fun _ p2 =>
            (parseExpr fl (m + 1) LOWEST p2).bind fun value p3 =>
              if p3.peekToken.Typ = .T_COMMA then
                p3.next f fun _ p4 =>
                  tableLoop (parseExpr fl (m + 1)) f (pairs ++ [(.StringExpr name, value)]) p4
              else .ok (pairs ++ [(.StringExpr name, value)]) p3) ∧
      tableLoop (parseExpr fl (m + 1)) (f + 1) pairs q =
        tableLoop (parseExpr fl (m + 1)) (f + 1) pairs p) ∧
    (∀ p0 pa q0 qa : Parser,
      p0.nextToken n = some (p0.peekToken, pa) → pa.peekToken.Typ = .T_LBRACE →
      pa.nextToken n = some (pa.peekToken, p) →
      q0.nextToken n = some (q0.peekToken, qa) → qa.peekToken.Typ = .T_LBRACE →
      qa.nextToken n = some (qa.peekToken, q) →
      parseTableExpr (parseExpr fl (m + 1)) (f + 1) q0 =
        parseTableExpr (parseExpr fl (m + 1)) (f + 1) p0) ∧
    (∀ (k env : Nat) (st : State),
      Eval fl (k + 1) (.StringExpr name) env st = .ok (.StringObj name) st) := by
  have h1 : ∀ pe : ExprParser, parseIndexExpr pe f p = .ok (.StringExpr name) r := by
    intro pe
    rw [parseIndexExpr_identifier pe hp hpn hf, hpm]
  have h2 : parseIndexExpr (parseExpr fl (m + 1)) f q = .ok (.StringExpr name) r := by
    rw [parseIndexExpr_bracket_string fl hq hqn hq1 hq1n hq2 hq2n hm hf, hq1m]
  have hf1 : n ≤ f + 1 := Nat.le_succ_of_le hf
  have h4 : ∀ pairs : List (Expression × Expression),
      tableLoop (parseExpr fl (m + 1)) (f + 1) pairs q =
        tableLoop (parseExpr fl (m + 1)) (f + 1) pairs p := by
    intro pairs
    have hpb : p.peekToken.Typ ≠ .T_RBRACE := by rw [hp]; decide
    have hqb : q.peekToken.Typ ≠ .T_RBRACE := by rw [hq]; decide
    rw [tableLoop, tableLoop, if_pos hpb, if_pos hqb, h1, h2]
  refine ⟨h1, h2, ?_, ?_, ?_, fun k env st => rfl⟩
  · intro left pd qd hpd hqd
    unfold parseDotExpr
    rw [Parser.next_of_nextToken _ hpd hf, Parser.next_of_nextToken _ hqd hf, h1, h2]
    exact ⟨rfl, rfl⟩
  · intro pairs
    refine ⟨?_, h4 pairs⟩
    have hpb : p.peekToken.Typ ≠ .T_RBRACE := by rw [hp]; decide
    rw [tableLoop, if_pos hpb, h1, PRes.bindOk]
  · intro p0 pa q0 qa hp0 hpa hpan hq0 hqa hqan
    unfold parseTableExpr
    rw [Parser.next_of_nextToken _ hp0 hf1, Parser.next_of_nextToken _ hq0 hf1,
      Parser.expect_pos _ _ _ hpa, Parser.expect_pos _ _ _ hqa,
      Parser.next_of_nextToken _ hpan hf1, Parser.next_of_nextToken _ hqan hf1, h4]

/-- The sources `t.n` and `t.["n"]`, and two table literals with the key `n`,
parse to the same trees. -/
theorem identifier_key_is_string_key_witness :
    ((∀ pe : ExprParser, parseIndexExpr pe 9 (parserAfter "t.n" 3) =
        .ok (.StringExpr (str "n")) (parserAfter "t.n" 4)) ∧
      parseIndexExpr (parseExpr bitsOps 10) 9 (parserAfter "t.[\"n\"]" 3) =
        .ok (.StringExpr (str "n")) (parserAfter "t.n" 4)) ∧
    parseSource bitsOps 20 (str "t.n") =
      some ([.IndexExpr (.Identifier (str "t")) (.StringExpr (str "n"))],
        ⟨⟨[], 1⟩, ⟨.T_EOF, 1, str "EOF"⟩, []⟩) ∧
    parseSource bitsOps 20 (str "t.[\"n\"]") = parseSource bitsOps 20 (str "t.n") ∧
    parseSource bitsOps 30 (str "table\x7b n = 1 \x7d") =
      some ([.TableExpr [(.StringExpr (str "n"), .IntegerExpr 1)]],
        ⟨⟨[], 1⟩, ⟨.T_EOF, 1, str "EOF"⟩, []⟩) ∧
    parseSource bitsOps 30 (str "table\x7b [\"n\"] = 1 \x7d") =
      parseSource bitsOps 30 (str "table\x7b n = 1 \x7d") := by
  have h := identifier_key_is_string_key bitsOps 9 9 9 (str "n")
    (parserAfter "t.n" 3) (parserAfter "t.[\"n\"]" 3) (parserAfter "t.[\"n\"]" 4)
    (parserAfter "t.[\"n\"]" 5) (parserAfter "t.n" 4)
    rfl rfl rfl rfl rfl rfl rfl rfl rfl rfl (Nat.le_refl 9) (Nat.le_refl 9)
  exact ⟨⟨h.1, h.2.1⟩, rfl, rfl, rfl, rfl⟩

/-! ## Pack targets -/

/-- C35, failing inputs.  `evalFuncExpr` evaluates a capture entry
`name := expr` by `evalDeclarationExpr(capture, funcCaptureEnv)`: the
expression is evaluated in the capture scope, where the names of the earlier
entries of the list come before those of the defining environment.  In
`x := 1; f := func()[x := 10, y := x]{ return y }; return f()` the entry
`y := x` sees the `x` of the entry before it and the call yields 10, not the
1 of the defining environment; in
`x := 1; f := func()[a := 10, y := a]{ return y }; return f()` the entry
`y := a` evaluates although the defining environment does not bind `a`.  With
the single entry `y := x` the call yields 1. -/
theorem by_value_capture_sees_earlier_entries :
    (runSource bitsOps 40
      "x := 1; f := func()[x := 10, y := x]\x7b return y \x7d; return f()").map
      (fun r => (r.1.value?, r.2)) = some (some (.IntegerObj 10), 0) ∧
    (runSource bitsOps 40
      "x := 1; f := func()[a := 10, y := a]\x7b return y \x7d; return f()").map
      (fun r => (r.1.value?, r.2)) = some (some (.IntegerObj 10), 0) ∧
    (runSource bitsOps 40 "x := 1; f := func()[y := x]\x7b return y \x7d; return f()").map
      (fun r => (r.1.value?, r.2)) = some (some (.IntegerObj 1), 0) := by
  refine ⟨?_, ?_, ?_⟩ <;> decide!

/-- C37. Illegal tokens are recorded and skipped.  Let the lexer `l2` return
the tokens of the lexer `l` without the illegal ones (`SkipsIllegal`).  When
`ParseProgram` returns on `l`, it returns on `l2` with the same fuel and the
same expressions, ends at the same peek token, and its errors are those of
the run on `l` that are not token errors.  The tokens read by the run on `l`
go up to an end-of-file token, and each illegal token among them has its
`TokenError` in `Errors`.  Every call of `nextToken` returns the old peek
token and leaves a peek token that is not illegal, and no prefix or infix
handler is registered for the illegal token. -/
theorem illegal_tokens_recorded_and_skipped (fl : FloatOps) (fuel : Nat)
    (R : Lexer → Lexer → Prop) (hR : SkipsIllegal R) (l l2 : Lexer) (h : R l l2)
    (exprs : List Expression) (p1 : Parser)
    (hp : ParseProgram fl fuel (Parser.New l) = some (exprs, p1)) :
    (∃ q1, ParseProgram fl fuel (Parser.New l2) = some (exprs, q1) ∧
      q1.peekToken = p1.peekToken ∧
      q1.Errors = p1.Errors.filter fun e => !e.isTokenError) ∧
    (∃ ts, Lexer.Reaches l ts p1.lexer ∧ (∃ t ∈ ts, t.Typ = .T_EOF) ∧
      ∀ t ∈ ts, t.Typ = .T_ILLEGAL → ParserError.TokenError t ∈ p1.Errors) ∧
    (∀ (n : Nat) (p : Parser) (t : Token) (p2 : Parser), p.nextToken n = some (t, p2) →
      t = p.peekToken ∧ p2.peekToken.Typ ≠ .T_ILLEGAL) ∧
    prefixParseFns .T_ILLEGAL = none ∧ infixParseFns .T_ILLEGAL = none := by
  refine ⟨?_, ?_, ?_, rfl, rfl⟩
  · have hs := ParseProgram_sim (skipSim_parserSim hR) fl fuel (Parser.New l) (Parser.New l2)
      ⟨rfl, h, rfl⟩
    rw [hp] at hs
    cases hq : ParseProgram fl fuel (Parser.New l2) with
    | none => rw [hq] at hs; exact False.elim hs
    | some r =>
      obtain ⟨es, q1⟩ := r
      rw [hq] at hs
      obtain ⟨hes, hpk, _, herr⟩ := hs
      exact ⟨q1, by rw [hes], hpk.symm, herr⟩
  · unfold ParseProgram at hp
    cases ha : (Parser.New l).nextToken fuel with
    | none => rw [ha] at hp; exact absurd hp (by simp)
    | some ra =>
      obtain ⟨ta, pa⟩ := ra
      rw [ha] at hp
      simp only [] at hp
      have hra : recorded l pa :=
        recorded_nextToken ⟨[], Lexer.Reaches.refl _, fun u hu => absurd hu (List.not_mem_nil u)⟩ ha
      have hb := blockLoop_sim (recorded_parserSim l)
        (parseExpr_sim (recorded_parserSim l) fl fuel) .T_EOF fuel [] ⟨rfl, hra⟩
      cases hbl : blockLoop (parseExpr fl fuel) .T_EOF fuel [] pa with
      | none => rw [hbl] at hp; exact absurd hp (by simp)
      | some rb =>
        obtain ⟨es, pb⟩ := rb
        rw [hbl] at hp hb
        simp only [] at hp
        obtain ⟨_, _, ts, hre, hmem, _, hrec⟩ := hb
        have heof : pb.peekToken.Typ = .T_EOF := blockLoop_peek _ _ _ _ _ _ hbl
        cases hc : pb.nextToken fuel with
        | none => rw [hc] at hp; exact absurd hp (by simp)
        | some rc =>
          obtain ⟨tc, pc⟩ := rc
          rw [hc] at hp
          simp only [Option.some.injEq, Prod.mk.injEq] at hp
          obtain ⟨_, hpc⟩ := hp
          subst hpc
          obtain ⟨us, hre1, _, _, hmono, hrec1⟩ := Parser.nextToken_reaches fuel pb tc pc hc
          refine ⟨ts ++ us, Lexer.Reaches_append hre hre1,
            ⟨pb.peekToken, List.mem_append_left _ hmem, heof⟩, ?_⟩
          intro u hu hui
          rcases List.mem_append.mp hu with hu | hu
          · exact hmono _ (hrec u hu hui)
          · exact hrec1 u hu hui
  · intro n p t p2 hn
    obtain ⟨us, _, _, hne, _, _⟩ := Parser.nextToken_reaches n p t p2 hn
    exact ⟨Parser.nextToken_fst n p _ hn, hne⟩

/-- The source `1 + @ 2` against `1 + 2`: the same sum, one `TokenError`. -/
theorem illegal_tokens_recorded_and_skipped_witness :
    SkipsIllegal illegalExample ∧
    parseSource bitsOps 10 (str "1 + @ 2") =
      some ([.ArithInfixExpr .T_PLUS (.IntegerExpr 1) (.IntegerExpr 2)],
        ⟨⟨[], 1⟩, ⟨.T_EOF, 1, str "EOF"⟩, [.TokenError ⟨.T_ILLEGAL, 1, []⟩]⟩) ∧
    parseSource bitsOps 10 (str "1 + 2") =
      some ([.ArithInfixExpr .T_PLUS (.IntegerExpr 1) (.IntegerExpr 2)],
        ⟨⟨[], 1⟩, ⟨.T_EOF, 1, str "EOF"⟩, []⟩) ∧
    ((∃ q1, ParseProgram bitsOps 10 (Parser.New (Lexer.New (str "1 + 2"))) =
        some ([.ArithInfixExpr .T_PLUS (.IntegerExpr 1) (.IntegerExpr 2)], q1) ∧
      q1.peekToken = (⟨.T_EOF, 1, str "EOF"⟩ : Token) ∧
      q1.Errors = ([.TokenError ⟨.T_ILLEGAL, 1, []⟩] : List ParserError).filter
        fun e => !e.isTokenError) ∧
    (∃ ts, Lexer.Reaches (Lexer.New (str "1 + @ 2")) ts ⟨[], 1⟩ ∧ (∃ t ∈ ts, t.Typ = .T_EOF) ∧
      ∀ t ∈ ts, t.Typ = .T_ILLEGAL →
        ParserError.TokenError t ∈ ([.TokenError ⟨.T_ILLEGAL, 1, []⟩] : List ParserError)) ∧
    (∀ (n : Nat) (p : Parser) (t : Token) (p2 : Parser), p.nextToken n = some (t, p2) →
      t = p.peekToken ∧ p2.peekToken.Typ ≠ .T_ILLEGAL) ∧
    prefixParseFns .T_ILLEGAL = none ∧ infixParseFns .T_ILLEGAL = none) :=
  ⟨illegalExample_skips, rfl, rfl,
    illegal_tokens_recorded_and_skipped bitsOps 10 illegalExample illegalExample_skips
      (Lexer.New (str "1 + @ 2")) (Lexer.New (str "1 + 2")) (Or.inl ⟨rfl, rfl⟩)
      [.ArithInfixExpr .T_PLUS (.IntegerExpr 1) (.IntegerExpr 2)]
      ⟨⟨[], 1⟩, ⟨.T_EOF, 1, str "EOF"⟩, [.TokenError ⟨.T_ILLEGAL, 1, []⟩]⟩ rfl⟩

/-- C38, failing input.  The line counter is moved by `skipBlank` only; the
loop of `readString` reads the bytes of a string, line feeds included, with
`readChar`, which does not count.  On the input of the string `a`, line feed,
`b`, followed by a blank and `x`, the identifier `x` stands on line 2 and its
token carries line 1, as does the end-of-file token.  (Line feeds between
tokens are counted: on `a`, two line feeds, `x` the token of `x` carries
line 3.) -/
theorem line_after_string_with_line_feed :
    (Lexer.tokens 20 20 (Lexer.New [34, 97, 10, 98, 34, 32, 120])).map
      (fun ts => ts.map fun t => (t.Typ, t.Line)) =
      some [(.T_STRING, 1), (.T_IDENT, 1), (.T_EOF, 1)] ∧
    (Lexer.tokens 20 20 (Lexer.New [97, 10, 10, 120])).map
      (fun ts => ts.map fun t => (t.Typ, t.Line)) =
      some [(.T_IDENT, 1), (.T_IDENT, 3), (.T_EOF, 3)] := by
  constructor <;> decide

/-! ## The scope of an if -/

/-- C40, failing input.  The program
`f := func(a){ a = 5 }; f(); t := table{ [1] = 10 }; return t.[1.0]`, given
as its tree with the literal `1.0` as the float of the Integer 1: the Float
key does not find the entry of the Integer key, and the read returns the
content of the package variable `NilObj`, which the call of `f` without
argument has overwritten with 5; the program yields 5, not Nil.  Without the
call of `f` the same read yields Nil. -/
theorem float_key_read_after_overwritten_nil :
    (runProgram bitsOps 20
      [.DeclarationExpr (.Identifier (str "f"))
          (.FuncExpr [str "a"] [] [.AssignExpr (.Identifier (str "a")) (.IntegerExpr 5)]),
        .CallExpr (.Identifier (str "f")) [],
        .DeclarationExpr (.Identifier (str "t"))
          (.TableExpr [(.IntegerExpr 1, .IntegerExpr 10)]),
        .ReturnExpr (.IndexExpr (.Identifier (str "t"))
          (.FloatExpr (bitsOps.ofInt 1)))]).value? = some (.IntegerObj 5) ∧
    (runProgram bitsOps 20
      [.DeclarationExpr (.Identifier (str "t"))
          (.TableExpr [(.IntegerExpr 1, .IntegerExpr 10)]),
        .ReturnExpr (.IndexExpr (.Identifier (str "t"))
          (.FloatExpr (bitsOps.ofInt 1)))]).value? = some .NilValue ∧
    (runProgram bitsOps 20
      [.ReturnExpr (.ArithInfixExpr .T_EQ (.IntegerExpr 1)
        (.FloatExpr (bitsOps.ofInt 1)))]).value? = some (.BooleanObj true) := by
  refine ⟨?_, ?_, ?_⟩ <;> decide!
/-! ## Bodies after a header -/

/-- The method `parseImplicitBlockExpr` at a token other than `{`: one call of
`parseEntireExpr`, and one call of `nextToken` when a `;` follows. -/
theorem parseImplicitBlockExpr_bare (pe : ExprParser) {n f : Nat} {e : Expression}
    {p p1 p2 : Parser} (hb : p.peekToken.Typ ≠ .T_LBRACE) (he : pe LOWEST p = .ok e p1)
    (hp1 : p1.peekToken.Typ = .T_SEMICOLON → p1.nextToken n = some (p1.peekToken, p2))
    (hf : n ≤ f) :
    parseImplicitBlockExpr pe f p =
      .ok [e] (if p1.peekToken.Typ = .T_SEMICOLON then p2 else p1) := by
  unfold parseImplicitBlockExpr
  rw [if_neg hb, he, PRes.bindOk]
  by_cases hs : p1.peekToken.Typ = .T_SEMICOLON
  · rw [if_pos hs, if_pos hs, Parser.next_of_nextToken _ (hp1 hs) hf]
  · rw [if_neg hs, if_neg hs]

/-- The method `parseImplicitBlockExpr` at `{`, followed by one expression and
`}`. -/
theorem parseImplicitBlockExpr_braced (pe : ExprParser) {n f : Nat} {e : Expression}
    {q q1 q2 q3 : Parser} (hq : q.peekToken.Typ = .T_LBRACE)
    (hqn : q.nextToken n = some (q.peekToken, q1)) (hq1 : q1.peekToken.Typ ≠ .T_RBRACE)
    (heq : pe LOWEST q1 = .ok e q2) (hq2 : q2.peekToken.Typ = .T_RBRACE)
    (hq2n : q2.nextToken n = some (q2.peekToken, q3)) (hf : n ≤ f) :
    parseImplicitBlockExpr pe (f + 1) q = .ok [e] q3 := by
  have hn1 : 1 ≤ n := Parser.nextToken_pos hqn
  obtain ⟨k, rfl⟩ : ∃ k, f = k + 1 := ⟨f - 1, by omega⟩
  have hf1 : n ≤ k + 1 + 1 := Nat.le_succ_of_le hf
  have hne : ¬ q2.peekToken.Typ = .T_EOF := by rw [hq2]; decide
  unfold parseImplicitBlockExpr parseBlockExprs
  rw [if_pos hq, Parser.next_of_nextToken _ hqn hf1,
    blockLoop_single pe .T_RBRACE hq1 heq hq2 (by decide)]
  simp only []
  rw [Parser.next_of_nextToken _ hq2n hf1, if_neg hne]

/-- The method `parseIfExpr` when the condition ends where the body `x`
begins. -/
theorem parseIfExpr_body (pe : ExprParser) {n f : Nat} {c : Expression} {body : List Expression}
    {ph pc x y : Parser} (hph : ph.nextToken n = some (ph.peekToken, pc))
    (hc : pe LOWEST pc = .ok c x) (hx : parseImplicitBlockExpr pe f x = .ok body y)
    (hf : n ≤ f) :
    parseIfExpr pe f ph =
      if y.peekToken.Typ = .T_ELSE then
        y.next f fun _ p4 =>
          (parseImplicitBlockExpr pe f p4).bind fun alternative p5 =>
            .ok (.IfExpr c body (some alternative)) p5
      else .ok (.IfExpr c body none) y := by
  unfold parseIfExpr
  rw [Parser.next_of_nextToken _ hph hf, hc, PRes.bindOk, hx, PRes.bindOk]

/-- The method `parseIfExpr` when `else` is followed by the body `x`. -/
theorem parseIfExpr_else (pe : ExprParser) {n f : Nat} {c : Expression}
    {cons body : List Expression} {ph pc pb p3 x y : Parser}
    (hph : ph.nextToken n = some (ph.peekToken, pc)) (hc : pe LOWEST pc = .ok c pb)
    (hcons : parseImplicitBlockExpr pe f pb = .ok cons p3) (h3 : p3.peekToken.Typ = .T_ELSE)
    (h3n : p3.nextToken n = some (p3.peekToken, x))
    (hx : parseImplicitBlockExpr pe f x = .ok body y) (hf : n ≤ f) :
    parseIfExpr pe f ph = .ok (.IfExpr c cons (some body)) y := by
  rw [parseIfExpr_body pe hph hc hcons hf, if_pos h3, Parser.next_of_nextToken _ h3n hf, hx,
    PRes.bindOk]

/-- The method `parseFuncExpr` when the parameter list ends where the body `x`
begins, at another token than `[`. -/
theorem parseFuncExpr_body (pe : ExprParser) {n f : Nat} {parameters : List Expression}
    {params : List GoString} {body : List Expression} {pf pf1 x y : Parser}
    (hpf : pf.nextToken n = some (pf.peekToken, pf1))
    (hps : parseCommaExprs pe f .T_LPAREN .T_RPAREN pf1 = .ok parameters x)
    (hparams : funcParameters parameters = some params)
    (hnb : x.peekToken.Typ ≠ .T_LBRACKET)
    (hx : parseImplicitBlockExpr pe f x = .ok body y) (hf : n ≤ f) :
    parseFuncExpr pe f pf = .ok (.FuncExpr params [] body) y := by
  unfold parseFuncExpr
  rw [Parser.next_of_nextToken _ hpf hf, hps, PRes.bindOk]
  simp only [hparams]
  rw [if_neg hnb, hx, PRes.bindOk]

/-- The method `parseFuncExpr` when the capture list ends where the body `x`
begins. -/
theorem parseFuncExpr_capture_body (pe : ExprParser) {n f : Nat}
    {parameters captures : List Expression} {params : List GoString} {body : List Expression}
    {pf pf1 p2 x y : Parser} (hpf : pf.nextToken n = some (pf.peekToken, pf1))
    (hps : parseCommaExprs pe f .T_LPAREN .T_RPAREN pf1 = .ok parameters p2)
    (hparams : funcParameters parameters = some params)
    (h2 : p2.peekToken.Typ = .T_LBRACKET)
    (hcs : parseCommaExprs pe f .T_LBRACKET .T_RBRACKET p2 = .ok captures x)
    (hcaps : funcCaptures captures = true)
    (hx : parseImplicitBlockExpr pe f x = .ok body y) (hf : n ≤ f) :
    parseFuncExpr pe f pf = .ok (.FuncExpr params captures body) y := by
  unfold parseFuncExpr
  rw [Parser.next_of_nextToken _ hpf hf, hps, PRes.bindOk]
  simp only [hparams]
  rw [if_pos h2, hcs, PRes.bindOk, if_pos hcaps, hx, PRes.bindOk]

/-- The method `parseForExpr` up to the step expression. -/
theorem parseForExpr_header (pe : ExprParser) {n f : Nat} {a b c : Expression}
    {pfor p1 p2 p3 p4 p5 p6 : Parser} (hfor : pfor.nextToken n = some (pfor.peekToken, p1))
    (ha : pe LOWEST p1 = .ok a p2) (h2 : p2.peekToken.Typ = .T_SEMICOLON)
    (h2n : p2.nextToken n = some (p2.peekToken, p3))
    (hb : pe LOWEST p3 = .ok b p4) (h4 : p4.peekToken.Typ = .T_SEMICOLON)
    (h4n : p4.nextToken n = some (p4.peekToken, p5))
    (hc : pe LOWEST p5 = .ok c p6) (hf : n ≤ f) :
    parseForExpr pe f pfor =
      if p6.peekToken.Typ = .T_SEMICOLON then
        p6.next f fun _ p7 =>
          (parseImplicitBlockExpr pe f p7).bind fun body p8 => .ok (.ForExpr a b c body) p8
      else
        (parseImplicitBlockExpr pe f p6).bind fun body p8 => .ok (.ForExpr a b c body) p8 := by
  unfold parseForExpr
  rw [Parser.next_of_nextToken _ hfor hf, ha, PRes.bindOk, Parser.expect_pos _ _ _ h2,
    Parser.next_of_nextToken _ h2n hf, hb, PRes.bindOk, Parser.expect_pos _ _ _ h4,
    Parser.next_of_nextToken _ h4n hf, hc, PRes.bindOk]

/-- Among the tokens that begin an expression, those at which the loop of
`parseExpr` stops at the lowest precedence are all but `(` and `-`. -/
theorem stops_of_prefix_token (t : TokenType) (h : prefixParseFns t ≠ none) :
    (tokenPrecedences t ≤ LOWEST ∨ infixParseFns t = none) ↔ (t ≠ .T_LPAREN ∧ t ≠ .T_MINUS) := by
  cases t <;> first
    | exact absurd rfl h
    | decide

theorem parseExpr_ok_begins (fl : FloatOps) {k : Nat} {prec : Precedence} {p p1 : Parser}
    {e : Expression} (h : parseExpr fl k prec p = .ok e p1) :
    prefixParseFns p.peekToken.Typ ≠ none := by
  intro hn
  cases k with
  | zero => exact PRes.noConfusion h
  | succ k =>
    rw [parseExpr] at h
    simp only [hn] at h
    unfold Parser.next at h
    cases hp : p.nextToken k with
    | none => rw [hp] at h; exact PRes.noConfusion h
    | some r => rw [hp] at h; exact PRes.noConfusion h

/-! ## Lookups during an evaluation -/

theorem State.Stable.refl {st : State} (h : st.WF) (env base : Nat) : st.Stable env base st :=
  ⟨h, State.le_refl st, State.frame_refl env base st, State.chain_refl base st⟩

theorem State.Stable.trans {env base : Nat} {a b c : State} (h1 : a.Stable env base b)
    (h2 : b.Stable env base c) : a.Stable env base c :=
  ⟨h2.1, State.le_trans h1.2.1 h2.2.1, State.frame_trans h1.2.2.1 h2.2.2.1,
    State.chain_trans h1.2.2.2 h2.2.2.2⟩

theorem State.Stable.length {env base : Nat} {a b : State} (h : a.Stable env base b) :
    a.envs.length ≤ b.envs.length := h.2.1.2.1

theorem Res.stable_of_post {α : Type} {env base : Nat} {st st1 : State} {r : Res α} {v : α}
    (h1 : r.Post st) (h2 : r.FramePost env base st) (h3 : r.ChainPost base st)
    (h : r = .ok v st1) : st.Stable env base st1 := by
  subst h
  exact ⟨h1.1, h1.2, h2, h3⟩

/-- An evaluation in `env` that returns leaves a memory that is stable for
`env`. -/
theorem Eval_stable {fl : FloatOps} {n : Nat} {e : Expression} {env base : Nat} {st st1 : State}
    {v : Object} (hwf : st.WF) (henv : env < st.envs.length) (hb : base ≤ st.envs.length)
    (h : Eval fl n e env st = .ok v st1) : st.Stable env base st1 :=
  Res.stable_of_post (Eval_sound fl n e env st hwf henv) (Eval_framed fl n e env base st hb)
    (Eval_chained fl n e env base st hb) h

/-- One step of the walk of `Environment.Get` in a well-formed memory. -/
theorem Environment.Get_step {st : State} (hwf : st.WF) {e : Nat} {env : Environment}
    (x : GoString) (he : st.envs[e]? = some env) :
    Environment.Get st e x =
      match mapGet x env.LocalVars with
      | some c => some c
      | none =>
        match env.Outer with
        | some o => Environment.Get st o x
        | none => none := by
  have hlt : e < st.envs.length := by
    rcases Nat.lt_or_ge e st.envs.length with h | h
    · exact h
    · simp [List.getElem?_eq_none h] at he
  obtain ⟨k, hk⟩ : ∃ k, st.envs.length = k + 1 := ⟨st.envs.length - 1, by omega⟩
  have h0 : Environment.Get st e x = Environment.GetLoop st.envs x (k + 1) (some e) := by
    unfold Environment.Get
    rw [hk]
  rw [h0]
  simp only [Environment.GetLoop, he]
  cases hm : mapGet x env.LocalVars with
  | some c => rfl
  | none =>
    simp only []
    cases ho : env.Outer with
    | none => exact Environment.GetLoop_none _ _ _
    | some o =>
      have hoe : o < e := hwf.outer_lt e env he o (by simp [ho])
      exact Environment.GetLoop_congr st.envs st.envs x hwf.outer_lt st.envs.length k o
        (by omega) (by omega) fun _ _ => rfl

theorem State.localVar_none_of_Get {st : State} (hwf : st.WF) {e : Nat} {x : GoString}
    (he : e < st.envs.length) (h : Environment.Get st e x = none) : st.localVar e x = none := by
  obtain ⟨env, henv⟩ : ∃ env, st.envs[e]? = some env := ⟨st.envs[e], by simp [he]⟩
  rw [Environment.Get_step hwf x henv] at h
  unfold State.localVar
  rw [henv]
  show mapGet x env.LocalVars = none
  cases hm : mapGet x env.LocalVars with
  | none => rfl
  | some c => rw [hm] at h; exact Option.noConfusion h


/-- In a memory that is stable for `env`, a name whose binding in `env` itself
is as before resolves from `env` as before. -/
theorem Environment.Get_stable {st st1 : State} {env base : Nat} (hwf : st.WF)
    (henv : env < base) (hb : base ≤ st.envs.length) (hs : st.Stable env base st1)
    (x : GoString) (hx : st1.localVar env x = st.localVar env x) :
    Environment.Get st1 env x = Environment.Get st env x := by
  obtain ⟨hwf1, hle, hfr, hch⟩ := hs
  have hlt : env < st.envs.length := Nat.lt_of_lt_of_le henv hb
  have hlt1 : env < st1.envs.length := Nat.lt_of_lt_of_le hlt hfr.1
  obtain ⟨ea, hea⟩ : ∃ ea, st.envs[env]? = some ea := ⟨st.envs[env], by simp [hlt]⟩
  obtain ⟨ea1, hea1⟩ : ∃ ea1, st1.envs[env]? = some ea1 := ⟨st1.envs[env], by simp [hlt1]⟩
  have hout : ea1.Outer = ea.Outer := by
    have := hch.2 env henv
    rw [hea, hea1] at this
    simpa using this
  have hloc : mapGet x ea1.LocalVars = mapGet x ea.LocalVars := by
    simpa [State.localVar, hea, hea1] using hx
  rw [Environment.Get_step hwf1 x hea1, Environment.Get_step hwf x hea, hloc, hout]
  cases mapGet x ea.LocalVars with
  | some c => rfl
  | none =>
    simp only []
    cases ho : ea.Outer with
    | none => rfl
    | some o =>
      have hoe : o < env := hwf.outer_lt env ea hea o (by simp [ho])
      simp only []
      exact Environment.Get_congr hwf x (by omega) (by omega)
        fun i hi => hfr.2 i (by omega) (by omega)

/-- A name that is unbound from `env` stays unbound as long as `env` itself
does not bind it. -/
theorem Environment.Get_none_stable {st st1 : State} {env base : Nat} (hwf : st.WF)
    (henv : env < base) (hb : base ≤ st.envs.length) (hs : st.Stable env base st1)
    {x : GoString} (h : Environment.Get st env x = none) (hx : st1.localVar env x = none) :
    Environment.Get st1 env x = none := by
  rw [Environment.Get_stable hwf henv hb hs x
    (by rw [hx, State.localVar_none_of_Get hwf (Nat.lt_of_lt_of_le henv hb) h]), h]

theorem NewInnerEnv_stable {st : State} (hwf : st.WF) {outer : Nat} (ho : outer < st.envs.length)
    (env base : Nat) (hb : base ≤ st.envs.length) : st.Stable env base (NewInnerEnv outer st).2 :=
  ⟨NewInnerEnv_WF hwf ho, NewInnerEnv_le outer st, NewInnerEnv_frame outer env base st hb,
    NewInnerEnv_chain outer base st hb⟩

theorem ValueSteps.stable {fl : FloatOps} {n env base : Nat} {es : List Expression}
    {st st' : State} (h : ValueSteps (Eval fl n) env es st st') (hwf : st.WF)
    (henv : env < st.envs.length) (hb : base ≤ st.envs.length) : st.Stable env base st' := by
  induction h with
  | nil st => exact State.Stable.refl hwf env base
  | cons e es st st1 st' o he _ _ _ ih =>
    have h1 := Eval_stable hwf henv hb he
    exact h1.trans (ih h1.1 (Nat.lt_of_lt_of_le henv h1.length) (Nat.le_trans hb h1.length))

/-! ## The scopes of a call -/

/-- The memory after the loop of `evalCallExpr` over the arguments: it is
stable for the caller's environment among the environments that existed
before the call, the call scope is an inner scope of the capture scope, and
it binds no name that is not a parameter. -/
theorem callLoop_scope {fl : FloatOps} {k : Nat} {args : List Expression} {env : Nat}
    {st1 st3 : State} {fnObj : FuncValue} (hwf1 : st1.WF) (henv : env < st1.envs.length)
    (hG : fnObj.FuncEnv < st1.envs.length) (hne : env ≠ fnObj.FuncEnv)
    (hargs : callLoop (Eval fl k) env st1.envs.length fnObj.Parameters args
      (NewInnerEnv fnObj.FuncEnv st1).2 = .ok () st3) :
    st1.Stable env st1.envs.length st3 ∧ st1.envs.length < st3.envs.length ∧
    st3.envs[fnObj.FuncEnv]? = st1.envs[fnObj.FuncEnv]? ∧
    ∃ ea, st3.envs[st1.envs.length]? = some ea ∧ ea.Outer = some fnObj.FuncEnv ∧
      ∀ y, y ∉ fnObj.Parameters → mapGet y ea.LocalVars = none := by
  have hwf2 : (NewInnerEnv fnObj.FuncEnv st1).2.WF := NewInnerEnv_WF hwf1 hG
  have hlen2 : (NewInnerEnv fnObj.FuncEnv st1).2.envs.length = st1.envs.length + 1 := by
    simp [NewInnerEnv]
  have henv2 : env < (NewInnerEnv fnObj.FuncEnv st1).2.envs.length := by omega
  have hb2 : st1.envs.length ≤ (NewInnerEnv fnObj.FuncEnv st1).2.envs.length := by omega
  have hs0 : st1.Stable env st1.envs.length (NewInnerEnv fnObj.FuncEnv st1).2 :=
    NewInnerEnv_stable hwf1 hG env _ (Nat.le_refl _)
  have hs1 : (NewInnerEnv fnObj.FuncEnv st1).2.Stable env st1.envs.length st3 :=
    Res.stable_of_post
      (callLoop_post (Eval_sound fl k) env st1.envs.length fnObj.Parameters args _ hwf2 henv2)
      (callLoop_frame (Eval_framed fl k) env st1.envs.length st1.envs.length (Nat.le_refl _)
        fnObj.Parameters args _ hb2)
      (callLoop_chain (Eval_chained fl k) env st1.envs.length st1.envs.length
        fnObj.Parameters args _ hb2) hargs
  have hs := hs0.trans hs1
  have hce2 : st1.envs.length < (NewInnerEnv fnObj.FuncEnv st1).2.envs.length := by omega
  obtain ⟨hlv, hout⟩ := callLoop_localVar fl k env st1.envs.length (by omega)
    fnObj.Parameters args _ st3 hce2 hargs
  have hnew : (NewInnerEnv fnObj.FuncEnv st1).2.envs[st1.envs.length]? =
      some { LocalVars := [], Outer := some fnObj.FuncEnv } := by
    simp [NewInnerEnv]
  have hlt3 : st1.envs.length < st3.envs.length := Nat.lt_of_lt_of_le hce2 hs1.length
  refine ⟨hs, hlt3, hs.2.2.1.2 _ hG (Ne.symm hne), ?_⟩
  rw [hnew] at hout
  cases hea : st3.envs[st1.envs.length]? with
  | none => simp [hea] at hout
  | some ea =>
    rw [hea] at hout
    refine ⟨ea, rfl, by simpa using hout, fun y hy => ?_⟩
    have hx0 : (NewInnerEnv fnObj.FuncEnv st1).2.localVar st1.envs.length y = none := by
      simp [State.localVar, hnew, mapGet]
    have := hlv y
    rw [hx0] at this
    cases h : mapGet y ea.LocalVars with
    | none => rfl
    | some c =>
      have h3 : st3.localVar st1.envs.length y = some c := by
        simp [State.localVar, hea, h]
      rw [h3] at this
      simp [hy] at this

/-- A lookup through a scope that does not bind the name and whose outer
scope is closed is the lookup in the map of the outer scope. -/
theorem Environment.Get_through {st : State} (hwf : st.WF) {a g : Nat} {ea eg : Environment}
    {x : GoString} (ha : st.envs[a]? = some ea) (hout : ea.Outer = some g)
    (hg : st.envs[g]? = some eg) (hclosed : eg.Outer = none)
    (hxa : mapGet x ea.LocalVars = none) :
    Environment.Get st a x = mapGet x eg.LocalVars := by
  rw [Environment.Get_step hwf x ha, hxa]
  simp only [hout]
  rw [Environment.Get_step hwf x hg, hclosed]
  cases mapGet x eg.LocalVars <;> rfl

/-- The lookups from the call scope, while the body has not declared the name:
a name that is no parameter is looked up in the map of the capture scope. -/
theorem callScope_Get {fl : FloatOps} {k : Nat} {args : List Expression} {env : Nat}
    {st1 st3 st4 : State} {fnObj : FuncValue} {cap : Environment} {x : GoString}
    (hwf1 : st1.WF) (henv : env < st1.envs.length)
    (hcap : st1.envs[fnObj.FuncEnv]? = some cap) (hclosed : cap.Outer = none)
    (hne : env ≠ fnObj.FuncEnv) (hxps : x ∉ fnObj.Parameters)
    (hargs : callLoop (Eval fl k) env st1.envs.length fnObj.Parameters args
      (NewInnerEnv fnObj.FuncEnv st1).2 = .ok () st3)
    (hs : st3.Stable st1.envs.length st3.envs.length st4)
    (hdecl : st4.localVar st1.envs.length x = none) :
    st3.WF ∧ st4.WF ∧ st1.envs.length < st3.envs.length ∧
    Environment.Get st3 st1.envs.length x = mapGet x cap.LocalVars ∧
    Environment.Get st4 st1.envs.length x = mapGet x cap.LocalVars := by
  have hG : fnObj.FuncEnv < st1.envs.length := by
    rcases Nat.lt_or_ge fnObj.FuncEnv st1.envs.length with h | h
    · exact h
    · simp [List.getElem?_eq_none h] at hcap
  obtain ⟨hs13, hlt3, hG3, ea, hea, hout, hloc⟩ := callLoop_scope hwf1 henv hG hne hargs
  have hget3 : Environment.Get st3 st1.envs.length x = mapGet x cap.LocalVars :=
    Environment.Get_through hs13.1 hea hout (hG3.trans hcap) hclosed (hloc x hxps)
  refine ⟨hs13.1, hs.1, hlt3, hget3, ?_⟩
  rw [Environment.Get_stable hs13.1 hlt3 (Nat.le_refl _) hs x, hget3]
  rw [hdecl]
  simp [State.localVar, hea, hloc x hxps]

/-! ## The capture scope of a function literal -/

theorem captureLoop_append (fl : FloatOps) (ev : Evaluator) (env cap : Nat) :
    ∀ (pre rest : List Expression) (st : State),
      captureLoop fl ev env cap (pre ++ rest) st =
        (captureLoop fl ev env cap pre st).bind fun _ s => captureLoop fl ev env cap rest s := by
  intro pre
  induction pre with
  | nil => intro rest st; rfl
  | cons a pre ih =>
    intro rest st
    cases a with
    | DeclarationExpr l v =>
      simp only [List.cons_append, captureLoop]
      cases evalDeclarationExpr fl ev l v cap st with
      | ok o s => simp only [Res.bind_ok]; exact ih rest s
      | err e s => rfl
      | panic => rfl
      | timeout => rfl
    | Identifier y =>
      simp only [List.cons_append, captureLoop]
      cases Environment.Get st env y with
      | none => rfl
      | some c => exact ih rest _
    | _ => rfl

/-- Entries that leave the binding of `x` as it is: the loop of `evalFuncExpr`
returns, and the capture scope binds `x` as before. -/
theorem CaptureSteps.run {fl : FloatOps} {n : Nat} {x : GoString} {env cap : Nat}
    {caps : List Expression} {st st' : State} (h : CaptureSteps fl n x env cap caps st st') :
    captureLoop fl (Eval fl n) env cap caps st = .ok () st' ∧
    st'.localVar cap x = st.localVar cap x := by
  induction h with
  | nil st => exact ⟨rfl, rfl⟩
  | ident y c rest st st' hy hg _ ih =>
    refine ⟨?_, ?_⟩
    · simp only [captureLoop, hg]
      exact ih.1
    · rw [ih.2, State.localVar_Set_ne st cap y x c (Ne.symm hy)]
  | decl left value rest st st1 st' v hd hl _ ih =>
    refine ⟨?_, ?_⟩
    · simp only [captureLoop, hd, Res.bind_ok]
      exact ih.1
    · rw [ih.2, hl]

/-- The loop of `evalFuncExpr` changes, among the environments that exist, the
capture scope only. -/
theorem captureLoop_stable {fl : FloatOps} {n : Nat} {env cap base : Nat}
    {caps : List Expression} {st st' : State} (hwf : st.WF) (hcap : cap < st.envs.length)
    (hb : base ≤ st.envs.length)
    (h : captureLoop fl (Eval fl n) env cap caps st = .ok () st') : st.Stable cap base st' :=
  Res.stable_of_post (captureLoop_post (Eval_sound fl n) env cap caps st hwf hcap)
    (captureLoop_frame (Eval_framed fl n) env cap base caps st hb)
    (captureLoop_chain (Eval_chained fl n) env cap base caps st hb) h

/-- A function literal whose capture loop returns with the memory `st1`: the
literal yields a new function value; its capture scope, the environment
created for it, is closed and binds what the loop has bound there; no other
environment that exists is changed, and the lookups from the defining
environment are those before the literal. -/
theorem Eval_FuncExpr_capture (fl : FloatOps) (n : Nat) (ps : List GoString)
    (caps body : List Expression) (env : Nat) (st st1 : State) (hwf : st.WF)
    (henv : env < st.envs.length)
    (h : captureLoop fl (Eval fl n) env st.envs.length caps (NewInnerEnv env st).2 =
      .ok () st1) :
    ∃ st' cap, Eval fl (n + 1) (.FuncExpr ps caps body) env st =
        .ok (.FuncObj st1.funcs.length) st' ∧ st'.WF ∧ st.le st' ∧ st'.cells = st1.cells ∧
      st'.funcs[st1.funcs.length]? =
        some { FuncEnv := st.envs.length, Parameters := ps, Body := body } ∧
      st'.envs[st.envs.length]? = some cap ∧ cap.Outer = none ∧
      (∀ y, mapGet y cap.LocalVars = st1.localVar st.envs.length y) ∧
      (∀ i, i < st.envs.length → st'.envs[i]? = st.envs[i]?) ∧
      (∀ y, Environment.Get st' env y = Environment.Get st env y) := by
  have hwf0 := NewInnerEnv_WF hwf henv
  have hlt0 := NewInnerEnv_lt env st
  have hlen0 : (NewInnerEnv env st).2.envs.length = st.envs.length + 1 := by simp [NewInnerEnv]
  have hs1 : (NewInnerEnv env st).2.Stable st.envs.length (st.envs.length + 1) st1 :=
    captureLoop_stable hwf0 (by omega) (by omega) h
  have hlen1 : st.envs.length + 1 ≤ st1.envs.length := by
    have := hs1.length
    omega
  have hres : Eval fl (n + 1) (.FuncExpr ps caps body) env st =
      .ok (.FuncObj (Environment.Close st1 st.envs.length).funcs.length)
        { Environment.Close st1 st.envs.length with
          funcs := (Environment.Close st1 st.envs.length).funcs ++
            [{ FuncEnv := st.envs.length, Parameters := ps, Body := body }] } := by
    rw [Eval_FuncExpr]
    show ((captureLoop fl (Eval fl n) env st.envs.length caps (NewInnerEnv env st).2).bind _) = _
    rw [h]
    rfl
  have hfuncs : (Environment.Close st1 st.envs.length).funcs = st1.funcs := by
    unfold Environment.Close
    split <;> rfl
  have hwfc := Environment.Close_WF hs1.1 st.envs.length
  have hlenc : (Environment.Close st1 st.envs.length).envs.length = st1.envs.length :=
    Environment.Close_envs_length _ _
  have hwf2 : ({ Environment.Close st1 st.envs.length with
      funcs := (Environment.Close st1 st.envs.length).funcs ++
        [{ FuncEnv := st.envs.length, Parameters := ps, Body := body }] } : State).WF := by
    refine State.WF.mk' (fun i e hi => hwfc.env hi) ?_
    intro fv hfv
    simp only [List.mem_append, List.mem_singleton] at hfv
    rcases hfv with hfv | hfv
    · exact hwfc.2 fv hfv
    · subst hfv
      show st.envs.length < (Environment.Close st1 st.envs.length).envs.length
      omega
  have hold : ∀ i, i < st.envs.length →
      (Environment.Close st1 st.envs.length).envs[i]? = st.envs[i]? := by
    intro i hi
    rw [Environment.Close_envs_getElem? st1 _ i (by omega), hs1.2.2.1.2 i (by omega) (by omega)]
    simp [NewInnerEnv, List.getElem?_append_left hi]
  have hlt1 : st.envs.length < st1.envs.length := by omega
  obtain ⟨ec, hec⟩ : ∃ ec, st1.envs[st.envs.length]? = some ec :=
    ⟨st1.envs[st.envs.length], by simp [hlt1]⟩
  have hle1 : st.le st1 := State.le_trans (NewInnerEnv_le env st) hs1.2.1
  refine ⟨_, { ec with Outer := none }, ?_, hwf2, ?_, ?_, ?_, ?_, rfl, ?_, hold, ?_⟩
  · rw [hres, hfuncs]
  · have hc := Environment.Close_le st1 st.envs.length
    refine ⟨Nat.le_trans hle1.1 hc.1, Nat.le_trans hle1.2.1 hc.2.1,
      Nat.le_trans hle1.2.2.1 hc.2.2.1, Nat.le_trans hle1.2.2.2.1 hc.2.2.2.1, ?_⟩
    show st.funcs.length ≤ ((Environment.Close st1 st.envs.length).funcs ++ _).length
    rw [hfuncs, List.length_append]
    have := hle1.2.2.2.2
    omega
  · show (Environment.Close st1 st.envs.length).cells = st1.cells
    exact Environment.Close_cells _ _
  · show ((Environment.Close st1 st.envs.length).funcs ++ _)[st1.funcs.length]? = _
    rw [hfuncs]
    simp
  · show (Environment.Close st1 st.envs.length).envs[st.envs.length]? = _
    unfold Environment.Close
    rw [hec]
    simp [List.getElem?_set]
    omega
  · intro y
    simp [State.localVar, hec]
  · intro y
    refine Environment.Get_congr hwf y henv (by
      show env < (Environment.Close st1 st.envs.length).envs.length
      omega) fun i hi => hold i (by omega)

/-! ## Loops cut at an element -/

theorem callPrefix_stable {fl : FloatOps} {n : Nat} {env ce base : Nat} (hce : base ≤ ce) :
    ∀ (pre : List Expression) (ps left : List GoString) (st s : State), st.WF →
      env < st.envs.length → base ≤ st.envs.length →
      callPrefix (Eval fl n) env ce ps pre st = .ok left s → st.Stable env base s := by
  intro pre
  induction pre with
  | nil =>
    intro ps left st s hwf _ _ h
    have hs : s = st := by
      cases ps <;> simp [callPrefix] at h <;> exact h.2.symm
    rw [hs]
    exact State.Stable.refl hwf env base
  | cons a pre ih =>
    intro ps left st s hwf henv hb h
    cases ha : Eval fl n a env st with
    | ok o s1 =>
      have h1 := Eval_stable hwf henv hb ha
      have henv1 : env < s1.envs.length := Nat.lt_of_lt_of_le henv h1.length
      have hb1 : base ≤ s1.envs.length := Nat.le_trans hb h1.length
      cases ps with
      | nil =>
        simp only [callPrefix, ha, Res.bind_ok] at h
        exact h1.trans (ih [] left s1 s h1.1 henv1 hb1 h)
      | cons p ps =>
        simp only [callPrefix, ha, Res.bind_ok] at h
        have hwfn := State.newCell_WF h1.1 o
        have h2 : s1.Stable env base (Environment.Set (s1.newCell o).2 ce p (s1.newCell o).1) :=
          ⟨Environment.Set_WF hwfn ce p (State.newCell_valid s1 o),
            State.le_trans (State.newCell_le s1 o) (Environment.Set_le _ _ _ _),
            State.frame_trans (b := (s1.newCell o).2) (State.frame_of_envs_eq rfl)
              (Environment.Set_frame (s1.newCell o).2 ce p (s1.newCell o).1 env base (Or.inr hce)),
            State.chain_trans (b := (s1.newCell o).2) (State.chain_of_envs_eq rfl)
              (Environment.Set_chain (s1.newCell o).2 ce p (s1.newCell o).1 base)⟩
        have hlen2 : (Environment.Set (s1.newCell o).2 ce p (s1.newCell o).1).envs.length =
            s1.envs.length := by rw [Environment.Set_envs_length]; rfl
        exact (h1.trans h2).trans
          (ih ps left _ s h2.1 (by rw [hlen2]; exact henv1) (by rw [hlen2]; exact hb1) h)
    | err e s1 => cases ps <;> simp [callPrefix, ha] at h
    | panic => cases ps <;> simp [callPrefix, ha] at h
    | timeout => cases ps <;> simp [callPrefix, ha] at h

theorem evalPackLoop_stable {fl : FloatOps} {n : Nat} {pack env base : Nat}
    {es : List Expression} {st s : State} (hwf : st.WF) (henv : env < st.envs.length)
    (hb : base ≤ st.envs.length) (h : evalPackLoop (Eval fl n) pack env es st = .ok () s) :
    st.Stable env base s :=
  Res.stable_of_post (evalPackLoop_post (Eval_sound fl n) pack es env st hwf henv)
    (evalPackLoop_frame (Eval_framed fl n) pack env base es st hb)
    (evalPackLoop_chain (Eval_chained fl n) pack env base es st hb) h

theorem evalTableLoop_stable {fl : FloatOps} {n : Nat} {table env base : Nat}
    {es : List (Expression × Expression)} {st s : State} (hwf : st.WF)
    (henv : env < st.envs.length) (hb : base ≤ st.envs.length)
    (h : evalTableLoop fl (Eval fl n) table env es st = .ok () s) : st.Stable env base s :=
  Res.stable_of_post (evalTableLoop_post (Eval_sound fl n) table es env st hwf henv)
    (evalTableLoop_frame (Eval_framed fl n) table env base es st hb)
    (evalTableLoop_chain (Eval_chained fl n) table env base es st hb) h

/-- The lookups of a name from `env` are those before steps of an evaluation
in `env` that leave the name unbound in `env` itself. -/
theorem resolve_after {st st1 : State} {env : Nat} {x : GoString} (hwf : st.WF)
    (henv : env < st.envs.length) (h : st.localVar env x = none)
    (hs : st.Stable env st.envs.length st1) (hx : st1.localVar env x = none) :
    st1.WF ∧ env < st1.envs.length ∧ st1.localVar env x = none ∧
    Environment.Get st1 env x = Environment.Get st env x :=
  ⟨hs.1, Nat.lt_of_lt_of_le henv hs.length, hx,
    Environment.Get_stable hwf henv (Nat.le_refl _) hs x (hx.trans h.symm)⟩

theorem State.localVar_NewInnerEnv (outer : Nat) (st : State) (x : GoString) :
    (NewInnerEnv outer st).2.localVar (NewInnerEnv outer st).1 x = none := by
  simp [State.localVar, NewInnerEnv, mapGet]

/-- The lookups from a new inner scope are those from the scope around it. -/
theorem resolve_inner {st : State} {env : Nat} (x : GoString) (hwf : st.WF)
    (henv : env < st.envs.length) :
    (NewInnerEnv env st).2.WF ∧ (NewInnerEnv env st).1 < (NewInnerEnv env st).2.envs.length ∧
    (NewInnerEnv env st).2.localVar (NewInnerEnv env st).1 x = none ∧
    Environment.Get (NewInnerEnv env st).2 (NewInnerEnv env st).1 x =
      Environment.Get st env x :=
  ⟨NewInnerEnv_WF hwf henv, NewInnerEnv_lt env st, State.localVar_NewInnerEnv env st x,
    Environment.Get_NewInnerEnv hwf x henv⟩

/-! ## The sub-expressions that an evaluation arrives at -/

/-- An assignment to targets that returns leaves a memory that is stable for
the environment of the assignment. -/
theorem declareAssignHelper_stable {fl : FloatOps} {n : Nat} {fn : AssignFn}
    {left : Expression} {value : Object} {env base : Nat} {st st1 : State} (hwf : st.WF)
    (henv : env < st.envs.length) (hb : base ≤ st.envs.length)
    (h : declareAssignHelper fl (Eval fl n) fn left value env st = .ok () st1) :
    st.Stable env base st1 :=
  Res.stable_of_post (declareAssignHelper_post (Eval_sound fl n) fn left value env st hwf henv)
    (declareAssignHelper_frame (Eval_framed fl n) fn base left value env st hb)
    (declareAssignHelper_chain (Eval_chained fl n) fn base left value env st hb) h

/-- Where the evaluation arrives, the name `x`, unbound in the environment of
the evaluation itself, is looked up as from that environment at the start:
the scopes on the way are inner scopes of it that do not bind `x`. -/
theorem Reaches.resolve {fl : FloatOps} {x : GoString} {t : Expression} {tenv : Nat}
    {tst : State} {j k : Nat} {w : Work} {env : Nat} {st : State}
    (h : Reaches fl x t tenv tst j k w env st) : st.WF → env < st.envs.length →
    st.localVar env x = none →
    tst.WF ∧ tenv < tst.envs.length ∧ tst.localVar tenv x = none ∧
    Environment.Get tst tenv x = Environment.Get st env x := by
  induction h with
  | here => exact fun hwf henv hx => ⟨hwf, henv, hx, rfl⟩
  | operand k op r env st _ ih => exact ih
  | left k op l r env st _ ih => exact ih
  | right k op l r env st st1 a hl hloc _ ih =>
    intro hwf henv hx
    obtain ⟨hwf1, henv1, hx1, hg1⟩ :=
      resolve_after hwf henv hx (Eval_stable hwf henv (Nat.le_refl _) hl) hloc
    obtain ⟨h1, h2, h3, h4⟩ := ih hwf1 henv1 hx1
    exact ⟨h1, h2, h3, h4.trans hg1⟩
  | returned k e env st _ ih => exact ih
  | broken k e env st _ ih => exact ih
  | declareValue k left e env st _ ih => exact ih
  | assignValue k left e env st _ ih => exact ih
  | declareTarget k left e env st st1 v he hloc _ ih =>
    intro hwf henv hx
    obtain ⟨hwf1, henv1, hx1, hg1⟩ :=
      resolve_after hwf henv hx (Eval_stable hwf henv (Nat.le_refl _) he) hloc
    obtain ⟨h1, h2, h3, h4⟩ := ih hwf1 henv1 hx1
    exact ⟨h1, h2, h3, h4.trans hg1⟩
  | assignTarget k left e env st st1 v he hloc _ ih =>
    intro hwf henv hx
    obtain ⟨hwf1, henv1, hx1, hg1⟩ :=
      resolve_after hwf henv hx (Eval_stable hwf henv (Nat.le_refl _) he) hloc
    obtain ⟨h1, h2, h3, h4⟩ := ih hwf1 henv1 hx1
    exact ⟨h1, h2, h3, h4.trans hg1⟩
  | targetTable k fn tb ti v env st _ ih => exact ih
  | targetKey k fn tb ti v env st st1 table htb hloc _ ih =>
    intro hwf henv hx
    obtain ⟨hwf1, henv1, hx1, hg1⟩ :=
      resolve_after hwf henv hx (Eval_stable hwf henv (Nat.le_refl _) htb) hloc
    obtain ⟨h1, h2, h3, h4⟩ := ih hwf1 henv1 hx1
    exact ⟨h1, h2, h3, h4.trans hg1⟩
  | targetPack k fn lefts p objs env st _ _ ih => exact ih
  | targetFirst k fn left rest v env st _ _ ih => exact ih
  | targetsHead k fn left rest obj objs env st _ ih => exact ih
  | targetsHeadNil k fn left rest env st _ ih => exact ih
  | targetsTail k fn left rest obj objs env st st1 hh hloc _ ih =>
    intro hwf henv hx
    obtain ⟨hwf1, henv1, hx1, hg1⟩ :=
      resolve_after hwf henv hx (declareAssignHelper_stable hwf henv (Nat.le_refl _) hh) hloc
    obtain ⟨h1, h2, h3, h4⟩ := ih hwf1 henv1 hx1
    exact ⟨h1, h2, h3, h4.trans hg1⟩
  | targetsTailNil k fn left rest env st st1 hh hloc _ ih =>
    intro hwf henv hx
    obtain ⟨hwf1, henv1, hx1, hg1⟩ :=
      resolve_after hwf henv hx (declareAssignHelper_stable hwf henv (Nat.le_refl _) hh) hloc
    obtain ⟨h1, h2, h3, h4⟩ := ih hwf1 henv1 hx1
    exact ⟨h1, h2, h3, h4.trans hg1⟩
  | indexTable k tb ti env st _ ih => exact ih
  | indexKey k tb ti env st st1 table htb hloc _ ih =>
    intro hwf henv hx
    obtain ⟨hwf1, henv1, hx1, hg1⟩ :=
      resolve_after hwf henv hx (Eval_stable hwf henv (Nat.le_refl _) htb) hloc
    obtain ⟨h1, h2, h3, h4⟩ := ih hwf1 henv1 hx1
    exact ⟨h1, h2, h3, h4.trans hg1⟩
  | block k pre e rest env st st1 hpre hloc _ ih =>
    intro hwf henv _
    obtain ⟨hwf0, henv0, hx0, hg0⟩ := resolve_inner x hwf henv
    obtain ⟨hwf1, henv1, hx1, hg1⟩ :=
      resolve_after hwf0 henv0 hx0 (hpre.stable hwf0 henv0 (Nat.le_refl _)) hloc
    obtain ⟨h1, h2, h3, h4⟩ := ih hwf1 henv1 hx1
    exact ⟨h1, h2, h3, h4.trans (hg1.trans hg0)⟩
  | ifCondition k c A B env st _ ih =>
    intro hwf henv _
    obtain ⟨hwf0, henv0, hx0, hg0⟩ := resolve_inner x hwf henv
    obtain ⟨h1, h2, h3, h4⟩ := ih hwf0 henv0 hx0
    exact ⟨h1, h2, h3, h4.trans hg0⟩
  | ifConsequence k c A B env st st1 cv hc hcv hloc _ ih =>
    intro hwf henv _
    obtain ⟨hwf0, henv0, hx0, hg0⟩ := resolve_inner x hwf henv
    obtain ⟨hwf1, henv1, hx1, hg1⟩ :=
      resolve_after hwf0 henv0 hx0 (Eval_stable hwf0 henv0 (Nat.le_refl _) hc) hloc
    obtain ⟨h1, h2, h3, h4⟩ := ih hwf1 henv1 hx1
    exact ⟨h1, h2, h3, h4.trans (hg1.trans hg0)⟩
  | ifAlternative k c A B env st st1 cv hc hcv hloc _ ih =>
    intro hwf henv _
    obtain ⟨hwf0, henv0, hx0, hg0⟩ := resolve_inner x hwf henv
    obtain ⟨hwf1, henv1, hx1, hg1⟩ :=
      resolve_after hwf0 henv0 hx0 (Eval_stable hwf0 henv0 (Nat.le_refl _) hc) hloc
    obtain ⟨h1, h2, h3, h4⟩ := ih hwf1 henv1 hx1
    exact ⟨h1, h2, h3, h4.trans (hg1.trans hg0)⟩
  | callee k fe args env st _ ih => exact ih
  | argument k fe pre a rest env st st1 st2 f fnObj unbound hfe hf hpre hloc _ ih =>
    intro hwf henv hx
    have s1 := Eval_stable hwf henv (Nat.le_refl _) hfe
    have henv1 : env < st1.envs.length := Nat.lt_of_lt_of_le henv s1.length
    have hfenv : fnObj.FuncEnv < st1.envs.length := s1.1.func hf
    have s2 := NewInnerEnv_stable s1.1 hfenv env st.envs.length s1.length
    have hlen2 : (NewInnerEnv fnObj.FuncEnv st1).2.envs.length = st1.envs.length + 1 := by
      simp [NewInnerEnv]
    have s3 : (NewInnerEnv fnObj.FuncEnv st1).2.Stable env st.envs.length st2 :=
      callPrefix_stable s1.length pre fnObj.Parameters unbound _ st2 s2.1
        (by rw [hlen2]; omega) (by rw [hlen2]; have := s1.length; omega) hpre
    obtain ⟨hwf2, henv2, hx2, hg2⟩ := resolve_after hwf henv hx ((s1.trans s2).trans s3) hloc
    obtain ⟨h1, h2, h3, h4⟩ := ih hwf2 henv2 hx2
    exact ⟨h1, h2, h3, h4.trans hg2⟩
  | packElement k pre e rest env st st1 hpre hloc _ ih =>
    intro hwf henv hx
    have hwf0 : ({ st with packs := st.packs ++ [[]] } : State).WF :=
      hwf.of_same_envs rfl rfl (Nat.le_refl _)
    have s0 : st.Stable env st.envs.length { st with packs := st.packs ++ [[]] } :=
      ⟨hwf0, by simp [State.le], State.frame_of_envs_eq rfl, State.chain_of_envs_eq rfl⟩
    have s1 : State.Stable env st.envs.length { st with packs := st.packs ++ [[]] } st1 :=
      evalPackLoop_stable hwf0 henv (Nat.le_refl _) hpre
    obtain ⟨hwf1, henv1, hx1, hg1⟩ := resolve_after hwf henv hx (s0.trans s1) hloc
    obtain ⟨h1, h2, h3, h4⟩ := ih hwf1 henv1 hx1
    exact ⟨h1, h2, h3, h4.trans hg1⟩
  | tableKey k pre key value rest env st st1 hpre hloc _ ih =>
    intro hwf henv hx
    have hwf0 : ({ st with tables := st.tables ++ [[]] } : State).WF :=
      hwf.of_same_envs rfl rfl (Nat.le_refl _)
    have s0 : st.Stable env st.envs.length { st with tables := st.tables ++ [[]] } :=
      ⟨hwf0, by simp [State.le], State.frame_of_envs_eq rfl, State.chain_of_envs_eq rfl⟩
    have s1 : State.Stable env st.envs.length { st with tables := st.tables ++ [[]] } st1 :=
      evalTableLoop_stable hwf0 henv (Nat.le_refl _) hpre
    obtain ⟨hwf1, henv1, hx1, hg1⟩ := resolve_after hwf henv hx (s0.trans s1) hloc
    obtain ⟨h1, h2, h3, h4⟩ := ih hwf1 henv1 hx1
    exact ⟨h1, h2, h3, h4.trans hg1⟩
  | tableValue k pre key value rest env st st1 st2 kv hpre hkey hloc _ ih =>
    intro hwf henv hx
    have hwf0 : ({ st with tables := st.tables ++ [[]] } : State).WF :=
      hwf.of_same_envs rfl rfl (Nat.le_refl _)
    have s0 : st.Stable env st.envs.length { st with tables := st.tables ++ [[]] } :=
      ⟨hwf0, by simp [State.le], State.frame_of_envs_eq rfl, State.chain_of_envs_eq rfl⟩
    have s1 : State.Stable env st.envs.length { st with tables := st.tables ++ [[]] } st1 :=
      evalTableLoop_stable hwf0 henv (Nat.le_refl _) hpre
    have s2 := Eval_stable s1.1 (Nat.lt_of_lt_of_le henv s1.length) s1.length hkey
    obtain ⟨hwf2, henv2, hx2, hg2⟩ := resolve_after hwf henv hx ((s0.trans s1).trans s2) hloc
    obtain ⟨h1, h2, h3, h4⟩ := ih hwf2 henv2 hx2
    exact ⟨h1, h2, h3, h4.trans hg2⟩
  | captureValue k ps pre left value rest body env st st1 hpre hloc _ ih =>
    intro hwf henv _
    obtain ⟨hwf0, henv0, hx0, hg0⟩ := resolve_inner x hwf henv
    have s1 : (NewInnerEnv env st).2.Stable (NewInnerEnv env st).1
        (NewInnerEnv env st).2.envs.length st1 :=
      captureLoop_stable hwf0 henv0 (Nat.le_refl _) hpre
    obtain ⟨hwf1, henv1, hx1, hg1⟩ := resolve_after hwf0 henv0 hx0 s1 hloc
    obtain ⟨h1, h2, h3, h4⟩ := ih hwf1 henv1 hx1
    exact ⟨h1, h2, h3, h4.trans (hg1.trans hg0)⟩
  | captureTarget k ps pre left value rest body env st st1 st2 v hpre hv hloc _ ih =>
    intro hwf henv _
    obtain ⟨hwf0, henv0, hx0, hg0⟩ := resolve_inner x hwf henv
    have s1 : (NewInnerEnv env st).2.Stable (NewInnerEnv env st).1
        (NewInnerEnv env st).2.envs.length st1 :=
      captureLoop_stable hwf0 henv0 (Nat.le_refl _) hpre
    have s2 : st1.Stable (NewInnerEnv env st).1 (NewInnerEnv env st).2.envs.length st2 :=
      Eval_stable s1.1 (Nat.lt_of_lt_of_le henv0 s1.length) s1.length hv
    obtain ⟨hwf2, henv2, hx2, hg2⟩ := resolve_after hwf0 henv0 hx0 (s1.trans s2) hloc
    obtain ⟨h1, h2, h3, h4⟩ := ih hwf2 henv2 hx2
    exact ⟨h1, h2, h3, h4.trans (hg2.trans hg0)⟩

/-! ## Calls that have come into the body -/

/-- The call evaluates the body from the element that it has come to. -/
theorem CallAt.eval {fl : FloatOps} {x : GoString} {K : Nat} {fe : Expression}
    {args : List Expression} {env : Nat} {st : State} {fnObj : FuncValue} {cap : Environment}
    {ce : Nat} {pre : List Expression} {e0 : Expression} {rest : List Expression} {st4 : State}
    (h : CallAt fl x K fe args env st fnObj cap ce pre e0 rest st4) :
    Eval fl (K + 1) (.CallExpr fe args) env st =
      evalFuncBlockExpr (Eval fl K) (e0 :: rest) ce st4 := by
  obtain ⟨f, st1, st3, hfe, hf, _, hce, hargs, hsteps⟩ := h.run
  subst hce
  simp only [Eval_CallExpr, evalCallExpr, hfe, Res.bind_ok, hf, NewInnerEnv_fst, hargs,
    evalFuncBlockExpr, h.body, evalBlockExpr_valueSteps _ _ pre (e0 :: rest) _ _ hsteps]

/-- Where the evaluation of the body arrives, the name `x` is looked up in
the map of the capture scope of the function. -/
theorem CallAt.lookup {fl : FloatOps} {x : GoString} {K : Nat} {fe : Expression}
    {args : List Expression} {env : Nat} {st : State} {fnObj : FuncValue} {cap : Environment}
    {ce : Nat} {pre : List Expression} {e0 : Expression} {rest : List Expression} {st4 : State}
    (h : CallAt fl x K fe args env st fnObj cap ce pre e0 rest st4) (hwf : st.WF)
    (henv : env < st.envs.length) {t : Expression} {tenv : Nat} {tst : State} {j : Nat}
    (hr : Reaches fl x t tenv tst j K (.expr e0) ce st4) :
    tst.WF ∧ tenv < tst.envs.length ∧ tst.localVar tenv x = none ∧
    Environment.Get tst tenv x = mapGet x cap.LocalVars := by
  obtain ⟨f, st1, st3, hfe, hf, hcap, hce, hargs, hsteps⟩ := h.run
  subst hce
  obtain ⟨hwf1, hle1⟩ := Eval_ok_WF hwf henv hfe
  have henv1 : env < st1.envs.length := Nat.lt_of_lt_of_le henv hle1.2.1
  have hG : fnObj.FuncEnv < st1.envs.length := hwf1.func hf
  obtain ⟨hs13, hlt3, _, _⟩ := callLoop_scope hwf1 henv1 hG h.caller hargs
  have hs34 : st3.Stable st1.envs.length st3.envs.length st4 :=
    hsteps.stable hs13.1 hlt3 (Nat.le_refl _)
  obtain ⟨_, hwf4, _, _, hg4⟩ := callScope_Get hwf1 henv1 hcap h.closed h.caller h.parameter
    hargs hs34 h.undeclared
  obtain ⟨h1, h2, h3, h4⟩ :=
    hr.resolve hwf4 (Nat.lt_of_lt_of_le hlt3 hs34.length) h.undeclared
  exact ⟨h1, h2, h3, h4.trans hg4⟩

/-- An assignment to a name that the environment does not bind itself, and
that the evaluation of the value does not come to bind there, stores the
value in the cell that the name is looked up to before. -/
theorem Eval_assign_resolved (fl : FloatOps) (m : Nat) (x : GoString) (e : Expression)
    (env : Nat) (st st1 : State) (v : Object) (c : Cell) (hwf : st.WF)
    (henv : env < st.envs.length) (hx : st.localVar env x = none)
    (hc : Environment.Get st env x = some c) (he : Eval fl m e env st = .ok v st1)
    (hx1 : st1.localVar env x = none) :
    Eval fl (m + 1) (.AssignExpr (.Identifier x) e) env st = .ok v (st1.store c v) ∧
    (st1.store c v).load c = some v ∧ (st1.store c v).envs = st1.envs ∧
    (∀ c', c' ≠ c → (st1.store c v).load c' = st1.load c') ∧
    Environment.Get (st1.store c v) env x = some c := by
  obtain ⟨hwf1, _, _, hg1⟩ :=
    resolve_after hwf henv hx (Eval_stable hwf henv (Nat.le_refl _) he) hx1
  have hc1 : Environment.Get st1 env x = some c := hg1.trans hc
  exact ⟨Eval_assign_identifier fl m x e env st st1 v c he hc1,
    State.load_store_self v (Environment.Get_valid hwf1 hc1), State.store_envs st1 c v,
    fun c' hne => State.load_store_ne st1 v hne, by rw [Environment.Get_store, hc1]⟩

/-- A read of a name that is looked up to a cell yields the content of the
cell. -/
theorem Eval_identifier_resolved (fl : FloatOps) (m : Nat) (x : GoString) (env : Nat)
    (st : State) (c : Cell) (w : Object) (hc : Environment.Get st env x = some c)
    (hw : st.load c = some w) : Eval fl (m + 1) (.Identifier x) env st = .ok w st := by
  simp only [Eval_Identifier, evalIdentifierExpr, hc, hw]

/-- The lookups of a name from an environment after an evaluation in it that
leaves the binding of the name in the environment itself as it was, and the
other environments that exist. -/
theorem Eval_ok_lookup {fl : FloatOps} {n : Nat} {e : Expression} {env : Nat} {st s : State}
    {v : Object} (hwf : st.WF) (henv : env < st.envs.length)
    (h : Eval fl n e env st = .ok v s) :
    s.WF ∧ env < s.envs.length ∧
    (∀ x, s.localVar env x = st.localVar env x →
      Environment.Get s env x = Environment.Get st env x) ∧
    ∀ g, g < st.envs.length → g ≠ env → s.envs[g]? = st.envs[g]? := by
  have hs := Eval_stable hwf henv (Nat.le_refl _) h
  exact ⟨hs.1, Nat.lt_of_lt_of_le henv hs.length,
    fun x hx => Environment.Get_stable hwf henv (Nat.le_refl _) hs x hx, Eval_ok_frame h⟩

/-! ## Capture lists -/

/-- The loop of `evalFuncExpr` leaves the lookups from the defining
environment as they are. -/
theorem captureLoop_lookup {fl : FloatOps} {n : Nat} {env : Nat} {caps : List Expression}
    {st sa : State} (hwf : st.WF) (henv : env < st.envs.length)
    (h : captureLoop fl (Eval fl n) env st.envs.length caps (NewInnerEnv env st).2 =
      .ok () sa) :
    sa.WF ∧ st.envs.length < sa.envs.length ∧ st.le sa ∧
    ∀ y, Environment.Get sa env y = Environment.Get st env y := by
  have hwf0 := NewInnerEnv_WF hwf henv
  have hlen0 : (NewInnerEnv env st).2.envs.length = st.envs.length + 1 := by simp [NewInnerEnv]
  have hs : (NewInnerEnv env st).2.Stable st.envs.length (st.envs.length + 1) sa :=
    captureLoop_stable hwf0 (by omega) (by omega) h
  have hlen : st.envs.length + 1 ≤ sa.envs.length := by
    have := hs.length
    omega
  refine ⟨hs.1, by omega, State.le_trans (NewInnerEnv_le env st) hs.2.1, fun y => ?_⟩
  refine Environment.Get_congr hwf y henv (by omega) fun i hi => ?_
  rw [hs.2.2.1.2 i (by omega) (by omega)]
  simp [NewInnerEnv, List.getElem?_append_left (Nat.lt_of_le_of_lt hi henv)]

/-- A function literal with the bare identifier `x` in its capture list, no
later entry of the list binding `x` again: the capture scope binds `x` to the
cell that the defining environment resolves `x` to. -/
theorem Eval_FuncExpr_shares (fl : FloatOps) (n : Nat) (x : GoString) (c : Cell)
    (ps : List GoString) (pre post body : List Expression) (env : Nat) (st sa sb : State)
    (hwf : st.WF) (henv : env < st.envs.length) (hx : Environment.Get st env x = some c)
    (hpre : captureLoop fl (Eval fl n) env st.envs.length pre (NewInnerEnv env st).2 =
      .ok () sa)
    (hpost : CaptureSteps fl n x env st.envs.length post
      (Environment.Set sa st.envs.length x c) sb) :
    ∃ st' cap, Eval fl (n + 1) (.FuncExpr ps (pre ++ .Identifier x :: post) body) env st =
        .ok (.FuncObj sb.funcs.length) st' ∧ st'.WF ∧
      st'.funcs[sb.funcs.length]? =
        some { FuncEnv := st.envs.length, Parameters := ps, Body := body } ∧
      st'.envs[st.envs.length]? = some cap ∧ cap.Outer = none ∧
      mapGet x cap.LocalVars = some c ∧ Environment.Get st' env x = some c ∧
      ∀ i, i < st.envs.length → st'.envs[i]? = st.envs[i]? := by
  obtain ⟨_, hcapa, _, hga⟩ := captureLoop_lookup hwf henv hpre
  obtain ⟨hrun, hloc⟩ := hpost.run
  have hall : captureLoop fl (Eval fl n) env st.envs.length (pre ++ .Identifier x :: post)
      (NewInnerEnv env st).2 = .ok () sb := by
    rw [captureLoop_append, hpre, Res.bind_ok]
    simp only [captureLoop, hga x, hx]
    exact hrun
  obtain ⟨st', cap, h1, h2, _, _, h5, h6, h7, h8, h9, h10⟩ :=
    Eval_FuncExpr_capture fl n ps _ body env st sb hwf henv hall
  refine ⟨st', cap, h1, h2, h5, h6, h7, ?_, by rw [h10 x, hx], h9⟩
  rw [h8 x, hloc]
  exact State.localVar_Set_self sa x c hcapa

/-- C2 as amended (closure aliasing).  Let the environment `env` resolve `x`
to the cell `c`.
(1) A function literal evaluated in `env` whose capture list has the bare
identifier `x`, the entries `pre` before it evaluating and the entries `post`
after it not binding `x` again, yields a function value whose capture scope
is closed and binds `x` to `c`; `env` still resolves `x` to `c` and no
environment that existed is changed.  So two such literals evaluated in
`env`, while `env` resolves `x` to `c`, and the defining scope share the
cell `c`.
(2), (3) In a call of a function whose capture scope binds `x` to `c`, `x`
being none of its parameters and not declared in the call scope before:
wherever the evaluation of the body arrives, on a way through scopes that do
not bind `x` themselves, `x` is resolved to `c`; a read of `x` that the
evaluation arrives at yields the content of `c`, and an assignment `x = e`
that it arrives at, `e` yielding `v` and not declaring `x` there, stores `v`
in `c`, after which a read of `x` in every environment that resolves `x` to
`c` yields `v`.
(4), (5) When the assignment, or `return x`, is itself an element of the
body, the call goes on with the elements after the assignment in the memory
in which `c` holds `v`, or returns the content of `c`.
(6) What is evaluated in the defining scope, such as the calls of the
closures, leaves the capture scopes as they are, and leaves the lookup of
`x` from the defining scope unless it declares `x` there again. -/
theorem closure_aliasing (fl : FloatOps) (x : GoString) (c : Cell) :
    (∀ (n : Nat) (ps : List GoString) (pre post body : List Expression) (env : Nat)
      (st sa sb : State), st.WF → env < st.envs.length → Environment.Get st env x = some c →
      captureLoop fl (Eval fl n) env st.envs.length pre (NewInnerEnv env st).2 = .ok () sa →
      CaptureSteps fl n x env st.envs.length post (Environment.Set sa st.envs.length x c) sb →
      ∃ st' cap, Eval fl (n + 1) (.FuncExpr ps (pre ++ .Identifier x :: post) body) env st =
          .ok (.FuncObj sb.funcs.length) st' ∧ st'.WF ∧
        st'.funcs[sb.funcs.length]? =
          some { FuncEnv := st.envs.length, Parameters := ps, Body := body } ∧
        st'.envs[st.envs.length]? = some cap ∧ cap.Outer = none ∧
        mapGet x cap.LocalVars = some c ∧ Environment.Get st' env x = some c ∧
        ∀ i, i < st.envs.length → st'.envs[i]? = st.envs[i]?) ∧
    (∀ (K : Nat) (fe : Expression) (args : List Expression) (env : Nat) (st : State)
      (fnObj : FuncValue) (cap : Environment) (ce : Nat) (pre : List Expression)
      (e0 : Expression) (rest : List Expression) (st4 : State) (tenv : Nat) (tst : State)
      (m : Nat) (w : Object), st.WF → env < st.envs.length →
      CallAt fl x K fe args env st fnObj cap ce pre e0 rest st4 →
      mapGet x cap.LocalVars = some c →
      Reaches fl x (.Identifier x) tenv tst (m + 1) K (.expr e0) ce st4 → tst.load c = some w →
      Environment.Get tst tenv x = some c ∧
      Eval fl (m + 1) (.Identifier x) tenv tst = .ok w tst) ∧
    (∀ (K : Nat) (fe : Expression) (args : List Expression) (env : Nat) (st : State)
      (fnObj : FuncValue) (cap : Environment) (ce : Nat) (pre : List Expression)
      (e0 : Expression) (rest : List Expression) (st4 : State) (tenv : Nat) (tst : State)
      (m : Nat) (e : Expression) (v : Object) (st5 : State), st.WF → env < st.envs.length →
      CallAt fl x K fe args env st fnObj cap ce pre e0 rest st4 →
      mapGet x cap.LocalVars = some c →
      Reaches fl x (.AssignExpr (.Identifier x) e) tenv tst (m + 1) K (.expr e0) ce st4 →
      Eval fl m e tenv tst = .ok v st5 → st5.localVar tenv x = none →
      Environment.Get tst tenv x = some c ∧
      Eval fl (m + 1) (.AssignExpr (.Identifier x) e) tenv tst = .ok v (st5.store c v) ∧
      (st5.store c v).load c = some v ∧ (st5.store c v).envs = st5.envs ∧
      ∀ a k, Environment.Get st5 a x = some c →
        Eval fl (k + 1) (.Identifier x) a (st5.store c v) = .ok v (st5.store c v)) ∧
    (∀ (m : Nat) (fe : Expression) (args : List Expression) (env : Nat) (st : State)
      (fnObj : FuncValue) (cap : Environment) (ce : Nat) (pre : List Expression)
      (e : Expression) (rest : List Expression) (st4 st5 : State) (v : Object),
      st.WF → env < st.envs.length →
      CallAt fl x (m + 1) fe args env st fnObj cap ce pre (.AssignExpr (.Identifier x) e) rest
        st4 →
      mapGet x cap.LocalVars = some c → Eval fl m e ce st4 = .ok v st5 →
      st5.localVar ce x = none → v.Typ ≠ .TReturnObj → v.Typ ≠ .TBreakObj →
      Eval fl (m + 2) (.CallExpr fe args) env st =
        evalFuncBlockExpr (Eval fl (m + 1)) rest ce (st5.store c v) ∧
      (st5.store c v).load c = some v) ∧
    (∀ (m : Nat) (fe : Expression) (args : List Expression) (env : Nat) (st : State)
      (fnObj : FuncValue) (cap : Environment) (ce : Nat) (pre rest : List Expression)
      (st4 : State) (w : Object), st.WF → env < st.envs.length →
      CallAt fl x (m + 2) fe args env st fnObj cap ce pre (.ReturnExpr (.Identifier x)) rest
        st4 →
      mapGet x cap.LocalVars = some c → st4.load c = some w →
      Eval fl (m + 3) (.CallExpr fe args) env st = .ok w st4) ∧
    (∀ (n : Nat) (e : Expression) (env : Nat) (st s : State) (v : Object), st.WF →
      env < st.envs.length → Eval fl n e env st = .ok v s →
      (s.localVar env x = st.localVar env x →
        Environment.Get s env x = Environment.Get st env x) ∧
      ∀ g, g < st.envs.length → g ≠ env → s.envs[g]? = st.envs[g]?) := by
  refine ⟨?_, ?_, ?_, ?_, ?_, ?_⟩
  · intro n ps pre post body env st sa sb hwf henv hx hpre hpost
    exact Eval_FuncExpr_shares fl n x c ps pre post body env st sa sb hwf henv hx hpre hpost
  · intro K fe args env st fnObj cap ce pre e0 rest st4 tenv tst m w hwf henv hcall hcap hr hw
    obtain ⟨_, _, _, hg⟩ := hcall.lookup hwf henv hr
    have hc : Environment.Get tst tenv x = some c := hg.trans hcap
    exact ⟨hc, Eval_identifier_resolved fl m x tenv tst c w hc hw⟩
  · intro K fe args env st fnObj cap ce pre e0 rest st4 tenv tst m e v st5 hwf henv hcall hcap
      hr he hx5
    obtain ⟨hwft, htenv, hxt, hg⟩ := hcall.lookup hwf henv hr
    have hc : Environment.Get tst tenv x = some c := hg.trans hcap
    obtain ⟨h1, h2, h3, _, _⟩ :=
      Eval_assign_resolved fl m x e tenv tst st5 v c hwft htenv hxt hc he hx5
    refine ⟨hc, h1, h2, h3, fun a k ha => ?_⟩
    exact Eval_identifier_resolved fl k x a _ c v (by rw [Environment.Get_store, ha]) h2
  · intro m fe args env st fnObj cap ce pre e rest st4 st5 v hwf henv hcall hcap he hx5 hv1 hv2
    obtain ⟨hwft, htenv, hxt, hg⟩ := hcall.lookup hwf henv Reaches.here
    obtain ⟨h1, h2, _, _, _⟩ :=
      Eval_assign_resolved fl m x e ce st4 st5 v c hwft htenv hxt (hg.trans hcap) he hx5
    refine ⟨?_, h2⟩
    rw [hcall.eval]
    simp only [evalFuncBlockExpr, evalBlockExpr_cons_of_value _ _ rest ce st4 _ v h1 hv1 hv2]
  · intro m fe args env st fnObj cap ce pre rest st4 w hwf henv hcall hcap hw
    obtain ⟨_, _, _, hg⟩ := hcall.lookup hwf henv Reaches.here
    have hread := Eval_identifier_resolved fl m x ce st4 c w (hg.trans hcap) hw
    have hret : Eval fl (m + 2) (.ReturnExpr (.Identifier x)) ce st4 =
        .ok (.ReturnObj w) st4 := by
      simp only [Eval_ReturnExpr, hread, Res.bind_ok]
    rw [hcall.eval]
    simp only [evalFuncBlockExpr, evalBlockExpr, hret, Res.bind_ok]
  · intro n e env st s v hwf henv h
    obtain ⟨_, _, h3, h4⟩ := Eval_ok_lookup hwf henv h
    exact ⟨h3 x, h4⟩

/-- C2 as amended, witness: the program `aliasSource` leaves the memory
`aliasMemory`, in which the capture scopes of `f` and `g` and the defining
scope bind `x` to the cell 0; the literal `func()[x]{ return x }` evaluated
in the memory of `x := 0` captures the cell of `x`; the call `g()` arrives at
the read of `x` in `1 + x`, which yields the content of the cell; the call
`f()` arrives, inside the `if`, at `x = x + 5`, which stores 12 in the cell,
read as 12 from the defining scope; the calls with the assignment `x = 7` and
with `return x` as elements of the body; and the programs run from their
source text, the counter scenario of the tests among them. -/
theorem closure_aliasing_witness :
    (runSource bitsOps 60 aliasSource).map (fun r => r.1.state?) = some (some aliasMemory) ∧
    (∃ st' cap, Eval bitsOps 1 (.FuncExpr [] [.Identifier (str "x")]
          [.ReturnExpr (.Identifier (str "x"))]) 0 counterMemory = .ok (.FuncObj 0) st' ∧
        st'.envs[1]? = some cap ∧ cap.Outer = none ∧
        mapGet (str "x") cap.LocalVars = some (.alloc 0) ∧
        Environment.Get st' 0 (str "x") = some (.alloc 0)) ∧
    (Environment.Get aliasCallG 3 (str "x") = some (.alloc 0) ∧
      Eval bitsOps 2 (.Identifier (str "x")) 3 aliasCallG = .ok (.IntegerObj 0) aliasCallG) ∧
    (Environment.Get aliasInnerF 5 (str "x") = some (.alloc 0) ∧
      Eval bitsOps 3 (.AssignExpr (.Identifier (str "x"))
          (.ArithInfixExpr .T_PLUS (.Identifier (str "x")) (.IntegerExpr 5))) 5 aliasInnerF =
        .ok (.IntegerObj 12) (aliasInnerF.store (.alloc 0) (.IntegerObj 12)) ∧
      Eval bitsOps 1 (.Identifier (str "x")) 0 (aliasInnerF.store (.alloc 0) (.IntegerObj 12)) =
        .ok (.IntegerObj 12) (aliasInnerF.store (.alloc 0) (.IntegerObj 12))) ∧
    Eval bitsOps 6 (.CallExpr (.Identifier (str "f")) []) 0 aliasMemory =
      evalFuncBlockExpr (Eval bitsOps 5)
        [.IfExpr (.BooleanExpr true)
          [.AssignExpr (.Identifier (str "x"))
            (.ArithInfixExpr .T_PLUS (.Identifier (str "x")) (.IntegerExpr 5))] none]
        3 (aliasCallF.store (.alloc 0) (.IntegerObj 7)) ∧
    Eval bitsOps 4 (.CallExpr (.Identifier (str "g")) []) 0 aliasMemory =
      .ok (.IntegerObj 0)
        (Environment.Set (aliasCallG.newCell (.IntegerObj 1)).2 3 (str "y") (.alloc 3)) ∧
    ((Environment.Set (aliasCallG.newCell (.IntegerObj 1)).2 3 (str "y") (.alloc 3)).envs[1]? =
        aliasMemory.envs[1]? ∧
      (Environment.Set (aliasCallG.newCell (.IntegerObj 1)).2 3 (str "y") (.alloc 3)).envs[2]? =
        aliasMemory.envs[2]? ∧
      Environment.Get
          (Environment.Set (aliasCallG.newCell (.IntegerObj 1)).2 3 (str "y") (.alloc 3)) 0
          (str "x") = Environment.Get aliasMemory 0 (str "x")) ∧
    (runSource bitsOps 60 (aliasSource ++ "; f(); return g() * 100 + x")).map
      (fun r => (r.1.value?, r.2)) = some (some (.IntegerObj 1212), 0) ∧
    (runSource bitsOps 60 counterSource).map (fun r => (r.1.value?, r.2)) =
      some (some (.IntegerObj 13), 0) :=
  ⟨rfl,
    ((closure_aliasing bitsOps (str "x") (.alloc 0)).1 0 [] [] []
      [.ReturnExpr (.Identifier (str "x"))] 0 counterMemory (NewInnerEnv 0 counterMemory).2
      (Environment.Set (NewInnerEnv 0 counterMemory).2 1 (str "x") (.alloc 0))
      (by decide) (by decide) rfl rfl (CaptureSteps.nil _)).elim
      fun st' h => h.elim fun cap h => ⟨st', cap, h.1, h.2.2.2.1, h.2.2.2.2.1, h.2.2.2.2.2.1,
        h.2.2.2.2.2.2.1⟩,
    (closure_aliasing bitsOps (str "x") (.alloc 0)).2.1 4 (.Identifier (str "g")) [] 0
      aliasMemory aliasG ⟨[(str "x", .alloc 0)], none⟩ 3 []
      (.DeclarationExpr (.Identifier (str "y"))
        (.ArithInfixExpr .T_PLUS (.IntegerExpr 1) (.Identifier (str "x"))))
      [.ReturnExpr (.Identifier (str "x"))] aliasCallG 3 aliasCallG 1 (.IntegerObj 0)
      (by decide) (by decide)
      ⟨⟨1, aliasMemory, aliasCallG, rfl, rfl, rfl, rfl, rfl, ValueSteps.nil _⟩,
        rfl, by decide, rfl, by decide, rfl⟩
      rfl
      (Reaches.declareValue 3 _ _ 3 aliasCallG
        (Reaches.right 2 .T_PLUS _ _ 3 aliasCallG aliasCallG (.IntegerObj 1) rfl rfl
          Reaches.here))
      rfl,
    ((closure_aliasing bitsOps (str "x") (.alloc 0)).2.2.1 5 (.Identifier (str "f")) [] 0
      aliasMemory aliasF ⟨[(str "x", .alloc 0)], none⟩ 3
      [.AssignExpr (.Identifier (str "x")) (.IntegerExpr 7)]
      (.IfExpr (.BooleanExpr true)
        [.AssignExpr (.Identifier (str "x"))
          (.ArithInfixExpr .T_PLUS (.Identifier (str "x")) (.IntegerExpr 5))] none)
      [] (aliasCallF.store (.alloc 0) (.IntegerObj 7)) 5 aliasInnerF 2
      (.ArithInfixExpr .T_PLUS (.Identifier (str "x")) (.IntegerExpr 5)) (.IntegerObj 12)
      aliasInnerF (by decide) (by decide)
      ⟨⟨0, aliasMemory, aliasCallF, rfl, rfl, rfl, rfl, rfl,
          ValueSteps.cons _ [] aliasCallF _ _ (.IntegerObj 7) rfl (by decide) (by decide)
            (ValueSteps.nil _)⟩,
        rfl, by decide, rfl, by decide, rfl⟩
      rfl
      (Reaches.ifConsequence 4 _ _ none 3 (aliasCallF.store (.alloc 0) (.IntegerObj 7))
        (NewInnerEnv 3 (aliasCallF.store (.alloc 0) (.IntegerObj 7))).2 (.BooleanObj true)
        rfl rfl rfl
        (Reaches.block 3 [] _ [] 4
          (NewInnerEnv 3 (aliasCallF.store (.alloc 0) (.IntegerObj 7))).2 aliasInnerF
          (ValueSteps.nil _) rfl Reaches.here))
      rfl rfl).elim
      fun h1 h => ⟨h1, h.1, h.2.2.2 0 0 rfl⟩,
    ((closure_aliasing bitsOps (str "x") (.alloc 0)).2.2.2.1 4 (.Identifier (str "f")) [] 0
      aliasMemory aliasF ⟨[(str "x", .alloc 0)], none⟩ 3 [] (.IntegerExpr 7)
      [.IfExpr (.BooleanExpr true)
        [.AssignExpr (.Identifier (str "x"))
          (.ArithInfixExpr .T_PLUS (.Identifier (str "x")) (.IntegerExpr 5))] none]
      aliasCallF aliasCallF (.IntegerObj 7) (by decide) (by decide)
      ⟨⟨0, aliasMemory, aliasCallF, rfl, rfl, rfl, rfl, rfl, ValueSteps.nil _⟩,
        rfl, by decide, rfl, by decide, rfl⟩
      rfl rfl rfl (by decide) (by decide)).1,
    (closure_aliasing bitsOps (str "x") (.alloc 0)).2.2.2.2.1 1 (.Identifier (str "g")) [] 0
      aliasMemory aliasG ⟨[(str "x", .alloc 0)], none⟩ 3
      [.DeclarationExpr (.Identifier (str "y"))
        (.ArithInfixExpr .T_PLUS (.IntegerExpr 1) (.Identifier (str "x")))] []
      (Environment.Set (aliasCallG.newCell (.IntegerObj 1)).2 3 (str "y") (.alloc 3))
      (.IntegerObj 0) (by decide) (by decide)
      ⟨⟨1, aliasMemory, aliasCallG, rfl, rfl, rfl, rfl, rfl,
          ValueSteps.cons _ [] aliasCallG _ _ (.IntegerObj 1) rfl (by decide) (by decide)
            (ValueSteps.nil _)⟩,
        rfl, by decide, rfl, by decide, rfl⟩
      rfl rfl,
    have r := (closure_aliasing bitsOps (str "x") (.alloc 0)).2.2.2.2.2 4
      (.CallExpr (.Identifier (str "g")) []) 0 aliasMemory
      (Environment.Set (aliasCallG.newCell (.IntegerObj 1)).2 3 (str "y") (.alloc 3))
      (.IntegerObj 0) (by decide) (by decide) rfl
    ⟨r.2 1 (by decide) (by decide), r.2 2 (by decide) (by decide), r.1 rfl⟩,
    by decide!, by decide!⟩

/-- C2, counterexample.  Two closures capture `x` by its bare identifier, and
the body of the first executes `x = 5`; yet the read through the second, or
in the defining scope, yields the old value: when `x` is also a parameter of
the first closure, when a later entry of its capture list binds `x` again,
when its body declares `x` before, and when the defining scope declares `x`
again between the two literals. -/
theorem closure_aliasing_counterexample :
    (runSource bitsOps 60 ("x := 0; f := func(x)[x]\x7b x = 5 \x7d; " ++
      "g := func()[x]\x7b return x \x7d; f(1); return g()")).map
      (fun r => (r.1.value?, r.2)) = some (some (.IntegerObj 0), 0) ∧
    (runSource bitsOps 60 ("x := 0; f := func()[x, x := x]\x7b x = 5 \x7d; " ++
      "g := func()[x]\x7b return x \x7d; f(); return g() * 10 + x")).map
      (fun r => (r.1.value?, r.2)) = some (some (.IntegerObj 0), 0) ∧
    (runSource bitsOps 60 ("x := 0; f := func()[x]\x7b x := 1; x = 5 \x7d; " ++
      "g := func()[x]\x7b return x \x7d; f(); return g() * 10 + x")).map
      (fun r => (r.1.value?, r.2)) = some (some (.IntegerObj 0), 0) ∧
    (runSource bitsOps 60 ("x := 0; f := func()[x]\x7b x = 5 \x7d; x := 1; " ++
      "g := func()[x]\x7b return x \x7d; f(); return g() * 10 + x")).map
      (fun r => (r.1.value?, r.2)) = some (some (.IntegerObj 11), 0) :=
  ⟨by decide!, by decide!, by decide!, by decide!⟩

/-- C21 as amended.  `name = e` evaluates `e` first, then looks the name up
through the environment chain in the memory `st1` that this evaluation
leaves (a name that `e` itself declares in the current scope is found).
(1) When `e` returns an error, the assignment returns that error in the
memory that `e` leaves.  (2) When the name is bound in no scope of the chain
in `st1`, the assignment returns the evaluation error "assign to a not
declared variable" and the memory is `st1`: the assignment installs no
binding.  (3) So it is when the name is bound in no scope of the chain before
and `e` does not declare it in the current scope; and (4) when `e` touches no
environment and the name is unbound before, the environments being those
before the assignment.  (5) Whenever the assignment succeeds, `e` has
evaluated to the result `v`, the name resolves in `st1` to a cell `c`, and the
memory after is `st1` with `v` stored in `c`: the environments, hence the
names bound in every scope, are those of `st1`, and every other cell holds
what it held. -/
theorem assign_to_identifier (fl : FloatOps) (n : Nat) (x : GoString) (e : Expression)
    (env : Nat) (st : State) :
    (∀ er s, Eval fl n e env st = .err er s →
      Eval fl (n + 1) (.AssignExpr (.Identifier x) e) env st = .err er s) ∧
    (∀ v st1, Eval fl n e env st = .ok v st1 → Environment.Get st1 env x = none →
      Eval fl (n + 1) (.AssignExpr (.Identifier x) e) env st =
        .err (.assignNotDeclared x) st1) ∧
    (∀ v st1, st.WF → env < st.envs.length → Eval fl n e env st = .ok v st1 →
      Environment.Get st env x = none → st1.localVar env x = none →
      Environment.Get st1 env x = none ∧
      Eval fl (n + 1) (.AssignExpr (.Identifier x) e) env st =
        .err (.assignNotDeclared x) st1) ∧
    (∀ v st1, Eval fl n e env st = .ok v st1 → st1.envs = st.envs →
      Environment.Get st env x = none →
      Eval fl (n + 1) (.AssignExpr (.Identifier x) e) env st =
        .err (.assignNotDeclared x) st1) ∧
    (∀ r st', Eval fl (n + 1) (.AssignExpr (.Identifier x) e) env st = .ok r st' →
      ∃ v st1 c, Eval fl n e env st = .ok v st1 ∧ Environment.Get st1 env x = some c ∧
        r = v ∧ st' = st1.store c v ∧ st'.envs = st1.envs ∧
        ∀ c', c' ≠ c → st'.load c' = st1.load c') := by
  have h1 : ∀ v st1, Eval fl n e env st = .ok v st1 → Environment.Get st1 env x = none →
      Eval fl (n + 1) (.AssignExpr (.Identifier x) e) env st =
        .err (.assignNotDeclared x) st1 := by
    intro v st1 he hx
    rw [Eval_AssignExpr]
    simp [evalAssignExpr, he, declareAssignHelper, AssignFn.call, hx]
  refine ⟨fun er s he => ?_, h1, fun v st1 hwf henv he hx hloc => ?_,
    fun v st1 he henvs hx => h1 v st1 he ?_, fun r st' h => ?_⟩
  · simp only [Eval_AssignExpr, evalAssignExpr, he, Res.bind]
  · have hnone : Environment.Get st1 env x = none :=
      Environment.Get_none_stable hwf henv (Nat.le_refl _)
        (Eval_stable hwf henv (Nat.le_refl _) he) hx hloc
    exact ⟨hnone, h1 v st1 he hnone⟩
  · unfold Environment.Get at hx ⊢
    rw [henvs]
    exact hx
  · rw [Eval_AssignExpr] at h
    unfold evalAssignExpr at h
    cases he : Eval fl n e env st with
    | ok v st1 =>
      rw [he, Res.bind_ok] at h
      cases hx : Environment.Get st1 env x with
      | none => simp [declareAssignHelper, AssignFn.call, hx] at h
      | some c =>
        simp only [declareAssignHelper, AssignFn.call, hx, Res.bind_ok] at h
        injection h with hr hst
        exact ⟨v, st1, c, rfl, hx, hr.symm, hst.symm, by rw [← hst, State.store_envs],
          fun c' hc' => by rw [← hst]; exact State.load_store_ne st1 v hc'⟩
    | err e1 st1 => rw [he] at h; exact Res.noConfusion h
    | panic => rw [he] at h; exact Res.noConfusion h
    | timeout => rw [he] at h; exact Res.noConfusion h

/-- C21 as amended, witness: in the memory of `x := 0`, `y = z` returns the
error of the read of `z`; `y = 1` returns the error of the assignment and
leaves the memory as it is, and so does `y = z := 1`, whose right-hand side
declares `z` in the current scope and leaves `y` unbound; and `x = 7`
overwrites the cell of `x`. -/
theorem assign_to_identifier_witness :
    Eval bitsOps 2 (.AssignExpr (.Identifier (str "y")) (.Identifier (str "z"))) 0
        counterMemory = .err (.identifierNotDeclared (str "z")) counterMemory ∧
    Eval bitsOps 2 (.AssignExpr (.Identifier (str "y")) (.IntegerExpr 1)) 0 counterMemory =
      .err (.assignNotDeclared (str "y")) counterMemory ∧
    (Environment.Get (Environment.Set (counterMemory.newCell (.IntegerObj 1)).2 0 (str "z")
        (.alloc 1)) 0 (str "y") = none ∧
      Eval bitsOps 3 (.AssignExpr (.Identifier (str "y"))
          (.DeclarationExpr (.Identifier (str "z")) (.IntegerExpr 1))) 0 counterMemory =
        .err (.assignNotDeclared (str "y"))
          (Environment.Set (counterMemory.newCell (.IntegerObj 1)).2 0 (str "z") (.alloc 1))) ∧
    Eval bitsOps 2 (.AssignExpr (.Identifier (str "y")) (.IntegerExpr 1)) 0 counterMemory =
      .err (.assignNotDeclared (str "y")) counterMemory ∧
    ∃ v st1 c, Eval bitsOps 1 (.IntegerExpr 7) 0 counterMemory = .ok v st1 ∧
      Environment.Get st1 0 (str "x") = some c ∧ Object.IntegerObj 7 = v ∧
      counterMemory.store (.alloc 0) (.IntegerObj 7) = st1.store c v ∧
      (counterMemory.store (.alloc 0) (.IntegerObj 7)).envs = st1.envs ∧
      ∀ c', c' ≠ c →
        (counterMemory.store (.alloc 0) (.IntegerObj 7)).load c' = st1.load c' :=
  ⟨(assign_to_identifier bitsOps 1 (str "y") (.Identifier (str "z")) 0 counterMemory).1 _ _ rfl,
    (assign_to_identifier bitsOps 1 (str "y") (.IntegerExpr 1) 0 counterMemory).2.1 _ _ rfl rfl,
    (assign_to_identifier bitsOps 2 (str "y")
      (.DeclarationExpr (.Identifier (str "z")) (.IntegerExpr 1)) 0 counterMemory).2.2.1 _ _
      (by decide) (by decide) rfl rfl rfl,
    (assign_to_identifier bitsOps 1 (str "y") (.IntegerExpr 1) 0 counterMemory).2.2.2.1 _ _
      rfl rfl rfl,
    (assign_to_identifier bitsOps 1 (str "x") (.IntegerExpr 7) 0 counterMemory).2.2.2.2 _ _ rfl⟩

/-- C21, counterexample.  In `x = x := 1; return x`, which parses without
error to the assignment of `x := 1` to `x`, the name `x` is bound in no scope
when the assignment starts.  Its right-hand side declares `x`, the lookup
that follows finds the new cell, and the assignment succeeds: the program
yields 1, no error is returned, and the environment binds `x` afterwards. -/
theorem assign_after_declaring_rhs_counterexample :
    (parseSource bitsOps 40 (str "x = x := 1; return x")).map (fun b => (b.1, b.2.Errors)) =
      some ([.AssignExpr (.Identifier (str "x"))
          (.DeclarationExpr (.Identifier (str "x")) (.IntegerExpr 1)),
        .ReturnExpr (.Identifier (str "x"))], []) ∧
    Environment.Get (NewEnv State.init).2 0 (str "x") = none ∧
    Eval bitsOps 3 (.AssignExpr (.Identifier (str "x"))
        (.DeclarationExpr (.Identifier (str "x")) (.IntegerExpr 1))) 0 (NewEnv State.init).2 =
      .ok (.IntegerObj 1)
        { NilObj := .NilValue, cells := [.IntegerObj 1],
          envs := [{ LocalVars := [(str "x", .alloc 0)], Outer := none }],
          tables := [], packs := [], funcs := [] } ∧
    (runSource bitsOps 40 "x = x := 1; return x").map
      (fun r => (r.1.value?, r.1.error?.isSome, r.2)) = some (some (.IntegerObj 1), false, 0) :=
  ⟨rfl, rfl, rfl, by decide!⟩

/-! ## The scope of a function body -/

/-- C33 as amended.  Let `parseEntireExpr` return the expression `e` at the
parser `p`, which stands at a token other than `{`, and let the parser `q`
stand at `{`, followed by tokens from which `parseEntireExpr` returns `e`, and
`}`.  (1) The body that `parseImplicitBlockExpr` reads at `p` is the list
`[e]`, the parser being left where `e` ended when no `;` follows and one call
of `nextToken` further when a `;` follows, whatever comes after that `;`; the
body read at `q` is `[e]` as well.  (2) For the body at `p` and for the body
at `q` alike, a header that ends where the body begins gives the node with
the body `[e]`: `parseIfExpr` for a condition that ends there, and for an
`else` that is followed by the body; `parseFuncExpr` for a parameter list
that ends there, the body not beginning with `[`, and for a capture list that
ends there; `parseForExpr` for a step that ends there and for a step that is
followed by `;` and the body.  (3) The expression of a header ends where `e`
begins only if the first token of `e` stops the loop of `parseExpr`, which of
the tokens that begin an expression all do but `(` and `-`: before a body
that begins with one of these two no condition and no step ends.  For a
header expression of one token (a literal or an identifier) this is all that
is needed. -/
theorem implicit_block_is_singleton (fl : FloatOps) (n m f : Nat) (e : Expression)
    (p p1 p2 q q1 q2 q3 : Parser)
    (hb : p.peekToken.Typ ≠ .T_LBRACE)
    (he : parseExpr fl (m + 1) LOWEST p = .ok e p1)
    (hp1 : p1.peekToken.Typ = .T_SEMICOLON → p1.nextToken n = some (p1.peekToken, p2))
    (hq : q.peekToken.Typ = .T_LBRACE) (hqn : q.nextToken n = some (q.peekToken, q1))
    (heq : parseExpr fl (m + 1) LOWEST q1 = .ok e q2)
    (hq2 : q2.peekToken.Typ = .T_RBRACE) (hq2n : q2.nextToken n = some (q2.peekToken, q3))
    (hm : n ≤ m) (hf : n ≤ f) :
    (parseImplicitBlockExpr (parseExpr fl (m + 1)) (f + 1) p =
        .ok [e] (if p1.peekToken.Typ = .T_SEMICOLON then p2 else p1) ∧
      parseImplicitBlockExpr (parseExpr fl (m + 1)) (f + 1) q = .ok [e] q3) ∧
    (∀ x y : Parser,
      (x = p ∧ y = (if p1.peekToken.Typ = .T_SEMICOLON then p2 else p1)) ∨ (x = q ∧ y = q3) →
      (∀ (ph pc : Parser) (c : Expression), ph.nextToken n = some (ph.peekToken, pc) →
        parseExpr fl (m + 1) LOWEST pc = .ok c x →
        parseIfExpr (parseExpr fl (m + 1)) (f + 1) ph =
          if y.peekToken.Typ = .T_ELSE then
            y.next (f + 1) fun _ p4 =>
              (parseImplicitBlockExpr (parseExpr fl (m + 1)) (f + 1) p4).bind
                fun alternative p5 => .ok (.IfExpr c [e] (some alternative)) p5
          else .ok (.IfExpr c [e] none) y) ∧
      (∀ (ph pc pb p3 : Parser) (c : Expression) (cons : List Expression),
        ph.nextToken n = some (ph.peekToken, pc) →
        parseExpr fl (m + 1) LOWEST pc = .ok c pb →
        parseImplicitBlockExpr (parseExpr fl (m + 1)) (f + 1) pb = .ok cons p3 →
        p3.peekToken.Typ = .T_ELSE → p3.nextToken n = some (p3.peekToken, x) →
        parseIfExpr (parseExpr fl (m + 1)) (f + 1) ph = .ok (.IfExpr c cons (some [e])) y) ∧
      (∀ (pf pf1 : Parser) (parameters : List Expression) (params : List GoString),
        pf.nextToken n = some (pf.peekToken, pf1) →
        parseCommaExprs (parseExpr fl (m + 1)) (f + 1) .T_LPAREN .T_RPAREN pf1 =
          .ok parameters x →
        funcParameters parameters = some params → x.peekToken.Typ ≠ .T_LBRACKET →
        parseFuncExpr (parseExpr fl (m + 1)) (f + 1) pf = .ok (.FuncExpr params [] [e]) y) ∧
      (∀ (pf pf1 pf2 : Parser) (parameters captures : List Expression) (params : List GoString),
        pf.nextToken n = some (pf.peekToken, pf1) →
        parseCommaExprs (parseExpr fl (m + 1)) (f + 1) .T_LPAREN .T_RPAREN pf1 =
          .ok parameters pf2 →
        funcParameters parameters = some params → pf2.peekToken.Typ = .T_LBRACKET →
        parseCommaExprs (parseExpr fl (m + 1)) (f + 1) .T_LBRACKET .T_RBRACKET pf2 =
          .ok captures x →
        funcCaptures captures = true →
        parseFuncExpr (parseExpr fl (m + 1)) (f + 1) pf =
          .ok (.FuncExpr params captures [e]) y) ∧
      (∀ (pfor r1 r2 r3 r4 r5 r6 : Parser) (a b c : Expression),
        pfor.nextToken n = some (pfor.peekToken, r1) →
        parseExpr fl (m + 1) LOWEST r1 = .ok a r2 → r2.peekToken.Typ = .T_SEMICOLON →
        r2.nextToken n = some (r2.peekToken, r3) →
        parseExpr fl (m + 1) LOWEST r3 = .ok b r4 → r4.peekToken.Typ = .T_SEMICOLON →
        r4.nextToken n = some (r4.peekToken, r5) →
        parseExpr fl (m + 1) LOWEST r5 = .ok c r6 →
        (r6 = x ∨ (r6.peekToken.Typ = .T_SEMICOLON ∧
          r6.nextToken n = some (r6.peekToken, x))) →
        parseForExpr (parseExpr fl (m + 1)) (f + 1) pfor = .ok (.ForExpr a b c [e]) y)) ∧
    ((∀ (k : Nat) (pc : Parser) (c : Expression),
        parseExpr fl k LOWEST pc = .ok c p → p.StopsAt LOWEST) ∧
      (p.StopsAt LOWEST ↔ (p.peekToken.Typ ≠ .T_LPAREN ∧ p.peekToken.Typ ≠ .T_MINUS)) ∧
      ((p.peekToken.Typ = .T_LPAREN ∨ p.peekToken.Typ = .T_MINUS) →
        ∀ (k : Nat) (pc : Parser) (c : Expression), parseExpr fl k LOWEST pc ≠ .ok c p) ∧
      (∀ (pc : Parser) (c : Expression), atomExpr fl pc.peekToken = some c →
        pc.nextToken n = some (pc.peekToken, p) → p.StopsAt LOWEST →
        parseExpr fl (m + 1) LOWEST pc = .ok c p)) := by
  have hf1 : n ≤ f + 1 := Nat.le_succ_of_le hf
  have hq1 : q1.peekToken.Typ ≠ .T_RBRACE := by
    intro h
    exact parseExpr_ok_begins fl heq (by rw [h]; rfl)
  have hbare := parseImplicitBlockExpr_bare (parseExpr fl (m + 1)) hb he hp1 hf1
  have hbraced := parseImplicitBlockExpr_braced (parseExpr fl (m + 1)) hq hqn hq1 heq hq2 hq2n hf
  have hstops : p.StopsAt LOWEST ↔
      (p.peekToken.Typ ≠ .T_LPAREN ∧ p.peekToken.Typ ≠ .T_MINUS) :=
    stops_of_prefix_token _ (parseExpr_ok_begins fl he)
  have hnec : ∀ (k : Nat) (pc : Parser) (c : Expression),
      parseExpr fl k LOWEST pc = .ok c p → p.StopsAt LOWEST :=
    fun k pc c h => parseExpr_ok_stops fl k LOWEST pc p c h
  refine ⟨⟨hbare, hbraced⟩, ?_, hnec, hstops, ?_, ?_⟩
  · intro x y hxy
    have hx : parseImplicitBlockExpr (parseExpr fl (m + 1)) (f + 1) x = .ok [e] y := by
      rcases hxy with ⟨rfl, rfl⟩ | ⟨rfl, rfl⟩
      · exact hbare
      · exact hbraced
    have hxs : x.peekToken.Typ ≠ .T_SEMICOLON := by
      rcases hxy with ⟨rfl, _⟩ | ⟨rfl, _⟩
      · intro h
        exact parseExpr_ok_begins fl he (by rw [h]; rfl)
      · rw [hq]; decide
    refine ⟨fun ph pc c hph hc => parseIfExpr_body _ hph hc hx hf1,
      fun ph pc pb p3 c cons hph hc hcons h3 h3n =>
        parseIfExpr_else _ hph hc hcons h3 h3n hx hf1,
      fun pf pf1 parameters params hpf hps hparams hnb =>
        parseFuncExpr_body _ hpf hps hparams hnb hx hf1,
      fun pf pf1 pf2 parameters captures params hpf hps hparams h2 hcs hcaps =>
        parseFuncExpr_capture_body _ hpf hps hparams h2 hcs hcaps hx hf1, ?_⟩
    intro pfor r1 r2 r3 r4 r5 r6 a b c hfor ha h2 h2n hb' h4 h4n hc h6
    rw [parseForExpr_header _ hfor ha h2 h2n hb' h4 h4n hc hf1]
    rcases h6 with rfl | ⟨h6s, h6n⟩
    · rw [if_neg hxs, hx, PRes.bindOk]
    · rw [if_pos h6s, Parser.next_of_nextToken _ h6n hf1, hx, PRes.bindOk]
  · intro ht k pc c h
    have := hstops.mp (hnec k pc c h)
    rcases ht with ht | ht
    · exact this.1 ht
    · exact this.2 ht
  · intro pc c ha hpc hstop
    exact parseExpr_atom_stop fl LOWEST ha hpc hm hstop

/-- C33 as amended, witness: the bodies `x` and `{ x }` in `if c x; else y`
and `if c { x } else y`, read by `parseImplicitBlockExpr` and, from the `if`,
by `parseIfExpr`; the sources with a bare and with a braced body after
`if c`, `else`, `func()` and a `for` header parse to the same trees; of two
`;` after the body only one belongs to it. -/
theorem implicit_block_is_singleton_witness :
    (parseImplicitBlockExpr (parseExpr bitsOps 11) 11 (parserAfter "if c x; else y" 3) =
        .ok [.Identifier (str "x")] (parserAfter "if c x; else y" 5) ∧
      parseImplicitBlockExpr (parseExpr bitsOps 11) 11
          (parserAfter "if c \x7b x \x7d else y" 3) =
        .ok [.Identifier (str "x")] (parserAfter "if c \x7b x \x7d else y" 6)) ∧
    (parseIfExpr (parseExpr bitsOps 11) 11 (parserAfter "if c x; else y" 1) =
        .ok (.IfExpr (.Identifier (str "c")) [.Identifier (str "x")]
          (some [.Identifier (str "y")])) (parserAfter "if c x; else y" 7) ∧
      parseIfExpr (parseExpr bitsOps 11) 11 (parserAfter "if c \x7b x \x7d else y" 1) =
        .ok (.IfExpr (.Identifier (str "c")) [.Identifier (str "x")]
          (some [.Identifier (str "y")])) (parserAfter "if c \x7b x \x7d else y" 8)) ∧
    parseSource bitsOps 20 (str "if c x") =
      some ([.IfExpr (.Identifier (str "c")) [.Identifier (str "x")] none],
        ⟨⟨[], 1⟩, ⟨.T_EOF, 1, str "EOF"⟩, []⟩) ∧
    parseSource bitsOps 20 (str "if c \x7b x \x7d") = parseSource bitsOps 20 (str "if c x") ∧
    parseSource bitsOps 20 (str "if c x; else y") =
      some ([.IfExpr (.Identifier (str "c")) [.Identifier (str "x")]
          (some [.Identifier (str "y")])],
        ⟨⟨[], 1⟩, ⟨.T_EOF, 1, str "EOF"⟩, []⟩) ∧
    parseSource bitsOps 30 (str "if c \x7b x \x7d else \x7b y \x7d") =
      parseSource bitsOps 20 (str "if c x; else y") ∧
    (parseSource bitsOps 20 (str "if c x;; else y")).map (fun r => (r.1, r.2.Errors.length)) =
      some ([.IfExpr (.Identifier (str "c")) [.Identifier (str "x")] none,
        .Identifier (str "y")], 1) ∧
    parseSource bitsOps 20 (str "func() x") =
      some ([.FuncExpr [] [] [.Identifier (str "x")]],
        ⟨⟨[], 1⟩, ⟨.T_EOF, 1, str "EOF"⟩, []⟩) ∧
    parseSource bitsOps 20 (str "func() \x7b x \x7d") = parseSource bitsOps 20 (str "func() x") ∧
    parseSource bitsOps 30 (str "for a; b; c x") =
      some ([.ForExpr (.Identifier (str "a")) (.Identifier (str "b")) (.Identifier (str "c"))
          [.Identifier (str "x")]],
        ⟨⟨[], 1⟩, ⟨.T_EOF, 1, str "EOF"⟩, []⟩) ∧
    parseSource bitsOps 30 (str "for a; b; c \x7b x \x7d") =
      parseSource bitsOps 30 (str "for a; b; c x") ∧
    parseSource bitsOps 30 (str "for a; b; c; -x") =
      parseSource bitsOps 30 (str "for a; b; c \x7b -x \x7d") := by
  have h := implicit_block_is_singleton bitsOps 10 10 10 (.Identifier (str "x"))
    (parserAfter "if c x; else y" 3) (parserAfter "if c x; else y" 4)
    (parserAfter "if c x; else y" 5)
    (parserAfter "if c \x7b x \x7d else y" 3) (parserAfter "if c \x7b x \x7d else y" 4)
    (parserAfter "if c \x7b x \x7d else y" 5) (parserAfter "if c \x7b x \x7d else y" 6)
    (by decide) rfl (fun _ => rfl) rfl rfl rfl rfl rfl (Nat.le_refl 10) (Nat.le_refl 10)
  exact ⟨h.1,
    ⟨(h.2.1 _ _ (Or.inl ⟨rfl, rfl⟩)).1 (parserAfter "if c x; else y" 1)
        (parserAfter "if c x; else y" 2) (.Identifier (str "c")) rfl rfl,
      (h.2.1 _ _ (Or.inr ⟨rfl, rfl⟩)).1 (parserAfter "if c \x7b x \x7d else y" 1)
        (parserAfter "if c \x7b x \x7d else y" 2) (.Identifier (str "c")) rfl rfl⟩,
    rfl, rfl, rfl, rfl, rfl, rfl, rfl, rfl, rfl, rfl⟩

/-- C33, counterexample.  The bodies `-x` and `(x)` after `if c`, `-x` after
the step of a `for` header and `[x]` after `func()` do not parse to the block
of the explicit body: the `-` and the `(` are read as operators of the
condition and of the step, the `[` as the capture list, the body is missing
and the parser records an error and builds no node, where the braced forms
parse to the node with the one-element body. -/
theorem implicit_block_header_counterexample :
    (parseSource bitsOps 30 (str "if c -x")).map (fun r => (r.1, r.2.Errors.length)) =
      some ([], 1) ∧
    (parseSource bitsOps 30 (str "if c \x7b -x \x7d")).map (fun r => (r.1, r.2.Errors.length)) =
      some ([.IfExpr (.Identifier (str "c"))
        [.ArithPrefixExpr .T_MINUS (.Identifier (str "x"))] none], 0) ∧
    (parseSource bitsOps 30 (str "if c (x)")).map (fun r => (r.1, r.2.Errors.length)) =
      some ([], 1) ∧
    (parseSource bitsOps 30 (str "if c \x7b (x) \x7d")).map (fun r => (r.1, r.2.Errors.length)) =
      some ([.IfExpr (.Identifier (str "c")) [.Identifier (str "x")] none], 0) ∧
    (parseSource bitsOps 30 (str "for a; b; c -x")).map (fun r => (r.1, r.2.Errors.length)) =
      some ([], 1) ∧
    (parseSource bitsOps 30 (str "func() [x]")).map (fun r => (r.1, r.2.Errors.length)) =
      some ([], 1) ∧
    (parseSource bitsOps 30 (str "func() \x7b [x] \x7d")).map
        (fun r => (r.1, r.2.Errors.length)) =
      some ([.FuncExpr [] [] [.PackExpr [.Identifier (str "x")]]], 0) :=
  ⟨rfl, rfl, rfl, rfl, rfl, rfl, rfl⟩

/-! ## For loops -/

/-- C36 as amended.  The switch of `Eval` has no case for `*ForExpr`: every
For expression reaches the final `panic("Eval unhand expression ...")` of
`Eval`, whatever its header and its body, the environment, the memory and the
fuel.  The evaluation aborts: it returns no value and no `EvalError`. -/
theorem for_expression_panics (fl : FloatOps) (n : Nat) (a b c : Expression)
    (body : List Expression) (env : Nat) (st : State) :
    Eval fl (n + 1) (.ForExpr a b c body) env st = .panic ∧
    (Eval fl (n + 1) (.ForExpr a b c body) env st).value? = none ∧
    (Eval fl (n + 1) (.ForExpr a b c body) env st).error? = none :=
  ⟨rfl, rfl, rfl⟩

/-- C36 as amended, witness: the For expression of the parser's test,
`for x := 1; x < 100; x = x + 1 y := 1`, in the initial memory. -/
theorem for_expression_panics_witness :
    Eval bitsOps 40
      (.ForExpr (.DeclarationExpr (.Identifier (str "x")) (.IntegerExpr 1))
        (.ArithInfixExpr .T_LT (.Identifier (str "x")) (.IntegerExpr 100))
        (.AssignExpr (.Identifier (str "x"))
          (.ArithInfixExpr .T_PLUS (.Identifier (str "x")) (.IntegerExpr 1)))
        [.DeclarationExpr (.Identifier (str "y")) (.IntegerExpr 1)]) 0 (NewEnv State.init).2 =
      .panic :=
  (for_expression_panics bitsOps 39 _ _ _ _ 0 (NewEnv State.init).2).1

/-- C36, counterexample.  The source `for x := 1; x < 100; x = x + 1 y := 1`
of the parser's test parses without error to a For expression, and the
evaluation of the program panics: no evaluation error is returned. -/
theorem for_expression_counterexample :
    (parseSource bitsOps 40 (str "for x := 1; x < 100; x = x + 1 y := 1")).map
      (fun b => (b.1, b.2.Errors)) =
      some ([.ForExpr (.DeclarationExpr (.Identifier (str "x")) (.IntegerExpr 1))
        (.ArithInfixExpr .T_LT (.Identifier (str "x")) (.IntegerExpr 100))
        (.AssignExpr (.Identifier (str "x"))
          (.ArithInfixExpr .T_PLUS (.Identifier (str "x")) (.IntegerExpr 1)))
        [.DeclarationExpr (.Identifier (str "y")) (.IntegerExpr 1)]], []) ∧
    (runSource bitsOps 40 "for x := 1; x < 100; x = x + 1 y := 1").map
      (fun r => (r.1.panicked, r.1.error?.isSome, r.2)) = some (true, false, 0) :=
  ⟨rfl, by decide!⟩

end Expr
